import Mathlib

/-!
# TBufferJSON: a shallow embedding of `net/http/src/TBufferJSON.cxx`

The serialiser is a state machine: the buffer object holds the output text,
the pending value, the reference map with its counter, the stack of frames
and the chain flag.  Each member function of the source becomes a function on
that state.  A call that would dereference a null pointer in the source
(for instance `Stack()->PushValue` on an empty stack) has no defined result
and returns `none`.

Conventions of the embedding:

* `fStack` is a list whose head is the top of the stack (`Stack(0)`), so
  `Stack(depth)` is the element at index `depth`;
* `fValues` is the list of buffered texts in insertion order (`At(0)` first);
* object addresses, streamer infos and classes are compared by the data that
  stands for them; a streamer element is looked up in an array by its address;
* a read through a member pointer outside the storage behind it has no
  defined result and gives `none`;
* diagnostics (`Info`, `Warning`, `Error`) write to a side channel only and
  are left out.
-/

namespace TBufferJSONModel

/-! ## Reflection data seen by the serialiser -/

/-- The values of the `TStreamerInfo` type enumeration used by the source.
The enumeration is declared outside the available sources, so its values are
taken as a parameter of every function that consults them. -/
structure EReadWrite where
  kBase : Int
  kOffsetL : Int
  kOffsetP : Int
  kObject : Int
  kTString : Int
  kTObject : Int
  kTNamed : Int
  deriving DecidableEq, Repr

/-- The view of a `TClass` that the serialiser consults. -/
structure TClass where
  /-- Text returned by `GetName()`. -/
  fName : String
  /-- Result of `GetBaseClassOffset(TArray::Class())`. -/
  baseOffsetTArray : Int
  /-- Result of `GetBaseClassOffset(TCollection::Class())`. -/
  baseOffsetTCollection : Int
  /-- Whether the class is `TString::Class()`. -/
  isTStringClass : Bool
  deriving DecidableEq, Repr

/-- The view of a `TStreamerElement` that the serialiser consults. An element
is an object: two elements are the same object exactly when their addresses
agree. -/
structure TStreamerElement where
  /-- Address of the element object. -/
  addr : Nat
  /-- Text returned by `GetName()`. -/
  fName : String
  /-- Text returned by `GetTypeName()`. -/
  fTypeName : String
  /-- Result of `GetType()`. -/
  fType : Int
  /-- Result of `GetArrayLength()`. -/
  fArrayLength : Int
  /-- Whether `GetClassPointer()` is non-null. -/
  hasClassPointer : Bool
  deriving DecidableEq, Repr

/-- The view of a `TStreamerInfo`: its class and its ordered elements. -/
structure TStreamerInfo where
  /-- Result of `GetClass()`. -/
  fClass : TClass
  /-- Content of `GetElements()`. -/
  fElements : List TStreamerElement
  deriving DecidableEq, Repr

/-- The test `strncmp("TArray", name, 6) == 0`: the name begins with the six
characters `TArray`. -/
def startsWithTArray (name : String) : Bool := "TArray".data.isPrefixOf name.data

/-! ## Stack frames -/

/-- One frame of the stack (`class TJSONStackObj`). -/
structure TJSONStackObj where
  fInfo : Option TStreamerInfo
  fElem : Option TStreamerElement
  fElemNumber : Int
  fIsStreamerInfo : Bool
  fIsElemOwner : Bool
  fIsBaseClass : Bool
  fIsPostProcessed : Bool
  fIsObjStarted : Bool
  fIsArray : Bool
  fValues : List String
  fLevel : Int
  deriving DecidableEq, Repr

namespace TJSONStackObj

/-- The default constructor `TJSONStackObj()`. -/
def new : TJSONStackObj :=
  { fInfo := none, fElem := none, fElemNumber := 0, fIsStreamerInfo := false,
    fIsElemOwner := false, fIsBaseClass := false, fIsPostProcessed := false,
    fIsObjStarted := false, fIsArray := false, fValues := [], fLevel := 0 }

/-- `IsStreamerInfo()`. -/
def IsStreamerInfo (s : TJSONStackObj) : Bool := s.fIsStreamerInfo

/-- `IsStreamerElement()`: not a class-level frame and carrying an element. -/
def IsStreamerElement (s : TJSONStackObj) : Bool :=
  !s.fIsStreamerInfo && s.fElem.isSome

/-- `PushValue(v)`: the text is added at the end of `fValues`; the caller's
`v` is cleared (done by `TJSONPushValue` below). -/
def PushValue (s : TJSONStackObj) (v : String) : TJSONStackObj :=
  { s with fValues := s.fValues ++ [v] }

end TJSONStackObj

/-! ## The buffer -/

/-- The state of a `TBufferJSON` object. `fJsonrMap` is the `std::map` from
object address to id, kept as an association list with unique keys.
`fJsonrCnt` is the unsigned counter. Every increment in the source comes with
text appended to the output buffer, whose capacity is far below 2^32
characters, so the counter cannot wrap and is kept as a natural number.
`fgFloatFmt` stands for the static member of that name, as seen by this
buffer. -/
structure TBufferJSON where
  fgFloatFmt : String
  fOutBuffer : String
  fValue : String
  fJsonrMap : List (Nat × Nat)
  fJsonrCnt : Nat
  fStack : List TJSONStackObj
  fExpectedChain : Bool
  fCompact : Int
  fSemicolon : String
  fArraySepar : String
  deriving DecidableEq, Repr

namespace TBufferJSON

/-- The constructor `TBufferJSON()`; `fmt` is the current value of the static
float format. -/
def new (fmt : String) : TBufferJSON :=
  { fgFloatFmt := fmt, fOutBuffer := "", fValue := "", fJsonrMap := [], fJsonrCnt := 0, fStack := [],
    fExpectedChain := false, fCompact := 0, fSemicolon := " : ", fArraySepar := ", " }

/-- `SetCompact(level)`. -/
def SetCompact (b : TBufferJSON) (level : Int) : TBufferJSON :=
  { b with
    fCompact := level
    fSemicolon := if level > 2 then ":" else " : "
    fArraySepar := if level > 2 then "," else ", " }

/-- `Stack(depth)`: the frame `depth` places below the top, if there is one. -/
def Stack (b : TBufferJSON) (depth : Nat) : Option TJSONStackObj :=
  b.fStack.get? depth

/-- `PushStack(inclevel)`: the new frame has the level of the current top
(0 on an empty stack) plus `inclevel`. -/
def PushStack (b : TBufferJSON) (inclevel : Int) : TBufferJSON :=
  let curr := b.Stack 0
  let stack : TJSONStackObj :=
    { TJSONStackObj.new with
      fLevel := (match curr with | some c => c.fLevel | none => 0) + inclevel }
  { b with fStack := stack :: b.fStack }

/-- `PopStack()`: removes the top frame when there is one. -/
def PopStack (b : TBufferJSON) : TBufferJSON :=
  match b.fStack with
  | [] => b
  | _ :: rest => { b with fStack := rest }

/-- `TString::Append(' ', n)`. -/
def blanks (n : Int) : String := String.mk (List.replicate n.toNat ' ')

/-- `AppendOutput(line0, line1)`; an absent argument is a null pointer. -/
def AppendOutput (b : TBufferJSON) (line0 line1 : Option String) : TBufferJSON :=
  let b0 : TBufferJSON :=
    match line0 with
    | some l0 => { b with fOutBuffer := b.fOutBuffer ++ l0 }
    | none => b
  match line1 with
  | none => b0
  | some l1 =>
    let b1 : TBufferJSON :=
      if b0.fCompact < 2 then { b0 with fOutBuffer := b0.fOutBuffer ++ "\n" } else b0
    if l1.length > 0 then
      let b2 : TBufferJSON :=
        if b1.fCompact < 1 then
          match b1.Stack 0 with
          | some stack =>
            if stack.fLevel > 0 then
              { b1 with fOutBuffer := b1.fOutBuffer ++ blanks stack.fLevel }
            else b1
          | none => b1
        else b1
      { b2 with fOutBuffer := b2.fOutBuffer ++ l1 }
    else b1

/-- `JsonStartElement()`. -/
def JsonStartElement (b : TBufferJSON) : TBufferJSON :=
  match b.fStack with
  | [] => b
  | stack :: rest =>
    if stack.IsStreamerElement && !stack.fIsObjStarted then
      let b1 : TBufferJSON :=
        { b with fStack := { stack with fIsPostProcessed := true, fIsObjStarted := true } :: rest }
      if !stack.fIsBaseClass then
        match stack.fElem with
        | some elem =>
          (((b1.AppendOutput (some ",") (some "\"")).AppendOutput (some elem.fName) none).AppendOutput
            (some "\"") none).AppendOutput (some b1.fSemicolon) none
        | none => b1
      else b1
    else b

/-! ## Postprocessing of a member frame -/

/-- The loop of `PerformPostProcessing` over the buffered values: for the
value at index `n` it appends `"elem<n>"`, the field separator, the value and
the array separator. -/
def appendElems (b : TBufferJSON) : Nat → List String → TBufferJSON
  | _, [] => b
  | n, v :: vs =>
    appendElems
      (((b.AppendOutput (some ("\"elem" ++ toString n ++ "\"" ++ b.fSemicolon)) none).AppendOutput
        (some v) none).AppendOutput (some b.fArraySepar) none)
      (n + 1) vs

/-- Replaces the top frame of the stack (the frame a `stack` pointer of the
source points to). -/
def setTop (b : TBufferJSON) (s : TJSONStackObj) : TBufferJSON :=
  { b with fStack := s :: b.fStack.tail }

/-- The last part of `PerformPostProcessing`, from the test
`stack->fValues.GetLast() >= 0` on: the wrapping object of a chain of values,
then the pending value or `null`. -/
def emitValue (b : TBufferJSON) (values : List String) : TBufferJSON :=
  let b1 : TBufferJSON :=
    if values.length > 0 then
      let b0 : TBufferJSON :=
        { (b.AppendOutput (some "\x7b ") none) with fJsonrCnt := b.fJsonrCnt + 1 }
      (appendElems b0 0 values).AppendOutput
        (some ("\"elem" ++ toString values.length ++ "\"" ++ b.fSemicolon)) none
    else b
  let b2 : TBufferJSON :=
    if b1.fValue.length = 0 then b1.AppendOutput (some "null") none
    else { (b1.AppendOutput (some b1.fValue) none) with fValue := "" }
  if values.length > 0 then b2.AppendOutput (some "\x7d") none else b2

/-- The four calls `AppendOutput(",", "\"")`, `AppendOutput(name)`,
`AppendOutput("\"")`, `AppendOutput(fSemicolon)` that open a field. -/
def fieldPrefix (b : TBufferJSON) (name : String) : TBufferJSON :=
  (((b.AppendOutput (some ",") (some "\"")).AppendOutput (some name) none).AppendOutput
    (some "\"") none).AppendOutput (some b.fSemicolon) none

/-- The branches of `PerformPostProcessing` on the kind of the element
(`isTString`, `isOffsetPArray`, `isTObject`, `isTArray`), from `if (isTString)`
to the end of the `isTArray` block; `stack` is the top frame. -/
def reformat (b : TBufferJSON) (stack : TJSONStackObj)
    (isTString isOffsetPArray isTObject isTArray : Bool) : TBufferJSON :=
  let cleared : TJSONStackObj := { stack with fValues := [] }
  if isTString then b.setTop cleared
  else if isOffsetPArray then
    if stack.fValues.length = 0 && b.fValue == "0" then { b with fValue := "[]" }
    else if stack.fValues.length = 1 && stack.fValues.getLast? == some "1" then b.setTop cleared
    else { (b.setTop cleared) with fValue := "[]" }
  else if isTObject then
    let b1 : TBufferJSON :=
      match stack.fValues with
      | [v0] =>
        ((((b.AppendOutput (some ",") (some "\"fUniqueID\"")).AppendOutput
          (some b.fSemicolon) none).AppendOutput (some v0) none).AppendOutput
          (some ",") (some "\"fBits\"")).AppendOutput (some b.fSemicolon) none
      | _ => (b.AppendOutput (some ",") (some "\"dummy\"")).AppendOutput (some b.fSemicolon) none
    b1.setTop cleared
  else if isTArray then
    let b1 : TBufferJSON :=
      match stack.fIsBaseClass, stack.fValues with
      | true, [v0] =>
        ((((b.AppendOutput (some ",") (some "\"fN\"")).AppendOutput
          (some b.fSemicolon) none).AppendOutput (some v0) none).AppendOutput
          (some ",") (some "\"fArray\"")).AppendOutput (some b.fSemicolon) none
      | _, _ => b
    b1.setTop cleared
  else b

/-- `PerformPostProcessing(stack, elem)` where `stack` is the top frame, as at
every call site; `elem` absent is the default null argument. -/
def PerformPostProcessing (K : EReadWrite) (b : TBufferJSON)
    (elem : Option TStreamerElement) : Option TBufferJSON :=
  match b.fStack with
  | [] => none
  | stack :: _ =>
    if elem.isNone && stack.fIsPostProcessed then some b
    else
      match elem.orElse (fun _ => stack.fElem) with
      | none => some b
      | some elem =>
        let stack1 : TJSONStackObj := { stack with fIsPostProcessed := true }
        let b1 : TBufferJSON := b.setTop stack1
        if stack1.fIsObjStarted then some (b1.AppendOutput (some "") (some "\x7d"))
        else
          let typname : String := if stack1.fIsBaseClass then elem.fName else elem.fTypeName
          let isTObject : Bool := elem.fType == K.kTObject || typname == "TObject"
          let isTString : Bool := elem.fType == K.kTString
          let isOffsetPArray : Bool := elem.fType > K.kOffsetP && elem.fType < K.kOffsetP + 20
          let isTArray : Bool := startsWithTArray typname
          let b2 : TBufferJSON := if !stack1.fIsBaseClass then b1.fieldPrefix elem.fName else b1
          let b3 : TBufferJSON := b2.reformat stack1 isTString isOffsetPArray isTObject isTArray
          if stack1.fIsBaseClass && !isTArray && !isTObject then some b3
          else some (b3.emitValue ((b3.Stack 0).elim [] (fun s => s.fValues)))

/-! ## Class and member levels -/

/-- `WorkWithClass(sinfo, cl)`. -/
def WorkWithClass (K : EReadWrite) (b : TBufferJSON) (sinfo : Option TStreamerInfo)
    (cl : Option TClass) : TBufferJSON :=
  let b0 : TBufferJSON := { b with fExpectedChain := false }
  let cl1 : Option TClass :=
    match sinfo with
    | some i => some i.fClass
    | none => cl
  match cl1 with
  | none => b0
  | some c =>
    let embedded : Option (TJSONStackObj × TStreamerElement) :=
      match b0.fStack with
      | [] => none
      | stack :: _ =>
        match stack.fElem with
        | some elem =>
          if stack.IsStreamerElement && elem.fType == K.kObject && !stack.fIsObjStarted then
            some (stack, elem)
          else none
        | none => none
    let b3 : TBufferJSON :=
      match embedded with
      | some (stack, elem) =>
        let b1 : TBufferJSON :=
          { (b0.setTop { stack with fIsObjStarted := true }) with fJsonrCnt := b0.fJsonrCnt + 1 }
        let b2 : TBufferJSON :=
          ((b1.AppendOutput (some ",") (some "\"")).AppendOutput (some elem.fName) none).PushStack 2
        ((((b2.AppendOutput (some "\" : \x7b") (some "\"_typename\"")).AppendOutput
          (some b2.fSemicolon) none).AppendOutput (some "\"JSROOTIO.") none).AppendOutput
          (some c.fName) none).AppendOutput (some "\"") none
      | none => b0.PushStack 0
    match b3.fStack with
    | [] => b3
    | stack :: _ => b3.setTop { stack with fInfo := sinfo, fIsStreamerInfo := true }

/-- `IncrementLevel(info)`. -/
def IncrementLevel (K : EReadWrite) (b : TBufferJSON) (info : Option TStreamerInfo) :
    TBufferJSON :=
  b.WorkWithClass K info none

/-- `DecrementLevel(info)`. The comparison of the popped frame's streamer info
with `info` only feeds a diagnostic. -/
def DecrementLevel (K : EReadWrite) (b : TBufferJSON) (_info : Option TStreamerInfo) :
    Option TBufferJSON :=
  let b0 : TBufferJSON := { b with fExpectedChain := false }
  match b0.fStack with
  | [] => none
  | stack :: _ =>
    let r : Option TBufferJSON :=
      if stack.IsStreamerElement then (b0.PerformPostProcessing K none).map PopStack
      else some b0
    match r with
    | none => none
    | some b1 =>
      match b1.fStack with
      | [] => none
      | _ :: _ => some b1.PopStack

/-- `TObjArray::IndexOf`: position of the first entry that is the given
object, or -1 when the object is not in the array. The entries are compared
with the object by identity (`TObject::IsEqual`), not by content. -/
def IndexOf (elements : List TStreamerElement) (elem : TStreamerElement) : Int :=
  if elements.findIdx (fun e => e.addr == elem.addr) < elements.length then
    (elements.findIdx (fun e => e.addr == elem.addr) : Int)
  else -1

/-- `WorkWithElement(elem, comp_type)`. -/
def WorkWithElement (K : EReadWrite) (b : TBufferJSON) (elem : Option TStreamerElement)
    (comp_type : Int) : Option TBufferJSON :=
  let b0 : TBufferJSON := { b with fExpectedChain := false }
  match b0.fStack with
  | [] => some b0
  | stack :: _ =>
    let r : Option TBufferJSON :=
      if stack.IsStreamerElement then (b0.PerformPostProcessing K none).map PopStack
      else some b0
    match r with
    | none => none
    | some b1 =>
      let b2 : TBufferJSON := { b1 with fValue := "" }
      match b2.fStack with
      | [] => some b2
      | stack1 :: _ =>
        if !stack1.IsStreamerInfo then some b2
        else
          match stack1.fInfo with
          | none => none
          | some info =>
            match elem with
            | none => some b2
            | some e =>
              let number : Int := IndexOf info.fElements e
              let isBasicType : Bool := e.fType > 0 && e.fType < 20
              let b3 : TBufferJSON :=
                { b2 with
                  fExpectedChain := isBasicType && (comp_type - e.fType == K.kOffsetL) }
              let isBase : Bool :=
                e.fType == K.kBase || (e.fType == K.kTObject && e.fName == "TObject") ||
                  (e.fType == K.kTNamed && e.fName == "TNamed")
              let base_class : Bool := isBase && e.hasClassPointer
              let b4 : TBufferJSON := b3.PushStack 0
              match b4.fStack with
              | [] => some b4
              | top :: _ =>
                some (b4.setTop
                  { top with
                    fElem := some e, fElemNumber := number, fIsElemOwner := decide (number < 0),
                    fIsBaseClass := base_class })

/-- `SetStreamerElementNumber(elem, comp_type)`; the source dereferences
`elem` only inside a debug message. -/
def SetStreamerElementNumber (K : EReadWrite) (b : TBufferJSON) (elem : Option TStreamerElement)
    (comp_type : Int) : Option TBufferJSON :=
  b.WorkWithElement K elem comp_type

/-- `ClassBegin(cl, version)`. -/
def ClassBegin (K : EReadWrite) (b : TBufferJSON) (cl : Option TClass) : TBufferJSON :=
  b.WorkWithClass K none cl

/-- `ClassEnd(cl)`. -/
def ClassEnd (K : EReadWrite) (b : TBufferJSON) : Option TBufferJSON :=
  b.DecrementLevel K none

/-! ## Value writers -/

/-- Macro `TJSONPushValue()`: a non-empty pending value is moved to the
buffered values of the top frame. With an empty stack the source dereferences
a null pointer. -/
def TJSONPushValue (b : TBufferJSON) : Option TBufferJSON :=
  if b.fValue.length > 0 then
    match b.fStack with
    | [] => none
    | stack :: _ => some { (b.setTop (stack.PushValue b.fValue)) with fValue := "" }
  else some b

end TBufferJSON

/-- A value of one of the basic types, as passed to an overload of
`JsonWriteBasic`. A floating-point value is given by the text `snprintf`
produces for it under each format. -/
inductive BasicValue where
  | Bool_t (value : Bool)
  | Char_t (value : Int)
  | Short_t (value : Int)
  | Int_t (value : Int)
  | Long_t (value : Int)
  | Long64_t (value : Int)
  | UChar_t (value : Nat)
  | UShort_t (value : Nat)
  | UInt_t (value : Nat)
  | ULong_t (value : Nat)
  | ULong64_t (value : Nat)
  | Float_t (snprintf : String → String)
  | Double_t (snprintf : String → String)

namespace TBufferJSON

/-- The text an overload of `JsonWriteBasic` appends for its argument. -/
def basicText (fmt : String) : BasicValue → String
  | .Bool_t value => if value then "true" else "false"
  | .Char_t value => toString value
  | .Short_t value => toString value
  | .Int_t value => toString value
  | .Long_t value => toString value
  | .Long64_t value => toString value
  | .UChar_t value => toString value
  | .UShort_t value => toString value
  | .UInt_t value => toString value
  | .ULong_t value => toString value
  | .ULong64_t value => toString value
  | .Float_t snprintf => snprintf fmt
  | .Double_t snprintf => snprintf fmt

/-- `JsonWriteBasic(value)`, all overloads. -/
def JsonWriteBasic (b : TBufferJSON) (value : BasicValue) : TBufferJSON :=
  { b with fValue := b.fValue ++ basicText b.fgFloatFmt value }

/-- The scalar writers `WriteBool`, `WriteChar`, ..., `WriteDouble`,
`WriteFloat16`, `WriteDouble32`: `TJSONPushValue(); JsonWriteBasic(v);`. -/
def WriteBasic (b : TBufferJSON) (value : BasicValue) : Option TBufferJSON :=
  b.TJSONPushValue.map (fun b1 => b1.JsonWriteBasic value)

/-- `WriteInt(i)`. -/
def WriteInt (b : TBufferJSON) (i : Int) : Option TBufferJSON := b.WriteBasic (.Int_t i)

/-- `WriteUInt(i)`. -/
def WriteUInt (b : TBufferJSON) (i : Nat) : Option TBufferJSON := b.WriteBasic (.UInt_t i)

/-- `WriteBool(b)`. -/
def WriteBool (b : TBufferJSON) (v : Bool) : Option TBufferJSON := b.WriteBasic (.Bool_t v)

/-- `WriteCharP(c)`. -/
def WriteCharP (b : TBufferJSON) (c : String) : Option TBufferJSON :=
  b.TJSONPushValue.map (fun b1 => { b1 with fValue := b1.fValue ++ "\"" ++ c ++ "\"" })

/-- `WriteTString(s)`. -/
def WriteTString (b : TBufferJSON) (s : String) : Option TBufferJSON :=
  b.TJSONPushValue.map (fun b1 => { b1 with fValue := b1.fValue ++ "\"" ++ s ++ "\"" })

/-- The loop of the macro `TJSONWriteArrayContent`: `count` more elements are
written, starting at index `indx`. Reading past the end of the array has no
defined result. -/
def arrayContentLoop (vname : List BasicValue) : Nat → Nat → TBufferJSON → Option TBufferJSON
  | _, 0, b => some b
  | indx, count + 1, b =>
    match vname.get? indx with
    | none => none
    | some v =>
      let b1 : TBufferJSON :=
        if indx > 0 then { b with fValue := b.fValue ++ b.fArraySepar } else b
      arrayContentLoop vname (indx + 1) count (b1.JsonWriteBasic v)

/-- Macro `TJSONWriteArrayContent(vname, arrsize)`. -/
def TJSONWriteArrayContent (b : TBufferJSON) (vname : List BasicValue) (arrsize : Int) :
    Option TBufferJSON :=
  (arrayContentLoop vname 0 arrsize.toNat { b with fValue := b.fValue ++ "[" }).map
    (fun b1 => { b1 with fValue := b1.fValue ++ "]" })

/-- Macro `TBufferJSON_WriteArray(vname)`, the body of every `WriteArray`. -/
def WriteArray (b : TBufferJSON) (vname : List BasicValue) (n : Int) : Option TBufferJSON :=
  b.TJSONPushValue.bind (fun b1 => b1.TJSONWriteArrayContent vname n)

/-- The `while (index < n)` loop of the macro `TBufferJSON_WriteFastArray`;
`elements` are the entries of `info->GetElements()` from `startnumber` on. An
exhausted list stands for `At` returning a null pointer, dereferenced next. -/
def chainLoop (K : EReadWrite) (vname : List BasicValue) (n : Int) :
    List TStreamerElement → Int → TBufferJSON → Option TBufferJSON
  | [], index, b => if index < n then none else some b
  | elem :: rest, index, b =>
    if index < 0 then none
    else if index < n then
      if elem.fType < K.kOffsetL then
        match vname.get? index.toNat with
        | none => none
        | some v =>
          ((b.JsonWriteBasic v).PerformPostProcessing K (some elem)).bind
            (fun b1 => chainLoop K vname n rest (index + 1) b1)
      else
        ((b.TJSONWriteArrayContent (vname.drop index.toNat) elem.fArrayLength).bind
          (fun b1 => b1.PerformPostProcessing K (some elem))).bind
          (fun b2 => chainLoop K vname n rest (index + elem.fArrayLength) b2)
    else some b

/-- Macro `TBufferJSON_WriteFastArray(vname)`, the body of the `WriteFastArray`
overloads for basic types. -/
def WriteFastArray (K : EReadWrite) (b : TBufferJSON) (vname : List BasicValue) (n : Int) :
    Option TBufferJSON :=
  b.TJSONPushValue.bind fun b1 =>
    if n ≤ 0 then some { b1 with fValue := b1.fValue ++ "[]" }
    else
      match b1.Stack 0 with
      | none => none
      | some top =>
        let chain : Bool :=
          match top.fElem with
          | some elem =>
            elem.fType > K.kOffsetL && elem.fType < K.kOffsetP && elem.fArrayLength != n
          | none => false
        let b2 : TBufferJSON := if chain then { b1 with fExpectedChain := true } else b1
        if b2.fExpectedChain then
          match b2.Stack 1 with
          | none => none
          | some below =>
            match below.fInfo with
            | none => none
            | some info =>
              if top.fElemNumber < 0 then none
              else
                chainLoop K vname n (info.fElements.drop top.fElemNumber.toNat) 0
                  { b2 with fExpectedChain := false }
        else b2.TJSONWriteArrayContent vname n

/-- `WriteFastArray(const Char_t *c, Int_t n)`; `c` holds the character codes. -/
def WriteFastArrayChar (K : EReadWrite) (b : TBufferJSON) (c : List Int) (n : Int) :
    Option TBufferJSON :=
  let usedefault : Bool := b.fExpectedChain || (c.take n.toNat).any (fun ch => ch < 27)
  if usedefault then b.WriteFastArray K (c.map BasicValue.Char_t) n
  else
    b.TJSONPushValue.map fun b1 =>
      { b1 with
        fValue := b1.fValue ++ "\"" ++
          (if n > 0 then String.mk ((c.take n.toNat).map (fun ch => Char.ofNat ch.toNat)) else "")
          ++ "\"" }

end TBufferJSON

/-! ## Objects and the streaming driver

The class streamers and the collections live outside the serialiser. What
the serialiser finds behind an object pointer is described by `Content`: the
calls the streamer of the object issues on the buffer when it is invoked, and
the collection view of the object (name, whether it inherits from `TList`,
items in iteration order). -/

mutual
/-- What lies behind a non-null object pointer. -/
inductive Content where
  | mk (streamer : List Call) (colName : String) (colIsList : Bool) (colItems : List Item)
/-- One step of the iteration over a collection: the option text of the
iterator, the address of the object, its class `IsA()` and its content. -/
inductive Item where
  | mk (option : String) (obj : Nat) (isA : TClass) (content : Content)
/-- One entry `start[j]` of an array of object pointers: the pointer, the
result of `cl->GetActualClass(start[j])` with the base class offset of `cl` in
it, the pointer `cl->New()` returns when the entry is null and the array is
pre-allocated (null when no object could be made), and the content of the
object that is written. -/
inductive Slot where
  | mk (ptr : Option Nat) (clActual : Option (TClass × Int)) (created : Option Nat)
      (content : Content)
/-- A call of the streaming driver on the buffer. -/
inductive Call where
  | IncrementLevel (info : Option TStreamerInfo)
  | DecrementLevel (info : Option TStreamerInfo)
  | SetStreamerElementNumber (elem : Option TStreamerElement) (comp_type : Int)
  | ClassBegin (cl : Option TClass)
  | ClassEnd
  | WriteBasic (value : BasicValue)
  | WriteCharP (c : String)
  | WriteTString (s : String)
  | WriteArray (vname : List BasicValue) (n : Int)
  | WriteFastArray (vname : List BasicValue) (n : Int)
  | WriteFastArrayChar (c : List Int) (n : Int)
  | PerformPostProcessing (elem : Option TStreamerElement)
  | JsonWriteObject (obj : Option Nat) (cl : Option TClass) (content : Content)
  | WriteObjectAny (obj : Option Nat) (ptrClass : Option TClass)
      (clActual : Option (TClass × Int)) (content : Content)
  | WriteFastArrayObj (start : List Item) (cl : Option TClass) (n : Int)
      (streamer : Option (List Call))
  | WriteFastArrayPtr (start : List Slot) (cl : Option TClass) (n : Int) (isPreAlloc : Bool)
      (streamer : Option (List Call))
end

namespace TBufferJSON

/-- `fJsonrMap[obj] = id`. -/
def mapSet (m : List (Nat × Nat)) (obj id : Nat) : List (Nat × Nat) :=
  (obj, id) :: m.filter (fun p => p.1 != obj)

/-- `fJsonrMap.find(obj)`. -/
def mapFind (m : List (Nat × Nat)) (obj : Nat) : Option Nat := m.lookup obj

/-- The flags `isarray`, `iscollect`, `iststring` computed at the start of
`JsonWriteObject`. -/
structure ObjKind where
  isarray : Bool
  iscollect : Bool
  iststring : Bool
  deriving DecidableEq, Repr

/-- The computation of the three flags of `JsonWriteObject`. -/
def objKind (b : TBufferJSON) (cl : Option TClass) : ObjKind :=
  let isarray : Bool :=
    match cl with
    | some c => startsWithTArray c.fName && c.baseOffsetTArray == 0
    | none => false
  let iscollect : Bool :=
    !isarray && (match cl with | some c => c.baseOffsetTCollection == 0 | none => false)
  let iststring : Bool :=
    !isarray && !iscollect && (match cl with | some c => c.isTStringClass | none => false) &&
      b.fStack.length > 0
  { isarray := isarray, iscollect := iscollect, iststring := iststring }

/-- The result of the first part of `JsonWriteObject`: either the function has
returned (`done`), or a frame was pushed and the content is to be streamed
(`opened`). -/
inductive Opened where
  | done (b : TBufferJSON)
  | opened (b : TBufferJSON)

/-- `JsonWriteObject(obj, cl)` up to and including `stack->fIsArray = isarray`. -/
def JsonWriteObjectOpen (b : TBufferJSON) (obj : Option Nat) (cl : Option TClass) : Opened :=
  let obj1 : Option Nat := if cl.isNone then none else obj
  let k : ObjKind := b.objKind cl
  let b1 : TBufferJSON := if !k.isarray then b.JsonStartElement else b
  match obj1, cl with
  | some addr, some c =>
    let pushed : Opened :=
      if !k.isarray && !k.iststring then
        match mapFind b1.fJsonrMap addr with
        | some id => .done (b1.AppendOutput (some ("\"$ref:" ++ toString id ++ "\"")) none)
        | none =>
          let b2 : TBufferJSON :=
            { b1 with
              fJsonrMap := mapSet b1.fJsonrMap addr b1.fJsonrCnt
              fJsonrCnt := b1.fJsonrCnt + 1 }.PushStack 2
          .opened (((((b2.AppendOutput (some "\x7b") (some "\"_typename\"")).AppendOutput
            (some b2.fSemicolon) none).AppendOutput (some "\"JSROOTIO.") none).AppendOutput
            (some c.fName) none).AppendOutput (some "\"") none)
      else .opened (b1.PushStack 0)
    match pushed with
    | .done r => .done r
    | .opened b3 =>
      match b3.fStack with
      | [] => .opened b3
      | stack :: _ => .opened (b3.setTop { stack with fIsArray := k.isarray })
  | _, _ => .done (b1.AppendOutput (some "null") none)

/-- `JsonWriteObject(obj, cl)` after the streamer has returned. The frame
`stack` of the source is the top frame, the streamer having popped what it
pushed. -/
def JsonWriteObjectClose (b : TBufferJSON) (k : ObjKind) : Option TBufferJSON :=
  match b.fStack with
  | [] => none
  | stack :: _ =>
    let b1 : TBufferJSON :=
      if k.isarray then b.setTop { stack with fValues := [] }
      else if k.iststring then
        { ((b.setTop { stack with fValues := [] }).AppendOutput (some b.fValue) none) with
          fValue := "" }
      else b
    let b2 : TBufferJSON := b1.PopStack
    some (if !k.isarray && !k.iststring then b2.AppendOutput none (some "\x7d") else b2)

/-- The first lines of `JsonStreamCollection`, up to the opening bracket. -/
def JsonStreamCollectionOpen (b : TBufferJSON) (colName : String) : TBufferJSON :=
  ((((((b.AppendOutput (some ",") (some "\"name\"")).AppendOutput (some b.fSemicolon) none).AppendOutput
    (some "\"") none).AppendOutput (some colName) none).AppendOutput (some "\",") (some "\"arr\"")).AppendOutput
    (some b.fSemicolon) none).AppendOutput (some "[") none

/-- The last lines of `JsonStreamCollection`, from `sopt.Append("]")` on. -/
def JsonStreamCollectionClose (b : TBufferJSON) (islist : Bool) (sopt : String) : TBufferJSON :=
  let b1 : TBufferJSON := b.AppendOutput (some "]") none
  if islist then
    ((b1.AppendOutput (some ",") (some "\"opt\"")).AppendOutput (some b1.fSemicolon) none).AppendOutput
      (some (sopt ++ "]")) none
  else b1

/-- The arguments `WriteObjectAny` passes on to `WriteObjectClass`, with its
return value; `none` when it returns 0 without writing. `clActual` is the
result of `ptrClass->GetActualClass(obj)` with the value of
`clActual->GetBaseClassOffset(ptrClass)`. -/
def WriteObjectAnyArgs (obj : Option Nat) (ptrClass : Option TClass)
    (clActual : Option (TClass × Int)) : Option (Option Nat × Option TClass × Int) :=
  match obj with
  | none => some (none, none, 1)
  | some addr =>
    match ptrClass with
    | none => none
    | some pc =>
      match clActual with
      | none => some (some addr, some pc, 2)
      | some (ca, offset) =>
        if ca != pc then some (some ((addr : Int) - offset).toNat, some ca, 1)
        else some (some addr, some pc, 1)

mutual
/-- `JsonWriteObject(obj, cl)`; `WriteObjectClass` and `StreamObject` forward
to it unchanged. -/
def JsonWriteObject (K : EReadWrite) (b : TBufferJSON) (obj : Option Nat) (cl : Option TClass) :
    Content → Option TBufferJSON
  | .mk streamer colName colIsList colItems =>
    match b.JsonWriteObjectOpen obj cl with
    | .done r => some r
    | .opened b1 =>
      let k : ObjKind := b.objKind cl
      let streamed : Option TBufferJSON :=
        if k.iscollect then
          (streamItems K (b1.JsonStreamCollectionOpen colName) colIsList "[" true colItems).map
            (fun r => r.1.JsonStreamCollectionClose colIsList r.2)
        else runCalls K b1 streamer
      streamed.bind (fun b2 => b2.JsonWriteObjectClose k)
/-- The `while` loop of `JsonStreamCollection`; returns the buffer and `sopt`. -/
def streamItems (K : EReadWrite) (b : TBufferJSON) (islist : Bool) (sopt : String)
    (first : Bool) : List Item → Option (TBufferJSON × String)
  | [] => some (b, sopt)
  | .mk option obj isA content :: rest =>
    let b1 : TBufferJSON := if !first then b.AppendOutput (some b.fArraySepar) none else b
    let sopt1 : String := if !first then sopt ++ b.fArraySepar else sopt
    let sopt2 : String := if islist then sopt1 ++ "\"" ++ option ++ "\"" else sopt1
    match JsonWriteObject K b1 (some obj) (some isA) content with
    | none => none
    | some b2 => streamItems K b2 islist sopt2 false rest
/-- The loop of `WriteFastArray(void *start, ...)` over the `n` objects. -/
def loopObjs (K : EReadWrite) (b : TBufferJSON) (cl : Option TClass) (n : Int) (j : Nat) :
    List Item → Option TBufferJSON
  | [] => if (j : Int) < n then none else some b
  | .mk _ obj _ content :: rest =>
    if (j : Int) < n then
      let b1 : TBufferJSON := if j > 0 then b.AppendOutput (some b.fArraySepar) none else b
      match JsonWriteObject K b1 (some obj) cl content with
      | none => none
      | some b2 => loopObjs K b2 cl n (j + 1) rest
    else some b
/-- The loops of `WriteFastArray(void **start, ...)`; returns the buffer, the
value `res` and the entries of `start` as they are left. In the pre-allocated
branch a null entry is assigned the result of `cl->New()`, which has no
result for a null `cl`. -/
def loopSlots (K : EReadWrite) (b : TBufferJSON) (cl : Option TClass) (n : Int)
    (isPreAlloc : Bool) (j : Nat) (res : Int) :
    List Slot → Option (TBufferJSON × Int × List (Option Nat))
  | [] => if (j : Int) < n then none else some (b, res, [])
  | .mk ptr clActual created content :: rest =>
    if (j : Int) < n then
      let b1 : TBufferJSON := if j > 0 then b.AppendOutput (some b.fArraySepar) none else b
      if !isPreAlloc then
        match WriteObjectAnyArgs ptr cl clActual with
        | none => (loopSlots K b1 cl n isPreAlloc (j + 1) (Int.lor res 0) rest).map
            (fun r => (r.1, r.2.1, ptr :: r.2.2))
        | some (o, c, ret) =>
          match JsonWriteObject K b1 o c content with
          | none => none
          | some b2 =>
            (loopSlots K b2 cl n isPreAlloc (j + 1) (Int.lor res ret) rest).map
              (fun r => (r.1, r.2.1, ptr :: r.2.2))
      else
        let entry : Option (Option Nat) :=
          match ptr with
          | some a => some (some a)
          | none =>
            match cl with
            | some _ => some created
            | none => none
        match entry with
        | none => none
        | some p =>
          match JsonWriteObject K b1 p cl content with
          | none => none
          | some b2 =>
            (loopSlots K b2 cl n isPreAlloc (j + 1) res rest).map
              (fun r => (r.1, r.2.1, p :: r.2.2))
    else
      some (b, res,
        (Slot.mk ptr clActual created content :: rest).map
          (fun s => match s with | .mk q _ _ _ => q))
/-- One call of the driver. -/
def runCall (K : EReadWrite) (b : TBufferJSON) : Call → Option TBufferJSON
  | .IncrementLevel info => some (b.IncrementLevel K info)
  | .DecrementLevel info => b.DecrementLevel K info
  | .SetStreamerElementNumber elem comp_type => b.SetStreamerElementNumber K elem comp_type
  | .ClassBegin cl => some (b.ClassBegin K cl)
  | .ClassEnd => b.ClassEnd K
  | .WriteBasic value => b.WriteBasic value
  | .WriteCharP c => b.WriteCharP c
  | .WriteTString s => b.WriteTString s
  | .WriteArray vname n => b.WriteArray vname n
  | .WriteFastArray vname n => b.WriteFastArray K vname n
  | .WriteFastArrayChar c n => b.WriteFastArrayChar K c n
  | .PerformPostProcessing elem => b.PerformPostProcessing K elem
  | .JsonWriteObject obj cl content => JsonWriteObject K b obj cl content
  | .WriteObjectAny obj ptrClass clActual content =>
    match WriteObjectAnyArgs obj ptrClass clActual with
    | none => some b
    | some (o, c, _) => JsonWriteObject K b o c content
  | .WriteFastArrayObj start cl n streamer =>
    match streamer with
    | some calls => runCalls K b.JsonStartElement calls
    | none =>
      match cl with
      | none => none
      | some _ =>
        let n1 : Int := if n = 0 then 1 else n
        let b1 : TBufferJSON :=
          if n1 > 1 then b.JsonStartElement.AppendOutput (some "[") none else b
        (loopObjs K b1 cl n1 0 start).map
          (fun b2 => if n1 > 1 then b2.AppendOutput (some " ]") none else b2)
  | .WriteFastArrayPtr start cl n isPreAlloc streamer =>
    match streamer with
    | some calls => runCalls K b.JsonStartElement calls
    | none =>
      let b1 : TBufferJSON :=
        if n > 1 then b.JsonStartElement.AppendOutput (some "[") none else b
      (loopSlots K b1 cl n isPreAlloc 0 0 start).map
        (fun r => if n > 1 then r.1.AppendOutput (some "]") none else r.1)
/-- A sequence of calls of the driver, in order; it stops at the first call
without a defined result. -/
def runCalls (K : EReadWrite) (b : TBufferJSON) : List Call → Option TBufferJSON
  | [] => some b
  | c :: cs =>
    match runCall K b c with
    | none => none
    | some b1 => runCalls K b1 cs
end

/-- `JsonStreamCollection(col, cl)`: the call made by `JsonWriteObject` for a
collection, written there in full. -/
def JsonStreamCollection (K : EReadWrite) (b : TBufferJSON) (colName : String) (islist : Bool)
    (items : List Item) : Option TBufferJSON :=
  (streamItems K (b.JsonStreamCollectionOpen colName) islist "[" true items).map
    (fun r => r.1.JsonStreamCollectionClose islist r.2)

/-- `WriteObjectAny(obj, ptrClass)`; returns the buffer and the return value. -/
def WriteObjectAny (K : EReadWrite) (b : TBufferJSON) (obj : Option Nat)
    (ptrClass : Option TClass) (clActual : Option (TClass × Int)) (content : Content) :
    Option (TBufferJSON × Int) :=
  match WriteObjectAnyArgs obj ptrClass clActual with
  | none => some (b, 0)
  | some (o, c, ret) => (JsonWriteObject K b o c content).map (fun b1 => (b1, ret))

/-- `JsonWriteAny(obj, cl)`; returns the buffer and the returned text. -/
def JsonWriteAny (K : EReadWrite) (b : TBufferJSON) (obj : Option Nat) (cl : Option TClass)
    (content : Content) : Option (TBufferJSON × String) :=
  (JsonWriteObject K { b with fOutBuffer := "" } obj cl content).map
    (fun b1 => (b1, b1.fOutBuffer))

/-- `ConvertToJSON(obj, cl, compact)`; `fmt` is the value of the static float
format at the time of the call. Returns the local buffer as it is left and
the returned text. -/
def ConvertToJSON (K : EReadWrite) (fmt : String) (obj : Option Nat) (cl : Option TClass)
    (compact : Int) (content : Content) : Option (TBufferJSON × String) :=
  JsonWriteAny K ((TBufferJSON.new fmt).SetCompact compact) obj cl content

/-- `ApplySequence(sequence, obj)`, as the list of calls it makes: the level
is opened for the streamer info of the sequence, each action is announced by
`SetStreamerElementNumber` with its element and type and then run, and the
level is closed. An action is given by the calls it makes on the buffer. -/
def ApplySequence (info : Option TStreamerInfo)
    (actions : List (Option TStreamerElement × Int × List Call)) : List Call :=
  [Call.IncrementLevel info] ++
    actions.flatMap (fun a => Call.SetStreamerElementNumber a.1 a.2.1 :: a.2.2) ++
    [Call.DecrementLevel info]

end TBufferJSON

/-! ## Single data members -/

/-- The values of the `EDataType` enumeration used by `JsonWriteMember`. The
enumeration is declared outside the available sources, so its values are
taken as a parameter. -/
structure EDataType where
  kChar_t : Int
  kShort_t : Int
  kInt_t : Int
  kLong_t : Int
  kFloat_t : Int
  kCounter : Int
  kCharStar : Int
  kDouble_t : Int
  kDouble32_t : Int
  kchar : Int
  kUChar_t : Int
  kUShort_t : Int
  kUInt_t : Int
  kULong_t : Int
  kBits : Int
  kLong64_t : Int
  kULong64_t : Int
  kBool_t : Int
  kFloat16_t : Int
  kOther_t : Int
  kNoType_t : Int
  kVoid_t : Int

/-- The C types a member pointer is cast to. -/
inductive CType where
  | Char_t | Short_t | Int_t | Long_t | Long64_t
  | UChar_t | UShort_t | UInt_t | ULong_t | ULong64_t
  | Float_t | Double_t | Bool_t
  deriving DecidableEq, Repr

/-- A non-null member pointer `ptr`: its address and what lies behind it, for
each way the source reads it: as an array of a basic type (`((T *)ptr)[i]`),
as a C string, as a `TString`, as a `TArray` (its size and the calls of its
streamer), or as an object streamed through its class. The storage behind the
pointer is finite: `extent T` is the number of values of type `T` that lie
inside it, so that `((T *)ptr)[i]` is a defined read exactly for
`i < extent T`; the functions `readInt`, `readBool` and `readFloat` give the
values of the defined reads. -/
structure Memory where
  addr : Nat
  extent : CType → Nat
  readInt : CType → Nat → Int
  readBool : Nat → Bool
  readFloat : CType → Nat → String → String
  cstring : String
  tstring : String
  arraySize : Int
  arrayStreamer : List Call
  object : Content

/-- The view of a `TDataMember` that the serialiser consults. -/
structure TDataMember where
  /-- Result of `IsBasic()`. -/
  isBasic : Bool
  /-- Whether `IsSTLContainer()` is non-zero. -/
  isSTLContainer : Bool
  /-- Result of `gROOT->GetClass(GetTypeName())`. -/
  typeClass : Option TClass
  /-- Result of `GetDataType()->GetType()`, absent when `GetDataType()` is null. -/
  dataType : Option Int
  /-- Result of `GetArrayDim()`. -/
  fArrayDim : Int
  /-- Results of `GetMaxIndex(i)`. -/
  fMaxIndex : Nat → Int

/-- The cases of the `switch (tid)` statements of `JsonWriteMember`, named by
the type the pointer is cast to; `other` is the group `kOther_t`, `kNoType_t`,
`kVoid_t`, and `unmatched` a type id without a case. -/
inductive MemberCase where
  | Char_t | Short_t | Int_t | Long_t | Float_t | CharStar | Double_t | UChar_t | UShort_t
  | UInt_t | ULong_t | Long64_t | ULong64_t | Bool_t | other | unmatched
  deriving DecidableEq, Repr

/-- Whether the `n` values `((T *)ptr + shift)[0 .. n-1]` all lie inside the
storage behind the pointer; nothing is read for `n ≤ 0`. -/
def Memory.covers (mem : Memory) (t : CType) (shift : Nat) (n : Int) : Bool :=
  decide (n ≤ 0 ∨ shift + n.toNat ≤ mem.extent t)

/-- The type `T` of the cast `(T *)ptr` in a case of `switch (tid)`; the group
`other` and a type id without a case read nothing. -/
def MemberCase.castType : MemberCase → Option CType
  | .Char_t | .CharStar => some .Char_t
  | .Short_t => some .Short_t
  | .Int_t => some .Int_t
  | .Long_t => some .Long_t
  | .Float_t => some .Float_t
  | .Double_t => some .Double_t
  | .UChar_t => some .UChar_t
  | .UShort_t => some .UShort_t
  | .UInt_t => some .UInt_t
  | .ULong_t => some .ULong_t
  | .Long64_t => some .Long64_t
  | .ULong64_t => some .ULong64_t
  | .Bool_t => some .Bool_t
  | .other | .unmatched => none

/-- Whether the `n` values a case of `switch (tid)` reads from `ptr + shift`
lie inside the storage behind the pointer. -/
def Memory.coversCase (mem : Memory) (c : MemberCase) (shift : Nat) (n : Int) : Bool :=
  match c.castType with
  | some t => mem.covers t shift n
  | none => true

namespace TBufferJSON

/-- The case of `switch (tid)` taken for a type id, the labels being compared
in the order of the source. -/
def memberCase (D : EDataType) (tid : Int) : MemberCase :=
  if tid = D.kChar_t then .Char_t
  else if tid = D.kShort_t then .Short_t
  else if tid = D.kInt_t then .Int_t
  else if tid = D.kLong_t then .Long_t
  else if tid = D.kFloat_t then .Float_t
  else if tid = D.kCounter then .Int_t
  else if tid = D.kCharStar then .CharStar
  else if tid = D.kDouble_t then .Double_t
  else if tid = D.kDouble32_t then .Double_t
  else if tid = D.kchar then .Char_t
  else if tid = D.kUChar_t then .UChar_t
  else if tid = D.kUShort_t then .UShort_t
  else if tid = D.kUInt_t then .UInt_t
  else if tid = D.kULong_t then .ULong_t
  else if tid = D.kBits then .UInt_t
  else if tid = D.kLong64_t then .Long64_t
  else if tid = D.kULong64_t then .ULong64_t
  else if tid = D.kBool_t then .Bool_t
  else if tid = D.kFloat16_t then .Float_t
  else if tid = D.kOther_t ∨ tid = D.kNoType_t ∨ tid = D.kVoid_t then .other
  else .unmatched

/-- The value `((T *)ptr)[i]` for the cast `T` of a case. -/
def memberValue (mem : Memory) (c : MemberCase) (i : Nat) : BasicValue :=
  match c with
  | .Char_t | .CharStar | .other | .unmatched => .Char_t (mem.readInt .Char_t i)
  | .Short_t => .Short_t (mem.readInt .Short_t i)
  | .Int_t => .Int_t (mem.readInt .Int_t i)
  | .Long_t => .Long_t (mem.readInt .Long_t i)
  | .Float_t => .Float_t (mem.readFloat .Float_t i)
  | .Double_t => .Double_t (mem.readFloat .Double_t i)
  | .UChar_t => .UChar_t (mem.readInt .UChar_t i).toNat
  | .UShort_t => .UShort_t (mem.readInt .UShort_t i).toNat
  | .UInt_t => .UInt_t (mem.readInt .UInt_t i).toNat
  | .ULong_t => .ULong_t (mem.readInt .ULong_t i).toNat
  | .Long64_t => .Long64_t (mem.readInt .Long64_t i)
  | .ULong64_t => .ULong64_t (mem.readInt .ULong64_t i).toNat
  | .Bool_t => .Bool_t (mem.readBool i)

/-- The `n` values `((T *)ptr + shift)[0 .. n-1]`. -/
def memberValues (mem : Memory) (c : MemberCase) (shift : Nat) (n : Int) : List BasicValue :=
  (List.range n.toNat).map (fun i => memberValue mem c (shift + i))

/-- The first `switch (tid)` of `JsonWriteMember`, for a member that is not an
array. The read `*((T *)ptr)` has no result when no value of type `T` lies
inside the storage. -/
def memberScalar (D : EDataType) (b : TBufferJSON) (mem : Memory) (tid : Int) :
    Option TBufferJSON :=
  match memberCase D tid with
  | .CharStar => b.WriteCharP mem.cstring
  | .other => some b
  | .unmatched => some b
  | c => if mem.coversCase c 0 1 then some (b.JsonWriteBasic (memberValue mem c 0)) else none

/-- The `switch (tid)` of `JsonWriteMember` over the `WriteFastArray`
overloads, for `n` elements from `ptr + shift`; `onOther` is what the group
`kOther_t`, `kNoType_t`, `kVoid_t` does. The overloads read all `n` values;
there is no result when one of them lies outside the storage. -/
def memberFastArray (K : EReadWrite) (D : EDataType) (b : TBufferJSON) (mem : Memory)
    (tid : Int) (shift : Nat) (n : Int) (onOther : TBufferJSON → TBufferJSON) :
    Option TBufferJSON :=
  if mem.coversCase (memberCase D tid) shift n then
    match memberCase D tid with
    | .Char_t =>
      b.WriteFastArrayChar K
        ((List.range n.toNat).map (fun i => mem.readInt .Char_t (shift + i))) n
    | .CharStar =>
      b.WriteFastArrayChar K
        ((List.range n.toNat).map (fun i => mem.readInt .Char_t (shift + i))) n
    | .other => some (onOther b)
    | .unmatched => some b
    | c => b.WriteFastArray K (memberValues mem c shift n) n
  else none

/-- The state of the loop of `JsonWriteMember` over a multi-dimensional array. -/
structure Odometer where
  cnt : Int
  indexes : List Int
  b : TBufferJSON

/-- One pass through the body of `while (cnt >= 0)`. For the innermost index
the source first calls `WriteFastArray((Int_t *)ptr + shift, len)` whatever
the type of the member is, and then the overload of the type; the first call
reads `len` values of type `Int_t` and has no result when they do not lie
inside the storage. -/
def odometerStep (K : EReadWrite) (D : EDataType) (mem : Memory) (member : TDataMember)
    (tid : Int) (s : Odometer) : Option Odometer :=
  match s.indexes.get? s.cnt.toNat with
  | none => none
  | some ic =>
    if ic ≥ member.fMaxIndex s.cnt.toNat then
      let b1 : TBufferJSON := { s.b with fOutBuffer := s.b.fOutBuffer ++ " ]" }
      let indexes1 : List Int := s.indexes.set s.cnt.toNat 0
      let cnt1 : Int := s.cnt - 1
      if cnt1 ≥ 0 then
        match indexes1.get? cnt1.toNat with
        | none => none
        | some v => some { cnt := cnt1, indexes := indexes1.set cnt1.toNat (v + 1), b := b1 }
      else some { cnt := cnt1, indexes := indexes1, b := b1 }
    else
      let b1 : TBufferJSON :=
        if ic > 0 then { s.b with fOutBuffer := s.b.fOutBuffer ++ s.b.fArraySepar }
        else { s.b with fOutBuffer := s.b.fOutBuffer ++ "[ " }
      let cnt1 : Int := s.cnt + 1
      if cnt1 = s.indexes.length then
        let shift0 : Int :=
          (List.range s.indexes.length).foldl
            (fun shift k => shift * member.fMaxIndex k + (s.indexes.getD k 0)) 0
        let len : Int := member.fMaxIndex s.indexes.length
        let shift : Int := shift0 * len
        let b2 : TBufferJSON := { b1 with fValue := "" }
        let first : Option TBufferJSON :=
          if mem.covers .Int_t shift.toNat len then
            b2.WriteFastArray K (memberValues mem .Int_t shift.toNat len) len
          else none
        match first with
        | none => none
        | some b3 =>
          match memberFastArray K D b3 mem tid shift.toNat len
              (fun x => { x with fValue := "null" }) with
          | none => none
          | some b4 =>
            let b5 : TBufferJSON := { b4 with fOutBuffer := b4.fOutBuffer ++ b4.fValue }
            let cnt2 : Int := cnt1 - 1
            match s.indexes.get? cnt2.toNat with
            | none => none
            | some v => some { cnt := cnt2, indexes := s.indexes.set cnt2.toNat (v + 1), b := b5 }
      else some { cnt := cnt1, indexes := s.indexes, b := b1 }

/-- The loop `while (cnt >= 0)`, with at most `fuel` passes through its body. -/
def odometerLoop (K : EReadWrite) (D : EDataType) (mem : Memory) (member : TDataMember)
    (tid : Int) : Nat → Odometer → Option TBufferJSON
  | fuel, s =>
    if s.cnt ≥ 0 then
      match fuel with
      | 0 => none
      | fuel1 + 1 =>
        match odometerStep K D mem member tid s with
        | none => none
        | some s1 => odometerLoop K D mem member tid fuel1 s1
    else some s.b

/-- `JsonWriteMember(ptr, member, memberClass)`; returns the buffer and the
returned text. `fuel` bounds the passes of the loop over a multi-dimensional
array, which has no bound in the source. -/
def JsonWriteMember (K : EReadWrite) (D : EDataType) (fuel : Nat) (b : TBufferJSON)
    (ptr : Option Memory) (member : Option TDataMember) (memberClass : Option TClass) :
    Option (TBufferJSON × String) :=
  match member with
  | none => some (b, "null")
  | some m =>
    let b0 : TBufferJSON := { (b.PushStack 0) with fValue := "" }
    let written : Option TBufferJSON :=
      if m.isBasic then
        let tid : Int := match m.dataType with | some t => t | none => D.kNoType_t
        match ptr with
        | none => some { b0 with fValue := "null" }
        | some mem =>
          if m.fArrayDim = 0 then memberScalar D b0 mem tid
          else if m.fArrayDim = 1 ∨ b0.fCompact > 0 then
            let n : Int :=
              (List.range (m.fArrayDim.toNat - 1)).foldl
                (fun n k => n * m.fMaxIndex (k + 1)) (m.fMaxIndex 0)
            memberFastArray K D b0 mem tid 0 n (fun x => x)
          else if m.fArrayDim < 2 then none
          else
            (odometerLoop K D mem m tid fuel
              { cnt := 0, indexes := List.replicate (m.fArrayDim.toNat - 1) 0, b := b0 }).map
              (fun b1 => { b1 with fValue := b1.fOutBuffer })
      else
        match memberClass with
        | none => none
        | some c =>
          if c.isTStringClass then
            some { b0 with
              fValue := b0.fValue ++ "\"" ++
                (match ptr with | some mem => mem.tstring | none => "") ++ "\"" }
          else if c.baseOffsetTArray = 0 then
            match ptr with
            | none => some { b0 with fValue := "[]" }
            | some mem =>
              if mem.arraySize > 0 then
                match runCalls K b0 mem.arrayStreamer with
                | none => none
                | some b1 =>
                  match b1.fStack with
                  | [] => none
                  | stack :: _ =>
                    match stack.fValues with
                    | _ :: v1 :: _ => some { b1 with fValue := v1 }
                    | _ => some b1
              else some { b0 with fValue := "[]" }
          else some b0
    match written with
    | none => none
    | some b1 =>
      let b2 : TBufferJSON := b1.PopStack
      if b2.fValue.length = 0 then some (b2, "not supported") else some (b2, b2.fValue)

/-- The statements of `JsonWriteMember` for a non-null member between
`PushStack(0); fValue.Clear();` and `PopStack()`, run on the buffer `b0` that
the first two leave. -/
def JsonWriteMemberBody (K : EReadWrite) (D : EDataType) (fuel : Nat) (b0 : TBufferJSON)
    (ptr : Option Memory) (m : TDataMember) (memberClass : Option TClass) :
    Option TBufferJSON :=
  if m.isBasic then
    let tid : Int := match m.dataType with | some t => t | none => D.kNoType_t
    match ptr with
    | none => some { b0 with fValue := "null" }
    | some mem =>
      if m.fArrayDim = 0 then memberScalar D b0 mem tid
      else if m.fArrayDim = 1 ∨ b0.fCompact > 0 then
        let n : Int :=
          (List.range (m.fArrayDim.toNat - 1)).foldl
            (fun n k => n * m.fMaxIndex (k + 1)) (m.fMaxIndex 0)
        memberFastArray K D b0 mem tid 0 n (fun x => x)
      else if m.fArrayDim < 2 then none
      else
        (odometerLoop K D mem m tid fuel
          { cnt := 0, indexes := List.replicate (m.fArrayDim.toNat - 1) 0, b := b0 }).map
          (fun b1 => { b1 with fValue := b1.fOutBuffer })
  else
    match memberClass with
    | none => none
    | some c =>
      if c.isTStringClass then
        some { b0 with
          fValue := b0.fValue ++ "\"" ++
            (match ptr with | some mem => mem.tstring | none => "") ++ "\"" }
      else if c.baseOffsetTArray = 0 then
        match ptr with
        | none => some { b0 with fValue := "[]" }
        | some mem =>
          if mem.arraySize > 0 then
            match runCalls K b0 mem.arrayStreamer with
            | none => none
            | some b1 =>
              match b1.fStack with
              | [] => none
              | stack :: _ =>
                match stack.fValues with
                | _ :: v1 :: _ => some { b1 with fValue := v1 }
                | _ => some b1
          else some { b0 with fValue := "[]" }
      else some b0

/-- `ConvertToJSON(ptr, member, compact)`; `fmt` is the value of the static
float format at the time of the call. -/
def ConvertToJSONMember (K : EReadWrite) (D : EDataType) (fuel : Nat) (fmt : String)
    (ptr : Option Memory) (member : Option TDataMember) (compact : Int) : Option String :=
  match ptr, member with
  | some mem, some m =>
    let mcl : Option TClass := if m.isBasic || m.isSTLContainer then none else m.typeClass
    let asObject : Option TClass :=
      match mcl with
      | some c => if !c.isTStringClass && c.baseOffsetTArray != 0 then some c else none
      | none => none
    match asObject with
    | some c => (ConvertToJSON K fmt (some mem.addr) (some c) compact mem.object).map (fun r => r.2)
    | none =>
      (JsonWriteMember K D fuel ((TBufferJSON.new fmt).SetCompact compact) (some mem) (some m)
        mcl).map (fun r => r.2)
  | _, _ => some "null"

/-- `ConvertToJSON(obj, compact)` for an object inheriting from `TObject`;
`isA` is the result of `obj->IsA()`. -/
def ConvertToJSONObject (K : EReadWrite) (fmt : String) (obj : Option Nat) (isA : TClass)
    (compact : Int) (content : Content) : Option (TBufferJSON × String) :=
  ConvertToJSON K fmt obj (match obj with | some _ => some isA | none => none) compact content

/-! ## Closed forms used in the statements -/

/-- The line break `AppendOutput` puts before a second line: a newline below
compact level 2. -/
def lineBreak (compact : Int) : String := if compact < 2 then "\n" else ""

/-- The indentation `AppendOutput` puts before a non-empty second line: below
compact level 1, as many blanks as the level of the top frame of the stack. -/
def indent (compact : Int) (stack : List TJSONStackObj) : String :=
  if compact < 1 then
    match stack.head? with
    | some top => if top.fLevel > 0 then blanks top.fLevel else ""
    | none => ""
  else ""

/-- The text `AppendOutput(line0, line1)` adds to the output. -/
def appended (b : TBufferJSON) (line0 line1 : Option String) : String :=
  line0.getD "" ++
    (match line1 with
     | none => ""
     | some l1 =>
       lineBreak b.fCompact ++ (if l1.length > 0 then indent b.fCompact b.fStack ++ l1 else ""))

/-- The reference map is unchanged and the counter has not gone down. -/
def Quiet (b b' : TBufferJSON) : Prop :=
  b'.fJsonrMap = b.fJsonrMap ∧ b.fJsonrCnt ≤ b'.fJsonrCnt

/-- The reference table is well formed: no address occurs twice, the ids
decrease strictly from the newest entry to the oldest, and every id is below
the counter. -/
def TableOk (m : List (Nat × Nat)) (cnt : Nat) : Prop :=
  (m.map Prod.fst).Nodup ∧ (m.map Prod.snd).Pairwise (fun x y => x > y) ∧ ∀ p ∈ m, p.2 < cnt

/-- What a run does to the reference table: the counter does not go down,
entries are only added, each for an address not yet present and with an id
not below the old counter, and a well-formed table stays well formed. -/
def Step (b b' : TBufferJSON) : Prop :=
  b.fJsonrCnt ≤ b'.fJsonrCnt ∧
  (∃ new, b'.fJsonrMap = new ++ b.fJsonrMap ∧
    ∀ p ∈ new, b.fJsonrCnt ≤ p.2 ∧ mapFind b.fJsonrMap p.1 = none) ∧
  (TableOk b.fJsonrMap b.fJsonrCnt → TableOk b'.fJsonrMap b'.fJsonrCnt)

/-- The text finalisation writes for the pending value `v`: the value itself,
or `null` when it is empty. -/
def valueText (v : String) : String := if v = "" then "null" else v

/-- The text of the calls `AppendOutput(",", "\"<key>\"")` and
`AppendOutput(fSemicolon)`: a comma, the line break and indentation of the
compact level, the quoted key and the field separator. -/
def fieldOpen (b : TBufferJSON) (key : String) : String :=
  "," ++ lineBreak b.fCompact ++ indent b.fCompact b.fStack ++ "\"" ++ key ++ "\"" ++ b.fSemicolon

/-- The text for one buffered value `p.2` at index `p.1` inside the wrapping
object of a chain: `"elem<index>"`, the field separator, the value and the
array separator. -/
def elemField (semi arr : String) (p : Nat × String) : String :=
  "\"elem" ++ toString p.1 ++ "\"" ++ semi ++ p.2 ++ arr

/-- The texts of all buffered values of a chain, numbered from 0. -/
def elemsText (semi arr : String) (values : List String) : String :=
  String.join (values.enum.map (elemField semi arr))

/-- The value text of a member of generic category: the pending value alone
when nothing is buffered, otherwise the wrapping object with the buffered
values and the pending value as its last field. -/
def chainText (semi arr : String) (values : List String) (v : String) : String :=
  if values = [] then valueText v
  else "\x7b " ++ elemsText semi arr values ++ "\"elem" ++ toString values.length ++ "\"" ++
    semi ++ valueText v ++ "\x7d"

/-- The keys that finalisation writes before the value of a `TObject` frame:
`fUniqueID` with the one buffered value and `fBits`, or the key `dummy` when
the number of buffered values is not one. -/
def objectKeys (b : TBufferJSON) (values : List String) : String :=
  match values with
  | [v0] => fieldOpen b "fUniqueID" ++ v0 ++ fieldOpen b "fBits"
  | _ => fieldOpen b "dummy"

/-- The keys that finalisation writes before the value of a `TArray` frame:
`fN` with the one buffered value and `fArray` for a base class with exactly
one buffered value, nothing otherwise. -/
def arrayKeys (b : TBufferJSON) (base : Bool) (values : List String) : String :=
  if base then
    match values with
    | [v0] => fieldOpen b "fN" ++ v0 ++ fieldOpen b "fArray"
    | _ => ""
  else ""

/-- The text finalisation adds after the place of the field prefix, given the
base-class flag, the four category flags of the source, the buffered values
and the pending value of the buffer. -/
def finalText (b : TBufferJSON) (base isTString isOffsetPArray isTObject isTArray : Bool)
    (values : List String) : String :=
  if isTString then
    (if base && !isTArray && !isTObject then "" else valueText b.fValue)
  else if isOffsetPArray then
    (if base && !isTArray && !isTObject then ""
     else if values = ["1"] then valueText b.fValue else "[]")
  else if isTObject then objectKeys b values ++ valueText b.fValue
  else if isTArray then arrayKeys b base values ++ valueText b.fValue
  else if base then ""
  else chainText b.fSemicolon b.fArraySepar values b.fValue

end TBufferJSON

/-! ## Further definitions used in the statements -/

/-- Where a scan of the characters between the quotes of a JSON string
literal stands: outside an escape, right after a backslash, or inside the
four hexadecimal digits of a `\u` escape with `left` digits to come. -/
inductive JsonScan where
  | plain
  | escaped
  | hex (left : Nat)
  deriving DecidableEq, Repr

/-- One step of the scan over the characters between the quotes, after the
grammar of JSON strings: outside an escape a backslash opens an escape, and a
double quote or a control character (code below 32) is not allowed; after a
backslash one of the escape letters is required. -/
def jsonScanStep (s : Option JsonScan) (c : Char) : Option JsonScan :=
  match s with
  | none => none
  | some .plain =>
    if c.toNat = 92 then some .escaped
    else if c.toNat = 34 ∨ c.toNat < 32 then none
    else some .plain
  | some .escaped =>
    if c.toNat = 117 then some (.hex 4)
    else if c.toNat = 34 ∨ c.toNat = 92 ∨ c.toNat = 47 ∨ c.toNat = 98 ∨ c.toNat = 102 ∨
        c.toNat = 110 ∨ c.toNat = 114 ∨ c.toNat = 116 then some .plain
    else none
  | some (.hex left) =>
    if (48 ≤ c.toNat ∧ c.toNat ≤ 57) ∨ (65 ≤ c.toNat ∧ c.toNat ≤ 70) ∨
        (97 ≤ c.toNat ∧ c.toNat ≤ 102) then
      (if left ≤ 1 then some .plain else some (.hex (left - 1)))
    else none

/-- Whether a text is a JSON string literal: it begins and ends with a double
quote, and the characters between them hold no double quote, backslash or
control character outside an escape. -/
def isJsonString (s : String) : Bool :=
  match s.data with
  | [] => false
  | q :: rest =>
    q.toNat = 34 &&
      (match rest.getLast? with
       | some l => l.toNat = 34
       | none => false) &&
      (rest.dropLast.foldl jsonScanStep (some .plain) == some .plain)

/-- The text without its blanks and newlines. -/
def removeSpaces (s : String) : String :=
  String.mk (s.data.filter (fun c => c.toNat != 32 && c.toNat != 10))

/-- The option text the iterator gives for an item. -/
def Item.tag : Item → String
  | .mk option _ _ _ => option

/-- Whether a call is one of the writers of basic values, strings and arrays
of basic values. -/
def Call.isValueWrite : Call → Bool
  | .WriteBasic _ => true
  | .WriteCharP _ => true
  | .WriteTString _ => true
  | .WriteArray _ _ => true
  | .WriteFastArray _ _ => true
  | .WriteFastArrayChar _ _ => true
  | _ => false

namespace TBufferJSON

/-- The member frame `WorkWithElement` pushes for `elem` above the class-level
frame `cls` holding the streamer info `info`: a fresh frame at the level of
`cls` with the element, its index among the elements of `info`, the ownership
flag and the base-class flag, set as in the source. -/
def memberFrame (K : EReadWrite) (cls : TJSONStackObj) (info : TStreamerInfo)
    (elem : TStreamerElement) : TJSONStackObj :=
  { TJSONStackObj.new with
    fLevel := cls.fLevel
    fElem := some elem
    fElemNumber := IndexOf info.fElements elem
    fIsElemOwner := decide (IndexOf info.fElements elem < 0)
    fIsBaseClass :=
      (elem.fType == K.kBase || (elem.fType == K.kTObject && elem.fName == "TObject") ||
        (elem.fType == K.kTNamed && elem.fName == "TNamed")) && elem.hasClassPointer }

/-- The buffer on which `JsonWriteMember` writes the value of a member at
compact level `c`. -/
def memberStart (fmt : String) (c : Int) : TBufferJSON :=
  { ((TBufferJSON.new fmt).SetCompact c).PushStack 0 with fValue := "" }

/-- The layout settings of the buffer are unchanged: compact level, field
separator and array separator. -/
def Layout (b b' : TBufferJSON) : Prop :=
  b'.fCompact = b.fCompact ∧ b'.fSemicolon = b.fSemicolon ∧ b'.fArraySepar = b.fArraySepar

/-- The buffer of a result of `JsonWriteObjectOpen`. -/
def Opened.buffer : Opened → TBufferJSON
  | .done b => b
  | .opened b => b

/-- The elements of a collection are serialised one after the other as the
loop of `JsonStreamCollection` does it, and the text each call of
`JsonWriteObject` appends to the output is compared with the entry of `texts`
at its position: the result is the buffer after the last element when every
call returns and appends the given text, and absent otherwise. -/
def emitItems (K : EReadWrite) (b : TBufferJSON) (first : Bool) :
    List Item → List String → Option TBufferJSON
  | [], [] => some b
  | .mk _ obj isA content :: rest, t :: ts =>
    let b1 : TBufferJSON := if !first then b.AppendOutput (some b.fArraySepar) none else b
    match JsonWriteObject K b1 (some obj) (some isA) content with
    | none => none
    | some b2 =>
      if b2.fOutBuffer = b1.fOutBuffer ++ t then emitItems K b2 false rest ts else none
  | _, _ => none

/-- The texts `xs` with the separator `sep` before each of them, the first one
excepted when `first` is set. -/
def separated (sep : String) : Bool → List String → String
  | _, [] => ""
  | first, x :: xs => (if first then "" else sep) ++ x ++ separated sep false xs

/-- Only the pending value and the buffered values of the top frame differ
between the two buffers. -/
def Buffered (b b' : TBufferJSON) : Prop :=
  ∃ v vs top rest, b.fStack = top :: rest ∧
    b' = { b with fValue := v, fStack := { top with fValues := vs } :: rest }

end TBufferJSON

/-! ## The process state, and further definitions used in the statements -/

/-- The process-wide state of the class `TBufferJSON`: its one static data
member, the `printf` format for floating point values. -/
structure Statics where
  fgFloatFmt : String
  deriving DecidableEq, Repr

namespace Statics

/-- The state at program start: `const char *TBufferJSON::fgFloatFmt = "%e";`. -/
def initial : Statics := { fgFloatFmt := "%e" }

/-- `SetFloatFormat(fmt)`; an absent `fmt` is a null pointer. -/
def SetFloatFormat (_s : Statics) (fmt : Option String) : Statics :=
  { fgFloatFmt := match fmt with | some f => f | none => "%e" }

/-- `GetFloatFormat()`. -/
def GetFloatFormat (s : Statics) : String := s.fgFloatFmt

/-- The static function `ConvertToJSON(obj, cl, compact)` as a step of the
process: the buffer is a local object, constructed while the static format
has its current value, and the function does not assign to the static. It
returns the process state and the returned text. -/
def ConvertToJSON (K : EReadWrite) (s : Statics) (obj : Option Nat) (cl : Option TClass)
    (compact : Int) (content : Content) : Statics × Option String :=
  (s, (TBufferJSON.ConvertToJSON K s.fgFloatFmt obj cl compact content).map (fun r => r.2))

/-- The static function `ConvertToJSON(ptr, member, compact)` as a step of the
process. -/
def ConvertToJSONMember (K : EReadWrite) (D : EDataType) (fuel : Nat) (s : Statics)
    (ptr : Option Memory) (member : Option TDataMember) (compact : Int) :
    Statics × Option String :=
  (s, TBufferJSON.ConvertToJSONMember K D fuel s.fgFloatFmt ptr member compact)

end Statics

/-- The conversion specifier of a `printf` format with one conversion: its
last character, as a character code. -/
def conversionSpecifier (fmt : String) : Option Nat :=
  fmt.data.getLast?.map (fun c => c.toNat)

/-- The pointer `start[j]` of a slot. -/
def Slot.ptr : Slot → Option Nat
  | .mk p _ _ _ => p

/-- The pointer `cl->New()` returns for a slot. -/
def Slot.created : Slot → Option Nat
  | .mk _ _ c _ => c

namespace TBufferJSON

/-- `WriteFastArray(void **start, cl, n, isPreAlloc, streamer)`; returns the
buffer, the return value and the entries of `start` as they are left. A
member streamer is given by the calls it makes on the buffer. -/
def WriteFastArrayPtr (K : EReadWrite) (b : TBufferJSON) (start : List Slot)
    (cl : Option TClass) (n : Int) (isPreAlloc : Bool) (streamer : Option (List Call)) :
    Option (TBufferJSON × Int × List (Option Nat)) :=
  match streamer with
  | some calls =>
    (runCalls K b.JsonStartElement calls).map (fun b1 => (b1, 0, start.map Slot.ptr))
  | none =>
    let b1 : TBufferJSON :=
      if n > 1 then b.JsonStartElement.AppendOutput (some "[") none else b
    (loopSlots K b1 cl n isPreAlloc 0 0 start).map
      (fun r => (if n > 1 then r.1.AppendOutput (some "]") none else r.1, r.2.1, r.2.2))

/-- The entries of the pointer array after the loops of
`WriteFastArray(void **start, ...)`, the first slot having index `j`: with
`isPreAlloc` a null pointer at an index below `n` is replaced by the pointer
that `cl->New()` returns. -/
def slotsAfter (n : Int) (isPreAlloc : Bool) : Nat → List Slot → List (Option Nat)
  | _, [] => []
  | j, s :: rest =>
    (if isPreAlloc && decide ((j : Int) < n) then
      (match s.ptr with | some a => some a | none => s.created)
     else s.ptr) :: slotsAfter n isPreAlloc (j + 1) rest

/-- The test of the macro `TBufferJSON_WriteFastArray` that turns the chain
flag on: the element of the top frame is a fixed array (type between
`kOffsetL` and `kOffsetP`) whose length differs from `n`. -/
def startsChain (K : EReadWrite) (top : TJSONStackObj) (n : Int) : Bool :=
  match top.fElem with
  | some elem => elem.fType > K.kOffsetL && elem.fType < K.kOffsetP && elem.fArrayLength != n
  | none => false

/-- The characters with the given codes. -/
def charsOf (c : List Int) : String := String.mk (c.map (fun ch => Char.ofNat ch.toNat))

/-- The decimal texts of the given codes. -/
def codesOf (c : List Int) : List String := c.map (fun ch => toString ch)

/-- The type id `tid` that `JsonWriteMember` computes for a basic member. -/
def memberTid (D : EDataType) (m : TDataMember) : Int :=
  match m.dataType with
  | some t => t
  | none => D.kNoType_t

/-- The number of values of a basic member: one for a member that is no
array, for an array the product `n` of its dimensions as `JsonWriteMember`
computes it. -/
def memberCount (m : TDataMember) : Int :=
  if m.fArrayDim = 0 then 1
  else
    (List.range (m.fArrayDim.toNat - 1)).foldl
      (fun n k => n * m.fMaxIndex (k + 1)) (m.fMaxIndex 0)

/-- The values of a basic member, read with the type of its case, lie inside
the storage behind the pointer. -/
def memberStored (D : EDataType) (mem : Memory) (m : TDataMember) : Bool :=
  mem.coversCase (memberCase D (memberTid D m)) 0 (memberCount m)

/-- The stack of `b'` has the depth of the stack of `b` and the same frames
below the top. -/
def Balanced (b b' : TBufferJSON) : Prop :=
  b'.fStack.length = b.fStack.length ∧ b'.fStack.tail = b.fStack.tail

/-- What `JsonWriteObject` runs on the buffer `b1` between pushing its frame
and popping it: `JsonStreamCollection` for a collection, the streamer of the
class otherwise. -/
def streamedBy (K : EReadWrite) (b : TBufferJSON) (cl : Option TClass) (b1 : TBufferJSON) :
    Content → Option TBufferJSON
  | .mk streamer colName colIsList colItems =>
    if (b.objKind cl).iscollect then JsonStreamCollection K b1 colName colIsList colItems
    else runCalls K b1 streamer

/-- The level of the top frame of a stack, 0 for the empty stack: what
`PushStack` adds its increment to. -/
def topLevel : List TJSONStackObj → Int
  | [] => 0
  | s :: _ => s.fLevel

/-- Every frame of the stack has the level of the frame below it (0 below the
lowest frame) plus 0 or plus 2. -/
def LevelsOk : List TJSONStackObj → Prop
  | [] => True
  | s :: rest => (s.fLevel = topLevel rest + 0 ∨ s.fLevel = topLevel rest + 2) ∧ LevelsOk rest

/-- The level invariant is kept from `b` to `b'`. -/
def Levels (b b' : TBufferJSON) : Prop := LevelsOk b.fStack → LevelsOk b'.fStack

/-- The element takes none of the special branches of `PerformPostProcessing`
on a frame that is not a base class: it is neither a `TString`, nor a dynamic
array (type between `kOffsetP` and `kOffsetP + 20`), nor a `TObject`, nor a
`TArray`. -/
def plainElem (K : EReadWrite) (e : TStreamerElement) : Bool :=
  !(e.fType == K.kTString) &&
    !(decide (e.fType > K.kOffsetP) && decide (e.fType < K.kOffsetP + 20)) &&
    !(e.fType == K.kTObject || e.fTypeName == "TObject") && !startsWithTArray e.fTypeName

/-- The values the chain loop of `TBufferJSON_WriteFastArray` hands to each
streamer element, in the order of the elements: the next single value for an
element of type below `kOffsetL`, the next `GetArrayLength()` values
otherwise; the loop ends when `index` reaches `n`. -/
def chainSlices (K : EReadWrite) (vname : List BasicValue) (n : Int) :
    List TStreamerElement → Int → List (TStreamerElement × List BasicValue)
  | [], _ => []
  | e :: es, index =>
    if index < n then
      if e.fType < K.kOffsetL then
        (e, (vname.drop index.toNat).take 1) :: chainSlices K vname n es (index + 1)
      else
        (e, (vname.drop index.toNat).take e.fArrayLength.toNat) ::
          chainSlices K vname n es (index + e.fArrayLength)
    else []

/-- The chain loop stays inside the elements and the values: while `index` is
below `n` there is a next element, it is a plain element, and the values it
consumes exist; an array element has a length that is not negative. -/
def chainReady (K : EReadWrite) (vname : List BasicValue) (n : Int) :
    List TStreamerElement → Int → Bool
  | [], index => !decide (index < n)
  | e :: es, index =>
    if index < n then
      plainElem K e &&
        (if e.fType < K.kOffsetL then
          decide (index.toNat < vname.length) && chainReady K vname n es (index + 1)
         else
          decide (0 ≤ e.fArrayLength) &&
            decide (index.toNat + e.fArrayLength.toNat ≤ vname.length) &&
            chainReady K vname n es (index + e.fArrayLength))
    else true

/-- The finalised field of one element of a chain: the opening of the field
with the name of the element, then the single value, or the bracketed array
of the values joined by the array separator. -/
def chainField (K : EReadWrite) (b : TBufferJSON) (p : TStreamerElement × List BasicValue) :
    String :=
  fieldOpen b p.1.fName ++
    (if p.1.fType < K.kOffsetL then
      valueText (String.join (p.2.map (basicText b.fgFloatFmt)))
     else
      "[" ++ String.intercalate b.fArraySepar (p.2.map (basicText b.fgFloatFmt)) ++ "]")

/-- The state of the buffer between two passes of the loop of
`JsonWriteMember`: no chain is expected, separator and float format are the
given ones, and the frame pushed for the member, which carries no element,
lies on top of the frames `tl`. -/
def MemberRun (sep fmt : String) (tl : List TJSONStackObj) (buf : TBufferJSON) : Prop :=
  buf.fExpectedChain = false ∧ buf.fArraySepar = sep ∧ buf.fgFloatFmt = fmt ∧
    ∃ top, buf.fStack = top :: tl ∧ top.fElem = none

end TBufferJSON

/-! ## Concrete data for the examples -/

/-- The values of the enumeration in the ROOT sources. -/
def rootEnum : EReadWrite :=
  { kBase := 0, kOffsetL := 20, kOffsetP := 40, kObject := 61, kTString := 65, kTObject := 66,
    kTNamed := 67 }

/-- A class named `Point`, neither an array class, nor a collection, nor `TString`. -/
def pointClass : TClass :=
  { fName := "Point", baseOffsetTArray := -1, baseOffsetTCollection := -1, isTStringClass := false }

/-- The streamer info of `Point`, without members. -/
def pointInfo : TStreamerInfo := { fClass := pointClass, fElements := [] }

/-- An object of class `Point`: its streamer applies an empty action sequence. -/
def pointContent : Content :=
  .mk (TBufferJSON.ApplySequence (some pointInfo) []) "" false []

/-- A member element of basic type, named `fX`. -/
def intElem : TStreamerElement :=
  { addr := 101, fName := "fX", fTypeName := "Int_t", fType := 3, fArrayLength := 0,
    hasClassPointer := false }

/-- A member element of type `TString`, named `fTitle`. -/
def stringElem : TStreamerElement :=
  { addr := 102, fName := "fTitle", fTypeName := "TString", fType := 65, fArrayLength := 0,
    hasClassPointer := true }

/-- A buffer at compact level 0 whose stack holds one open member frame for
`elem`, with the pending value `value`. -/
def memberBuffer (elem : TStreamerElement) (value : String) : TBufferJSON :=
  { TBufferJSON.new "%e" with
    fStack := [{ TJSONStackObj.new with fElem := some elem }], fValue := value }

/-- A class named `Holder`, neither an array class, nor a collection, nor `TString`. -/
def holderClass : TClass :=
  { fName := "Holder", baseOffsetTArray := -1, baseOffsetTCollection := -1,
    isTStringClass := false }

/-- A member `fA` holding a pointer to a `Point`. -/
def ptrElemA : TStreamerElement :=
  { addr := 103, fName := "fA", fTypeName := "Point*", fType := 64, fArrayLength := 0,
    hasClassPointer := true }

/-- A member `fB` holding a pointer to a `Point`. -/
def ptrElemB : TStreamerElement :=
  { addr := 104, fName := "fB", fTypeName := "Point*", fType := 64, fArrayLength := 0,
    hasClassPointer := true }

/-- A member `fEmb` holding a `Point` by value. -/
def embElem : TStreamerElement :=
  { addr := 105, fName := "fEmb", fTypeName := "Point", fType := 61, fArrayLength := 0,
    hasClassPointer := true }

/-- The call a pointer member makes for the `Point` at address 2. -/
def writeShared : Call :=
  .WriteObjectAny (some 2) (some pointClass) (some (pointClass, 0)) pointContent

/-- The streamer info of a `Holder` with the two pointer members. -/
def sharedInfo : TStreamerInfo := { fClass := holderClass, fElements := [ptrElemA, ptrElemB] }

/-- A `Holder` whose members `fA` and `fB` both point to the `Point` at address 2. -/
def sharedContent : Content :=
  .mk (TBufferJSON.ApplySequence (some sharedInfo)
    [(some ptrElemA, 64, [writeShared]), (some ptrElemB, 64, [writeShared])]) "" false []

/-- The streamer info of a `Holder` with an embedded `Point` and a pointer member. -/
def embInfo : TStreamerInfo := { fClass := holderClass, fElements := [embElem, ptrElemA] }

/-- A `Holder` with an embedded `Point`, streamed in place, followed by a
member pointing to the `Point` at address 2. -/
def embContent : Content :=
  .mk (TBufferJSON.ApplySequence (some embInfo)
    [(some embElem, 61, TBufferJSON.ApplySequence (some pointInfo) []),
     (some ptrElemA, 64, [writeShared])]) "" false []

/-- The call that serialises the `Holder` with the shared `Point`. -/
def sharedCalls : List Call := [.JsonWriteObject (some 1) (some holderClass) sharedContent]

/-- The buffer after that call on a fresh buffer. -/
def sharedRun : TBufferJSON :=
  (TBufferJSON.runCalls rootEnum (TBufferJSON.new "%e") sharedCalls).getD (TBufferJSON.new "%e")

/-- A buffer at compact level `compact` whose stack holds the one frame
`frame`, with the pending value `value`. -/
def frameBuffer (compact : Int) (frame : TJSONStackObj) (value : String) : TBufferJSON :=
  { (TBufferJSON.new "%e").SetCompact compact with fStack := [frame], fValue := value }

/-- A member element `fArr`, a dynamic array of `Int_t` (type `kOffsetP + 3`). -/
def dynElem : TStreamerElement :=
  { addr := 106, fName := "fArr", fTypeName := "Int_t*", fType := 43, fArrayLength := 0,
    hasClassPointer := false }

/-- The open frame of `fArr` with the one buffered value `1`. -/
def dynFrame : TJSONStackObj := { TJSONStackObj.new with fElem := some dynElem, fValues := ["1"] }

/-- The element of the base class `TObject`. -/
def tobjectElem : TStreamerElement :=
  { addr := 107, fName := "TObject", fTypeName := "BASE", fType := 66, fArrayLength := 0,
    hasClassPointer := true }

/-- The open base-class frame of `TObject` with the one buffered value `7`. -/
def tobjectFrame : TJSONStackObj :=
  { TJSONStackObj.new with fElem := some tobjectElem, fIsBaseClass := true, fValues := ["7"] }

/-- A member element `fObj` of type `TObject`. -/
def tobjectMember : TStreamerElement :=
  { addr := 108, fName := "fObj", fTypeName := "TObject", fType := 66, fArrayLength := 0,
    hasClassPointer := true }

/-- The open member frame of `fObj` with the one buffered value `7`. -/
def tobjectMemberFrame : TJSONStackObj :=
  { TJSONStackObj.new with fElem := some tobjectMember, fValues := ["7"] }

/-- The open base-class frame of `TObject` with nothing buffered. -/
def tobjectBare : TJSONStackObj :=
  { TJSONStackObj.new with fElem := some tobjectElem, fIsBaseClass := true }

/-- The element of the base class `TArrayI`. -/
def tarrayElem : TStreamerElement :=
  { addr := 109, fName := "TArrayI", fTypeName := "BASE", fType := 0, fArrayLength := 0,
    hasClassPointer := true }

/-- The open base-class frame of `TArrayI` with the buffered count `3`. -/
def tarrayFrame : TJSONStackObj :=
  { TJSONStackObj.new with fElem := some tarrayElem, fIsBaseClass := true, fValues := ["3"] }

/-- The open frame of the member `fX` with the two buffered values `1` and `2`. -/
def chainFrame : TJSONStackObj :=
  { TJSONStackObj.new with fElem := some intElem, fValues := ["1", "2"] }

/-- The element of a base class `Base` that is neither `TObject` nor a `TArray`. -/
def baseElem : TStreamerElement :=
  { addr := 110, fName := "Base", fTypeName := "BASE", fType := 0, fArrayLength := 0,
    hasClassPointer := true }

/-- The open base-class frame of `Base`. -/
def baseFrame : TJSONStackObj :=
  { TJSONStackObj.new with fElem := some baseElem, fIsBaseClass := true }

/-- A member element `data`, a fixed array of five `Int_t` (type `kOffsetL + 3`). -/
def dataElem : TStreamerElement :=
  { addr := 111, fName := "data", fTypeName := "Int_t", fType := 23, fArrayLength := 5,
    hasClassPointer := false }

/-- The open frame of the member `data`. -/
def dataFrame : TJSONStackObj := { TJSONStackObj.new with fElem := some dataElem }

/-- The values of the enumeration `EDataType` in the ROOT sources. -/
def rootTypes : EDataType :=
  { kChar_t := 1, kShort_t := 2, kInt_t := 3, kLong_t := 4, kFloat_t := 5, kCounter := 6,
    kCharStar := 7, kDouble_t := 8, kDouble32_t := 9, kchar := 10, kUChar_t := 11,
    kUShort_t := 12, kUInt_t := 13, kULong_t := 14, kBits := 15, kLong64_t := 16,
    kULong64_t := 17, kBool_t := 18, kFloat16_t := 19, kOther_t := -1, kNoType_t := 0,
    kVoid_t := 20 }

/-- The extents of a storage of the given number of bytes, for the sizes of the
basic types on a platform with a `Long_t` of 8 bytes. -/
def storage (bytes : Nat) : CType → Nat
  | .Char_t | .UChar_t | .Bool_t => bytes
  | .Short_t | .UShort_t => bytes / 2
  | .Int_t | .UInt_t | .Float_t => bytes / 4
  | .Long_t | .ULong_t | .Long64_t | .ULong64_t | .Double_t => bytes / 8

/-- Memory of 16 bytes holding the integers 1, 2, 3, ... at consecutive
positions. -/
def countingMemory : Memory :=
  { addr := 1, extent := storage 16, readInt := fun _ i => (i : Int) + 1,
    readBool := fun _ => false,
    readFloat := fun _ _ _ => "0", cstring := "", tstring := "", arraySize := 0,
    arrayStreamer := [], object := .mk [] "" false [] }

/-- A member `Int_t m[2][2]`. -/
def matrixMember : TDataMember :=
  { isBasic := true, isSTLContainer := false, typeClass := none, dataType := some 3,
    fArrayDim := 2, fMaxIndex := fun _ => 2 }

/-- The streamer info of a `Point` with the one member `fX`. -/
def memberInfo : TStreamerInfo := { fClass := pointClass, fElements := [intElem] }

/-- The class-level frame `IncrementLevel` pushes for that streamer info. -/
def levelFrame : TJSONStackObj :=
  { TJSONStackObj.new with fInfo := some memberInfo, fIsStreamerInfo := true }

/-- A buffer at compact level `compact` with the open frame of the member `fX`
above the class-level frame, and the pending value `5`. -/
def levelBuffer (compact : Int) : TBufferJSON :=
  { (TBufferJSON.new "%e").SetCompact compact with
    fStack := [{ TJSONStackObj.new with fElem := some intElem }, levelFrame], fValue := "5" }

/-- The class `TList`, a collection. -/
def listClass : TClass :=
  { fName := "TList", baseOffsetTArray := -1, baseOffsetTCollection := 0, isTStringClass := false }

/-- The class `TObjArray`, a collection that is not a list. -/
def objArrayClass : TClass :=
  { fName := "TObjArray", baseOffsetTArray := -1, baseOffsetTCollection := 0,
    isTStringClass := false }

/-- The `Point`s at the addresses 2 and 3, with the option texts `a` and `b`. -/
def listItems : List Item :=
  [.mk "a" 2 pointClass pointContent, .mk "b" 3 pointClass pointContent]

/-- A `TList` named `points` holding these two objects. -/
def listContent : Content := .mk [] "points" true listItems

/-- A `TObjArray` named `points` holding these two objects. -/
def objArrayContent : Content := .mk [] "points" false listItems

/-- The text of a `Point` at compact level 3. -/
def pointText : String := "\x7b\"_typename\":\"JSROOTIO.Point\"\x7d"

/-- The text of a `Point` at compact level 0 below a frame of level 2. -/
def pointLines : String := "\x7b\n    \"_typename\" : \"JSROOTIO.Point\"\n  \x7d"

/-- The class `TArrayI`, an array class. -/
def arrayClass : TClass :=
  { fName := "TArrayI", baseOffsetTArray := 0, baseOffsetTCollection := -1,
    isTStringClass := false }

/-- The class `TString`. -/
def stringClass : TClass :=
  { fName := "TString", baseOffsetTArray := -1, baseOffsetTCollection := -1,
    isTStringClass := true }

/-- A `TArrayI` holding 1, 2, 3: its streamer writes the size and the array. -/
def arrayContent : Content :=
  .mk [.WriteBasic (.Int_t 3), .WriteFastArray [.Int_t 1, .Int_t 2, .Int_t 3] 3] "" false []

/-- A `TString` holding `hello`: its streamer writes the text. -/
def stringContent : Content := .mk [.WriteTString "hello"] "" false []

/-- A member `Double_t fD` holding one value. -/
def doubleMember : TDataMember :=
  { isBasic := true, isSTLContainer := false, typeClass := none, dataType := some 8,
    fArrayDim := 0, fMaxIndex := fun _ => 0 }

/-- Memory of 8 bytes holding a floating point number that prints as
`1.500000e+00` under `%e`, as `1.500000` under `%f`, and as `1.5` under any
other format. -/
def doubleMemory : Memory :=
  { addr := 1, extent := storage 8, readInt := fun _ _ => 0, readBool := fun _ => false,
    readFloat := fun _ _ fmt =>
      if fmt = "%e" then "1.500000e+00" else if fmt = "%f" then "1.500000" else "1.5",
    cstring := "", tstring := "", arraySize := 0, arrayStreamer := [], object := .mk [] "" false [] }

/-- An array of two pointers to `Point`: the first is null, the second points
to the object at address 2; `cl->New()` would make an object at address 9. -/
def slotArray : List Slot :=
  [.mk none none (some 9) pointContent,
    .mk (some 2) (some (pointClass, 0)) (some 9) pointContent]

/-- A member element `fC1` of type `Char_t`. -/
def charElemA : TStreamerElement :=
  { addr := 112, fName := "fC1", fTypeName := "Char_t", fType := 1, fArrayLength := 0,
    hasClassPointer := false }

/-- A member element `fC2` of type `Char_t`. -/
def charElemB : TStreamerElement :=
  { addr := 113, fName := "fC2", fTypeName := "Char_t", fType := 1, fArrayLength := 0,
    hasClassPointer := false }

/-- The streamer info of a class with the two consecutive members `fC1` and `fC2`. -/
def charInfo : TStreamerInfo := { fClass := pointClass, fElements := [charElemA, charElemB] }

/-- A buffer at compact level 0 with the open frame of `fC1` above the
class-level frame, no pending value, and the chain flag as given. -/
def charBuffer (chain : Bool) : TBufferJSON :=
  { TBufferJSON.new "%e" with
    fStack := [{ TJSONStackObj.new with fElem := some charElemA },
      { TJSONStackObj.new with fInfo := some charInfo, fIsStreamerInfo := true }],
    fExpectedChain := chain }

/-- A basic member without a data type, which gets the type id `kNoType_t`. -/
def untypedMember : TDataMember :=
  { isBasic := true, isSTLContainer := false, typeClass := none, dataType := none,
    fArrayDim := 0, fMaxIndex := fun _ => 0 }

/-- A member `Int_t x`. -/
def intMember : TDataMember :=
  { isBasic := true, isSTLContainer := false, typeClass := none, dataType := some 3,
    fArrayDim := 0, fMaxIndex := fun _ => 0 }

/-- A member holding a `Point` by value. -/
def pointMember : TDataMember :=
  { isBasic := false, isSTLContainer := false, typeClass := some pointClass, dataType := none,
    fArrayDim := 0, fMaxIndex := fun _ => 0 }

/-- The class `vector<int>`. -/
def vectorClass : TClass :=
  { fName := "vector<int>", baseOffsetTArray := -1, baseOffsetTCollection := -1,
    isTStringClass := false }

/-- A member of type `std::vector<int>`: not basic, an STL container. -/
def vectorMember : TDataMember :=
  { isBasic := false, isSTLContainer := true, typeClass := some vectorClass, dataType := none,
    fArrayDim := 0, fMaxIndex := fun _ => 0 }

/-- The streamer info of a class with the members `fX` and `data[5]`. -/
def chainedInfo : TStreamerInfo := { fClass := pointClass, fElements := [intElem, dataElem] }

/-- A buffer at compact level 0 with the open frame of `fX` above the
class-level frame of that class, no pending value, and a chain expected. -/
def chainedBuffer : TBufferJSON :=
  { TBufferJSON.new "%e" with
    fStack := [{ TJSONStackObj.new with fElem := some intElem },
      { TJSONStackObj.new with fInfo := some chainedInfo, fIsStreamerInfo := true }],
    fExpectedChain := true }

/-- The six values 1 to 6 of type `Int_t`. -/
def sixValues : List BasicValue :=
  [.Int_t 1, .Int_t 2, .Int_t 3, .Int_t 4, .Int_t 5, .Int_t 6]

/-- Memory of 16 bytes holding the character codes 97, 98, 99, ... at
consecutive positions: the array `Char_t m[2][2]` at the start of an object
of 16 bytes. -/
def letterMemory : Memory :=
  { addr := 1, extent := storage 16, readInt := fun _ i => (i : Int) + 97,
    readBool := fun _ => false,
    readFloat := fun _ _ _ => "0", cstring := "", tstring := "", arraySize := 0,
    arrayStreamer := [], object := .mk [] "" false [] }

/-- A member `Char_t m[2][2]`. -/
def charMatrix : TDataMember :=
  { isBasic := true, isSTLContainer := false, typeClass := none, dataType := some 1,
    fArrayDim := 2, fMaxIndex := fun _ => 2 }

/-! ## Theorems -/

namespace TBufferJSON

theorem AppendOutput_eq (b : TBufferJSON) (line0 line1 : Option String) :
    b.AppendOutput line0 line1 = { b with fOutBuffer := b.fOutBuffer ++ appended b line0 line1 } := by
  cases b with
  | mk fmt out val map cnt stack chain compact semi sep =>
    cases line1 with
    | none => cases line0 <;> simp [AppendOutput, appended]
    | some l1 =>
      by_cases h2 : compact < 2 <;> by_cases hl : l1.length > 0 <;> by_cases h1 : compact < 1 <;>
        cases line0 <;> cases stack with
        | nil =>
          simp [AppendOutput, appended, lineBreak, indent, Stack, h2, hl, h1, String.append_assoc]
        | cons top rest =>
          by_cases hlev : top.fLevel > 0 <;>
            simp [AppendOutput, appended, lineBreak, indent, Stack, h2, hl, h1, hlev,
              String.append_assoc]

@[simp] theorem AppendOutput_fStack (b : TBufferJSON) (l0 l1 : Option String) :
    (b.AppendOutput l0 l1).fStack = b.fStack := by simp [AppendOutput_eq]

@[simp] theorem AppendOutput_fValue (b : TBufferJSON) (l0 l1 : Option String) :
    (b.AppendOutput l0 l1).fValue = b.fValue := by simp [AppendOutput_eq]

@[simp] theorem AppendOutput_fJsonrMap (b : TBufferJSON) (l0 l1 : Option String) :
    (b.AppendOutput l0 l1).fJsonrMap = b.fJsonrMap := by simp [AppendOutput_eq]

@[simp] theorem AppendOutput_fJsonrCnt (b : TBufferJSON) (l0 l1 : Option String) :
    (b.AppendOutput l0 l1).fJsonrCnt = b.fJsonrCnt := by simp [AppendOutput_eq]

@[simp] theorem AppendOutput_fCompact (b : TBufferJSON) (l0 l1 : Option String) :
    (b.AppendOutput l0 l1).fCompact = b.fCompact := by simp [AppendOutput_eq]

@[simp] theorem AppendOutput_fSemicolon (b : TBufferJSON) (l0 l1 : Option String) :
    (b.AppendOutput l0 l1).fSemicolon = b.fSemicolon := by simp [AppendOutput_eq]

@[simp] theorem AppendOutput_fArraySepar (b : TBufferJSON) (l0 l1 : Option String) :
    (b.AppendOutput l0 l1).fArraySepar = b.fArraySepar := by simp [AppendOutput_eq]

@[simp] theorem AppendOutput_fExpectedChain (b : TBufferJSON) (l0 l1 : Option String) :
    (b.AppendOutput l0 l1).fExpectedChain = b.fExpectedChain := by simp [AppendOutput_eq]

@[simp] theorem AppendOutput_fgFloatFmt (b : TBufferJSON) (l0 l1 : Option String) :
    (b.AppendOutput l0 l1).fgFloatFmt = b.fgFloatFmt := by simp [AppendOutput_eq]

theorem AppendOutput_fOutBuffer (b : TBufferJSON) (l0 l1 : Option String) :
    (b.AppendOutput l0 l1).fOutBuffer = b.fOutBuffer ++ appended b l0 l1 := by
  simp [AppendOutput_eq]

/-- C6: for every integer level, `SetCompact(level)` stores the level, and sets
the field separator to `":"` and the array separator to `","` when the level
is 3 or more, and to `" : "` and `", "` when it is 2 or less. -/
theorem C6_SetCompact_separators (b : TBufferJSON) (level : Int) :
    (b.SetCompact level).fCompact = level ∧
    (b.SetCompact level).fSemicolon = (if 3 ≤ level then ":" else " : ") ∧
    (b.SetCompact level).fArraySepar = (if 3 ≤ level then "," else ", ") ∧
    (b.SetCompact 0).fSemicolon = " : " ∧ (b.SetCompact 0).fArraySepar = ", " ∧
    (b.SetCompact 1).fSemicolon = " : " ∧ (b.SetCompact 1).fArraySepar = ", " ∧
    (b.SetCompact 2).fSemicolon = " : " ∧ (b.SetCompact 2).fArraySepar = ", " ∧
    (b.SetCompact 3).fSemicolon = ":" ∧ (b.SetCompact 3).fArraySepar = "," := by
  have h : (level > 2) ↔ (3 ≤ level) := by omega
  simp [SetCompact, h]

theorem appended_one (b : TBufferJSON) (l0 : String) : appended b (some l0) none = l0 := by
  simp [appended]

theorem appended_two (b : TBufferJSON) (l0 l1 : String) (h : 0 < l1.length) :
    appended b (some l0) (some l1) =
      l0 ++ (lineBreak b.fCompact ++ (indent b.fCompact b.fStack ++ l1)) := by
  simp [appended, h]

theorem appended_second (b : TBufferJSON) (l1 : String) (h : 0 < l1.length) :
    appended b none (some l1) = lineBreak b.fCompact ++ (indent b.fCompact b.fStack ++ l1) := by
  simp [appended, h]

theorem length_eq_zero_iff (s : String) : s.length = 0 ↔ s = "" := by
  rcases s with ⟨cs⟩
  cases cs with
  | nil => simp
  | cons c cs =>
    simp only [String.length, List.length_cons, Nat.add_one_ne_zero, false_iff]
    intro h
    exact absurd (congrArg String.data h) (by simp)

/-- C7: at a compact level from 0 up, `AppendOutput(line0, line1)` with `line1`
present appends `line0`, then a newline exactly when the level is 0 or 1, then
(only when `line1` is not empty, the level is 0 and the top frame exists with
a positive level) as many blanks as that level, then `line1`; at levels 2 and
3 that is `line0` followed by `line1`. With `line1` absent it appends `line0`
only. Nothing but the output buffer changes. -/
theorem C7_AppendOutput_layout (b : TBufferJSON) (line0 line1 : String)
    (hc : 0 ≤ b.fCompact) :
    b.AppendOutput (some line0) (some line1) =
      { b with
        fOutBuffer := b.fOutBuffer ++ line0 ++
          (if b.fCompact = 0 ∨ b.fCompact = 1 then "\n" else "") ++
          (match b.fStack.head? with
           | some top =>
             if line1 ≠ "" ∧ b.fCompact = 0 ∧ top.fLevel > 0 then
               String.mk (List.replicate top.fLevel.toNat ' ')
             else ""
           | none => "") ++
          line1 } ∧
    (b.fCompact = 2 ∨ b.fCompact = 3 →
      (b.AppendOutput (some line0) (some line1)).fOutBuffer = b.fOutBuffer ++ line0 ++ line1) ∧
    b.AppendOutput (some line0) none = { b with fOutBuffer := b.fOutBuffer ++ line0 } := by
  have h2 : b.fCompact < 2 ↔ (b.fCompact = 0 ∨ b.fCompact = 1) := by omega
  have h1 : b.fCompact < 1 ↔ b.fCompact = 0 := by omega
  have hlen : line1.length > 0 ↔ line1 ≠ "" := by
    rw [gt_iff_lt, Nat.pos_iff_ne_zero, ne_eq, length_eq_zero_iff]
  refine ⟨?_, ?_, ?_⟩
  · rw [AppendOutput_eq]
    congr 1
    simp only [appended, lineBreak, indent, Option.getD, h2, h1, hlen, blanks]
    by_cases hl : line1 = ""
    · subst hl
      cases b.fStack.head? <;> simp [String.append_assoc]
    · cases hs : b.fStack.head? with
      | none => simp [hl, String.append_assoc]
      | some top =>
        by_cases h0 : b.fCompact = 0 <;> by_cases hlev : top.fLevel > 0 <;>
          simp [hl, h0, hlev, String.append_assoc]
  · intro h
    rw [AppendOutput_fOutBuffer]
    have h2' : ¬ b.fCompact < 2 := by omega
    have h1' : ¬ b.fCompact < 1 := by omega
    simp only [appended, lineBreak, indent, Option.getD, h2', h1']
    by_cases hl : line1.length > 0
    · simp [hl, String.append_assoc]
    · have : line1 = "" := by
        by_contra hne
        exact hl (hlen.mpr hne)
      simp [this, String.append_assoc]
  · rw [AppendOutput_eq]
    simp [appended]

/-- Witness for C7: compact level 0 with a top frame of level 2. -/
theorem C7_AppendOutput_layout_witness :
    0 ≤ ((TBufferJSON.new "%e").PushStack 2).fCompact ∧
    ((TBufferJSON.new "%e").PushStack 2).AppendOutput (some "\x7b") (some "\"_typename\"") =
      { (TBufferJSON.new "%e").PushStack 2 with fOutBuffer := "\x7b\n  \"_typename\"" } :=
  ⟨by decide,
    ((C7_AppendOutput_layout ((TBufferJSON.new "%e").PushStack 2) "\x7b" "\"_typename\""
      (by decide)).1).trans (by decide)⟩

/-- C9: finalising a member frame that is not yet finalised, not a base class,
not started as an object, of generic category (not a string, not a dynamic
array, not `TObject`, not a `TArray`) and without buffered values appends a
comma, the line break and indentation of the compact level, the quoted member
name, the field separator and the pending value, or `null` when the pending
value is empty; with the separator of levels 0 to 2 that is
`"<name>" : null`. The frame is marked as finalised and the pending value is
cleared. -/
theorem C9_generic_member_field (K : EReadWrite) (b : TBufferJSON) (stack : TJSONStackObj)
    (rest : List TJSONStackObj) (elem : TStreamerElement)
    (hstack : b.fStack = stack :: rest) (helem : stack.fElem = some elem)
    (hpost : stack.fIsPostProcessed = false) (hobj : stack.fIsObjStarted = false)
    (hbase : stack.fIsBaseClass = false) (hvalues : stack.fValues = [])
    (hstr : elem.fType ≠ K.kTString)
    (hoff : ¬ (K.kOffsetP < elem.fType ∧ elem.fType < K.kOffsetP + 20))
    (hobjT : elem.fType ≠ K.kTObject) (hname : elem.fTypeName ≠ "TObject")
    (harr : startsWithTArray elem.fTypeName = false) :
    b.PerformPostProcessing K none =
      some { b with
        fStack := { stack with fIsPostProcessed := true } :: rest
        fValue := ""
        fOutBuffer := b.fOutBuffer ++ "," ++ lineBreak b.fCompact ++ indent b.fCompact b.fStack ++
          "\"" ++ elem.fName ++ "\"" ++ b.fSemicolon ++
          (if b.fValue = "" then "null" else b.fValue) } ∧
    (b.fSemicolon = " : " → b.fValue = "" →
      (b.PerformPostProcessing K none).map (fun r => r.fOutBuffer) =
        some (b.fOutBuffer ++ "," ++ lineBreak b.fCompact ++ indent b.fCompact b.fStack ++
          "\"" ++ elem.fName ++ "\" : null")) := by
  have hoff' : (decide (K.kOffsetP < elem.fType) && decide (elem.fType < K.kOffsetP + 20)) = false := by
    simpa using hoff
  have main : b.PerformPostProcessing K none =
      some { b with
        fStack := { stack with fIsPostProcessed := true } :: rest
        fValue := ""
        fOutBuffer := b.fOutBuffer ++ "," ++ lineBreak b.fCompact ++ indent b.fCompact b.fStack ++
          "\"" ++ elem.fName ++ "\"" ++ b.fSemicolon ++
          (if b.fValue = "" then "null" else b.fValue) } := by
    cases b with
    | mk fmt out val map cnt stk chain compact semi sep =>
      simp only at hstack
      subst hstack
      by_cases hv : val = ""
      · subst hv
        simp +decide [PerformPostProcessing, fieldPrefix, reformat, helem, hpost, hobj, hbase, hvalues, hstr, hoff', hobjT,
          hname, harr, setTop, emitValue, Stack, AppendOutput_eq, appended, indent,
          String.append_assoc]
      · have hlen : ¬ val.length = 0 := fun h => hv ((length_eq_zero_iff val).mp h)
        simp +decide [PerformPostProcessing, fieldPrefix, reformat, helem, hpost, hobj, hbase, hvalues, hstr, hoff', hobjT,
          hname, harr, setTop, emitValue, Stack, AppendOutput_eq, appended, indent,
          String.append_assoc, hv, hlen]
  refine ⟨main, ?_⟩
  intro hs hv
  rw [main]
  simp [hs, hv, String.append_assoc]

/-- Witness for C9: a member `fX` without a value at compact level 0. -/
theorem C9_generic_member_field_witness :
    (memberBuffer intElem "").fStack = [{ TJSONStackObj.new with fElem := some intElem }] ∧
    ((memberBuffer intElem "").PerformPostProcessing rootEnum none).map (fun r => r.fOutBuffer) =
      some ",\n\"fX\" : null" :=
  ⟨rfl,
    ((C9_generic_member_field rootEnum (memberBuffer intElem "")
      { TJSONStackObj.new with fElem := some intElem } [] intElem rfl rfl rfl rfl rfl rfl
      (by decide) (by decide) (by decide) (by decide) (by decide)).2 rfl rfl).trans (by decide)⟩

@[simp] theorem JsonStartElement_fJsonrMap (b : TBufferJSON) :
    b.JsonStartElement.fJsonrMap = b.fJsonrMap := by
  unfold JsonStartElement
  split
  · rfl
  · split_ifs <;> try rfl
    split <;> simp

@[simp] theorem JsonStartElement_fJsonrCnt (b : TBufferJSON) :
    b.JsonStartElement.fJsonrCnt = b.fJsonrCnt := by
  unfold JsonStartElement
  split
  · rfl
  · split_ifs <;> try rfl
    split <;> simp

theorem JsonStartElement_length (b : TBufferJSON) :
    b.JsonStartElement.fStack.length = b.fStack.length := by
  unfold JsonStartElement
  split
  · rfl
  · rename_i h
    split_ifs <;> try rfl
    · split <;> simp [h]
    · simp [h]

theorem JsonStartElement_nil (b : TBufferJSON) (h : b.fStack = []) : b.JsonStartElement = b := by
  simp [JsonStartElement, h]

theorem objKind_ordinary (b : TBufferJSON) (cl : TClass)
    (harr : ¬ (startsWithTArray cl.fName = true ∧ cl.baseOffsetTArray = 0))
    (hstr : cl.isTStringClass = false) :
    (b.objKind (some cl)).isarray = false ∧ (b.objKind (some cl)).iststring = false := by
  have harr' : (startsWithTArray cl.fName && decide (cl.baseOffsetTArray = 0)) = false := by
    simpa using harr
  constructor
  · simp only [objKind]
    simpa using harr
  · simp [objKind, hstr]

theorem quiet_refl (b : TBufferJSON) : Quiet b b := ⟨rfl, Nat.le_refl _⟩

theorem quiet_trans {a b c : TBufferJSON} (h1 : Quiet a b) (h2 : Quiet b c) : Quiet a c :=
  ⟨h2.1.trans h1.1, Nat.le_trans h1.2 h2.2⟩

theorem quiet_of_eq {b b' : TBufferJSON} (hm : b'.fJsonrMap = b.fJsonrMap)
    (hc : b'.fJsonrCnt = b.fJsonrCnt) : Quiet b b' := ⟨hm, Nat.le_of_eq hc.symm⟩

theorem quiet_AppendOutput (b : TBufferJSON) (l0 l1 : Option String) :
    Quiet b (b.AppendOutput l0 l1) := quiet_of_eq (by simp) (by simp)

theorem quiet_PushStack (b : TBufferJSON) (n : Int) : Quiet b (b.PushStack n) :=
  quiet_of_eq rfl rfl

theorem quiet_PopStack (b : TBufferJSON) : Quiet b b.PopStack := by
  unfold PopStack
  split <;> exact quiet_of_eq rfl rfl

theorem quiet_setTop (b : TBufferJSON) (s : TJSONStackObj) : Quiet b (b.setTop s) :=
  quiet_of_eq rfl rfl

theorem quiet_JsonStartElement (b : TBufferJSON) : Quiet b b.JsonStartElement :=
  quiet_of_eq (by simp) (by simp)

@[simp] theorem appendElems_fJsonrMap (vs : List String) : ∀ (b : TBufferJSON) (n : Nat),
    (appendElems b n vs).fJsonrMap = b.fJsonrMap := by
  induction vs with
  | nil => intro b n; rfl
  | cons v vs ih => intro b n; simp [appendElems, ih]

@[simp] theorem appendElems_fJsonrCnt (vs : List String) : ∀ (b : TBufferJSON) (n : Nat),
    (appendElems b n vs).fJsonrCnt = b.fJsonrCnt := by
  induction vs with
  | nil => intro b n; rfl
  | cons v vs ih => intro b n; simp [appendElems, ih]

@[simp] theorem appendElems_fStack (vs : List String) : ∀ (b : TBufferJSON) (n : Nat),
    (appendElems b n vs).fStack = b.fStack := by
  induction vs with
  | nil => intro b n; rfl
  | cons v vs ih => intro b n; simp [appendElems, ih]

@[simp] theorem appendElems_fValue (vs : List String) : ∀ (b : TBufferJSON) (n : Nat),
    (appendElems b n vs).fValue = b.fValue := by
  induction vs with
  | nil => intro b n; rfl
  | cons v vs ih => intro b n; simp [appendElems, ih]

@[simp] theorem emitValue_fJsonrMap (b : TBufferJSON) (values : List String) :
    (b.emitValue values).fJsonrMap = b.fJsonrMap := by
  unfold emitValue
  simp only []
  split_ifs <;> simp

theorem emitValue_fJsonrCnt (b : TBufferJSON) (values : List String) :
    (b.emitValue values).fJsonrCnt = b.fJsonrCnt + (if values.length > 0 then 1 else 0) := by
  unfold emitValue
  simp only []
  split_ifs <;> simp

@[simp] theorem emitValue_fStack (b : TBufferJSON) (values : List String) :
    (b.emitValue values).fStack = b.fStack := by
  unfold emitValue
  simp only []
  split_ifs <;> simp

theorem quiet_emitValue (b : TBufferJSON) (values : List String) :
    Quiet b (b.emitValue values) :=
  ⟨by simp, by rw [emitValue_fJsonrCnt]; omega⟩

@[simp] theorem setTop_fJsonrMap (b : TBufferJSON) (s : TJSONStackObj) :
    (b.setTop s).fJsonrMap = b.fJsonrMap := rfl

@[simp] theorem setTop_fJsonrCnt (b : TBufferJSON) (s : TJSONStackObj) :
    (b.setTop s).fJsonrCnt = b.fJsonrCnt := rfl

@[simp] theorem PushStack_fJsonrMap (b : TBufferJSON) (n : Int) :
    (b.PushStack n).fJsonrMap = b.fJsonrMap := rfl

@[simp] theorem PushStack_fJsonrCnt (b : TBufferJSON) (n : Int) :
    (b.PushStack n).fJsonrCnt = b.fJsonrCnt := rfl

@[simp] theorem PopStack_fJsonrMap (b : TBufferJSON) : b.PopStack.fJsonrMap = b.fJsonrMap := by
  unfold PopStack; split <;> rfl

@[simp] theorem PopStack_fJsonrCnt (b : TBufferJSON) : b.PopStack.fJsonrCnt = b.fJsonrCnt := by
  unfold PopStack; split <;> rfl

@[simp] theorem fieldPrefix_fJsonrMap (b : TBufferJSON) (name : String) :
    (b.fieldPrefix name).fJsonrMap = b.fJsonrMap := by simp [fieldPrefix]

@[simp] theorem fieldPrefix_fJsonrCnt (b : TBufferJSON) (name : String) :
    (b.fieldPrefix name).fJsonrCnt = b.fJsonrCnt := by simp [fieldPrefix]

@[simp] theorem reformat_fJsonrMap (b : TBufferJSON) (stack : TJSONStackObj)
    (s o t a : Bool) : (b.reformat stack s o t a).fJsonrMap = b.fJsonrMap := by
  unfold reformat
  simp only []
  split_ifs <;> (try split) <;> simp

@[simp] theorem reformat_fJsonrCnt (b : TBufferJSON) (stack : TJSONStackObj)
    (s o t a : Bool) : (b.reformat stack s o t a).fJsonrCnt = b.fJsonrCnt := by
  unfold reformat
  simp only []
  split_ifs <;> (try split) <;> simp

theorem quiet_PerformPostProcessing (K : EReadWrite) (b b' : TBufferJSON)
    (elem : Option TStreamerElement) (h : b.PerformPostProcessing K elem = some b') :
    Quiet b b' := by
  unfold PerformPostProcessing at h
  split at h
  · simp at h
  · split at h
    · cases h; exact quiet_refl b
    · split at h
      · cases h; exact quiet_refl b
      · simp only [] at h
        split_ifs at h <;> injection h with h <;> subst h <;> refine ⟨?_, ?_⟩ <;>
          (try rw [emitValue_fJsonrCnt]) <;> (try split_ifs) <;> simp

theorem quiet_WorkWithClass (K : EReadWrite) (b : TBufferJSON) (sinfo : Option TStreamerInfo)
    (cl : Option TClass) : Quiet b (b.WorkWithClass K sinfo cl) := by
  unfold WorkWithClass
  simp only []
  split
  · exact quiet_of_eq rfl rfl
  · split
    · split <;> (refine ⟨?_, ?_⟩ <;> simp)
    · split <;> (refine ⟨?_, ?_⟩ <;> simp)

theorem quiet_map_PopStack {b b' : TBufferJSON} {r : Option TBufferJSON}
    (hr : ∀ x, r = some x → Quiet b x) (h : r.map PopStack = some b') : Quiet b b' := by
  cases r with
  | none => simp at h
  | some x =>
    simp at h
    subst h
    exact quiet_trans (hr x rfl) (quiet_PopStack x)

theorem quiet_DecrementLevel (K : EReadWrite) (b b' : TBufferJSON) (info : Option TStreamerInfo)
    (h : b.DecrementLevel K info = some b') : Quiet b b' := by
  unfold DecrementLevel at h
  simp only [] at h
  split at h
  · simp at h
  · split at h
    · simp at h
    · rename_i b1 hb1
      have hq : Quiet b b1 := by
        split_ifs at hb1
        · refine quiet_trans (quiet_of_eq rfl rfl : Quiet b { b with fExpectedChain := false })
            (quiet_map_PopStack ?_ hb1)
          exact fun x hx => quiet_PerformPostProcessing K _ x none hx
        · injection hb1 with hb1
          subst hb1
          exact quiet_of_eq rfl rfl
      split at h
      · simp at h
      · injection h with h
        subst h
        exact quiet_trans hq (quiet_PopStack b1)

theorem quiet_WorkWithElement (K : EReadWrite) (b b' : TBufferJSON)
    (elem : Option TStreamerElement) (comp_type : Int)
    (h : b.WorkWithElement K elem comp_type = some b') : Quiet b b' := by
  unfold WorkWithElement at h
  simp only [] at h
  split at h
  · injection h with h; subst h; exact quiet_of_eq rfl rfl
  · split at h
    · simp at h
    · rename_i b1 hb1
      have hq : Quiet b b1 := by
        split_ifs at hb1
        · refine quiet_trans (quiet_of_eq rfl rfl : Quiet b { b with fExpectedChain := false })
            (quiet_map_PopStack ?_ hb1)
          exact fun x hx => quiet_PerformPostProcessing K _ x none hx
        · injection hb1 with hb1
          subst hb1
          exact quiet_of_eq rfl rfl
      refine quiet_trans hq ?_
      split at h
      · injection h with h; subst h; exact quiet_of_eq rfl rfl
      · split_ifs at h
        · injection h with h; subst h; exact quiet_of_eq rfl rfl
        · split at h
          · simp at h
          · split at h
            · injection h with h; subst h; exact quiet_of_eq rfl rfl
            · split at h <;> (injection h with h; subst h; exact quiet_of_eq rfl rfl)

theorem quiet_TJSONPushValue (b b' : TBufferJSON) (h : b.TJSONPushValue = some b') :
    Quiet b b' := by
  unfold TJSONPushValue at h
  split_ifs at h
  · split at h
    · simp at h
    · injection h with h; subst h; exact quiet_of_eq rfl rfl
  · injection h with h; subst h; exact quiet_refl b

theorem quiet_JsonWriteBasic (b : TBufferJSON) (v : BasicValue) : Quiet b (b.JsonWriteBasic v) :=
  quiet_of_eq rfl rfl

theorem quiet_of_map {b b' : TBufferJSON} {r : Option TBufferJSON} {f : TBufferJSON → TBufferJSON}
    (hr : ∀ x, r = some x → Quiet b x) (hf : ∀ x, Quiet x (f x)) (h : r.map f = some b') :
    Quiet b b' := by
  cases r with
  | none => simp at h
  | some x =>
    simp at h
    subst h
    exact quiet_trans (hr x rfl) (hf x)

theorem quiet_of_bind {b b' : TBufferJSON} {r : Option TBufferJSON}
    {f : TBufferJSON → Option TBufferJSON}
    (hr : ∀ x, r = some x → Quiet b x) (hf : ∀ x y, f x = some y → Quiet x y)
    (h : r.bind f = some b') : Quiet b b' := by
  cases r with
  | none => simp at h
  | some x =>
    simp at h
    exact quiet_trans (hr x rfl) (hf x b' h)

theorem quiet_WriteBasic (b b' : TBufferJSON) (v : BasicValue) (h : b.WriteBasic v = some b') :
    Quiet b b' := by
  refine quiet_of_map ?_ ?_ h
  · exact fun x hx => quiet_TJSONPushValue b x hx
  · exact fun x => quiet_JsonWriteBasic x v

theorem quiet_WriteCharP (b b' : TBufferJSON) (c : String) (h : b.WriteCharP c = some b') :
    Quiet b b' := by
  refine quiet_of_map ?_ ?_ h
  · exact fun x hx => quiet_TJSONPushValue b x hx
  · exact fun _ => quiet_of_eq rfl rfl

theorem quiet_WriteTString (b b' : TBufferJSON) (s : String) (h : b.WriteTString s = some b') :
    Quiet b b' := by
  refine quiet_of_map ?_ ?_ h
  · exact fun x hx => quiet_TJSONPushValue b x hx
  · exact fun _ => quiet_of_eq rfl rfl

theorem quiet_arrayContentLoop (vname : List BasicValue) : ∀ (count indx : Nat)
    (b b' : TBufferJSON), arrayContentLoop vname indx count b = some b' → Quiet b b' := by
  intro count
  induction count with
  | zero =>
    intro indx b b' h
    simp [arrayContentLoop] at h
    subst h
    exact quiet_refl b
  | succ n ih =>
    intro indx b b' h
    simp only [arrayContentLoop] at h
    split at h
    · simp at h
    · refine quiet_trans ?_ (ih _ _ _ h)
      split_ifs <;> exact quiet_of_eq rfl rfl

theorem quiet_TJSONWriteArrayContent (b b' : TBufferJSON) (vname : List BasicValue)
    (arrsize : Int) (h : b.TJSONWriteArrayContent vname arrsize = some b') : Quiet b b' := by
  unfold TJSONWriteArrayContent at h
  refine quiet_trans (quiet_of_eq rfl rfl : Quiet b { b with fValue := b.fValue ++ "[" }) ?_
  refine quiet_of_map ?_ ?_ h
  · exact fun x hx => quiet_arrayContentLoop vname _ _ _ x hx
  · exact fun _ => quiet_of_eq rfl rfl

theorem quiet_WriteArray (b b' : TBufferJSON) (vname : List BasicValue) (n : Int)
    (h : b.WriteArray vname n = some b') : Quiet b b' := by
  refine quiet_of_bind ?_ ?_ h
  · exact fun x hx => quiet_TJSONPushValue b x hx
  · exact fun x y hxy => quiet_TJSONWriteArrayContent x y vname n hxy

theorem quiet_chainLoop (K : EReadWrite) (vname : List BasicValue) (n : Int) :
    ∀ (elems : List TStreamerElement) (index : Int) (b b' : TBufferJSON),
      chainLoop K vname n elems index b = some b' → Quiet b b' := by
  intro elems
  induction elems with
  | nil =>
    intro index b b' h
    simp only [chainLoop] at h
    split_ifs at h
    injection h with h
    subst h
    exact quiet_refl b
  | cons elem rest ih =>
    intro index b b' h
    simp only [chainLoop] at h
    split_ifs at h
    · split at h
      · simp at h
      · refine quiet_of_bind ?_ ?_ h
        · exact fun x hx => quiet_trans (quiet_JsonWriteBasic b _)
            (quiet_PerformPostProcessing K _ x _ hx)
        · exact fun x y hxy => ih _ x y hxy
    · refine quiet_of_bind ?_ ?_ h
      · intro x hx
        refine quiet_of_bind ?_ ?_ hx
        · exact fun y hy => quiet_TJSONWriteArrayContent b y _ _ hy
        · exact fun y z hyz => quiet_PerformPostProcessing K y z _ hyz
      · exact fun x y hxy => ih _ x y hxy
    · injection h with h
      subst h
      exact quiet_refl b

theorem quiet_WriteFastArray (K : EReadWrite) (b b' : TBufferJSON) (vname : List BasicValue)
    (n : Int) (h : b.WriteFastArray K vname n = some b') : Quiet b b' := by
  unfold WriteFastArray at h
  refine quiet_of_bind (fun x hx => quiet_TJSONPushValue b x hx) ?_ h
  intro x y hxy
  simp only [] at hxy
  split_ifs at hxy
  · injection hxy with hxy; subst hxy; exact quiet_of_eq rfl rfl
  · split at hxy
    · simp at hxy
    · split_ifs at hxy
      all_goals (repeat' (split at hxy))
      all_goals first
        | (simp at hxy; done)
        | exact quiet_TJSONWriteArrayContent _ _ _ _ hxy
        | (refine quiet_trans ?_ (quiet_TJSONWriteArrayContent _ _ _ _ hxy)
           exact quiet_of_eq rfl rfl)
        | (refine quiet_trans ?_ (quiet_chainLoop K vname n _ _ _ _ hxy)
           exact quiet_of_eq rfl rfl)

theorem quiet_WriteFastArrayChar (K : EReadWrite) (b b' : TBufferJSON) (c : List Int)
    (n : Int) (h : b.WriteFastArrayChar K c n = some b') : Quiet b b' := by
  unfold WriteFastArrayChar at h
  simp only [] at h
  split_ifs at h
  · exact quiet_WriteFastArray K b b' _ n h
  all_goals
    refine quiet_of_map ?_ ?_ h
    · exact fun x hx => quiet_TJSONPushValue b x hx
    · exact fun _ => quiet_of_eq rfl rfl

theorem quiet_JsonWriteObjectClose (b b' : TBufferJSON) (k : ObjKind)
    (h : b.JsonWriteObjectClose k = some b') : Quiet b b' := by
  unfold JsonWriteObjectClose at h
  split at h
  · simp at h
  · injection h with h
    subst h
    refine ⟨?_, ?_⟩ <;> (simp only []; split_ifs <;> simp)

theorem quiet_JsonStreamCollectionOpen (b : TBufferJSON) (colName : String) :
    Quiet b (b.JsonStreamCollectionOpen colName) :=
  quiet_of_eq (by simp [JsonStreamCollectionOpen]) (by simp [JsonStreamCollectionOpen])

theorem quiet_JsonStreamCollectionClose (b : TBufferJSON) (islist : Bool) (sopt : String) :
    Quiet b (b.JsonStreamCollectionClose islist sopt) := by
  unfold JsonStreamCollectionClose
  simp only []
  split_ifs <;> exact quiet_of_eq (by simp) (by simp)

/-! ### The reference table along a run -/

theorem mapFind_cons (m : List (Nat × Nat)) (k v obj : Nat) :
    mapFind ((k, v) :: m) obj = if obj = k then some v else mapFind m obj := by
  simp only [mapFind, List.lookup_cons]
  by_cases h : obj = k
  · simp [h]
  · have : (obj == k) = false := by simpa using h
    simp [this, h]

theorem mapFind_none_iff (m : List (Nat × Nat)) (obj : Nat) :
    mapFind m obj = none ↔ ∀ p ∈ m, p.1 ≠ obj := by
  induction m with
  | nil => simp [mapFind]
  | cons p m ih =>
    rcases p with ⟨k, v⟩
    rw [mapFind_cons]
    by_cases h : obj = k
    · subst h
      simp
    · simp only [h, if_false, ih, List.mem_cons, forall_eq_or_imp, true_and, ne_eq,
        iff_and_self]
      intro _ hk
      exact h hk.symm

theorem mapFind_some_mem (m : List (Nat × Nat)) (obj id : Nat) (h : mapFind m obj = some id) :
    (obj, id) ∈ m := by
  induction m with
  | nil => simp [mapFind] at h
  | cons p m ih =>
    rcases p with ⟨k, v⟩
    rw [mapFind_cons] at h
    by_cases hk : obj = k
    · subst hk
      simp at h
      subst h
      exact List.mem_cons_self _ _
    · simp only [hk, if_false] at h
      exact List.mem_cons_of_mem _ (ih h)

theorem mapFind_append (new m : List (Nat × Nat)) (obj : Nat) :
    mapFind (new ++ m) obj = (mapFind new obj).orElse (fun _ => mapFind m obj) := by
  induction new with
  | nil => simp [mapFind]
  | cons p new ih =>
    rcases p with ⟨k, v⟩
    rw [List.cons_append, mapFind_cons, mapFind_cons]
    by_cases hk : obj = k
    · simp [hk]
    · simp [hk, ih]

theorem mapSet_of_absent (m : List (Nat × Nat)) (obj id : Nat) (h : mapFind m obj = none) :
    mapSet m obj id = (obj, id) :: m := by
  unfold mapSet
  congr 1
  rw [List.filter_eq_self]
  intro p hp
  have := (mapFind_none_iff m obj).mp h p hp
  simpa using this

theorem TableOk.mono {m : List (Nat × Nat)} {c c' : Nat} (h : TableOk m c) (hc : c ≤ c') :
    TableOk m c' :=
  ⟨h.1, h.2.1, fun p hp => Nat.lt_of_lt_of_le (h.2.2 p hp) hc⟩

theorem step_of_quiet {b b' : TBufferJSON} (h : Quiet b b') : Step b b' := by
  refine ⟨h.2, ⟨[], by simp [h.1], by simp⟩, ?_⟩
  intro hok
  rw [h.1]
  exact hok.mono h.2

theorem step_refl (b : TBufferJSON) : Step b b := step_of_quiet (quiet_refl b)

theorem step_trans {a b c : TBufferJSON} (h1 : Step a b) (h2 : Step b c) : Step a c := by
  obtain ⟨hc1, ⟨n1, hm1, hn1⟩, hok1⟩ := h1
  obtain ⟨hc2, ⟨n2, hm2, hn2⟩, hok2⟩ := h2
  refine ⟨Nat.le_trans hc1 hc2, ⟨n2 ++ n1, by rw [hm2, hm1, List.append_assoc], ?_⟩,
    fun h => hok2 (hok1 h)⟩
  intro p hp
  rcases List.mem_append.mp hp with hp | hp
  · obtain ⟨hle, hnone⟩ := hn2 p hp
    refine ⟨Nat.le_trans hc1 hle, ?_⟩
    rw [hm1, mapFind_append] at hnone
    cases hnew : mapFind n1 p.1 with
    | none => simpa [hnew] using hnone
    | some v => simp [hnew] at hnone
  · exact hn1 p hp

theorem step_insert (b b' : TBufferJSON) (obj : Nat) (h : mapFind b.fJsonrMap obj = none)
    (hm : b'.fJsonrMap = mapSet b.fJsonrMap obj b.fJsonrCnt)
    (hc : b'.fJsonrCnt = b.fJsonrCnt + 1) : Step b b' := by
  rw [mapSet_of_absent _ _ _ h] at hm
  refine ⟨by omega, ⟨[(obj, b.fJsonrCnt)], by simp [hm], ?_⟩, ?_⟩
  · intro p hp
    simp at hp
    subst hp
    exact ⟨Nat.le_refl _, h⟩
  · intro hok
    obtain ⟨hnd, hpw, hlt⟩ := hok
    rw [hm, hc]
    refine ⟨?_, ?_, ?_⟩
    · simp only [List.map_cons, List.nodup_cons]
      refine ⟨?_, hnd⟩
      intro hmem
      obtain ⟨p, hp, hpe⟩ := List.mem_map.mp hmem
      exact (mapFind_none_iff _ _).mp h p hp hpe
    · simp only [List.map_cons, List.pairwise_cons]
      refine ⟨?_, hpw⟩
      intro y hy
      obtain ⟨p, hp, hpe⟩ := List.mem_map.mp hy
      subst hpe
      exact hlt p hp
    · intro p hp
      rcases List.mem_cons.mp hp with hp | hp
      · subst hp; simp
      · exact Nat.lt_succ_of_lt (hlt p hp)

theorem step_JsonWriteObjectOpen (b : TBufferJSON) (obj : Option Nat) (cl : Option TClass) :
    ∀ r, (b.JsonWriteObjectOpen obj cl = .done r ∨ b.JsonWriteObjectOpen obj cl = .opened r) →
      Step b r := by
  intro r hr
  unfold JsonWriteObjectOpen at hr
  simp only [] at hr
  have hq : Quiet b (if (!(b.objKind cl).isarray) = true then b.JsonStartElement else b) := by
    split_ifs
    · exact quiet_JsonStartElement b
    · exact quiet_refl b
  generalize (if (!(b.objKind cl).isarray) = true then b.JsonStartElement else b) = b1 at hr hq
  refine step_trans (step_of_quiet hq) ?_
  split at hr
  · split at hr
    · -- early return through the reference
      rename_i r0 hpushed
      have h3 : Step b1 r0 := by
        split_ifs at hpushed
        · split at hpushed
          · injection hpushed with hpushed
            subst hpushed
            exact step_of_quiet (quiet_AppendOutput _ _ _)
          · cases hpushed
      rcases hr with hr | hr
      · injection hr with hr; subst hr; exact h3
      · cases hr
    · rename_i b3 hpushed
      have h3 : Step b1 b3 := by
        split_ifs at hpushed
        · split at hpushed
          · cases hpushed
          · rename_i hnone
            injection hpushed with hpushed
            subst hpushed
            exact step_insert _ _ _ hnone (by simp) (by simp)
        · injection hpushed with hpushed
          subst hpushed
          exact step_of_quiet (quiet_PushStack _ _)
      refine step_trans h3 ?_
      split at hr
      · rcases hr with hr | hr
        · cases hr
        · injection hr with hr; subst hr; exact step_refl _
      · rcases hr with hr | hr
        · cases hr
        · injection hr with hr; subst hr; exact step_of_quiet (quiet_setTop _ _)
  · rcases hr with hr | hr
    · injection hr with hr; subst hr; exact step_of_quiet (quiet_AppendOutput _ _ _)
    · cases hr

theorem step_of_bind {b b' : TBufferJSON} {r : Option TBufferJSON}
    {f : TBufferJSON → Option TBufferJSON}
    (hr : ∀ x, r = some x → Step b x) (hf : ∀ x y, f x = some y → Step x y)
    (h : r.bind f = some b') : Step b b' := by
  cases r with
  | none => simp at h
  | some x =>
    simp at h
    exact step_trans (hr x rfl) (hf x b' h)

theorem step_of_map {α β : Type} (g : α → TBufferJSON) (g' : β → TBufferJSON)
    {b : TBufferJSON} {r : Option α} {f : α → β} {y : β}
    (hr : ∀ x, r = some x → Step b (g x)) (hf : ∀ x, g' (f x) = g x)
    (h : r.map f = some y) : Step b (g' y) := by
  cases r with
  | none => simp at h
  | some x =>
    simp at h
    subst h
    rw [hf]
    exact hr x rfl

mutual
theorem step_JsonWriteObject (K : EReadWrite) : ∀ (content : Content) (b : TBufferJSON)
    (obj : Option Nat) (cl : Option TClass) (b' : TBufferJSON),
    JsonWriteObject K b obj cl content = some b' → Step b b'
  | .mk streamer colName colIsList colItems, b, obj, cl, b', h => by
    simp only [JsonWriteObject] at h
    split at h
    · rename_i r hopen
      injection h with h
      subst h
      exact step_JsonWriteObjectOpen b obj cl _ (Or.inl hopen)
    · rename_i b1 hopen
      refine step_trans (step_JsonWriteObjectOpen b obj cl _ (Or.inr hopen)) ?_
      refine step_of_bind ?_ ?_ h
      · intro x hx
        split_ifs at hx
        · cases hs : streamItems K (b1.JsonStreamCollectionOpen colName) colIsList "[" true colItems with
          | none => simp [hs] at hx
          | some r =>
            simp [hs] at hx
            subst hx
            exact step_trans (step_of_quiet (quiet_JsonStreamCollectionOpen _ _))
              (step_trans (step_streamItems K colItems _ _ _ _ _ hs)
                (step_of_quiet (quiet_JsonStreamCollectionClose _ _ _)))
        · exact step_runCalls K streamer _ _ hx
      · exact fun x y hxy => step_of_quiet (quiet_JsonWriteObjectClose x y _ hxy)
theorem step_streamItems (K : EReadWrite) : ∀ (items : List Item) (b : TBufferJSON)
    (islist : Bool) (sopt : String) (first : Bool) (r : TBufferJSON × String),
    streamItems K b islist sopt first items = some r → Step b r.1
  | [], b, islist, sopt, first, r, h => by
    simp only [streamItems] at h
    injection h with h
    subst h
    exact step_refl b
  | .mk option obj isA content :: rest, b, islist, sopt, first, r, h => by
    simp only [streamItems] at h
    have hsep : Step b (if (!first) = true then b.AppendOutput (some b.fArraySepar) none else b) := by
      split_ifs
      · exact step_of_quiet (quiet_AppendOutput _ _ _)
      · exact step_refl b
    generalize (if (!first) = true then b.AppendOutput (some b.fArraySepar) none else b) = b1
      at h hsep
    split at h
    · simp at h
    · rename_i b2 hb2
      exact step_trans (step_trans hsep (step_JsonWriteObject K content _ _ _ _ hb2))
        (step_streamItems K rest _ _ _ _ _ h)
theorem step_loopObjs (K : EReadWrite) : ∀ (items : List Item) (b : TBufferJSON)
    (cl : Option TClass) (n : Int) (j : Nat) (b' : TBufferJSON),
    loopObjs K b cl n j items = some b' → Step b b'
  | [], b, cl, n, j, b', h => by
    simp only [loopObjs] at h
    split_ifs at h
    injection h with h
    subst h
    exact step_refl b
  | .mk option obj isA content :: rest, b, cl, n, j, b', h => by
    simp only [loopObjs] at h
    have hsep : Step b (if j > 0 then b.AppendOutput (some b.fArraySepar) none else b) := by
      split_ifs
      · exact step_of_quiet (quiet_AppendOutput _ _ _)
      · exact step_refl b
    generalize (if j > 0 then b.AppendOutput (some b.fArraySepar) none else b) = b1 at h hsep
    split_ifs at h
    · split at h
      · simp at h
      · rename_i b2 hb2
        exact step_trans (step_trans hsep (step_JsonWriteObject K content _ _ _ _ hb2))
          (step_loopObjs K rest _ _ _ _ _ h)
    · injection h with h
      subst h
      exact step_refl b
theorem step_loopSlots (K : EReadWrite) : ∀ (slots : List Slot) (b : TBufferJSON)
    (cl : Option TClass) (n : Int) (isPreAlloc : Bool) (j : Nat) (res : Int)
    (r : TBufferJSON × Int × List (Option Nat)),
    loopSlots K b cl n isPreAlloc j res slots = some r → Step b r.1
  | [], b, cl, n, isPreAlloc, j, res, r, h => by
    simp only [loopSlots] at h
    split_ifs at h
    injection h with h
    subst h
    exact step_refl b
  | .mk ptr clActual created content :: rest, b, cl, n, isPreAlloc, j, res, r, h => by
    simp only [loopSlots] at h
    have hsep : Step b (if j > 0 then b.AppendOutput (some b.fArraySepar) none else b) := by
      split_ifs
      · exact step_of_quiet (quiet_AppendOutput _ _ _)
      · exact step_refl b
    generalize (if j > 0 then b.AppendOutput (some b.fArraySepar) none else b) = b1 at h hsep
    split_ifs at h
    · split at h
      · refine step_of_map Prod.fst Prod.fst ?_ ?_ h
        swap
        · exact fun _ => rfl
        exact fun x hx => step_trans hsep (step_loopSlots K rest _ _ _ _ _ _ _ hx)
      · split at h
        · simp at h
        · rename_i b2 hb2
          refine step_of_map Prod.fst Prod.fst ?_ ?_ h
          swap
          · exact fun _ => rfl
          exact fun x hx => step_trans hsep (step_trans
            (step_JsonWriteObject K content _ _ _ _ hb2) (step_loopSlots K rest _ _ _ _ _ _ _ hx))
    · split at h
      · simp at h
      · split at h
        · simp at h
        · rename_i b2 hb2
          refine step_of_map Prod.fst Prod.fst ?_ ?_ h
          swap
          · exact fun _ => rfl
          exact fun x hx => step_trans hsep (step_trans
            (step_JsonWriteObject K content _ _ _ _ hb2) (step_loopSlots K rest _ _ _ _ _ _ _ hx))
    · injection h with h
      subst h
      exact step_refl b
theorem step_runCall (K : EReadWrite) : ∀ (c : Call) (b b' : TBufferJSON),
    runCall K b c = some b' → Step b b'
  | .IncrementLevel info, b, b', h => by
    simp only [runCall] at h
    injection h with h
    subst h
    exact step_of_quiet (quiet_WorkWithClass K b info none)
  | .DecrementLevel info, b, b', h => by
    simp only [runCall] at h
    exact step_of_quiet (quiet_DecrementLevel K b b' info h)
  | .SetStreamerElementNumber elem comp_type, b, b', h => by
    simp only [runCall] at h
    exact step_of_quiet (quiet_WorkWithElement K b b' elem comp_type h)
  | .ClassBegin cl, b, b', h => by
    simp only [runCall] at h
    injection h with h
    subst h
    exact step_of_quiet (quiet_WorkWithClass K b none cl)
  | .ClassEnd, b, b', h => by
    simp only [runCall] at h
    exact step_of_quiet (quiet_DecrementLevel K b b' none h)
  | .WriteBasic value, b, b', h => by
    simp only [runCall] at h
    exact step_of_quiet (quiet_WriteBasic b b' value h)
  | .WriteCharP c, b, b', h => by
    simp only [runCall] at h
    exact step_of_quiet (quiet_WriteCharP b b' c h)
  | .WriteTString s, b, b', h => by
    simp only [runCall] at h
    exact step_of_quiet (quiet_WriteTString b b' s h)
  | .WriteArray vname n, b, b', h => by
    simp only [runCall] at h
    exact step_of_quiet (quiet_WriteArray b b' vname n h)
  | .WriteFastArray vname n, b, b', h => by
    simp only [runCall] at h
    exact step_of_quiet (quiet_WriteFastArray K b b' vname n h)
  | .WriteFastArrayChar c n, b, b', h => by
    simp only [runCall] at h
    exact step_of_quiet (quiet_WriteFastArrayChar K b b' c n h)
  | .PerformPostProcessing elem, b, b', h => by
    simp only [runCall] at h
    exact step_of_quiet (quiet_PerformPostProcessing K b b' elem h)
  | .JsonWriteObject obj cl content, b, b', h => by
    simp only [runCall] at h
    exact step_JsonWriteObject K content b obj cl b' h
  | .WriteObjectAny obj ptrClass clActual content, b, b', h => by
    simp only [runCall] at h
    split at h
    · injection h with h
      subst h
      exact step_refl b
    · exact step_JsonWriteObject K content b _ _ b' h
  | .WriteFastArrayObj start cl n (some calls), b, b', h => by
    simp only [runCall] at h
    exact step_trans (step_of_quiet (quiet_JsonStartElement b)) (step_runCalls K calls _ _ h)
  | .WriteFastArrayObj start cl n none, b, b', h => by
    simp only [runCall] at h
    split at h
    · simp at h
    · generalize (if n = 0 then (1 : Int) else n) = n1 at h
      have hopen : Step b (if n1 > 1 then b.JsonStartElement.AppendOutput (some "[") none
          else b) := by
        split_ifs
        · exact step_trans (step_of_quiet (quiet_JsonStartElement b))
            (step_of_quiet (quiet_AppendOutput _ _ _))
        · exact step_refl b
      generalize (if n1 > 1 then b.JsonStartElement.AppendOutput (some "[") none else b) = b1
        at h hopen
      refine step_of_bind ?_ ?_ (Option.map_eq_bind ▸ h)
      · exact fun x hx => step_trans hopen (step_loopObjs K start _ _ _ _ _ hx)
      · intro x y hxy
        injection hxy with hxy
        subst hxy
        split_ifs
        · exact step_of_quiet (quiet_AppendOutput _ _ _)
        · exact step_refl _
  | .WriteFastArrayPtr start cl n isPreAlloc (some calls), b, b', h => by
    simp only [runCall] at h
    exact step_trans (step_of_quiet (quiet_JsonStartElement b)) (step_runCalls K calls _ _ h)
  | .WriteFastArrayPtr start cl n isPreAlloc none, b, b', h => by
    simp only [runCall] at h
    have hopen : Step b (if n > 1 then b.JsonStartElement.AppendOutput (some "[") none
        else b) := by
      split_ifs
      · exact step_trans (step_of_quiet (quiet_JsonStartElement b))
          (step_of_quiet (quiet_AppendOutput _ _ _))
      · exact step_refl b
    generalize (if n > 1 then b.JsonStartElement.AppendOutput (some "[") none else b) = b1
      at h hopen
    cases hl : loopSlots K b1 cl n isPreAlloc 0 0 start with
    | none => simp [hl] at h
    | some r =>
      rw [hl] at h
      simp only [Option.map_some'] at h
      injection h with h
      subst h
      refine step_trans hopen (step_trans (step_loopSlots K start _ _ _ _ _ _ _ hl) ?_)
      split_ifs
      · exact step_of_quiet (quiet_AppendOutput _ _ _)
      · exact step_refl _
theorem step_runCalls (K : EReadWrite) : ∀ (calls : List Call) (b b' : TBufferJSON),
    runCalls K b calls = some b' → Step b b'
  | [], b, b', h => by
    simp only [runCalls] at h
    injection h with h
    subst h
    exact step_refl b
  | c :: cs, b, b', h => by
    simp only [runCalls] at h
    split at h
    · simp at h
    · rename_i b1 hb1
      exact step_trans (step_runCall K c b b1 hb1) (step_runCalls K cs b1 b' h)
end

/-- C4: `JsonWriteObject` on a non-null object whose address is already in the
reference map, for a class that is neither an array class nor `TString`,
only runs `JsonStartElement` and appends the quoted token `"$ref:<id>"` with
the recorded id: the depth of the stack, the reference map and the counter
are as before, whatever lies behind the pointer. When the top frame is an
open member frame, `JsonStartElement` has written the member name and the
field separator, so the token is the value of that member. -/
theorem C4_known_identity_emits_ref (K : EReadWrite) (b : TBufferJSON) (obj id : Nat)
    (cl : TClass) (content : Content)
    (hfound : mapFind b.fJsonrMap obj = some id)
    (harr : ¬ (startsWithTArray cl.fName = true ∧ cl.baseOffsetTArray = 0))
    (hstr : cl.isTStringClass = false) :
    JsonWriteObject K b (some obj) (some cl) content =
      some (b.JsonStartElement.AppendOutput (some ("\"$ref:" ++ toString id ++ "\"")) none) ∧
    (∀ r, JsonWriteObject K b (some obj) (some cl) content = some r →
      r.fOutBuffer = b.JsonStartElement.fOutBuffer ++ "\"$ref:" ++ toString id ++ "\"" ∧
      r.fStack.length = b.fStack.length ∧ r.fJsonrMap = b.fJsonrMap ∧
      r.fJsonrCnt = b.fJsonrCnt ∧ r.fValue = b.JsonStartElement.fValue) ∧
    (∀ top rest elem, b.fStack = top :: rest → top.fElem = some elem →
      top.fIsStreamerInfo = false → top.fIsObjStarted = false → top.fIsBaseClass = false →
      b.JsonStartElement.fOutBuffer =
        b.fOutBuffer ++ "," ++ lineBreak b.fCompact ++ indent b.fCompact b.fStack ++ "\"" ++
          elem.fName ++ "\"" ++ b.fSemicolon) := by
  have hk := objKind_ordinary b cl harr hstr
  have h1 : JsonWriteObject K b (some obj) (some cl) content =
      some (b.JsonStartElement.AppendOutput (some ("\"$ref:" ++ toString id ++ "\"")) none) := by
    cases content with
    | mk streamer colName colIsList colItems =>
      simp only [JsonWriteObject, JsonWriteObjectOpen, hk.1, hk.2]
      simp [hfound]
  refine ⟨h1, ?_, ?_⟩
  · intro r hr
    rw [h1] at hr
    injection hr with hr
    subst hr
    simp [AppendOutput_fOutBuffer, appended_one, JsonStartElement_length, String.append_assoc]
  · intro top rest elem hs he hi ho hb
    cases b with
    | mk fmt out val map cnt stk chain compact semi sep =>
      simp only at hs
      subst hs
      simp +decide [JsonStartElement, TJSONStackObj.IsStreamerElement, he, hi, ho, hb,
        AppendOutput_eq, appended, indent, String.append_assoc]

/-- Witness for C4: after that run, the `Point` at address 2 is written again. -/
theorem C4_known_identity_emits_ref_witness :
    mapFind sharedRun.fJsonrMap 2 = some 1 ∧
    (JsonWriteObject rootEnum sharedRun (some 2) (some pointClass) pointContent).map
        (fun r => (r.fOutBuffer, r.fJsonrMap, r.fJsonrCnt, r.fStack.length)) =
      some (sharedRun.fOutBuffer ++ "\"$ref:1\"", [(2, 1), (1, 0)], 2, 0) := by
  refine ⟨by decide!, ?_⟩
  rw [(C4_known_identity_emits_ref rootEnum sharedRun 2 1 pointClass pointContent (by decide!)
    (by decide!) (by decide!)).1]
  decide!

/-- C1 (amended): serialising an object of class `Point` without members, on a
fresh buffer, returns the object with the type name `JSROOTIO.Point`: on one
line without blanks at compact level 3, and at compact level 0 with a line
break and two blanks before `"_typename"` and a line break before the closing
brace. -/
theorem C1_empty_object_text (K : EReadWrite) (fmt : String) (obj : Nat) (cl : TClass)
    (info : TStreamerInfo) (colName : String) (colIsList : Bool) (colItems : List Item)
    (hname : cl.fName = "Point") (hcol : cl.baseOffsetTCollection ≠ 0) :
    (ConvertToJSON K fmt (some obj) (some cl) 0
        (.mk (ApplySequence (some info) []) colName colIsList colItems)).map (fun r => r.2) =
      some "\x7b\n  \"_typename\" : \"JSROOTIO.Point\"\n\x7d" ∧
    (ConvertToJSON K fmt (some obj) (some cl) 3
        (.mk (ApplySequence (some info) []) colName colIsList colItems)).map (fun r => r.2) =
      some "\x7b\"_typename\":\"JSROOTIO.Point\"\x7d" := by
  have hk : ∀ b : TBufferJSON, b.fStack = [] → b.objKind (some cl) =
      { isarray := false, iscollect := false, iststring := false } := by
    intro b hb
    simp +decide [objKind, hname, hcol, hb]
  constructor
  · simp +decide [ConvertToJSON, JsonWriteAny, JsonWriteObject, JsonWriteObjectOpen, hk, SetCompact,
      TBufferJSON.new, JsonStartElement, mapFind, mapSet, PushStack, Stack, setTop, ApplySequence,
      runCalls, runCall, IncrementLevel, WorkWithClass, DecrementLevel, JsonWriteObjectClose,
      TJSONStackObj.IsStreamerElement, TJSONStackObj.new, PopStack, AppendOutput_eq, appended,
      lineBreak, indent, blanks, hname]
  · simp +decide [ConvertToJSON, JsonWriteAny, JsonWriteObject, JsonWriteObjectOpen, hk, SetCompact,
      TBufferJSON.new, JsonStartElement, mapFind, mapSet, PushStack, Stack, setTop, ApplySequence,
      runCalls, runCall, IncrementLevel, WorkWithClass, DecrementLevel, JsonWriteObjectClose,
      TJSONStackObj.IsStreamerElement, TJSONStackObj.new, PopStack, AppendOutput_eq, appended,
      lineBreak, indent, blanks, hname]

/-- Witness for C1: the class `Point` of the examples, at address 1. -/
theorem C1_empty_object_text_witness :
    pointClass.fName = "Point" ∧
    (ConvertToJSON rootEnum "%e" (some 1) (some pointClass) 0 pointContent).map (fun r => r.2) =
      some "\x7b\n  \"_typename\" : \"JSROOTIO.Point\"\n\x7d" :=
  ⟨rfl, (C1_empty_object_text rootEnum "%e" 1 pointClass pointInfo "" false [] rfl
    (by decide!)).1⟩

/-- Counterexample for C1 as stated: for the class `Point` without members the
returned text is neither `{"_typename" : "Point"}` at compact level 0 nor
`{"_typename":"Point"}` at compact level 3. -/
theorem C1_counterexample :
    (ConvertToJSON rootEnum "%e" (some 1) (some pointClass) 0 pointContent).map (fun r => r.2) ≠
      some "\x7b\"_typename\" : \"Point\"\x7d" ∧
    (ConvertToJSON rootEnum "%e" (some 1) (some pointClass) 3 pointContent).map (fun r => r.2) ≠
      some "\x7b\"_typename\":\"Point\"\x7d" := by
  decide!

theorem TableOk.nil : TableOk [] 0 := by
  refine ⟨by simp, by simp, ?_⟩
  intro p hp
  simp at hp

theorem TableOk.injective {m : List (Nat × Nat)} {c : Nat} (h : TableOk m c) (o1 o2 id : Nat)
    (h1 : mapFind m o1 = some id) (h2 : mapFind m o2 = some id) : o1 = o2 := by
  have hnd : (m.map Prod.snd).Nodup := h.2.1.imp (fun hxy => Nat.ne_of_gt hxy)
  have := List.inj_on_of_nodup_map hnd (mapFind_some_mem m o1 id h1) (mapFind_some_mem m o2 id h2)
    rfl
  exact congrArg Prod.fst this

theorem TableOk.bounded {m : List (Nat × Nat)} {c : Nat} (h : TableOk m c) (o id : Nat)
    (h1 : mapFind m o = some id) : id < c :=
  h.2.2 (o, id) (mapFind_some_mem m o id h1)

theorem Step.stable {b b' : TBufferJSON} (h : Step b b') (o id : Nat)
    (h1 : mapFind b.fJsonrMap o = some id) : mapFind b'.fJsonrMap o = some id := by
  obtain ⟨_, ⟨new, hm, hnew⟩, _⟩ := h
  rw [hm, mapFind_append]
  cases hn : mapFind new o with
  | none => simpa using h1
  | some v =>
    have hmem := mapFind_some_mem new o v hn
    have := (hnew (o, v) hmem).2
    simp only [] at this
    rw [this] at h1
    cases h1

/-- C3: after any sequence of calls on a fresh buffer, no two addresses share
an id in the reference map, every id in the map is below the counter, and
whatever calls follow, an address keeps the id it has. -/
theorem C3_reference_table_invariant (K : EReadWrite) (fmt : String) (calls : List Call)
    (b' : TBufferJSON) (h : runCalls K (TBufferJSON.new fmt) calls = some b') :
    (∀ o1 o2 id, mapFind b'.fJsonrMap o1 = some id → mapFind b'.fJsonrMap o2 = some id →
      o1 = o2) ∧
    (∀ o id, mapFind b'.fJsonrMap o = some id → id < b'.fJsonrCnt) ∧
    (∀ more b'', runCalls K b' more = some b'' →
      ∀ o id, mapFind b'.fJsonrMap o = some id → mapFind b''.fJsonrMap o = some id) := by
  have hok : TableOk b'.fJsonrMap b'.fJsonrCnt :=
    (step_runCalls K calls _ _ h).2.2 TableOk.nil
  exact ⟨hok.injective, hok.bounded,
    fun more b'' hmore => (step_runCalls K more _ _ hmore).stable⟩

/-- Witness for C3: the run that serialises the `Holder` with the shared `Point`. -/
theorem C3_reference_table_invariant_witness :
    runCalls rootEnum (TBufferJSON.new "%e") sharedCalls = some sharedRun ∧
    (∀ o id, mapFind sharedRun.fJsonrMap o = some id → id < sharedRun.fJsonrCnt) :=
  ⟨by decide!,
    (C3_reference_table_invariant rootEnum "%e" sharedCalls sharedRun (by decide!)).2.1⟩

/-- C2 (amended): when one serialisation call writes a root object whose two
pointer members both point to the same object C, the root is entered into the
reference table first and holds id 0; the first occurrence of C is written in
full and receives id 1, and the second occurrence is written as the string
`"$ref:1"`. The text is given for every compact level. -/
theorem C2_shared_object_ref (K : EReadWrite) (fmt : String) (compact : Int) (a c : Nat)
    (clA clC : TClass)
    (infoA infoC : TStreamerInfo) (e1 e2 : TStreamerElement) (t1 t2 : Int)
    (hac : a ≠ c)
    (harrA : startsWithTArray clA.fName = false) (hcolA : clA.baseOffsetTCollection ≠ 0)
    (harrC : startsWithTArray clC.fName = false) (hcolC : clC.baseOffsetTCollection ≠ 0)
    (hstrC : clC.isTStringClass = false)
    (h1 : e1.fType ≠ K.kBase ∧ e1.fType ≠ K.kTObject ∧ e1.fType ≠ K.kTNamed)
    (h2 : e2.fType ≠ K.kBase ∧ e2.fType ≠ K.kTObject ∧ e2.fType ≠ K.kTNamed) :
    (ConvertToJSON K fmt (some a) (some clA) compact
        (.mk (ApplySequence (some infoA)
          [(some e1, t1, [.WriteObjectAny (some c) (some clC) (some (clC, 0))
              (.mk (ApplySequence (some infoC) []) "" false [])]),
           (some e2, t2, [.WriteObjectAny (some c) (some clC) (some (clC, 0))
              (.mk (ApplySequence (some infoC) []) "" false [])])]) "" false [])).map
        (fun r => (r.2, r.1.fJsonrMap, r.1.fJsonrCnt)) =
      some ("\x7b" ++ lineBreak compact ++ (if compact < 1 then "  " else "") ++
          "\"_typename\"" ++ (if compact > 2 then ":" else " : ") ++
          "\"JSROOTIO." ++ clA.fName ++ "\"," ++
          lineBreak compact ++ (if compact < 1 then "  " else "") ++
          "\"" ++ e1.fName ++ "\"" ++ (if compact > 2 then ":" else " : ") ++
          "\x7b" ++ lineBreak compact ++ (if compact < 1 then "    " else "") ++
          "\"_typename\"" ++ (if compact > 2 then ":" else " : ") ++
          "\"JSROOTIO." ++ clC.fName ++ "\"" ++
          lineBreak compact ++ (if compact < 1 then "  " else "") ++ "\x7d," ++
          lineBreak compact ++ (if compact < 1 then "  " else "") ++
          "\"" ++ e2.fName ++ "\"" ++ (if compact > 2 then ":" else " : ") ++
          "\"$ref:1\"" ++ lineBreak compact ++ "\x7d",
        [(c, 1), (a, 0)], 2) := by
  have hkA : ∀ b : TBufferJSON, b.fStack = [] → b.objKind (some clA) =
      { isarray := false, iscollect := false, iststring := false } := by
    intro b hb
    simp [objKind, harrA, hcolA, hb]
  have hkC : ∀ b : TBufferJSON, b.objKind (some clC) =
      { isarray := false, iscollect := false, iststring := false } := by
    intro b
    simp [objKind, harrC, hcolC, hstrC]
  have hca : ¬ c = a := fun h => hac h.symm
  have hbeq : (c == a) = false := by simpa using hca
  have hbl2 : blanks 2 = "  " := by decide
  have hbl4 : blanks 4 = "    " := by decide
  simp +decide [ConvertToJSON, JsonWriteAny, JsonWriteObject, JsonWriteObjectOpen, hkA, hkC,
    SetCompact, TBufferJSON.new, JsonStartElement, mapFind, mapSet, PushStack, Stack, setTop,
    ApplySequence, runCalls, runCall, IncrementLevel, WorkWithClass, DecrementLevel,
    SetStreamerElementNumber, WorkWithElement, PerformPostProcessing, WriteObjectAnyArgs,
    JsonWriteObjectClose, TJSONStackObj.IsStreamerElement, TJSONStackObj.IsStreamerInfo,
    TJSONStackObj.new, PopStack, AppendOutput_eq, appended, indent, hbl2, hbl4, h1.1,
    h1.2.1, h1.2.2, h2.1, h2.2.1, h2.2.2,
    hac, hca, hbeq, List.lookup_cons, String.append_assoc]
  rfl

/-- Witness for C2: a `Holder` at address 1 whose members `fA` and `fB` point
to the `Point` at address 2, at compact level 3. -/
theorem C2_shared_object_ref_witness :
    (1 : Nat) ≠ 2 ∧
    (ConvertToJSON rootEnum "%e" (some 1) (some holderClass) 3 sharedContent).map
        (fun r => (r.2, r.1.fJsonrMap, r.1.fJsonrCnt)) =
      some ("\x7b\"_typename\":\"JSROOTIO.Holder\",\"fA\":\x7b\"_typename\":\"JSROOTIO.Point\"\x7d,\"fB\":\"$ref:1\"\x7d",
        [(2, 1), (1, 0)], 2) :=
  ⟨by decide!,
    (C2_shared_object_ref rootEnum "%e" 3 1 2 holderClass pointClass sharedInfo pointInfo ptrElemA
      ptrElemB 64 64 (by decide!) (by decide!) (by decide!) (by decide!) (by decide!) rfl
      (by decide!) (by decide!)).trans (by decide!)⟩

/-- Counterexample for C2 as stated: with the root at address 1 and both
members pointing to address 2, the shared object is recorded with id 1, not
0, and its second occurrence is written as `"$ref:1"`, not `"$ref:0"`. -/
theorem C2_counterexample :
    (ConvertToJSON rootEnum "%e" (some 1) (some holderClass) 3 sharedContent).map
        (fun r => (r.2, mapFind r.1.fJsonrMap 2)) =
      some ("\x7b\"_typename\":\"JSROOTIO.Holder\",\"fA\":\x7b\"_typename\":\"JSROOTIO.Point\"\x7d,\"fB\":\"$ref:1\"\x7d",
        some 1) ∧
    (ConvertToJSON rootEnum "%e" (some 1) (some holderClass) 3 sharedContent).map
        (fun r => mapFind r.1.fJsonrMap 2) ≠ some (some 0) := by
  decide!

theorem TableOk.length_le {m : List (Nat × Nat)} : ∀ {c : Nat}, TableOk m c → m.length ≤ c := by
  induction m with
  | nil => intro c _; simp
  | cons p m ih =>
    intro c h
    obtain ⟨hnd, hpw, hlt⟩ := h
    simp only [List.map_cons, List.nodup_cons, List.pairwise_cons] at hnd hpw
    have hm : TableOk m p.2 := by
      refine ⟨hnd.2, hpw.2, ?_⟩
      intro q hq
      exact hpw.1 q.2 (List.mem_map_of_mem _ hq)
    have h1 := ih hm
    have h2 := hlt p (List.mem_cons_self _ _)
    simp only [List.length_cons]
    omega

theorem step_after_open (K : EReadWrite) (b b1 b' : TBufferJSON) (obj : Option Nat)
    (cl : Option TClass) (content : Content)
    (hopen : b.JsonWriteObjectOpen obj cl = .opened b1)
    (h : JsonWriteObject K b obj cl content = some b') : Step b1 b' := by
  cases content with
  | mk streamer colName colIsList colItems =>
    simp only [JsonWriteObject, hopen] at h
    refine step_of_bind ?_ ?_ h
    · intro x hx
      split_ifs at hx
      · cases hs : streamItems K (b1.JsonStreamCollectionOpen colName) colIsList "[" true
            colItems with
        | none => simp [hs] at hx
        | some r =>
          simp [hs] at hx
          subst hx
          exact step_trans (step_of_quiet (quiet_JsonStreamCollectionOpen _ _))
            (step_trans (step_streamItems K colItems _ _ _ _ _ hs)
              (step_of_quiet (quiet_JsonStreamCollectionClose _ _ _)))
      · exact step_runCalls K streamer _ _ hx
    · exact fun x y hxy => step_of_quiet (quiet_JsonWriteObjectClose x y _ hxy)

theorem open_new_identity (b : TBufferJSON) (obj : Nat) (cl : TClass)
    (harr : ¬ (startsWithTArray cl.fName = true ∧ cl.baseOffsetTArray = 0))
    (hstr : cl.isTStringClass = false) (hnew : mapFind b.fJsonrMap obj = none) :
    ∃ b1, b.JsonWriteObjectOpen (some obj) (some cl) = .opened b1 ∧
      b1.fJsonrMap = (obj, b.fJsonrCnt) :: b.fJsonrMap ∧ b1.fJsonrCnt = b.fJsonrCnt + 1 := by
  have hk := objKind_ordinary b cl harr hstr
  simp only [JsonWriteObjectOpen, hk.1, hk.2]
  simp [hnew, PushStack, setTop, AppendOutput_eq, mapSet_of_absent]

theorem WorkWithClass_embedded (K : EReadWrite) (b : TBufferJSON) (sinfo : Option TStreamerInfo)
    (cl : Option TClass) (top : TJSONStackObj) (rest : List TJSONStackObj)
    (elem : TStreamerElement) (hs : b.fStack = top :: rest) (he : top.fElem = some elem)
    (hi : top.fIsStreamerInfo = false) (ho : top.fIsObjStarted = false)
    (ht : elem.fType = K.kObject) (hc : sinfo.isSome = true ∨ cl.isSome = true) :
    (b.WorkWithClass K sinfo cl).fJsonrCnt = b.fJsonrCnt + 1 ∧
      (b.WorkWithClass K sinfo cl).fJsonrMap = b.fJsonrMap := by
  cases sinfo with
  | some i =>
    simp [WorkWithClass, hs, he, hi, ho, ht, TJSONStackObj.IsStreamerElement, PushStack, setTop,
      AppendOutput_eq]
  | none =>
    cases cl with
    | none => simp at hc
    | some c =>
      simp [WorkWithClass, hs, he, hi, ho, ht, TJSONStackObj.IsStreamerElement, PushStack, setTop,
        AppendOutput_eq]

theorem PerformPostProcessing_chain_counts (K : EReadWrite) (b : TBufferJSON)
    (top : TJSONStackObj) (rest : List TJSONStackObj) (elem : TStreamerElement)
    (hs : b.fStack = top :: rest) (he : top.fElem = some elem)
    (hpost : top.fIsPostProcessed = false) (hobj : top.fIsObjStarted = false)
    (hbase : top.fIsBaseClass = false) (hvalues : top.fValues ≠ [])
    (hstr : elem.fType ≠ K.kTString)
    (hoff : ¬ (K.kOffsetP < elem.fType ∧ elem.fType < K.kOffsetP + 20))
    (hobjT : elem.fType ≠ K.kTObject) (hname : elem.fTypeName ≠ "TObject")
    (harr : startsWithTArray elem.fTypeName = false) :
    ∃ b1, b.PerformPostProcessing K none = some b1 ∧ b1.fJsonrCnt = b.fJsonrCnt + 1 ∧
      b1.fJsonrMap = b.fJsonrMap := by
  have hoff' : (decide (K.kOffsetP < elem.fType) && decide (elem.fType < K.kOffsetP + 20)) = false := by
    simpa using hoff
  have hlen : 0 < top.fValues.length := List.length_pos.mpr hvalues
  cases b with
  | mk fmt out val map cnt stk chain compact semi sep =>
    simp only at hs
    subst hs
    simp [PerformPostProcessing, fieldPrefix, reformat, he, hpost, hobj, hbase, hstr, hoff',
      hobjT, hname, harr, setTop, Stack, emitValue_fJsonrCnt, hlen]

/-- C5 (amended): in any state reached from a fresh buffer, the id recorded for
an address at its first encounter is the value of the counter at that moment,
after which the counter is larger; the addresses in the table are distinct
and their number does not exceed the counter, so an id is never smaller than
the number of identities entered before it; an address entered later gets an
id that is at least the counter at the earlier moment. The id need not equal
the number of identities entered before: the counter is also advanced, with
no entry in the table, when `WorkWithClass` begins an embedded object member
and when `PerformPostProcessing` wraps a chain of buffered values. -/
theorem C5_first_encounter_id (K : EReadWrite) (fmt : String) (calls : List Call)
    (b : TBufferJSON) (h : runCalls K (TBufferJSON.new fmt) calls = some b) :
    ((b.fJsonrMap.map Prod.fst).Nodup ∧ b.fJsonrMap.length ≤ b.fJsonrCnt) ∧
    (∀ (obj : Nat) (cl : TClass) (content : Content) (b' : TBufferJSON),
      ¬ (startsWithTArray cl.fName = true ∧ cl.baseOffsetTArray = 0) →
      cl.isTStringClass = false → mapFind b.fJsonrMap obj = none →
      JsonWriteObject K b (some obj) (some cl) content = some b' →
      mapFind b'.fJsonrMap obj = some b.fJsonrCnt ∧ b.fJsonrCnt < b'.fJsonrCnt) ∧
    (∀ (more : List Call) (b2 : TBufferJSON), runCalls K b more = some b2 →
      ∀ o id, mapFind b.fJsonrMap o = none → mapFind b2.fJsonrMap o = some id →
        b.fJsonrCnt ≤ id ∧ id < b2.fJsonrCnt) ∧
    (∀ (sinfo : Option TStreamerInfo) (cl : Option TClass) (top : TJSONStackObj)
      (rest : List TJSONStackObj) (elem : TStreamerElement),
      b.fStack = top :: rest → top.fElem = some elem → top.fIsStreamerInfo = false →
      top.fIsObjStarted = false → elem.fType = K.kObject →
      (sinfo.isSome = true ∨ cl.isSome = true) →
      (b.WorkWithClass K sinfo cl).fJsonrCnt = b.fJsonrCnt + 1 ∧
        (b.WorkWithClass K sinfo cl).fJsonrMap = b.fJsonrMap) ∧
    (∀ (top : TJSONStackObj) (rest : List TJSONStackObj) (elem : TStreamerElement),
      b.fStack = top :: rest → top.fElem = some elem → top.fIsPostProcessed = false →
      top.fIsObjStarted = false → top.fIsBaseClass = false → top.fValues ≠ [] →
      elem.fType ≠ K.kTString →
      ¬ (K.kOffsetP < elem.fType ∧ elem.fType < K.kOffsetP + 20) →
      elem.fType ≠ K.kTObject → elem.fTypeName ≠ "TObject" →
      startsWithTArray elem.fTypeName = false →
      ∃ b1, b.PerformPostProcessing K none = some b1 ∧ b1.fJsonrCnt = b.fJsonrCnt + 1 ∧
        b1.fJsonrMap = b.fJsonrMap) := by
  have hok : TableOk b.fJsonrMap b.fJsonrCnt :=
    (step_runCalls K calls _ _ h).2.2 TableOk.nil
  refine ⟨⟨hok.1, hok.length_le⟩, ?_, ?_, ?_, ?_⟩
  · intro obj cl content b' harr hstr hnew hrun
    obtain ⟨b1, hopen, hmap, hcnt⟩ := open_new_identity b obj cl harr hstr hnew
    have hstep := step_after_open K b b1 b' _ _ content hopen hrun
    refine ⟨hstep.stable obj _ ?_, ?_⟩
    · rw [hmap, mapFind_cons]
      simp
    · have := hstep.1
      omega
  · intro more b2 hmore o id hnone hsome
    have hstep := step_runCalls K more _ _ hmore
    have hok2 := hstep.2.2 hok
    refine ⟨?_, hok2.bounded o id hsome⟩
    obtain ⟨_, ⟨new, hm, hnew⟩, _⟩ := hstep
    rw [hm, mapFind_append, ] at hsome
    cases hn : mapFind new o with
    | none => simp [hn, hnone] at hsome
    | some v =>
      simp [hn] at hsome
      subst hsome
      exact (hnew (o, v) (mapFind_some_mem new o v hn)).1
  · intro sinfo cl top rest elem hs he hi ho ht hc
    exact WorkWithClass_embedded K b sinfo cl top rest elem hs he hi ho ht hc
  · intro top rest elem hs he hpost hobj hbase hvalues hstr hoff hobjT hname harr
    exact PerformPostProcessing_chain_counts K b top rest elem hs he hpost hobj hbase hvalues
      hstr hoff hobjT hname harr

/-- Witness for C5: the same run; two identities were entered and the counter is 2. -/
theorem C5_first_encounter_id_witness :
    runCalls rootEnum (TBufferJSON.new "%e") sharedCalls = some sharedRun ∧
    sharedRun.fJsonrMap.length ≤ sharedRun.fJsonrCnt :=
  ⟨by decide!,
    (C5_first_encounter_id rootEnum "%e" sharedCalls sharedRun (by decide!)).1.2⟩

/-- Counterexample for C5 as stated: in a `Holder` with an embedded `Point`
followed by a pointer to the `Point` at address 2, that object is the second
identity entered into the table (after the root) and is recorded with id 2,
not 1. -/
theorem C5_counterexample :
    (ConvertToJSON rootEnum "%e" (some 1) (some holderClass) 3 embContent).map
        (fun r => (r.1.fJsonrMap, mapFind r.1.fJsonrMap 2)) =
      some ([(2, 2), (1, 0)], some 2) ∧
    (ConvertToJSON rootEnum "%e" (some 1) (some holderClass) 3 embContent).map
        (fun r => mapFind r.1.fJsonrMap 2) ≠ some (some 1) := by
  decide!

/-- C8: every entry point returns the text `null` when a required pointer is
absent, at every compact level: `ConvertToJSON(ptr, member, compact)` when
`ptr` or `member` is null, and `ConvertToJSON(obj, cl, compact)` when `obj` or
`cl` is null, in which case the stack of the buffer is left empty; likewise
the overload for a null `TObject` pointer. -/
theorem C8_null_pointer_gives_null (K : EReadWrite) (D : EDataType) (fuel : Nat) (fmt : String)
    (compact : Int) :
    (∀ member, ConvertToJSONMember K D fuel fmt none member compact = some "null") ∧
    (∀ ptr, ConvertToJSONMember K D fuel fmt ptr none compact = some "null") ∧
    (∀ cl content,
      (ConvertToJSON K fmt none cl compact content).map (fun r => (r.2, r.1.fStack)) =
        some ("null", [])) ∧
    (∀ obj content,
      (ConvertToJSON K fmt obj none compact content).map (fun r => (r.2, r.1.fStack)) =
        some ("null", [])) ∧
    (∀ isA content,
      (ConvertToJSONObject K fmt none isA compact content).map (fun r => (r.2, r.1.fStack)) =
        some ("null", [])) := by
  have hnull : ∀ (obj : Option Nat) (cl : Option TClass) (content : Content),
      (obj = none ∨ cl = none) →
      (ConvertToJSON K fmt obj cl compact content).map (fun r => (r.2, r.1.fStack)) =
        some ("null", []) := by
    intro obj cl content h
    cases content with
    | mk streamer colName colIsList colItems =>
      have hstart : ∀ (b : TBufferJSON) (c : Option TClass), b.fStack = [] →
          (if (b.objKind c).isarray = false then b.JsonStartElement else b) = b := by
        intro b c hb
        split_ifs
        · exact JsonStartElement_nil b hb
        · rfl
      rcases h with h | h <;> subst h
      · cases cl <;>
          simp [ConvertToJSON, JsonWriteAny, JsonWriteObject, JsonWriteObjectOpen, hstart,
            SetCompact, TBufferJSON.new, AppendOutput_eq, appended]
      · cases obj <;>
          simp [ConvertToJSON, JsonWriteAny, JsonWriteObject, JsonWriteObjectOpen, hstart,
            SetCompact, TBufferJSON.new, AppendOutput_eq, appended]
  refine ⟨?_, ?_, ?_, ?_, ?_⟩
  · intro member
    simp [ConvertToJSONMember]
  · intro ptr
    cases ptr <;> simp [ConvertToJSONMember]
  · exact fun cl content => hnull none cl content (Or.inl rfl)
  · exact fun obj content => hnull obj none content (Or.inr rfl)
  · exact fun isA content => hnull none none content (Or.inl rfl)

/-! ### Closed forms of the parts of `PerformPostProcessing` -/

theorem join_cons (s : String) (ss : List String) :
    String.join (s :: ss) = s ++ String.join ss := by
  rw [String.join_eq, String.join_eq]
  apply String.ext
  simp

theorem fieldPrefix_eq (b : TBufferJSON) (name : String) :
    b.fieldPrefix name = { b with fOutBuffer := b.fOutBuffer ++ fieldOpen b name } := by
  cases b with
  | mk fmt out val map cnt stk chain compact semi sep =>
    simp +decide [fieldPrefix, fieldOpen, AppendOutput_eq, appended, String.append_assoc]

theorem appendElems_eq (vs : List String) (n : Nat) (b : TBufferJSON) :
    appendElems b n vs =
      { b with
        fOutBuffer := b.fOutBuffer ++
          String.join ((vs.enumFrom n).map (elemField b.fSemicolon b.fArraySepar)) } := by
  induction vs generalizing n b with
  | nil => simp [appendElems, String.join_eq]
  | cons v vs ih =>
    rw [appendElems, ih]
    cases b with
    | mk fmt out val map cnt stk chain compact semi sep =>
      simp [List.enumFrom, join_cons, elemField, AppendOutput_eq, appended, String.append_assoc]

theorem emitValue_eq (b : TBufferJSON) (values : List String) :
    b.emitValue values =
      { b with
        fOutBuffer := b.fOutBuffer ++ chainText b.fSemicolon b.fArraySepar values b.fValue
        fValue := ""
        fJsonrCnt := b.fJsonrCnt + (if values = [] then 0 else 1) } := by
  cases b with
  | mk fmt out val map cnt stk chain compact semi sep =>
    cases values with
    | nil =>
      by_cases hv : val = ""
      · subst hv
        simp +decide [emitValue, chainText, valueText, AppendOutput_eq, appended]
      · have hlen : ¬ val.length = 0 := fun h => hv ((length_eq_zero_iff val).mp h)
        simp +decide [emitValue, chainText, valueText, AppendOutput_eq, appended, hv, hlen]
    | cons v vs =>
      by_cases hv : val = ""
      · subst hv
        simp +decide [emitValue, chainText, valueText, elemsText, List.enum, appendElems_eq,
          AppendOutput_eq, appended, String.append_assoc]
      · have hlen : ¬ val.length = 0 := fun h => hv ((length_eq_zero_iff val).mp h)
        simp +decide [emitValue, chainText, valueText, elemsText, List.enum, appendElems_eq,
          AppendOutput_eq, appended, String.append_assoc, hv, hlen]

theorem clear_of_nil (stack : TJSONStackObj) (h : stack.fValues = []) :
    { stack with fValues := [] } = stack := by
  cases stack
  simp_all

theorem reformat_eq (fmt out val : String) (map : List (Nat × Nat)) (cnt : Nat)
    (s : TJSONStackObj) (rest : List TJSONStackObj) (chain : Bool) (compact : Int)
    (semi sep : String) (isTString isOffsetPArray isTObject isTArray : Bool) :
    (TBufferJSON.mk fmt out val map cnt (s :: rest) chain compact semi sep).reformat s
        isTString isOffsetPArray isTObject isTArray =
      TBufferJSON.mk fmt
        (out ++
          (if isTString || isOffsetPArray then ""
           else if isTObject then
             objectKeys (TBufferJSON.mk fmt out val map cnt (s :: rest) chain compact semi sep)
               s.fValues
           else if isTArray then
             arrayKeys (TBufferJSON.mk fmt out val map cnt (s :: rest) chain compact semi sep)
               s.fIsBaseClass s.fValues
           else ""))
        (if !isTString && isOffsetPArray then (if s.fValues = ["1"] then val else "[]") else val)
        map cnt
        ({ s with
            fValues := if isTString || isOffsetPArray || isTObject || isTArray then []
              else s.fValues } :: rest)
        chain compact semi sep := by
  cases isTString
  · cases isOffsetPArray
    · cases isTObject
      · cases isTArray
        · simp [reformat]
        · rcases hvs : s.fValues with _ | ⟨v0, _ | ⟨v1, vs⟩⟩ <;> cases hb : s.fIsBaseClass <;>
            simp +decide [reformat, arrayKeys, fieldOpen, setTop, indent, AppendOutput_eq,
              appended, String.append_assoc, hvs, hb]
      · rcases hvs : s.fValues with _ | ⟨v0, _ | ⟨v1, vs⟩⟩ <;>
          simp +decide [reformat, objectKeys, fieldOpen, setTop, indent, AppendOutput_eq,
            appended, String.append_assoc, hvs]
    · rcases hvs : s.fValues with _ | ⟨v0, _ | ⟨v1, vs⟩⟩
      · have hc := clear_of_nil s hvs
        by_cases h0 : val = "0" <;> simp [reformat, setTop, hvs, h0, hc]
      · by_cases h1 : v0 = "1" <;> simp [reformat, setTop, hvs, h1]
      · simp [reformat, setTop, hvs]
  · simp [reformat, setTop]

/-- The whole of `PerformPostProcessing` on a frame that is not started as an
object, when the finalisation runs (an element is given, or the frame has one
and is not yet finalised): the call returns, and the state that results is
the old one with the frame marked, the text appended, and the buffered
values, the pending value and the counter as stated. The four flags are the
values of `isTString`, `isOffsetPArray`, `isTObject` and `isTArray`. -/
theorem PerformPostProcessing_run (K : EReadWrite) (b : TBufferJSON) (stack : TJSONStackObj)
    (rest : List TJSONStackObj) (elemArg : Option TStreamerElement) (elem : TStreamerElement)
    (isTString isOffsetPArray isTObject isTArray : Bool)
    (hstack : b.fStack = stack :: rest)
    (heff : (elemArg.orElse fun _ => stack.fElem) = some elem)
    (hrun : elemArg.isSome = true ∨ stack.fIsPostProcessed = false)
    (hobj : stack.fIsObjStarted = false)
    (hS : (elem.fType == K.kTString) = isTString)
    (hP : (decide (elem.fType > K.kOffsetP) && decide (elem.fType < K.kOffsetP + 20)) =
      isOffsetPArray)
    (hO : (elem.fType == K.kTObject ||
      (if stack.fIsBaseClass then elem.fName else elem.fTypeName) == "TObject") = isTObject)
    (hA : startsWithTArray (if stack.fIsBaseClass then elem.fName else elem.fTypeName) =
      isTArray) :
    b.PerformPostProcessing K elemArg =
      some { b with
        fOutBuffer := b.fOutBuffer ++
          (if stack.fIsBaseClass then "" else fieldOpen b elem.fName) ++
          finalText b stack.fIsBaseClass isTString isOffsetPArray isTObject isTArray
            stack.fValues
        fStack :=
          { stack with
            fIsPostProcessed := true
            fValues := if isTString || isOffsetPArray || isTObject || isTArray then []
              else stack.fValues } :: rest
        fValue :=
          if stack.fIsBaseClass && !isTArray && !isTObject then
            (if !isTString && isOffsetPArray then
              (if stack.fValues = ["1"] then b.fValue else "[]")
             else b.fValue)
          else ""
        fJsonrCnt :=
          b.fJsonrCnt +
            (if !(stack.fIsBaseClass && !isTArray && !isTObject) &&
                !(isTString || isOffsetPArray || isTObject || isTArray) &&
                stack.fValues ≠ [] then 1 else 0) } := by
  cases b with
  | mk fmt out val map cnt stk chain compact semi sep =>
    simp only at hstack
    subst hstack
    have hgo : (elemArg.isNone && stack.fIsPostProcessed) = false := by
      rcases hrun with h | h
      · cases elemArg <;> simp_all
      · simp [h]
    simp only [PerformPostProcessing, hgo, heff, hobj, Bool.false_eq_true, if_false]
    simp only [setTop, List.tail_cons, hS, hP, hO, hA]
    clear hS hP hO hA
    cases hb : stack.fIsBaseClass <;>
      simp only [fieldPrefix_eq, reformat_eq, emitValue_eq, Stack, Bool.not_false, Bool.not_true,
        if_true, if_false, Bool.false_eq_true, Bool.true_and, Bool.false_and, List.get?_cons_zero,
        Option.elim] <;>
      cases isTString <;> cases isOffsetPArray <;> cases isTObject <;> cases isTArray <;>
      simp +decide [finalText, String.append_assoc, hb, chainText, objectKeys, arrayKeys,
        fieldOpen, indent, valueText]
    all_goals (by_cases h1 : stack.fValues = ["1"] <;> simp +decide [h1])

theorem PerformPostProcessing_started (K : EReadWrite) (b : TBufferJSON) (stack : TJSONStackObj)
    (rest : List TJSONStackObj) (elemArg : Option TStreamerElement) (elem : TStreamerElement)
    (hstack : b.fStack = stack :: rest)
    (heff : (elemArg.orElse fun _ => stack.fElem) = some elem)
    (hrun : elemArg.isSome = true ∨ stack.fIsPostProcessed = false)
    (hobj : stack.fIsObjStarted = true) :
    b.PerformPostProcessing K elemArg =
      some { b with
        fOutBuffer := b.fOutBuffer ++ lineBreak b.fCompact ++ indent b.fCompact b.fStack ++ "\x7d"
        fStack := { stack with fIsPostProcessed := true } :: rest } := by
  cases b with
  | mk fmt out val map cnt stk chain compact semi sep =>
    simp only at hstack
    subst hstack
    have hgo : (elemArg.isNone && stack.fIsPostProcessed) = false := by
      rcases hrun with h | h
      · cases elemArg <;> simp_all
      · simp [h]
    simp +decide [PerformPostProcessing, hgo, heff, hobj, setTop, AppendOutput_eq, appended,
      indent, String.append_assoc]

theorem PerformPostProcessing_skip (K : EReadWrite) (b : TBufferJSON) (stack : TJSONStackObj)
    (rest : List TJSONStackObj) (hstack : b.fStack = stack :: rest)
    (h : stack.fIsPostProcessed = true ∨ stack.fElem = none) :
    b.PerformPostProcessing K none = some b := by
  rcases h with h | h
  · simp [PerformPostProcessing, hstack, h]
  · cases hp : stack.fIsPostProcessed <;> simp [PerformPostProcessing, hstack, h, hp]

/-! ### Finalisation by category -/

/-- C11: finalising a member frame (not a base class, not yet finalised, not
started as an object) whose element type lies strictly between `kOffsetP` and
`kOffsetP + 20` and is not `kTString`, with a non-empty pending value `v` and
any buffered values, returns; after the field prefix it appends `v` itself
when exactly one value is buffered and it is the text `1`, and `[]` in every
other case (nothing buffered and `v` the text `0`, or any other shape). In all
cases the buffered values are dropped and the pending value is cleared. -/
theorem C11_dynamic_array_member (K : EReadWrite) (b : TBufferJSON) (stack : TJSONStackObj)
    (rest : List TJSONStackObj) (elem : TStreamerElement)
    (hstack : b.fStack = stack :: rest) (helem : stack.fElem = some elem)
    (hpost : stack.fIsPostProcessed = false) (hobj : stack.fIsObjStarted = false)
    (hbase : stack.fIsBaseClass = false) (hstr : elem.fType ≠ K.kTString)
    (hoff : K.kOffsetP < elem.fType ∧ elem.fType < K.kOffsetP + 20)
    (hv : b.fValue ≠ "") :
    b.PerformPostProcessing K none =
      some { b with
        fStack := { stack with fIsPostProcessed := true, fValues := [] } :: rest
        fValue := ""
        fOutBuffer := b.fOutBuffer ++ "," ++ lineBreak b.fCompact ++
          indent b.fCompact b.fStack ++ "\"" ++ elem.fName ++ "\"" ++ b.fSemicolon ++
          (if stack.fValues = ["1"] then b.fValue else "[]") } := by
  have h := PerformPostProcessing_run K b stack rest none elem false true
    (elem.fType == K.kTObject ||
      (if stack.fIsBaseClass then elem.fName else elem.fTypeName) == "TObject")
    (startsWithTArray (if stack.fIsBaseClass then elem.fName else elem.fTypeName))
    hstack (by simpa using helem) (Or.inr hpost) hobj (by simpa using hstr)
    (by simpa using hoff) rfl rfl
  rw [h]
  by_cases h1 : stack.fValues = ["1"] <;>
    simp +decide [hbase, finalText, fieldOpen, valueText, hv, h1, String.append_assoc]

/-- Witness for C11: the member `fArr` with the buffered value `1` and the
pending value `[4, 5]` at compact level 0. -/
theorem C11_dynamic_array_member_witness :
    dynElem.fType ≠ rootEnum.kTString ∧
    (rootEnum.kOffsetP < dynElem.fType ∧ dynElem.fType < rootEnum.kOffsetP + 20) ∧
    ((frameBuffer 0 dynFrame "[4, 5]").PerformPostProcessing rootEnum none).map
        (fun r => (r.fOutBuffer, r.fValue, r.fStack.map (fun f => f.fValues))) =
      some (",\n\"fArr\" : [4, 5]", "", [[]]) :=
  ⟨by decide, by decide,
    (congrArg (Option.map (fun r => (r.fOutBuffer, r.fValue, r.fStack.map (fun f => f.fValues))))
      (C11_dynamic_array_member rootEnum (frameBuffer 0 dynFrame "[4, 5]") dynFrame [] dynElem
        rfl rfl rfl rfl rfl (by decide) (by decide) (by decide))).trans (by decide)⟩

/-- C12 (amended): finalising a `TObject` frame (element type `kTObject`, or the
name `TObject`; not a string, not a dynamic array) with exactly one buffered
value `v0` and a non-empty pending value `v` appends, after the field prefix
when the frame is not a base class, the key `fUniqueID` with the value `v0`
and the key `fBits` with the value `v`; each key follows a comma and the line
break and indentation of the compact level, with no blank after the comma.
With the values `7` and `50331648` at compact level 2 the text is
`,"fUniqueID" : 7,"fBits" : 50331648`. -/
theorem C12_identity_fields (K : EReadWrite) (b : TBufferJSON) (stack : TJSONStackObj)
    (rest : List TJSONStackObj) (elem : TStreamerElement) (v0 : String)
    (hstack : b.fStack = stack :: rest) (helem : stack.fElem = some elem)
    (hpost : stack.fIsPostProcessed = false) (hobj : stack.fIsObjStarted = false)
    (hstr : elem.fType ≠ K.kTString)
    (hoff : ¬ (K.kOffsetP < elem.fType ∧ elem.fType < K.kOffsetP + 20))
    (hT : elem.fType = K.kTObject ∨
      (if stack.fIsBaseClass then elem.fName else elem.fTypeName) = "TObject")
    (hvalues : stack.fValues = [v0]) (hv : b.fValue ≠ "") :
    b.PerformPostProcessing K none =
      some { b with
        fStack := { stack with fIsPostProcessed := true, fValues := [] } :: rest
        fValue := ""
        fOutBuffer := b.fOutBuffer ++
          (if stack.fIsBaseClass then ""
           else "," ++ lineBreak b.fCompact ++ indent b.fCompact b.fStack ++
             "\"" ++ elem.fName ++ "\"" ++ b.fSemicolon) ++
          "," ++ lineBreak b.fCompact ++ indent b.fCompact b.fStack ++ "\"fUniqueID\"" ++
          b.fSemicolon ++ v0 ++
          "," ++ lineBreak b.fCompact ++ indent b.fCompact b.fStack ++ "\"fBits\"" ++
          b.fSemicolon ++ b.fValue } := by
  have h := PerformPostProcessing_run K b stack rest none elem false false true
    (startsWithTArray (if stack.fIsBaseClass then elem.fName else elem.fTypeName))
    hstack (by simpa using helem) (Or.inr hpost) hobj (by simpa using hstr)
    (by simpa using hoff) (by simpa using hT) rfl
  rw [h]
  cases hb : stack.fIsBaseClass <;>
  simp +decide [hvalues, hv, finalText, objectKeys, fieldOpen, valueText, String.append_assoc]

/-- Witness for C12: the base-class frame of `TObject` with the values `7` and
`50331648` at compact level 2. -/
theorem C12_identity_fields_witness :
    ((frameBuffer 2 tobjectFrame "50331648").PerformPostProcessing rootEnum none).map
        (fun r => (r.fOutBuffer, r.fValue, r.fStack.map (fun f => f.fValues))) =
      some (",\"fUniqueID\" : 7,\"fBits\" : 50331648", "", [[]]) :=
  (congrArg (Option.map (fun r => (r.fOutBuffer, r.fValue, r.fStack.map (fun f => f.fValues))))
    (C12_identity_fields rootEnum (frameBuffer 2 tobjectFrame "50331648") tobjectFrame []
      tobjectElem "7" rfl rfl rfl rfl (by decide) (by decide) (by decide) rfl
      (by decide))).trans (by decide)

/-- Counterexample for C12 as stated: with the values `7` and `50331648` the
text appended at compact level 2 is `,"fUniqueID" : 7,"fBits" : 50331648` and
at level 0 the two fields stand on lines of their own; at none of the levels
0, 1 and 2, for a base-class frame or a member frame, does the output contain
`"fUniqueID" : 7, "fBits" : 50331648`. -/
theorem C12_counterexample :
    ((frameBuffer 2 tobjectFrame "50331648").PerformPostProcessing rootEnum none).map
        (fun r => r.fOutBuffer) = some ",\"fUniqueID\" : 7,\"fBits\" : 50331648" ∧
    ((frameBuffer 0 tobjectFrame "50331648").PerformPostProcessing rootEnum none).map
        (fun r => r.fOutBuffer) = some ",\n\"fUniqueID\" : 7,\n\"fBits\" : 50331648" ∧
    ∀ level ∈ [(0 : Int), 1, 2], ∀ frame ∈ [tobjectFrame, tobjectMemberFrame],
      ((frameBuffer level frame "50331648").PerformPostProcessing rootEnum none).map
          (fun r => decide
            ("\"fUniqueID\" : 7, \"fBits\" : 50331648".data <:+: r.fOutBuffer.data)) =
        some false := by
  decide!

/-- C13: finalising a `TObject` frame (not a string, not a dynamic array) whose
number of buffered values is not one returns; after the field prefix when the
frame is not a base class, it appends the one key `dummy`, the field separator
and the pending value, or `null` when the pending value is empty; the keys
`fUniqueID` and `fBits` are not written, and the buffered values are
dropped. -/
theorem C13_identity_placeholder (K : EReadWrite) (b : TBufferJSON) (stack : TJSONStackObj)
    (rest : List TJSONStackObj) (elem : TStreamerElement)
    (hstack : b.fStack = stack :: rest) (helem : stack.fElem = some elem)
    (hpost : stack.fIsPostProcessed = false) (hobj : stack.fIsObjStarted = false)
    (hstr : elem.fType ≠ K.kTString)
    (hoff : ¬ (K.kOffsetP < elem.fType ∧ elem.fType < K.kOffsetP + 20))
    (hT : elem.fType = K.kTObject ∨
      (if stack.fIsBaseClass then elem.fName else elem.fTypeName) = "TObject")
    (hvalues : stack.fValues.length ≠ 1) :
    b.PerformPostProcessing K none =
      some { b with
        fStack := { stack with fIsPostProcessed := true, fValues := [] } :: rest
        fValue := ""
        fOutBuffer := b.fOutBuffer ++
          (if stack.fIsBaseClass then ""
           else "," ++ lineBreak b.fCompact ++ indent b.fCompact b.fStack ++
             "\"" ++ elem.fName ++ "\"" ++ b.fSemicolon) ++
          "," ++ lineBreak b.fCompact ++ indent b.fCompact b.fStack ++ "\"dummy\"" ++
          b.fSemicolon ++ (if b.fValue = "" then "null" else b.fValue) } := by
  have h := PerformPostProcessing_run K b stack rest none elem false false true
    (startsWithTArray (if stack.fIsBaseClass then elem.fName else elem.fTypeName))
    hstack (by simpa using helem) (Or.inr hpost) hobj (by simpa using hstr)
    (by simpa using hoff) (by simpa using hT) rfl
  rw [h]
  rcases hvs : stack.fValues with _ | ⟨v0, _ | ⟨v1, vs⟩⟩
  · cases hb : stack.fIsBaseClass <;>
      simp +decide [hvs, finalText, objectKeys, fieldOpen, valueText, String.append_assoc]
  · simp [hvs] at hvalues
  · cases hb : stack.fIsBaseClass <;>
      simp +decide [hvs, finalText, objectKeys, fieldOpen, valueText, String.append_assoc]

/-- Witness for C13: the base-class frame of `TObject` with nothing buffered
and the pending value `7` at compact level 2. -/
theorem C13_identity_placeholder_witness :
    tobjectBare.fValues.length ≠ 1 ∧
    ((frameBuffer 2 tobjectBare "7").PerformPostProcessing rootEnum none).map
        (fun r => (r.fOutBuffer, r.fValue, r.fStack.map (fun f => f.fValues))) =
      some (",\"dummy\" : 7", "", [[]]) :=
  ⟨by decide,
    (congrArg (Option.map (fun r => (r.fOutBuffer, r.fValue, r.fStack.map (fun f => f.fValues))))
      (C13_identity_placeholder rootEnum (frameBuffer 2 tobjectBare "7") tobjectBare []
        tobjectElem rfl rfl rfl rfl (by decide) (by decide) (by decide)
        (by decide))).trans (by decide)⟩

/-- C14: finalising a frame whose type name begins with `TArray` (not a string,
not a dynamic array, not `TObject`) writes the keys `fN`, with the buffered
value, and `fArray`, with the pending value, exactly when the frame is a base
class with exactly one buffered value. For a base class with any other number
of buffered values only the pending value is appended; for a frame that is not
a base class the field prefix and the pending value are appended. In every
case the buffered values are dropped; an empty pending value is written as
`null`. -/
theorem C14_array_base_fields (K : EReadWrite) (b : TBufferJSON) (stack : TJSONStackObj)
    (rest : List TJSONStackObj) (elem : TStreamerElement)
    (hstack : b.fStack = stack :: rest) (helem : stack.fElem = some elem)
    (hpost : stack.fIsPostProcessed = false) (hobj : stack.fIsObjStarted = false)
    (hstr : elem.fType ≠ K.kTString)
    (hoff : ¬ (K.kOffsetP < elem.fType ∧ elem.fType < K.kOffsetP + 20))
    (hobjT : elem.fType ≠ K.kTObject)
    (harr : startsWithTArray (if stack.fIsBaseClass then elem.fName else elem.fTypeName) = true) :
    b.PerformPostProcessing K none =
      some { b with
        fStack := { stack with fIsPostProcessed := true, fValues := [] } :: rest
        fValue := ""
        fOutBuffer := b.fOutBuffer ++
          (if stack.fIsBaseClass then
            (match stack.fValues with
             | [count] =>
               "," ++ lineBreak b.fCompact ++ indent b.fCompact b.fStack ++ "\"fN\"" ++
                 b.fSemicolon ++ count ++
               "," ++ lineBreak b.fCompact ++ indent b.fCompact b.fStack ++ "\"fArray\"" ++
                 b.fSemicolon
             | _ => "")
           else "," ++ lineBreak b.fCompact ++ indent b.fCompact b.fStack ++
             "\"" ++ elem.fName ++ "\"" ++ b.fSemicolon) ++
          (if b.fValue = "" then "null" else b.fValue) } := by
  have hname : (if stack.fIsBaseClass then elem.fName else elem.fTypeName) ≠ "TObject" := by
    intro hn
    rw [hn] at harr
    exact absurd harr (by decide)
  have h := PerformPostProcessing_run K b stack rest none elem false false false true
    hstack (by simpa using helem) (Or.inr hpost) hobj (by simpa using hstr)
    (by simpa using hoff) (by simpa using And.intro hobjT hname) harr
  rw [h]
  rcases hvs : stack.fValues with _ | ⟨v0, _ | ⟨v1, vs⟩⟩ <;> cases hb : stack.fIsBaseClass <;>
    simp +decide [finalText, arrayKeys, fieldOpen, valueText, String.append_assoc]

/-- Witness for C14: the base-class frame of `TArrayI` with the count `3` and
the pending value `[1, 2, 3]` at compact level 2. -/
theorem C14_array_base_fields_witness :
    ((frameBuffer 2 tarrayFrame "[1, 2, 3]").PerformPostProcessing rootEnum none).map
        (fun r => (r.fOutBuffer, r.fValue, r.fStack.map (fun f => f.fValues))) =
      some (",\"fN\" : 3,\"fArray\" : [1, 2, 3]", "", [[]]) :=
  (congrArg (Option.map (fun r => (r.fOutBuffer, r.fValue, r.fStack.map (fun f => f.fValues))))
    (C14_array_base_fields rootEnum (frameBuffer 2 tarrayFrame "[1, 2, 3]") tarrayFrame []
      tarrayElem rfl rfl rfl rfl (by decide) (by decide) (by decide)
      (by decide))).trans (by decide)

/-- C15 (amended): finalising a member frame of generic category (not a base
class) with buffered values `v0 .. v(n-1)`, `n ≥ 1`, appends after the field
prefix an opening brace followed by one blank, then for each buffered value
the key `elem<i>`, the field separator, the value and the array separator,
then the key `elem<n>`, the field separator, the pending value (or `null`)
and the closing brace. The blank after the opening brace is written at every
compact level; at level 3 the text for `1`, `2` and the pending `3` is
`{ "elem0":1,"elem1":2,"elem2":3}`. The counter advances by one and the
buffered values stay in the frame. -/
theorem C15_chain_object (K : EReadWrite) (b : TBufferJSON) (stack : TJSONStackObj)
    (rest : List TJSONStackObj) (elem : TStreamerElement)
    (hstack : b.fStack = stack :: rest) (helem : stack.fElem = some elem)
    (hpost : stack.fIsPostProcessed = false) (hobj : stack.fIsObjStarted = false)
    (hbase : stack.fIsBaseClass = false) (hvalues : stack.fValues ≠ [])
    (hstr : elem.fType ≠ K.kTString)
    (hoff : ¬ (K.kOffsetP < elem.fType ∧ elem.fType < K.kOffsetP + 20))
    (hobjT : elem.fType ≠ K.kTObject) (hname : elem.fTypeName ≠ "TObject")
    (harr : startsWithTArray elem.fTypeName = false) :
    b.PerformPostProcessing K none =
      some { b with
        fStack := { stack with fIsPostProcessed := true } :: rest
        fValue := ""
        fJsonrCnt := b.fJsonrCnt + 1
        fOutBuffer := b.fOutBuffer ++ "," ++ lineBreak b.fCompact ++
          indent b.fCompact b.fStack ++ "\"" ++ elem.fName ++ "\"" ++ b.fSemicolon ++
          "\x7b " ++ elemsText b.fSemicolon b.fArraySepar stack.fValues ++
          "\"elem" ++ toString stack.fValues.length ++ "\"" ++ b.fSemicolon ++
          (if b.fValue = "" then "null" else b.fValue) ++ "\x7d" } := by
  have h := PerformPostProcessing_run K b stack rest none elem false false false false
    hstack (by simpa using helem) (Or.inr hpost) hobj (by simpa using hstr)
    (by simpa using hoff) (by simp [hbase, hobjT, hname]) (by simp [hbase, harr])
  rw [h]
  simp +decide [hbase, hvalues, finalText, chainText, fieldOpen, valueText, String.append_assoc]

/-- Witness for C15: the member `fX` with the buffered values `1`, `2` and the
pending value `3` at compact level 3. -/
theorem C15_chain_object_witness :
    chainFrame.fValues ≠ [] ∧
    ((frameBuffer 3 chainFrame "3").PerformPostProcessing rootEnum none).map
        (fun r => (r.fOutBuffer, r.fValue, r.fJsonrCnt)) =
      some (",\"fX\":\x7b \"elem0\":1,\"elem1\":2,\"elem2\":3\x7d", "", 1) :=
  ⟨by decide,
    (congrArg (Option.map (fun r => (r.fOutBuffer, r.fValue, r.fJsonrCnt)))
      (C15_chain_object rootEnum (frameBuffer 3 chainFrame "3") chainFrame [] intElem
        rfl rfl rfl rfl rfl (by decide) (by decide) (by decide) (by decide) (by decide)
        (by decide))).trans (by decide)⟩

/-- Counterexample for C15 as stated: at compact level 3 the text appended for
the member `fX` with the values `1`, `2`, `3` has a blank after the opening
brace, and the output does not contain `{"elem0":1,"elem1":2,"elem2":3}`. -/
theorem C15_counterexample :
    ((frameBuffer 3 chainFrame "3").PerformPostProcessing rootEnum none).map
        (fun r => r.fOutBuffer) =
      some ",\"fX\":\x7b \"elem0\":1,\"elem1\":2,\"elem2\":3\x7d" ∧
    ((frameBuffer 3 chainFrame "3").PerformPostProcessing rootEnum none).map
        (fun r => decide
          ("\x7b\"elem0\":1,\"elem1\":2,\"elem2\":3\x7d".data <:+: r.fOutBuffer.data)) =
      some false := by
  decide!

/-- C16: for a frame that is not started as an object, with `elem` the element
that `PerformPostProcessing` works on: (1) when the frame is a base class that
is neither `TObject` nor a `TArray`, the output buffer is left as it is,
whatever value is pending; (2) when the finalisation runs, the text appended
is the field prefix (comma, line break and indentation, quoted member name,
field separator) exactly when the frame is not a base class, followed by the
text of the category, which does not depend on the member name; (3) for a
frame started as an object only the closing brace is appended. -/
theorem C16_base_class_field_name (K : EReadWrite) (b : TBufferJSON) (stack : TJSONStackObj)
    (rest : List TJSONStackObj) (elemArg : Option TStreamerElement) (elem : TStreamerElement)
    (hstack : b.fStack = stack :: rest)
    (heff : (elemArg.orElse fun _ => stack.fElem) = some elem) :
    let typname : String := if stack.fIsBaseClass then elem.fName else elem.fTypeName
    let isTObject : Bool := elem.fType == K.kTObject || typname == "TObject"
    let isTString : Bool := elem.fType == K.kTString
    let isOffsetPArray : Bool := elem.fType > K.kOffsetP && elem.fType < K.kOffsetP + 20
    let isTArray : Bool := startsWithTArray typname
    (stack.fIsObjStarted = false → stack.fIsBaseClass = true → isTObject = false →
      isTArray = false →
      ∃ b1, b.PerformPostProcessing K elemArg = some b1 ∧ b1.fOutBuffer = b.fOutBuffer) ∧
    (stack.fIsObjStarted = false → (elemArg.isSome = true ∨ stack.fIsPostProcessed = false) →
      ∃ b1, b.PerformPostProcessing K elemArg = some b1 ∧
        b1.fOutBuffer = b.fOutBuffer ++
          (if stack.fIsBaseClass then ""
           else "," ++ lineBreak b.fCompact ++ indent b.fCompact b.fStack ++
             "\"" ++ elem.fName ++ "\"" ++ b.fSemicolon) ++
          finalText b stack.fIsBaseClass isTString isOffsetPArray isTObject isTArray
            stack.fValues) ∧
    (stack.fIsObjStarted = true → (elemArg.isSome = true ∨ stack.fIsPostProcessed = false) →
      ∃ b1, b.PerformPostProcessing K elemArg = some b1 ∧
        b1.fOutBuffer = b.fOutBuffer ++ lineBreak b.fCompact ++ indent b.fCompact b.fStack ++
          "\x7d") := by
  intro typname isTObject isTString isOffsetPArray isTArray
  refine ⟨?_, ?_, ?_⟩
  · intro hobj hbase hO hA
    by_cases hrun : elemArg.isSome = true ∨ stack.fIsPostProcessed = false
    · have h := PerformPostProcessing_run K b stack rest elemArg elem isTString isOffsetPArray
        isTObject isTArray hstack heff hrun hobj rfl rfl rfl rfl
      refine ⟨_, h, ?_⟩
      cases isTString <;> cases isOffsetPArray <;> simp [hbase, hO, hA, finalText]
    · have hn : elemArg = none := by
        cases elemArg with
        | none => rfl
        | some e => exact absurd (Or.inl rfl) hrun
      have hp : stack.fIsPostProcessed = true := by
        cases hp : stack.fIsPostProcessed with
        | true => rfl
        | false => exact absurd (Or.inr hp) hrun
      subst hn
      exact ⟨b, PerformPostProcessing_skip K b stack rest hstack (Or.inl hp), rfl⟩
  · intro hobj hrun
    have h := PerformPostProcessing_run K b stack rest elemArg elem isTString isOffsetPArray
      isTObject isTArray hstack heff hrun hobj rfl rfl rfl rfl
    refine ⟨_, h, ?_⟩
    cases hb : stack.fIsBaseClass <;> simp [fieldOpen, String.append_assoc]
  · intro hobj hrun
    exact ⟨_, PerformPostProcessing_started K b stack rest elemArg elem hstack heff hrun hobj,
      rfl⟩

/-- Witness for C16: at compact level 0 with the pending value `5`, the
base-class frame of `Base` appends nothing and the member frame of `fX`
appends its field. -/
theorem C16_base_class_field_name_witness :
    ((frameBuffer 0 baseFrame "5").PerformPostProcessing rootEnum none).map
        (fun r => r.fOutBuffer) = some "" ∧
    ((frameBuffer 0 { TJSONStackObj.new with fElem := some intElem } "5").PerformPostProcessing
        rootEnum none).map (fun r => r.fOutBuffer) = some ",\n\"fX\" : 5" := by
  obtain ⟨b1, h1, ho1⟩ := (C16_base_class_field_name rootEnum (frameBuffer 0 baseFrame "5")
    baseFrame [] none baseElem rfl rfl).1 rfl rfl (by decide) (by decide)
  obtain ⟨b2, h2, ho2⟩ := (C16_base_class_field_name rootEnum
    (frameBuffer 0 { TJSONStackObj.new with fElem := some intElem } "5")
    { TJSONStackObj.new with fElem := some intElem } [] none intElem rfl rfl).2.1 rfl
    (Or.inr rfl)
  constructor
  · rw [h1]
    exact congrArg some ho1
  · rw [h2]
    exact (congrArg some ho2).trans (by decide)

/-! ### Arrays of basic values -/

theorem intercalate_go_append (s : String) :
    ∀ (l : List String) (p acc : String),
      String.intercalate.go (p ++ acc) s l = p ++ String.intercalate.go acc s l
  | [], _, _ => by simp [String.intercalate.go]
  | a :: as, p, acc => by
    simp only [String.intercalate.go]
    rw [← intercalate_go_append s as p (acc ++ s ++ a)]
    simp [String.append_assoc]

theorem arrayContentLoop_eq (vname : List BasicValue) :
    ∀ (count indx : Nat) (b : TBufferJSON), 0 < indx → indx + count ≤ vname.length →
      arrayContentLoop vname indx count b =
        some { b with
          fValue := String.intercalate.go b.fValue b.fArraySepar
            (((vname.drop indx).take count).map (basicText b.fgFloatFmt)) }
  | 0, _, b, _, _ => by simp [arrayContentLoop, String.intercalate.go]
  | count + 1, indx, b, hpos, hlen => by
    have hlt : indx < vname.length := by omega
    have hget : vname.get? indx = some (vname.get ⟨indx, hlt⟩) := List.get?_eq_get hlt
    have hdrop : vname.drop indx = vname.get ⟨indx, hlt⟩ :: vname.drop (indx + 1) := by
      exact List.drop_eq_getElem_cons hlt
    simp only [arrayContentLoop, hget, hpos, if_true]
    rw [arrayContentLoop_eq vname count (indx + 1) _ (by omega) (by omega), hdrop]
    simp [JsonWriteBasic, String.intercalate.go]

theorem TJSONWriteArrayContent_eq (b : TBufferJSON) (vname : List BasicValue) :
    b.TJSONWriteArrayContent vname vname.length =
      some { b with
        fValue := b.fValue ++ "[" ++
          String.intercalate b.fArraySepar (vname.map (basicText b.fgFloatFmt)) ++ "]" } := by
  cases vname with
  | nil => simp [TJSONWriteArrayContent, arrayContentLoop, String.intercalate]
  | cons v vs =>
    simp only [TJSONWriteArrayContent, List.length_cons, Int.toNat_ofNat, arrayContentLoop,
      List.get?_cons_zero, Nat.lt_irrefl, if_false]
    rw [arrayContentLoop_eq (v :: vs) vs.length 1 _ (by omega) (by simp; omega)]
    simp [JsonWriteBasic, String.intercalate, intercalate_go_append, String.append_assoc]

theorem TJSONWriteArrayContent_empty (b : TBufferJSON) (vname : List BasicValue) (n : Int)
    (hn : n ≤ 0) :
    b.TJSONWriteArrayContent vname n = some { b with fValue := b.fValue ++ "[]" } := by
  have h0 : n.toNat = 0 := by omega
  simp [TJSONWriteArrayContent, h0, arrayContentLoop, String.append_assoc]

theorem basicText_ints (fmt : String) (xs : List Int) :
    (xs.map BasicValue.Int_t).map (basicText fmt) = xs.map toString := by
  induction xs with
  | nil => rfl
  | cons x xs ih => simp [basicText, ih]
/-- C17: on a member frame of generic category (not a base class) without
buffered values and with an empty pending value, for every list `xs` of
integers: `WriteArray` with the length of `xs`, and `WriteFastArray` when no
chain is expected, leave as pending value an opening bracket, the decimal
texts of `xs` joined by the array separator of the buffer and a closing
bracket; with a length of 0 or less both leave `[]`; finalising the frame
after `WriteArray` appends the field prefix with the member name and that
value. -/
theorem C17_fixed_array_field (K : EReadWrite) (b : TBufferJSON) (stack : TJSONStackObj)
    (rest : List TJSONStackObj) (elem : TStreamerElement) (xs : List Int)
    (hstack : b.fStack = stack :: rest) (helem : stack.fElem = some elem)
    (hpost : stack.fIsPostProcessed = false) (hobj : stack.fIsObjStarted = false)
    (hbase : stack.fIsBaseClass = false) (hvalues : stack.fValues = [])
    (hvalue : b.fValue = "") (hstr : elem.fType ≠ K.kTString)
    (hoff : ¬ (K.kOffsetP < elem.fType ∧ elem.fType < K.kOffsetP + 20))
    (hobjT : elem.fType ≠ K.kTObject) (hname : elem.fTypeName ≠ "TObject")
    (harr : startsWithTArray elem.fTypeName = false) :
    b.WriteArray (xs.map BasicValue.Int_t) xs.length =
      some { b with
        fValue := "[" ++ String.intercalate b.fArraySepar (xs.map toString) ++ "]" } ∧
    (b.fExpectedChain = false →
      ¬ (K.kOffsetL < elem.fType ∧ elem.fType < K.kOffsetP ∧ elem.fArrayLength ≠ xs.length) →
      b.WriteFastArray K (xs.map BasicValue.Int_t) xs.length =
        some { b with
          fValue := "[" ++ String.intercalate b.fArraySepar (xs.map toString) ++ "]" }) ∧
    (∀ (vname : List BasicValue) (n : Int), n ≤ 0 →
      b.WriteArray vname n = some { b with fValue := "[]" } ∧
      b.WriteFastArray K vname n = some { b with fValue := "[]" }) ∧
    (b.WriteArray (xs.map BasicValue.Int_t) xs.length).bind
        (fun b1 => b1.PerformPostProcessing K none) =
      some { b with
        fStack := { stack with fIsPostProcessed := true } :: rest
        fOutBuffer := b.fOutBuffer ++ "," ++ lineBreak b.fCompact ++
          indent b.fCompact b.fStack ++ "\"" ++ elem.fName ++ "\"" ++ b.fSemicolon ++
          "[" ++ String.intercalate b.fArraySepar (xs.map toString) ++ "]" } := by
  have hpush : b.TJSONPushValue = some b := by simp [TJSONPushValue, hvalue]
  have hcontent := TJSONWriteArrayContent_eq b (xs.map BasicValue.Int_t)
  rw [basicText_ints, List.length_map, hvalue] at hcontent
  have hw : b.WriteArray (xs.map BasicValue.Int_t) xs.length =
      some { b with
        fValue := "[" ++ String.intercalate b.fArraySepar (xs.map toString) ++ "]" } := by
    simp only [WriteArray, hpush, Option.bind]
    rw [hcontent]
    simp [String.append_assoc]
  refine ⟨hw, ?_, ?_, ?_⟩
  · intro hchain hfix
    by_cases hn : (xs.length : Int) ≤ 0
    · have hx : xs = [] := by
        cases xs with
        | nil => rfl
        | cons x xs => simp at hn; omega
      subst hx
      simp [WriteFastArray, hpush, hvalue, String.intercalate]
    · have hfix' : (decide (elem.fType > K.kOffsetL) && decide (elem.fType < K.kOffsetP) &&
          (elem.fArrayLength != (xs.length : Int))) = false := by
        by_cases h1 : K.kOffsetL < elem.fType <;> by_cases h2 : elem.fType < K.kOffsetP <;>
          by_cases h3 : elem.fArrayLength = (xs.length : Int) <;> simp_all
      simp only [WriteFastArray, hpush, Option.bind, hn, if_false, Stack, hstack,
        List.get?_cons_zero, helem, hfix', hchain, Bool.false_eq_true]
      rw [hcontent]
      simp [String.append_assoc, hstack, hchain]
  · intro vname n hn
    constructor
    · simp [WriteArray, hpush, TJSONWriteArrayContent_empty b vname n hn, hvalue]
    · simp [WriteFastArray, hpush, hn, hvalue]
  · rw [hw]
    simp only [Option.bind]
    have h := PerformPostProcessing_run K
      { b with fValue := "[" ++ String.intercalate b.fArraySepar (xs.map toString) ++ "]" }
      stack rest none elem false false false false
      hstack (by simpa using helem) (Or.inr hpost) hobj (by simpa using hstr)
      (by simpa using hoff) (by simp [hbase, hobjT, hname]) (by simp [hbase, harr])
    rw [h]
    have hne : "[" ++ (String.intercalate b.fArraySepar (xs.map toString) ++ "]") ≠ "" := by
      intro he
      have := congrArg String.length he
      simp +decide at this
    simp +decide [hbase, hvalues, hvalue, finalText, chainText, fieldOpen, valueText, hne,
      String.append_assoc]

/-- Witness for C17: the member `data` with the array 1, 2, 3, 4, 5 at compact
level 0. -/
theorem C17_fixed_array_field_witness :
    ((frameBuffer 0 dataFrame "").WriteArray ([1, 2, 3, 4, 5].map BasicValue.Int_t) 5).map
        (fun r => r.fValue) = some "[1, 2, 3, 4, 5]" ∧
    (((frameBuffer 0 dataFrame "").WriteArray ([1, 2, 3, 4, 5].map BasicValue.Int_t) 5).bind
        (fun b1 => b1.PerformPostProcessing rootEnum none)).map (fun r => r.fOutBuffer) =
      some ",\n\"data\" : [1, 2, 3, 4, 5]" :=
  ⟨(congrArg (Option.map (fun r => r.fValue))
      (C17_fixed_array_field rootEnum (frameBuffer 0 dataFrame "") dataFrame [] dataElem
        [1, 2, 3, 4, 5] rfl rfl rfl rfl rfl rfl rfl (by decide) (by decide) (by decide)
        (by decide) (by decide)).1).trans (by decide),
   (congrArg (Option.map (fun r => r.fOutBuffer))
      (C17_fixed_array_field rootEnum (frameBuffer 0 dataFrame "") dataFrame [] dataElem
        [1, 2, 3, 4, 5] rfl rfl rfl rfl rfl rfl rfl (by decide) (by decide) (by decide)
        (by decide) (by decide)).2.2.2).trans (by decide)⟩

/-- C18: on a buffer with a frame on the stack, `PerformPostProcessing` returns,
with or without an explicit element, and a second call without an explicit
element returns the state unchanged: output buffer, pending value, frames
and counter are those left by the first call. -/
theorem C18_finalise_once (K : EReadWrite) (b : TBufferJSON)
    (elemArg : Option TStreamerElement) (hstack : b.fStack ≠ []) :
    ∃ b1, b.PerformPostProcessing K elemArg = some b1 ∧
      b1.PerformPostProcessing K none = some b1 := by
  rcases hs : b.fStack with _ | ⟨stack, rest⟩
  · exact absurd hs hstack
  · by_cases hrun : elemArg.isSome = true ∨ stack.fIsPostProcessed = false
    · rcases heff : (elemArg.orElse fun _ => stack.fElem) with _ | elem
      · have hn : elemArg = none := by
          cases elemArg with
          | none => rfl
          | some e => simp at heff
        subst hn
        have he : stack.fElem = none := by simpa using heff
        exact ⟨b, PerformPostProcessing_skip K b stack rest hs (Or.inr he),
          PerformPostProcessing_skip K b stack rest hs (Or.inr he)⟩
      · cases hobj : stack.fIsObjStarted with
        | true =>
          refine ⟨_, PerformPostProcessing_started K b stack rest elemArg elem hs heff hrun hobj,
            ?_⟩
          exact PerformPostProcessing_skip K _ _ rest rfl (Or.inl rfl)
        | false =>
          refine ⟨_, PerformPostProcessing_run K b stack rest elemArg elem _ _ _ _ hs heff hrun
            hobj rfl rfl rfl rfl, ?_⟩
          exact PerformPostProcessing_skip K _ _ rest rfl (Or.inl rfl)
    · have hn : elemArg = none := by
        cases elemArg with
        | none => rfl
        | some e => exact absurd (Or.inl rfl) hrun
      have hp : stack.fIsPostProcessed = true := by
        cases hp : stack.fIsPostProcessed with
        | true => rfl
        | false => exact absurd (Or.inr hp) hrun
      subst hn
      exact ⟨b, PerformPostProcessing_skip K b stack rest hs (Or.inl hp),
        PerformPostProcessing_skip K b stack rest hs (Or.inl hp)⟩

/-- Witness for C18: the member `fX` with buffered values, finalised twice. -/
theorem C18_finalise_once_witness :
    (frameBuffer 0 chainFrame "3").fStack ≠ [] ∧
    ((frameBuffer 0 chainFrame "3").PerformPostProcessing rootEnum none).bind
        (fun b1 => b1.PerformPostProcessing rootEnum none) =
      (frameBuffer 0 chainFrame "3").PerformPostProcessing rootEnum none := by
  refine ⟨by decide, ?_⟩
  obtain ⟨b1, h1, h2⟩ := C18_finalise_once rootEnum (frameBuffer 0 chainFrame "3") none
    (by decide)
  rw [h1]
  simp [Option.bind, h2]

/-- C19 (amended): when the finalisation of a frame that is not started as an
object runs, it returns, and afterwards: the pending value is empty unless
the frame is a base class that is neither `TObject` nor a `TArray`; the
buffered values of the frame are empty when the element is a string, a
dynamic array, a `TObject` or a `TArray`; for a frame of generic category the
buffered values are left in the frame as they were. -/
theorem C19_after_finalisation (K : EReadWrite) (b : TBufferJSON) (stack : TJSONStackObj)
    (rest : List TJSONStackObj) (elemArg : Option TStreamerElement) (elem : TStreamerElement)
    (hstack : b.fStack = stack :: rest)
    (heff : (elemArg.orElse fun _ => stack.fElem) = some elem)
    (hrun : elemArg.isSome = true ∨ stack.fIsPostProcessed = false)
    (hobj : stack.fIsObjStarted = false) :
    let typname : String := if stack.fIsBaseClass then elem.fName else elem.fTypeName
    let isTObject : Bool := elem.fType == K.kTObject || typname == "TObject"
    let isTString : Bool := elem.fType == K.kTString
    let isOffsetPArray : Bool := elem.fType > K.kOffsetP && elem.fType < K.kOffsetP + 20
    let isTArray : Bool := startsWithTArray typname
    ∃ b1, b.PerformPostProcessing K elemArg = some b1 ∧
      (¬ (stack.fIsBaseClass = true ∧ isTArray = false ∧ isTObject = false) →
        b1.fValue = "") ∧
      (isTString = true ∨ isOffsetPArray = true ∨ isTObject = true ∨ isTArray = true →
        b1.fStack = { stack with fIsPostProcessed := true, fValues := [] } :: rest) ∧
      (isTString = false → isOffsetPArray = false → isTObject = false → isTArray = false →
        b1.fStack = { stack with fIsPostProcessed := true } :: rest) := by
  intro typname isTObject isTString isOffsetPArray isTArray
  have h := PerformPostProcessing_run K b stack rest elemArg elem isTString isOffsetPArray
    isTObject isTArray hstack heff hrun hobj rfl rfl rfl rfl
  refine ⟨_, h, ?_, ?_, ?_⟩
  · intro hs
    cases hb : stack.fIsBaseClass <;> cases hA : isTArray <;> cases hO : isTObject <;>
      simp_all
  · intro hs
    cases hS : isTString <;> cases hP : isOffsetPArray <;> cases hO : isTObject <;>
      cases hA : isTArray <;> simp_all
  · intro hS hP hO hA
    simp [hS, hP, hO, hA]

/-- Witness for C19: the dynamic array member `fArr` at compact level 0. -/
theorem C19_after_finalisation_witness :
    ((frameBuffer 0 dynFrame "[4, 5]").PerformPostProcessing rootEnum none).map
        (fun r => (r.fValue, r.fStack.map (fun f => f.fValues))) = some ("", [[]]) := by
  obtain ⟨b1, h1, hv, hs, _⟩ := C19_after_finalisation rootEnum (frameBuffer 0 dynFrame "[4, 5]")
    dynFrame [] none dynElem rfl rfl (Or.inr rfl) rfl
  rw [h1]
  simp only [Option.map]
  rw [hv (by decide), hs (by decide)]
  rfl

/-- Counterexample for C19 as stated: after the finalisation of the member `fX`
of generic category with the buffered values `1` and `2`, both values are
still in the frame; after the finalisation of the base-class frame of `Base`
the pending value `5` is still there. -/
theorem C19_counterexample :
    ((frameBuffer 3 chainFrame "3").PerformPostProcessing rootEnum none).map
        (fun r => (r.fValue, r.fStack.map (fun f => f.fValues))) =
      some ("", [["1", "2"]]) ∧
    ((frameBuffer 3 baseFrame "5").PerformPostProcessing rootEnum none).map
        (fun r => (r.fValue, r.fStack.map (fun f => f.fValues))) =
      some ("5", [[]]) := by
  decide!

/-! ### Scalar writers -/

theorem PerformPostProcessing_frames (K : EReadWrite) (b : TBufferJSON)
    (elemArg : Option TStreamerElement) (stack : TJSONStackObj) (rest : List TJSONStackObj)
    (hs : b.fStack = stack :: rest) :
    ∃ b1 top, b.PerformPostProcessing K elemArg = some b1 ∧ b1.fStack = top :: rest := by
  by_cases hrun : elemArg.isSome = true ∨ stack.fIsPostProcessed = false
  · rcases heff : (elemArg.orElse fun _ => stack.fElem) with _ | elem
    · have hn : elemArg = none := by
        cases elemArg with
        | none => rfl
        | some e => simp at heff
      subst hn
      have he : stack.fElem = none := by simpa using heff
      exact ⟨b, stack, PerformPostProcessing_skip K b stack rest hs (Or.inr he), hs⟩
    · cases hobj : stack.fIsObjStarted with
      | true =>
        exact ⟨_, _, PerformPostProcessing_started K b stack rest elemArg elem hs heff hrun hobj,
          rfl⟩
      | false =>
        exact ⟨_, _, PerformPostProcessing_run K b stack rest elemArg elem _ _ _ _ hs heff hrun
          hobj rfl rfl rfl rfl, rfl⟩
  · have hn : elemArg = none := by
      cases elemArg with
      | none => rfl
      | some e => exact absurd (Or.inl rfl) hrun
    have hp : stack.fIsPostProcessed = true := by
      cases hp : stack.fIsPostProcessed with
      | true => rfl
      | false => exact absurd (Or.inr hp) hrun
    subst hn
    exact ⟨b, stack, PerformPostProcessing_skip K b stack rest hs (Or.inl hp), hs⟩

theorem WorkWithElement_class (K : EReadWrite) (b : TBufferJSON) (elem : TStreamerElement)
    (comp_type : Int) (cls : TJSONStackObj) (rest : List TJSONStackObj) (info : TStreamerInfo)
    (hstack : b.fStack = cls :: rest) (hcls : cls.fIsStreamerInfo = true)
    (hinfo : cls.fInfo = some info) :
    b.WorkWithElement K (some elem) comp_type =
      some { b with
        fExpectedChain :=
          (decide (elem.fType > 0) && decide (elem.fType < 20)) &&
            (comp_type - elem.fType == K.kOffsetL)
        fValue := ""
        fStack := memberFrame K cls info elem :: cls :: rest } := by
  cases b with
  | mk fmt out val map cnt stk chain compact semi sep =>
    simp only at hstack
    subst hstack
    simp [WorkWithElement, TJSONStackObj.IsStreamerElement, TJSONStackObj.IsStreamerInfo, hcls,
      hinfo, PushStack, Stack, setTop, memberFrame]

/-- C21: `WorkWithElement` with a non-null element, when the class-level frame
that ends up on top holds a streamer info. On a stack whose top is that
class-level frame the call returns with exactly one frame pushed,
`memberFrame`; on a stack whose top is a member frame directly above that
class-level frame, the member frame is first finalised
(`PerformPostProcessing` returns) and popped, and then the same frame is
pushed. The pending value is cleared. The pushed frame carries the element,
has no buffered values, is neither post-processed nor started as an object,
is no class-level frame, and has the level of the class frame. A class-level
frame without streamer info, as `ClassBegin` pushes it, is not covered. -/
theorem C21_WorkWithElement_frame (K : EReadWrite) (b : TBufferJSON) (elem : TStreamerElement)
    (comp_type : Int) :
    (∀ cls rest info, b.fStack = cls :: rest → cls.fIsStreamerInfo = true →
      cls.fInfo = some info →
      b.WorkWithElement K (some elem) comp_type =
        some { b with
          fExpectedChain :=
            (decide (elem.fType > 0) && decide (elem.fType < 20)) &&
              (comp_type - elem.fType == K.kOffsetL)
          fValue := ""
          fStack := memberFrame K cls info elem :: cls :: rest }) ∧
    (∀ member cls rest info, b.fStack = member :: cls :: rest →
      member.IsStreamerElement = true → cls.fIsStreamerInfo = true → cls.fInfo = some info →
      ∃ b1, PerformPostProcessing K { b with fExpectedChain := false } none = some b1 ∧
        b.WorkWithElement K (some elem) comp_type =
          some { b1 with
            fExpectedChain :=
              (decide (elem.fType > 0) && decide (elem.fType < 20)) &&
                (comp_type - elem.fType == K.kOffsetL)
            fValue := ""
            fStack := memberFrame K cls info elem :: cls :: rest }) ∧
    (∀ cls info, (memberFrame K cls info elem).fValues = [] ∧
      (memberFrame K cls info elem).fIsPostProcessed = false ∧
      (memberFrame K cls info elem).fIsObjStarted = false ∧
      (memberFrame K cls info elem).fIsStreamerInfo = false ∧
      (memberFrame K cls info elem).fElem = some elem ∧
      (memberFrame K cls info elem).fLevel = cls.fLevel) := by
  refine ⟨?_, ?_, fun _ _ => ⟨rfl, rfl, rfl, rfl, rfl, rfl⟩⟩
  · intro cls rest info hs hcls hinfo
    exact WorkWithElement_class K b elem comp_type cls rest info hs hcls hinfo
  · intro member cls rest info hs hm hcls hinfo
    cases b with
    | mk fmt out val map cnt stk chain compact semi sep =>
      simp only at hs
      subst hs
      obtain ⟨b1, top, h1, hs1⟩ := PerformPostProcessing_frames K
        { fgFloatFmt := fmt, fOutBuffer := out, fValue := val, fJsonrMap := map, fJsonrCnt := cnt,
          fStack := member :: cls :: rest, fExpectedChain := false, fCompact := compact,
          fSemicolon := semi, fArraySepar := sep } none member (cls :: rest) rfl
      refine ⟨b1, h1, ?_⟩
      simp [WorkWithElement, hm, h1, PopStack, hs1, TJSONStackObj.IsStreamerInfo, hcls, hinfo,
        PushStack, Stack, setTop, memberFrame]

/-- Witness for C21: the member `fX` begins on the class-level frame of
`Point`, and the member `fTitle` begins while the frame of `fX` is still open
above that class-level frame. -/
theorem C21_WorkWithElement_frame_witness :
    levelFrame.fIsStreamerInfo = true ∧ levelFrame.fInfo = some memberInfo ∧
    ((frameBuffer 0 levelFrame "").WorkWithElement rootEnum (some intElem) 3).map
        (fun r => r.fStack) = some [memberFrame rootEnum levelFrame memberInfo intElem, levelFrame] ∧
    (∃ b1, PerformPostProcessing rootEnum { levelBuffer 0 with fExpectedChain := false } none =
        some b1 ∧
      (levelBuffer 0).WorkWithElement rootEnum (some stringElem) 65 =
        some { b1 with
          fExpectedChain := false
          fValue := ""
          fStack := [memberFrame rootEnum levelFrame memberInfo stringElem, levelFrame] }) :=
  ⟨rfl, rfl,
    (congrArg (Option.map (fun r => r.fStack))
      ((C21_WorkWithElement_frame rootEnum (frameBuffer 0 levelFrame "") intElem 3).1
        levelFrame [] memberInfo rfl rfl rfl)).trans (by decide),
    (C21_WorkWithElement_frame rootEnum (levelBuffer 0) stringElem 65).2.1
      { TJSONStackObj.new with fElem := some intElem } levelFrame [] memberInfo rfl rfl rfl rfl⟩

/-- Failing input for C21: after `ClassBegin(cl)` on a fresh buffer the top
frame is a class-level frame whose streamer info is null, and
`WorkWithElement(elem, -1)`, the call `ClassMember` makes, has no defined
result: the source evaluates `info->GetElements()` on the null pointer. -/
theorem C21_counterexample :
    ((TBufferJSON.new "%e").ClassBegin rootEnum (some pointClass)).fStack =
      [{ TJSONStackObj.new with fIsStreamerInfo := true }] ∧
    ((TBufferJSON.new "%e").ClassBegin rootEnum (some pointClass)).WorkWithElement rootEnum
      (some intElem) (-1) = none := by
  decide

/-- The class-level frame that `WorkWithClass` pushes. -/
theorem WorkWithClass_plain (K : EReadWrite) (b : TBufferJSON) (stack : TJSONStackObj)
    (rest : List TJSONStackObj) (sinfo : Option TStreamerInfo) (cl : Option TClass) (c : TClass)
    (hstack : b.fStack = stack :: rest)
    (hcl : (match sinfo with | some i => some i.fClass | none => cl) = some c)
    (hplain : ∀ elem, stack.fElem = some elem →
      stack.fIsStreamerInfo = true ∨ elem.fType ≠ K.kObject ∨ stack.fIsObjStarted = true) :
    b.WorkWithClass K sinfo cl =
      { b with
        fExpectedChain := false
        fStack :=
          { TJSONStackObj.new with
            fLevel := stack.fLevel, fInfo := sinfo, fIsStreamerInfo := true } ::
            stack :: rest } := by
  cases b with
  | mk fmt out val map cnt stk chain compact semi sep =>
    simp only at hstack
    subst hstack
    cases he : stack.fElem with
    | none =>
      cases sinfo <;> simp at hcl <;> subst hcl <;>
        simp [WorkWithClass, he, PushStack, Stack, setTop]
    | some elem =>
      have hp := hplain elem he
      have hcond : (stack.IsStreamerElement && elem.fType == K.kObject &&
          !stack.fIsObjStarted) = false := by
        rcases hp with h | h | h
        · simp [TJSONStackObj.IsStreamerElement, h]
        · simp [h]
        · simp [h]
      cases sinfo <;> simp at hcl <;> subst hcl <;>
        simp [WorkWithClass, he, hcond, PushStack, Stack, setTop]

theorem WorkWithClass_object (K : EReadWrite) (b : TBufferJSON) (stack : TJSONStackObj)
    (rest : List TJSONStackObj) (elem : TStreamerElement) (sinfo : Option TStreamerInfo)
    (cl : Option TClass) (c : TClass)
    (hstack : b.fStack = stack :: rest) (helem : stack.fElem = some elem)
    (hinfo : stack.fIsStreamerInfo = false) (hobj : stack.fIsObjStarted = false)
    (htype : elem.fType = K.kObject)
    (hcl : (match sinfo with | some i => some i.fClass | none => cl) = some c) :
    b.WorkWithClass K sinfo cl =
      { b with
        fExpectedChain := false
        fJsonrCnt := b.fJsonrCnt + 1
        fOutBuffer := b.fOutBuffer ++ "," ++ lineBreak b.fCompact ++
          indent b.fCompact b.fStack ++ "\"" ++ elem.fName ++ "\" : \x7b" ++
          lineBreak b.fCompact ++
          (if b.fCompact < 1 ∧ 0 < stack.fLevel + 2 then blanks (stack.fLevel + 2) else "") ++
          "\"_typename\"" ++ b.fSemicolon ++ "\"JSROOTIO." ++ c.fName ++ "\""
        fStack :=
          { TJSONStackObj.new with
            fLevel := stack.fLevel + 2, fInfo := sinfo, fIsStreamerInfo := true } ::
            { stack with fIsObjStarted := true } :: rest } := by
  cases b with
  | mk fmt out val map cnt stk chain compact semi sep =>
    simp only at hstack
    subst hstack
    cases sinfo <;> simp at hcl <;> subst hcl <;>
    by_cases h1 : compact < 1 <;> by_cases h2 : 0 < stack.fLevel + 2 <;>
      simp +decide [WorkWithClass, helem, hinfo, hobj, htype,
        TJSONStackObj.IsStreamerElement, PushStack, Stack, setTop, AppendOutput_eq, appended,
        indent, h1, h2, String.append_assoc]

/-- C22 (amended): `WorkWithClass` on a stack whose top is a member frame that
is not post-processed does not finalise that frame. When the element is not
of type `kObject`, or the frame is already started as an object, only
`fExpectedChain` is cleared and a class-level frame of the same level is
pushed above the member frame. When the element is of type `kObject` and the
frame is not started, the frame is marked as started, the counter is
advanced, the field name with the `_typename` header of the class is appended
to the output, and the class-level frame is pushed two levels deeper. In both
cases the member frame lies directly below the new class-level frame, still
not post-processed and with its buffered values, and the pending value is
unchanged. -/
theorem C22_class_level_above_member (K : EReadWrite) (b : TBufferJSON) (stack : TJSONStackObj)
    (rest : List TJSONStackObj) (elem : TStreamerElement) (sinfo : Option TStreamerInfo)
    (cl : Option TClass) (c : TClass)
    (hstack : b.fStack = stack :: rest) (helem : stack.fElem = some elem)
    (hinfo : stack.fIsStreamerInfo = false) (hpost : stack.fIsPostProcessed = false)
    (hcl : (match sinfo with | some i => some i.fClass | none => cl) = some c) :
    ((elem.fType ≠ K.kObject ∨ stack.fIsObjStarted = true) →
      b.WorkWithClass K sinfo cl =
        { b with
          fExpectedChain := false
          fStack :=
            { TJSONStackObj.new with
              fLevel := stack.fLevel, fInfo := sinfo, fIsStreamerInfo := true } ::
              stack :: rest }) ∧
    (elem.fType = K.kObject → stack.fIsObjStarted = false →
      b.WorkWithClass K sinfo cl =
        { b with
          fExpectedChain := false
          fJsonrCnt := b.fJsonrCnt + 1
          fOutBuffer := b.fOutBuffer ++ "," ++ lineBreak b.fCompact ++
            indent b.fCompact b.fStack ++ "\"" ++ elem.fName ++ "\" : \x7b" ++
            lineBreak b.fCompact ++
            (if b.fCompact < 1 ∧ 0 < stack.fLevel + 2 then blanks (stack.fLevel + 2) else "") ++
            "\"_typename\"" ++ b.fSemicolon ++ "\"JSROOTIO." ++ c.fName ++ "\""
          fStack :=
            { TJSONStackObj.new with
              fLevel := stack.fLevel + 2, fInfo := sinfo, fIsStreamerInfo := true } ::
              { stack with fIsObjStarted := true } :: rest }) ∧
    (∃ cls member, (b.WorkWithClass K sinfo cl).fStack = cls :: member :: rest ∧
      cls.fIsStreamerInfo = true ∧ member.fIsPostProcessed = false ∧
      member.fValues = stack.fValues ∧ (b.WorkWithClass K sinfo cl).fValue = b.fValue) := by
  have h1 : (elem.fType ≠ K.kObject ∨ stack.fIsObjStarted = true) →
      b.WorkWithClass K sinfo cl =
        { b with
          fExpectedChain := false
          fStack :=
            { TJSONStackObj.new with
              fLevel := stack.fLevel, fInfo := sinfo, fIsStreamerInfo := true } ::
              stack :: rest } := by
    intro h
    refine WorkWithClass_plain K b stack rest sinfo cl c hstack hcl ?_
    intro e he
    rw [helem] at he
    cases he
    exact Or.inr h
  have h2 := WorkWithClass_object K b stack rest elem sinfo cl c hstack helem hinfo
  refine ⟨h1, fun ht ho => h2 ho ht hcl, ?_⟩
  by_cases hc : elem.fType = K.kObject ∧ stack.fIsObjStarted = false
  · rw [h2 hc.2 hc.1 hcl]
    exact ⟨_, _, rfl, rfl, hpost, rfl, rfl⟩
  · have hc1 : elem.fType ≠ K.kObject ∨ stack.fIsObjStarted = true := by
      by_cases ht : elem.fType = K.kObject
      · right
        cases ho : stack.fIsObjStarted with
        | true => rfl
        | false => exact absurd ⟨ht, ho⟩ hc
      · exact Or.inl ht
    rw [h1 hc1]
    exact ⟨_, _, rfl, rfl, hpost, rfl, rfl⟩

/-- Witness for C22: on the open frame of the member `fX` with the pending
value `5`, `WorkWithClass` for `Point` only pushes the class-level frame. -/
theorem C22_class_level_above_member_witness :
    (memberBuffer intElem "5").WorkWithClass rootEnum (some pointInfo) none =
      { memberBuffer intElem "5" with
        fStack :=
          [{ TJSONStackObj.new with fInfo := some pointInfo, fIsStreamerInfo := true },
           { TJSONStackObj.new with fElem := some intElem }] } :=
  ((C22_class_level_above_member rootEnum (memberBuffer intElem "5")
    { TJSONStackObj.new with fElem := some intElem } [] intElem (some pointInfo) none pointClass
    rfl rfl rfl rfl rfl).1 (Or.inl (by decide))).trans (by decide)

/-- Counterexample for C22 as stated: after `WorkWithClass` on the open frame of
the member `fX` with the pending value `5`, nothing has been written to the
output, the pending value is still `5`, and the member frame below the new
class-level frame is still not post-processed. -/
theorem C22_counterexample :
    ((memberBuffer intElem "5").WorkWithClass rootEnum (some pointInfo) none).fOutBuffer = "" ∧
    ((memberBuffer intElem "5").WorkWithClass rootEnum (some pointInfo) none).fValue = "5" ∧
    ((memberBuffer intElem "5").WorkWithClass rootEnum (some pointInfo) none).fStack.map
        (fun f => (f.fIsStreamerInfo, f.fIsPostProcessed)) = [(true, false), (false, false)] := by
  decide

/-- C23: `DecrementLevel` on a stack whose top is a class-level frame returns
with that frame popped and nothing else changed but `fExpectedChain`; on a
stack whose top is a member frame directly above another frame, the member
frame is finalised (`PerformPostProcessing` returns) and both frames are
popped, so that the stack is the one below the class frame; the streamer info
passed as argument plays no part in the result, so a mismatch with the info
recorded in the popped frame gives the same stack and output as a match. -/
theorem C23_DecrementLevel_pops (K : EReadWrite) (b : TBufferJSON)
    (info : Option TStreamerInfo) :
    (∀ cls rest, b.fStack = cls :: rest → cls.fIsStreamerInfo = true →
      b.DecrementLevel K info = some { b with fExpectedChain := false, fStack := rest }) ∧
    (∀ member cls rest, b.fStack = member :: cls :: rest → member.IsStreamerElement = true →
      ∃ b1, PerformPostProcessing K { b with fExpectedChain := false } none = some b1 ∧
        b.DecrementLevel K info = some { b1 with fStack := rest }) ∧
    (∀ info', b.DecrementLevel K info' = b.DecrementLevel K info) := by
  refine ⟨?_, ?_, fun _ => rfl⟩
  · intro cls rest hs hcls
    simp [DecrementLevel, hs, TJSONStackObj.IsStreamerElement, hcls, PopStack]
  · intro member cls rest hs hm
    cases b with
    | mk fmt out val map cnt stk chain compact semi sep =>
      simp only at hs
      subst hs
      obtain ⟨b1, top, h1, hs1⟩ := PerformPostProcessing_frames K
        { fgFloatFmt := fmt, fOutBuffer := out, fValue := val, fJsonrMap := map, fJsonrCnt := cnt,
          fStack := member :: cls :: rest, fExpectedChain := false, fCompact := compact,
          fSemicolon := semi, fArraySepar := sep } none member (cls :: rest) rfl
      refine ⟨b1, h1, ?_⟩
      simp [DecrementLevel, hm, h1, PopStack, hs1]

/-- Witness for C23: the level of `Point` is closed on its class-level frame
alone, and with the open frame of the member `fX` above it; closing it with
the streamer info of another class gives the same result. -/
theorem C23_DecrementLevel_pops_witness :
    levelFrame.fIsStreamerInfo = true ∧
    ((frameBuffer 0 levelFrame "").DecrementLevel rootEnum (some memberInfo)).map
        (fun r => r.fStack) = some [] ∧
    (∃ b1, PerformPostProcessing rootEnum { levelBuffer 0 with fExpectedChain := false } none =
        some b1 ∧
      (levelBuffer 0).DecrementLevel rootEnum (some memberInfo) = some { b1 with fStack := [] }) ∧
    (levelBuffer 0).DecrementLevel rootEnum (some pointInfo) =
      (levelBuffer 0).DecrementLevel rootEnum (some memberInfo) :=
  ⟨rfl,
    (congrArg (Option.map (fun r => r.fStack))
      ((C23_DecrementLevel_pops rootEnum (frameBuffer 0 levelFrame "") (some memberInfo)).1
        levelFrame [] rfl rfl)).trans (by decide),
    (C23_DecrementLevel_pops rootEnum (levelBuffer 0) (some memberInfo)).2.1
      { TJSONStackObj.new with fElem := some intElem } levelFrame [] rfl rfl,
    (C23_DecrementLevel_pops rootEnum (levelBuffer 0) (some memberInfo)).2.2 (some pointInfo)⟩

/-! ### The layout settings along a run -/

@[simp] theorem JsonStartElement_fCompact (b : TBufferJSON) :
    b.JsonStartElement.fCompact = b.fCompact := by
  unfold JsonStartElement
  repeat' split
  all_goals simp

@[simp] theorem appendElems_fCompact (vs : List String) : ∀ (b : TBufferJSON) (n : Nat),
    (appendElems b n vs).fCompact = b.fCompact := by
  induction vs with
  | nil => intro b n; rfl
  | cons v vs ih => intro b n; simp [appendElems, ih]

@[simp] theorem emitValue_fCompact (b : TBufferJSON) (values : List String) :
    (b.emitValue values).fCompact = b.fCompact := by
  unfold emitValue
  simp only []
  split_ifs <;> simp

@[simp] theorem setTop_fCompact (b : TBufferJSON) (s : TJSONStackObj) :
    (b.setTop s).fCompact = b.fCompact := rfl

@[simp] theorem PushStack_fCompact (b : TBufferJSON) (n : Int) :
    (b.PushStack n).fCompact = b.fCompact := rfl

@[simp] theorem PopStack_fCompact (b : TBufferJSON) : b.PopStack.fCompact = b.fCompact := by
  unfold PopStack; split <;> rfl

@[simp] theorem fieldPrefix_fCompact (b : TBufferJSON) (name : String) :
    (b.fieldPrefix name).fCompact = b.fCompact := by simp [fieldPrefix]

@[simp] theorem reformat_fCompact (b : TBufferJSON) (stack : TJSONStackObj)
    (s o t a : Bool) : (b.reformat stack s o t a).fCompact = b.fCompact := by
  unfold reformat
  simp only []
  split_ifs <;> (try split) <;> simp

@[simp] theorem JsonStartElement_fSemicolon (b : TBufferJSON) :
    b.JsonStartElement.fSemicolon = b.fSemicolon := by
  unfold JsonStartElement
  repeat' split
  all_goals simp

@[simp] theorem appendElems_fSemicolon (vs : List String) : ∀ (b : TBufferJSON) (n : Nat),
    (appendElems b n vs).fSemicolon = b.fSemicolon := by
  induction vs with
  | nil => intro b n; rfl
  | cons v vs ih => intro b n; simp [appendElems, ih]

@[simp] theorem emitValue_fSemicolon (b : TBufferJSON) (values : List String) :
    (b.emitValue values).fSemicolon = b.fSemicolon := by
  unfold emitValue
  simp only []
  split_ifs <;> simp

@[simp] theorem setTop_fSemicolon (b : TBufferJSON) (s : TJSONStackObj) :
    (b.setTop s).fSemicolon = b.fSemicolon := rfl

@[simp] theorem PushStack_fSemicolon (b : TBufferJSON) (n : Int) :
    (b.PushStack n).fSemicolon = b.fSemicolon := rfl

@[simp] theorem PopStack_fSemicolon (b : TBufferJSON) : b.PopStack.fSemicolon = b.fSemicolon := by
  unfold PopStack; split <;> rfl

@[simp] theorem fieldPrefix_fSemicolon (b : TBufferJSON) (name : String) :
    (b.fieldPrefix name).fSemicolon = b.fSemicolon := by simp [fieldPrefix]

@[simp] theorem reformat_fSemicolon (b : TBufferJSON) (stack : TJSONStackObj)
    (s o t a : Bool) : (b.reformat stack s o t a).fSemicolon = b.fSemicolon := by
  unfold reformat
  simp only []
  split_ifs <;> (try split) <;> simp

@[simp] theorem JsonStartElement_fArraySepar (b : TBufferJSON) :
    b.JsonStartElement.fArraySepar = b.fArraySepar := by
  unfold JsonStartElement
  repeat' split
  all_goals simp

@[simp] theorem appendElems_fArraySepar (vs : List String) : ∀ (b : TBufferJSON) (n : Nat),
    (appendElems b n vs).fArraySepar = b.fArraySepar := by
  induction vs with
  | nil => intro b n; rfl
  | cons v vs ih => intro b n; simp [appendElems, ih]

@[simp] theorem emitValue_fArraySepar (b : TBufferJSON) (values : List String) :
    (b.emitValue values).fArraySepar = b.fArraySepar := by
  unfold emitValue
  simp only []
  split_ifs <;> simp

@[simp] theorem setTop_fArraySepar (b : TBufferJSON) (s : TJSONStackObj) :
    (b.setTop s).fArraySepar = b.fArraySepar := rfl

@[simp] theorem PushStack_fArraySepar (b : TBufferJSON) (n : Int) :
    (b.PushStack n).fArraySepar = b.fArraySepar := rfl

@[simp] theorem PopStack_fArraySepar (b : TBufferJSON) : b.PopStack.fArraySepar = b.fArraySepar := by
  unfold PopStack; split <;> rfl

@[simp] theorem fieldPrefix_fArraySepar (b : TBufferJSON) (name : String) :
    (b.fieldPrefix name).fArraySepar = b.fArraySepar := by simp [fieldPrefix]

@[simp] theorem reformat_fArraySepar (b : TBufferJSON) (stack : TJSONStackObj)
    (s o t a : Bool) : (b.reformat stack s o t a).fArraySepar = b.fArraySepar := by
  unfold reformat
  simp only []
  split_ifs <;> (try split) <;> simp

theorem layout_refl (b : TBufferJSON) : Layout b b := ⟨rfl, rfl, rfl⟩

theorem layout_trans {a b c : TBufferJSON} (h1 : Layout a b) (h2 : Layout b c) : Layout a c :=
  ⟨h2.1.trans h1.1, h2.2.1.trans h1.2.1, h2.2.2.trans h1.2.2⟩

theorem layout_of_eq {b b' : TBufferJSON} (h1 : b'.fCompact = b.fCompact)
    (h2 : b'.fSemicolon = b.fSemicolon) (h3 : b'.fArraySepar = b.fArraySepar) : Layout b b' :=
  ⟨h1, h2, h3⟩

theorem layout_AppendOutput (b : TBufferJSON) (l0 l1 : Option String) :
    Layout b (b.AppendOutput l0 l1) := layout_of_eq (by simp) (by simp) (by simp)

theorem layout_PushStack (b : TBufferJSON) (n : Int) : Layout b (b.PushStack n) :=
  layout_of_eq rfl rfl rfl

theorem layout_PopStack (b : TBufferJSON) : Layout b b.PopStack :=
  layout_of_eq (by simp) (by simp) (by simp)

theorem layout_setTop (b : TBufferJSON) (s : TJSONStackObj) : Layout b (b.setTop s) :=
  layout_of_eq rfl rfl rfl

theorem layout_JsonStartElement (b : TBufferJSON) : Layout b b.JsonStartElement :=
  layout_of_eq (by simp) (by simp) (by simp)

theorem layout_PerformPostProcessing (K : EReadWrite) (b b' : TBufferJSON)
    (elem : Option TStreamerElement) (h : b.PerformPostProcessing K elem = some b') :
    Layout b b' := by
  unfold PerformPostProcessing at h
  split at h
  · simp at h
  · split at h
    · cases h; exact layout_refl b
    · split at h
      · cases h; exact layout_refl b
      · simp only [] at h
        split_ifs at h <;> injection h with h <;> subst h <;> refine ⟨?_, ?_, ?_⟩ <;> simp

theorem layout_WorkWithClass (K : EReadWrite) (b : TBufferJSON) (sinfo : Option TStreamerInfo)
    (cl : Option TClass) : Layout b (b.WorkWithClass K sinfo cl) := by
  unfold WorkWithClass
  simp only []
  split
  · exact layout_of_eq rfl rfl rfl
  · split
    · split <;> (refine ⟨?_, ?_, ?_⟩ <;> simp)
    · split <;> (refine ⟨?_, ?_, ?_⟩ <;> simp)

theorem layout_map_PopStack {b b' : TBufferJSON} {r : Option TBufferJSON}
    (hr : ∀ x, r = some x → Layout b x) (h : r.map PopStack = some b') : Layout b b' := by
  cases r with
  | none => simp at h
  | some x =>
    simp at h
    subst h
    exact layout_trans (hr x rfl) (layout_PopStack x)

theorem layout_DecrementLevel (K : EReadWrite) (b b' : TBufferJSON) (info : Option TStreamerInfo)
    (h : b.DecrementLevel K info = some b') : Layout b b' := by
  unfold DecrementLevel at h
  simp only [] at h
  split at h
  · simp at h
  · split at h
    · simp at h
    · rename_i b1 hb1
      have hq : Layout b b1 := by
        split_ifs at hb1
        · refine layout_trans (layout_of_eq rfl rfl rfl : Layout b { b with fExpectedChain := false })
            (layout_map_PopStack ?_ hb1)
          exact fun x hx => layout_PerformPostProcessing K _ x none hx
        · injection hb1 with hb1
          subst hb1
          exact layout_of_eq rfl rfl rfl
      split at h
      · simp at h
      · injection h with h
        subst h
        exact layout_trans hq (layout_PopStack b1)

theorem layout_WorkWithElement (K : EReadWrite) (b b' : TBufferJSON)
    (elem : Option TStreamerElement) (comp_type : Int)
    (h : b.WorkWithElement K elem comp_type = some b') : Layout b b' := by
  unfold WorkWithElement at h
  simp only [] at h
  split at h
  · injection h with h; subst h; exact layout_of_eq rfl rfl rfl
  · split at h
    · simp at h
    · rename_i b1 hb1
      have hq : Layout b b1 := by
        split_ifs at hb1
        · refine layout_trans (layout_of_eq rfl rfl rfl : Layout b { b with fExpectedChain := false })
            (layout_map_PopStack ?_ hb1)
          exact fun x hx => layout_PerformPostProcessing K _ x none hx
        · injection hb1 with hb1
          subst hb1
          exact layout_of_eq rfl rfl rfl
      refine layout_trans hq ?_
      split at h
      · injection h with h; subst h; exact layout_of_eq rfl rfl rfl
      · split_ifs at h
        · injection h with h; subst h; exact layout_of_eq rfl rfl rfl
        · split at h
          · simp at h
          · split at h
            · injection h with h; subst h; exact layout_of_eq rfl rfl rfl
            · split at h <;> (injection h with h; subst h; exact layout_of_eq rfl rfl rfl)

theorem layout_TJSONPushValue (b b' : TBufferJSON) (h : b.TJSONPushValue = some b') :
    Layout b b' := by
  unfold TJSONPushValue at h
  split_ifs at h
  · split at h
    · simp at h
    · injection h with h; subst h; exact layout_of_eq rfl rfl rfl
  · injection h with h; subst h; exact layout_refl b

theorem layout_JsonWriteBasic (b : TBufferJSON) (v : BasicValue) : Layout b (b.JsonWriteBasic v) :=
  layout_of_eq rfl rfl rfl

theorem layout_of_map {b b' : TBufferJSON} {r : Option TBufferJSON} {f : TBufferJSON → TBufferJSON}
    (hr : ∀ x, r = some x → Layout b x) (hf : ∀ x, Layout x (f x)) (h : r.map f = some b') :
    Layout b b' := by
  cases r with
  | none => simp at h
  | some x =>
    simp at h
    subst h
    exact layout_trans (hr x rfl) (hf x)

theorem layout_of_bind {b b' : TBufferJSON} {r : Option TBufferJSON}
    {f : TBufferJSON → Option TBufferJSON}
    (hr : ∀ x, r = some x → Layout b x) (hf : ∀ x y, f x = some y → Layout x y)
    (h : r.bind f = some b') : Layout b b' := by
  cases r with
  | none => simp at h
  | some x =>
    simp at h
    exact layout_trans (hr x rfl) (hf x b' h)

theorem layout_WriteBasic (b b' : TBufferJSON) (v : BasicValue) (h : b.WriteBasic v = some b') :
    Layout b b' := by
  refine layout_of_map ?_ ?_ h
  · exact fun x hx => layout_TJSONPushValue b x hx
  · exact fun x => layout_JsonWriteBasic x v

theorem layout_WriteCharP (b b' : TBufferJSON) (c : String) (h : b.WriteCharP c = some b') :
    Layout b b' := by
  refine layout_of_map ?_ ?_ h
  · exact fun x hx => layout_TJSONPushValue b x hx
  · exact fun _ => layout_of_eq rfl rfl rfl

theorem layout_WriteTString (b b' : TBufferJSON) (s : String) (h : b.WriteTString s = some b') :
    Layout b b' := by
  refine layout_of_map ?_ ?_ h
  · exact fun x hx => layout_TJSONPushValue b x hx
  · exact fun _ => layout_of_eq rfl rfl rfl

theorem layout_arrayContentLoop (vname : List BasicValue) : ∀ (count indx : Nat)
    (b b' : TBufferJSON), arrayContentLoop vname indx count b = some b' → Layout b b' := by
  intro count
  induction count with
  | zero =>
    intro indx b b' h
    simp [arrayContentLoop] at h
    subst h
    exact layout_refl b
  | succ n ih =>
    intro indx b b' h
    simp only [arrayContentLoop] at h
    split at h
    · simp at h
    · refine layout_trans ?_ (ih _ _ _ h)
      split_ifs <;> exact layout_of_eq rfl rfl rfl

theorem layout_TJSONWriteArrayContent (b b' : TBufferJSON) (vname : List BasicValue)
    (arrsize : Int) (h : b.TJSONWriteArrayContent vname arrsize = some b') : Layout b b' := by
  unfold TJSONWriteArrayContent at h
  refine layout_trans (layout_of_eq rfl rfl rfl : Layout b { b with fValue := b.fValue ++ "[" }) ?_
  refine layout_of_map ?_ ?_ h
  · exact fun x hx => layout_arrayContentLoop vname _ _ _ x hx
  · exact fun _ => layout_of_eq rfl rfl rfl

theorem layout_WriteArray (b b' : TBufferJSON) (vname : List BasicValue) (n : Int)
    (h : b.WriteArray vname n = some b') : Layout b b' := by
  refine layout_of_bind ?_ ?_ h
  · exact fun x hx => layout_TJSONPushValue b x hx
  · exact fun x y hxy => layout_TJSONWriteArrayContent x y vname n hxy

theorem layout_chainLoop (K : EReadWrite) (vname : List BasicValue) (n : Int) :
    ∀ (elems : List TStreamerElement) (index : Int) (b b' : TBufferJSON),
      chainLoop K vname n elems index b = some b' → Layout b b' := by
  intro elems
  induction elems with
  | nil =>
    intro index b b' h
    simp only [chainLoop] at h
    split_ifs at h
    injection h with h
    subst h
    exact layout_refl b
  | cons elem rest ih =>
    intro index b b' h
    simp only [chainLoop] at h
    split_ifs at h
    · split at h
      · simp at h
      · refine layout_of_bind ?_ ?_ h
        · exact fun x hx => layout_trans (layout_JsonWriteBasic b _)
            (layout_PerformPostProcessing K _ x _ hx)
        · exact fun x y hxy => ih _ x y hxy
    · refine layout_of_bind ?_ ?_ h
      · intro x hx
        refine layout_of_bind ?_ ?_ hx
        · exact fun y hy => layout_TJSONWriteArrayContent b y _ _ hy
        · exact fun y z hyz => layout_PerformPostProcessing K y z _ hyz
      · exact fun x y hxy => ih _ x y hxy
    · injection h with h
      subst h
      exact layout_refl b

theorem layout_WriteFastArray (K : EReadWrite) (b b' : TBufferJSON) (vname : List BasicValue)
    (n : Int) (h : b.WriteFastArray K vname n = some b') : Layout b b' := by
  unfold WriteFastArray at h
  refine layout_of_bind (fun x hx => layout_TJSONPushValue b x hx) ?_ h
  intro x y hxy
  simp only [] at hxy
  split_ifs at hxy
  · injection hxy with hxy; subst hxy; exact layout_of_eq rfl rfl rfl
  · split at hxy
    · simp at hxy
    · split_ifs at hxy
      all_goals (repeat' (split at hxy))
      all_goals first
        | (simp at hxy; done)
        | exact layout_TJSONWriteArrayContent _ _ _ _ hxy
        | (refine layout_trans ?_ (layout_TJSONWriteArrayContent _ _ _ _ hxy)
           exact layout_of_eq rfl rfl rfl)
        | (refine layout_trans ?_ (layout_chainLoop K vname n _ _ _ _ hxy)
           exact layout_of_eq rfl rfl rfl)

theorem layout_WriteFastArrayChar (K : EReadWrite) (b b' : TBufferJSON) (c : List Int)
    (n : Int) (h : b.WriteFastArrayChar K c n = some b') : Layout b b' := by
  unfold WriteFastArrayChar at h
  simp only [] at h
  split_ifs at h
  · exact layout_WriteFastArray K b b' _ n h
  all_goals
    refine layout_of_map ?_ ?_ h
    · exact fun x hx => layout_TJSONPushValue b x hx
    · exact fun _ => layout_of_eq rfl rfl rfl

theorem layout_JsonWriteObjectClose (b b' : TBufferJSON) (k : ObjKind)
    (h : b.JsonWriteObjectClose k = some b') : Layout b b' := by
  unfold JsonWriteObjectClose at h
  split at h
  · simp at h
  · injection h with h
    subst h
    refine ⟨?_, ?_, ?_⟩ <;> (simp only []; split_ifs <;> simp)

theorem layout_JsonStreamCollectionOpen (b : TBufferJSON) (colName : String) :
    Layout b (b.JsonStreamCollectionOpen colName) :=
  layout_of_eq (by simp [JsonStreamCollectionOpen]) (by simp [JsonStreamCollectionOpen]) (by simp [JsonStreamCollectionOpen])

theorem layout_JsonStreamCollectionClose (b : TBufferJSON) (islist : Bool) (sopt : String) :
    Layout b (b.JsonStreamCollectionClose islist sopt) := by
  unfold JsonStreamCollectionClose
  simp only []
  split_ifs <;> exact layout_of_eq (by simp) (by simp) (by simp)

theorem layout_JsonWriteObjectOpen (b : TBufferJSON) (obj : Option Nat) (cl : Option TClass) :
    ∀ r, (b.JsonWriteObjectOpen obj cl = .done r ∨ b.JsonWriteObjectOpen obj cl = .opened r) →
      Layout b r := by
  intro r hr
  unfold JsonWriteObjectOpen at hr
  simp only [] at hr
  have hq : Layout b (if (!(b.objKind cl).isarray) = true then b.JsonStartElement else b) := by
    split_ifs
    · exact layout_JsonStartElement b
    · exact layout_refl b
  generalize (if (!(b.objKind cl).isarray) = true then b.JsonStartElement else b) = b1 at hr hq
  refine layout_trans (hq) ?_
  split at hr
  · split at hr
    · -- early return through the reference
      rename_i r0 hpushed
      have h3 : Layout b1 r0 := by
        split_ifs at hpushed
        · split at hpushed
          · injection hpushed with hpushed
            subst hpushed
            exact layout_AppendOutput _ _ _
          · cases hpushed
      rcases hr with hr | hr
      · injection hr with hr; subst hr; exact h3
      · cases hr
    · rename_i b3 hpushed
      have h3 : Layout b1 b3 := by
        split_ifs at hpushed
        · split at hpushed
          · cases hpushed
          · rename_i hnone
            injection hpushed with hpushed
            subst hpushed
            exact layout_of_eq (by simp) (by simp) (by simp)
        · injection hpushed with hpushed
          subst hpushed
          exact layout_PushStack _ _
      refine layout_trans h3 ?_
      split at hr
      · rcases hr with hr | hr
        · cases hr
        · injection hr with hr; subst hr; exact layout_refl _
      · rcases hr with hr | hr
        · cases hr
        · injection hr with hr; subst hr; exact layout_setTop _ _
  · rcases hr with hr | hr
    · injection hr with hr; subst hr; exact layout_AppendOutput _ _ _
    · cases hr

theorem layout_of_fst {α β : Type} (g : α → TBufferJSON) (g' : β → TBufferJSON)
    {b : TBufferJSON} {r : Option α} {f : α → β} {y : β}
    (hr : ∀ x, r = some x → Layout b (g x)) (hf : ∀ x, g' (f x) = g x)
    (h : r.map f = some y) : Layout b (g' y) := by
  cases r with
  | none => simp at h
  | some x =>
    simp at h
    subst h
    rw [hf]
    exact hr x rfl

mutual
theorem layout_JsonWriteObject (K : EReadWrite) : ∀ (content : Content) (b : TBufferJSON)
    (obj : Option Nat) (cl : Option TClass) (b' : TBufferJSON),
    JsonWriteObject K b obj cl content = some b' → Layout b b'
  | .mk streamer colName colIsList colItems, b, obj, cl, b', h => by
    simp only [JsonWriteObject] at h
    split at h
    · rename_i r hopen
      injection h with h
      subst h
      exact layout_JsonWriteObjectOpen b obj cl _ (Or.inl hopen)
    · rename_i b1 hopen
      refine layout_trans (layout_JsonWriteObjectOpen b obj cl _ (Or.inr hopen)) ?_
      refine layout_of_bind ?_ ?_ h
      · intro x hx
        split_ifs at hx
        · cases hs : streamItems K (b1.JsonStreamCollectionOpen colName) colIsList "[" true colItems with
          | none => simp [hs] at hx
          | some r =>
            simp [hs] at hx
            subst hx
            exact layout_trans (layout_JsonStreamCollectionOpen _ _)
              (layout_trans (layout_streamItems K colItems _ _ _ _ _ hs)
                (layout_JsonStreamCollectionClose _ _ _))
        · exact layout_runCalls K streamer _ _ hx
      · exact fun x y hxy => layout_JsonWriteObjectClose x y _ hxy
theorem layout_streamItems (K : EReadWrite) : ∀ (items : List Item) (b : TBufferJSON)
    (islist : Bool) (sopt : String) (first : Bool) (r : TBufferJSON × String),
    streamItems K b islist sopt first items = some r → Layout b r.1
  | [], b, islist, sopt, first, r, h => by
    simp only [streamItems] at h
    injection h with h
    subst h
    exact layout_refl b
  | .mk option obj isA content :: rest, b, islist, sopt, first, r, h => by
    simp only [streamItems] at h
    have hsep : Layout b (if (!first) = true then b.AppendOutput (some b.fArraySepar) none else b) := by
      split_ifs
      · exact layout_AppendOutput _ _ _
      · exact layout_refl b
    generalize (if (!first) = true then b.AppendOutput (some b.fArraySepar) none else b) = b1
      at h hsep
    split at h
    · simp at h
    · rename_i b2 hb2
      exact layout_trans (layout_trans hsep (layout_JsonWriteObject K content _ _ _ _ hb2))
        (layout_streamItems K rest _ _ _ _ _ h)
theorem layout_loopObjs (K : EReadWrite) : ∀ (items : List Item) (b : TBufferJSON)
    (cl : Option TClass) (n : Int) (j : Nat) (b' : TBufferJSON),
    loopObjs K b cl n j items = some b' → Layout b b'
  | [], b, cl, n, j, b', h => by
    simp only [loopObjs] at h
    split_ifs at h
    injection h with h
    subst h
    exact layout_refl b
  | .mk option obj isA content :: rest, b, cl, n, j, b', h => by
    simp only [loopObjs] at h
    have hsep : Layout b (if j > 0 then b.AppendOutput (some b.fArraySepar) none else b) := by
      split_ifs
      · exact layout_AppendOutput _ _ _
      · exact layout_refl b
    generalize (if j > 0 then b.AppendOutput (some b.fArraySepar) none else b) = b1 at h hsep
    split_ifs at h
    · split at h
      · simp at h
      · rename_i b2 hb2
        exact layout_trans (layout_trans hsep (layout_JsonWriteObject K content _ _ _ _ hb2))
          (layout_loopObjs K rest _ _ _ _ _ h)
    · injection h with h
      subst h
      exact layout_refl b
theorem layout_loopSlots (K : EReadWrite) : ∀ (slots : List Slot) (b : TBufferJSON)
    (cl : Option TClass) (n : Int) (isPreAlloc : Bool) (j : Nat) (res : Int)
    (r : TBufferJSON × Int × List (Option Nat)),
    loopSlots K b cl n isPreAlloc j res slots = some r → Layout b r.1
  | [], b, cl, n, isPreAlloc, j, res, r, h => by
    simp only [loopSlots] at h
    split_ifs at h
    injection h with h
    subst h
    exact layout_refl b
  | .mk ptr clActual created content :: rest, b, cl, n, isPreAlloc, j, res, r, h => by
    simp only [loopSlots] at h
    have hsep : Layout b (if j > 0 then b.AppendOutput (some b.fArraySepar) none else b) := by
      split_ifs
      · exact layout_AppendOutput _ _ _
      · exact layout_refl b
    generalize (if j > 0 then b.AppendOutput (some b.fArraySepar) none else b) = b1 at h hsep
    split_ifs at h
    · split at h
      · refine layout_of_fst Prod.fst Prod.fst ?_ ?_ h
        swap
        · exact fun _ => rfl
        exact fun x hx => layout_trans hsep (layout_loopSlots K rest _ _ _ _ _ _ _ hx)
      · split at h
        · simp at h
        · rename_i b2 hb2
          refine layout_of_fst Prod.fst Prod.fst ?_ ?_ h
          swap
          · exact fun _ => rfl
          exact fun x hx => layout_trans hsep (layout_trans
            (layout_JsonWriteObject K content _ _ _ _ hb2) (layout_loopSlots K rest _ _ _ _ _ _ _ hx))
    · split at h
      · simp at h
      · split at h
        · simp at h
        · rename_i b2 hb2
          refine layout_of_fst Prod.fst Prod.fst ?_ ?_ h
          swap
          · exact fun _ => rfl
          exact fun x hx => layout_trans hsep (layout_trans
            (layout_JsonWriteObject K content _ _ _ _ hb2) (layout_loopSlots K rest _ _ _ _ _ _ _ hx))
    · injection h with h
      subst h
      exact layout_refl b
theorem layout_runCall (K : EReadWrite) : ∀ (c : Call) (b b' : TBufferJSON),
    runCall K b c = some b' → Layout b b'
  | .IncrementLevel info, b, b', h => by
    simp only [runCall] at h
    injection h with h
    subst h
    exact layout_WorkWithClass K b info none
  | .DecrementLevel info, b, b', h => by
    simp only [runCall] at h
    exact layout_DecrementLevel K b b' info h
  | .SetStreamerElementNumber elem comp_type, b, b', h => by
    simp only [runCall] at h
    exact layout_WorkWithElement K b b' elem comp_type h
  | .ClassBegin cl, b, b', h => by
    simp only [runCall] at h
    injection h with h
    subst h
    exact layout_WorkWithClass K b none cl
  | .ClassEnd, b, b', h => by
    simp only [runCall] at h
    exact layout_DecrementLevel K b b' none h
  | .WriteBasic value, b, b', h => by
    simp only [runCall] at h
    exact layout_WriteBasic b b' value h
  | .WriteCharP c, b, b', h => by
    simp only [runCall] at h
    exact layout_WriteCharP b b' c h
  | .WriteTString s, b, b', h => by
    simp only [runCall] at h
    exact layout_WriteTString b b' s h
  | .WriteArray vname n, b, b', h => by
    simp only [runCall] at h
    exact layout_WriteArray b b' vname n h
  | .WriteFastArray vname n, b, b', h => by
    simp only [runCall] at h
    exact layout_WriteFastArray K b b' vname n h
  | .WriteFastArrayChar c n, b, b', h => by
    simp only [runCall] at h
    exact layout_WriteFastArrayChar K b b' c n h
  | .PerformPostProcessing elem, b, b', h => by
    simp only [runCall] at h
    exact layout_PerformPostProcessing K b b' elem h
  | .JsonWriteObject obj cl content, b, b', h => by
    simp only [runCall] at h
    exact layout_JsonWriteObject K content b obj cl b' h
  | .WriteObjectAny obj ptrClass clActual content, b, b', h => by
    simp only [runCall] at h
    split at h
    · injection h with h
      subst h
      exact layout_refl b
    · exact layout_JsonWriteObject K content b _ _ b' h
  | .WriteFastArrayObj start cl n (some calls), b, b', h => by
    simp only [runCall] at h
    exact layout_trans (layout_JsonStartElement b) (layout_runCalls K calls _ _ h)
  | .WriteFastArrayObj start cl n none, b, b', h => by
    simp only [runCall] at h
    split at h
    · simp at h
    · generalize (if n = 0 then (1 : Int) else n) = n1 at h
      have hopen : Layout b (if n1 > 1 then b.JsonStartElement.AppendOutput (some "[") none
          else b) := by
        split_ifs
        · exact layout_trans (layout_JsonStartElement b)
            (layout_AppendOutput _ _ _)
        · exact layout_refl b
      generalize (if n1 > 1 then b.JsonStartElement.AppendOutput (some "[") none else b) = b1
        at h hopen
      refine layout_of_bind ?_ ?_ (Option.map_eq_bind ▸ h)
      · exact fun x hx => layout_trans hopen (layout_loopObjs K start _ _ _ _ _ hx)
      · intro x y hxy
        injection hxy with hxy
        subst hxy
        split_ifs
        · exact layout_AppendOutput _ _ _
        · exact layout_refl _
  | .WriteFastArrayPtr start cl n isPreAlloc (some calls), b, b', h => by
    simp only [runCall] at h
    exact layout_trans (layout_JsonStartElement b) (layout_runCalls K calls _ _ h)
  | .WriteFastArrayPtr start cl n isPreAlloc none, b, b', h => by
    simp only [runCall] at h
    have hopen : Layout b (if n > 1 then b.JsonStartElement.AppendOutput (some "[") none
        else b) := by
      split_ifs
      · exact layout_trans (layout_JsonStartElement b)
          (layout_AppendOutput _ _ _)
      · exact layout_refl b
    generalize (if n > 1 then b.JsonStartElement.AppendOutput (some "[") none else b) = b1
      at h hopen
    cases hl : loopSlots K b1 cl n isPreAlloc 0 0 start with
    | none => simp [hl] at h
    | some r =>
      rw [hl] at h
      simp only [Option.map_some'] at h
      injection h with h
      subst h
      refine layout_trans hopen (layout_trans (layout_loopSlots K start _ _ _ _ _ _ _ hl) ?_)
      split_ifs
      · exact layout_AppendOutput _ _ _
      · exact layout_refl _
theorem layout_runCalls (K : EReadWrite) : ∀ (calls : List Call) (b b' : TBufferJSON),
    runCalls K b calls = some b' → Layout b b'
  | [], b, b', h => by
    simp only [runCalls] at h
    injection h with h
    subst h
    exact layout_refl b
  | c :: cs, b, b', h => by
    simp only [runCalls] at h
    split at h
    · simp at h
    · rename_i b1 hb1
      exact layout_trans (layout_runCall K c b b1 hb1) (layout_runCalls K cs b1 b' h)
end

/-! ### Collections -/

theorem separated_false (sep : String) (xs : List String) :
    separated sep false xs = String.join (xs.map (fun x => sep ++ x)) := by
  induction xs with
  | nil => rfl
  | cons x xs ih => simp [separated, ih, join_cons, String.append_assoc]

theorem intercalate_go_eq (sep : String) : ∀ (xs : List String) (acc : String),
    String.intercalate.go acc sep xs = acc ++ separated sep false xs
  | [], acc => by simp [String.intercalate.go, separated]
  | x :: xs, acc => by
    simp [String.intercalate.go, separated, intercalate_go_eq sep xs, String.append_assoc]

theorem separated_true (sep : String) (xs : List String) :
    separated sep true xs = String.intercalate sep xs := by
  cases xs with
  | nil => rfl
  | cons x xs => simp [separated, String.intercalate, intercalate_go_eq]

theorem streamItems_emit (K : EReadWrite) (islist : Bool) :
    ∀ (items : List Item) (texts : List String) (b : TBufferJSON) (first : Bool)
      (sopt : String) (bf : TBufferJSON),
      emitItems K b first items texts = some bf →
      streamItems K b islist sopt first items =
        some (bf, sopt ++ separated b.fArraySepar first
          (items.map (fun it => if islist then "\"" ++ it.tag ++ "\"" else ""))) ∧
      bf.fOutBuffer = b.fOutBuffer ++ separated b.fArraySepar first texts ∧
      Layout b bf ∧ texts.length = items.length
  | [], [], b, first, sopt, bf, h => by
    simp only [emitItems] at h
    injection h with h
    subst h
    simp [streamItems, separated, layout_refl]
  | [], _ :: _, b, first, sopt, bf, h => by simp [emitItems] at h
  | .mk option obj isA content :: rest, [], b, first, sopt, bf, h => by simp [emitItems] at h
  | .mk option obj isA content :: rest, t :: ts, b, true, sopt, bf, h => by
    simp only [emitItems, Bool.not_true, Bool.false_eq_true, if_false] at h
    split at h
    · simp at h
    · rename_i b2 hb2
      split_ifs at h with hout
      have hl : Layout b b2 := layout_JsonWriteObject K content _ _ _ _ hb2
      obtain ⟨hs, ho, hlay, hlen⟩ := streamItems_emit K islist rest ts b2 false
        (if islist then sopt ++ "\"" ++ option ++ "\"" else sopt) bf h
      refine ⟨?_, ?_, layout_trans hl hlay, by simp [hlen]⟩
      · simp only [streamItems, Bool.not_true, Bool.false_eq_true, if_false, hb2]
        rw [hs, hl.2.2]
        cases islist <;> simp [separated, Item.tag, String.append_assoc]
      · rw [ho, hout, hl.2.2]
        simp [separated, String.append_assoc]
  | .mk option obj isA content :: rest, t :: ts, b, false, sopt, bf, h => by
    simp only [emitItems, Bool.not_false, if_true] at h
    split at h
    · simp at h
    · rename_i b2 hb2
      split_ifs at h with hout
      have hl : Layout b b2 :=
        layout_trans (layout_AppendOutput _ _ _) (layout_JsonWriteObject K content _ _ _ _ hb2)
      obtain ⟨hs, ho, hlay, hlen⟩ := streamItems_emit K islist rest ts b2 false
        (if islist then sopt ++ b.fArraySepar ++ "\"" ++ option ++ "\""
         else sopt ++ b.fArraySepar) bf h
      refine ⟨?_, ?_, layout_trans hl hlay, by simp [hlen]⟩
      · simp only [streamItems, Bool.not_false, if_true, hb2]
        rw [hs, hl.2.2]
        cases islist <;> simp [separated, Item.tag, String.append_assoc]
      · rw [ho, hout, hl.2.2]
        simp [separated, AppendOutput_eq, appended, String.append_assoc]

theorem JsonStreamCollectionOpen_eq (b : TBufferJSON) (colName : String) :
    b.JsonStreamCollectionOpen colName =
      { b with
        fOutBuffer := b.fOutBuffer ++ fieldOpen b "name" ++ "\"" ++ colName ++ "\"," ++
          lineBreak b.fCompact ++ indent b.fCompact b.fStack ++ "\"arr\"" ++ b.fSemicolon ++ "[" } := by
  cases b with
  | mk fmt out val map cnt stk chain compact semi sep =>
    simp +decide [JsonStreamCollectionOpen, fieldOpen, AppendOutput_eq, appended,
      String.append_assoc]

theorem JsonStreamCollectionClose_eq (b : TBufferJSON) (islist : Bool) (sopt : String) :
    b.JsonStreamCollectionClose islist sopt =
      { b with
        fOutBuffer := b.fOutBuffer ++ "]" ++
          (if islist then fieldOpen b "opt" ++ sopt ++ "]" else "") } := by
  cases b with
  | mk fmt out val map cnt stk chain compact semi sep =>
    cases islist <;>
      simp +decide [JsonStreamCollectionClose, fieldOpen, AppendOutput_eq, appended,
        String.append_assoc]

theorem JsonStreamCollection_eq (K : EReadWrite) (b : TBufferJSON) (colName : String)
    (islist : Bool) (items : List Item) (texts : List String) (bf : TBufferJSON)
    (h : emitItems K (b.JsonStreamCollectionOpen colName) true items texts = some bf) :
    JsonStreamCollection K b colName islist items =
      some { bf with
        fOutBuffer := b.fOutBuffer ++ fieldOpen b "name" ++ "\"" ++ colName ++ "\"," ++
          lineBreak b.fCompact ++ indent b.fCompact b.fStack ++ "\"arr\"" ++ b.fSemicolon ++ "[" ++ String.intercalate b.fArraySepar texts ++ "]" ++
          (if islist then
             "," ++ lineBreak b.fCompact ++ indent b.fCompact bf.fStack ++ "\"opt\"" ++
               b.fSemicolon ++ "[" ++
               String.intercalate b.fArraySepar (items.map (fun it => "\"" ++ it.tag ++ "\"")) ++
               "]"
           else "") } ∧
    texts.length = items.length ∧
    (items.map (fun it => "\"" ++ it.tag ++ "\"")).length = texts.length := by
  obtain ⟨hs, ho, hlay, hlen⟩ := streamItems_emit K islist items texts
    (b.JsonStreamCollectionOpen colName) true "[" bf h
  refine ⟨?_, hlen, by simp [hlen]⟩
  have hl : Layout b bf := layout_trans (layout_JsonStreamCollectionOpen b colName) hlay
  rw [JsonStreamCollection, hs]
  simp only [Option.map_some', JsonStreamCollectionClose_eq, ho, separated_true]
  rw [JsonStreamCollectionOpen_eq]
  cases islist
  · simp [String.append_assoc]
  · simp [fieldOpen, hl.1, hl.2.1, String.append_assoc]

theorem objKind_collection (b : TBufferJSON) (cl : TClass)
    (hcol : cl.baseOffsetTCollection = 0)
    (harr : ¬ (startsWithTArray cl.fName = true ∧ cl.baseOffsetTArray = 0)) :
    b.objKind (some cl) = { isarray := false, iscollect := true, iststring := false } := by
  have harr' : (startsWithTArray cl.fName && cl.baseOffsetTArray == 0) = false := by
    simpa using harr
  simp only [objKind, harr', hcol]
  simp

theorem open_collection (b : TBufferJSON) (addr : Nat) (cl : TClass)
    (hcol : cl.baseOffsetTCollection = 0)
    (harr : ¬ (startsWithTArray cl.fName = true ∧ cl.baseOffsetTArray = 0))
    (hnew : mapFind b.fJsonrMap addr = none) (hc : 2 ≤ b.fCompact) :
    ∃ b1, b.JsonWriteObjectOpen (some addr) (some cl) = .opened b1 ∧
      b1.fOutBuffer = b.JsonStartElement.fOutBuffer ++ "\x7b\"_typename\"" ++ b.fSemicolon ++
        "\"JSROOTIO." ++ cl.fName ++ "\"" ∧
      Layout b b1 := by
  have hk := objKind_collection b cl hcol harr
  have h2 : ¬ b.fCompact < 2 := by omega
  have h1 : ¬ b.fCompact < 1 := by omega
  simp only [JsonWriteObjectOpen, hk]
  simp +decide [hnew, PushStack, setTop, AppendOutput_eq, appended, lineBreak, indent, h1, h2,
    Layout, String.append_assoc]

theorem JsonWriteObject_collection (K : EReadWrite) (b : TBufferJSON) (addr : Nat) (cl : TClass)
    (streamer : List Call) (colName : String) (islist : Bool) (items : List Item)
    (texts : List String) (bf : TBufferJSON) (top : TJSONStackObj) (rest : List TJSONStackObj)
    (hcol : cl.baseOffsetTCollection = 0)
    (harr : ¬ (startsWithTArray cl.fName = true ∧ cl.baseOffsetTArray = 0))
    (hnew : mapFind b.fJsonrMap addr = none) (hc : 2 ≤ b.fCompact)
    (h : emitItems K
      ((b.JsonWriteObjectOpen (some addr) (some cl)).buffer.JsonStreamCollectionOpen colName)
      true items texts = some bf)
    (hstack : bf.fStack = top :: rest) :
    JsonWriteObject K b (some addr) (some cl) (.mk streamer colName islist items) =
      some { bf with
        fStack := rest
        fOutBuffer := b.JsonStartElement.fOutBuffer ++ "\x7b\"_typename\"" ++ b.fSemicolon ++
          "\"JSROOTIO." ++ cl.fName ++ "\",\"name\"" ++ b.fSemicolon ++ "\"" ++ colName ++
          "\",\"arr\"" ++ b.fSemicolon ++ "[" ++ String.intercalate b.fArraySepar texts ++ "]" ++
          (if islist then
             ",\"opt\"" ++ b.fSemicolon ++ "[" ++
               String.intercalate b.fArraySepar (items.map (fun it => "\"" ++ it.tag ++ "\"")) ++
               "]"
           else "") ++ "\x7d" } := by
  obtain ⟨b1, hopen, hout, hl⟩ := open_collection b addr cl hcol harr hnew hc
  have hk := objKind_collection b cl hcol harr
  rw [hopen] at h
  simp only [Opened.buffer] at h
  have hcoll := (JsonStreamCollection_eq K b1 colName islist items texts bf h).1
  simp only [JsonStreamCollection] at hcoll
  have hlf : Layout b1 bf :=
    layout_trans (layout_JsonStreamCollectionOpen b1 colName)
      (streamItems_emit K islist items texts _ true "[" bf h).2.2.1
  have h2 : ¬ b.fCompact < 2 := by omega
  have h1 : ¬ b.fCompact < 1 := by omega
  simp only [JsonWriteObject, hopen, hk, if_true, hcoll, Option.bind, JsonWriteObjectClose,
    hstack]
  cases islist <;>
    simp +decide [PopStack, AppendOutput_eq, appended, lineBreak, indent, fieldOpen, hl.1,
      hl.2.1, hl.2.2, hlf.1, hout, h1, h2, String.append_assoc]
  all_goals
    apply String.ext
    simp [String.data_append]

/-- C24 (amended): a collection is rendered as an object with the type header.
For a collection class that is no array class, an address not yet in the
reference map and a buffer set to compact level 3: when the elements,
serialised in iteration order, append the texts `texts` and leave a frame on
the stack, `JsonWriteObject` returns, that frame is popped, and the text
appended after the start of the element is exactly
`{"_typename":"JSROOTIO.<class>","name":"<name>","arr":[e1,...,en]`, followed
for a list by `,"opt":[...]` with the quoted option texts, and by the closing
brace. -/
theorem C24_collection_text (K : EReadWrite) (b : TBufferJSON) (addr : Nat) (cl : TClass)
    (streamer : List Call) (colName : String) (islist : Bool) (items : List Item)
    (texts : List String) (bf : TBufferJSON) (top : TJSONStackObj) (rest : List TJSONStackObj)
    (hcol : cl.baseOffsetTCollection = 0)
    (harr : ¬ (startsWithTArray cl.fName = true ∧ cl.baseOffsetTArray = 0))
    (hnew : mapFind b.fJsonrMap addr = none)
    (h : emitItems K
      (((b.SetCompact 3).JsonWriteObjectOpen (some addr) (some cl)).buffer.JsonStreamCollectionOpen
        colName) true items texts = some bf)
    (hstack : bf.fStack = top :: rest) :
    JsonWriteObject K (b.SetCompact 3) (some addr) (some cl)
        (.mk streamer colName islist items) =
      some { bf with
        fStack := rest
        fOutBuffer := (b.SetCompact 3).JsonStartElement.fOutBuffer ++
          "\x7b\"_typename\":\"JSROOTIO." ++ cl.fName ++ "\",\"name\":\"" ++ colName ++
          "\",\"arr\":[" ++ String.intercalate "," texts ++ "]" ++
          (if islist then
             ",\"opt\":[" ++
               String.intercalate "," (items.map (fun it => "\"" ++ it.tag ++ "\"")) ++ "]"
           else "") ++ "\x7d" } := by
  rw [JsonWriteObject_collection K (b.SetCompact 3) addr cl streamer colName islist items texts
    bf top rest hcol harr (by simpa [SetCompact] using hnew) (by simp [SetCompact]) h hstack]
  cases islist <;> simp [SetCompact]
  all_goals
    apply String.ext
    simp [String.data_append]

/-- Witness for C24: the `TList` named `points` with two `Point`s, at compact
level 3 on a fresh buffer. -/
theorem C24_collection_text_witness :
    listClass.baseOffsetTCollection = 0 ∧
    (JsonWriteObject rootEnum ((TBufferJSON.new "%e").SetCompact 3) (some 1) (some listClass)
        listContent).map (fun r => r.fOutBuffer) =
      some ("\x7b\"_typename\":\"JSROOTIO.TList\",\"name\":\"points\",\"arr\":[" ++
        pointText ++ "," ++ pointText ++ "],\"opt\":[\"a\",\"b\"]\x7d") := by
  have h := C24_collection_text rootEnum (TBufferJSON.new "%e") 1 listClass [] "points" true
    listItems [pointText, pointText]
    { (TBufferJSON.new "%e").SetCompact 3 with
      fOutBuffer := "\x7b\"_typename\":\"JSROOTIO.TList\",\"name\":\"points\",\"arr\":[" ++
        pointText ++ "," ++ pointText
      fJsonrMap := [(3, 2), (2, 1), (1, 0)]
      fJsonrCnt := 3
      fStack := [{ TJSONStackObj.new with fLevel := 2 }] }
    { TJSONStackObj.new with fLevel := 2 } [] rfl (by decide) rfl (by decide!) rfl
  refine ⟨rfl, ?_⟩
  unfold listContent
  rw [h]
  decide!

/-- Counterexample for C24 as stated: the text of the `TObjArray` named `points`
with two `Point`s at compact level 3 begins with the field `_typename`, and
is not the text without that field. -/
theorem C24_counterexample :
    (ConvertToJSON rootEnum "%e" (some 1) (some objArrayClass) 3 objArrayContent).map
        (fun r => r.2) =
      some ("\x7b\"_typename\":\"JSROOTIO.TObjArray\",\"name\":\"points\",\"arr\":[" ++
        pointText ++ "," ++ pointText ++ "]\x7d") ∧
    (ConvertToJSON rootEnum "%e" (some 1) (some objArrayClass) 3 objArrayContent).map
        (fun r => r.2) ≠
      some ("\x7b\"name\":\"points\",\"arr\":[" ++ pointText ++ "," ++ pointText ++ "]\x7d") := by
  decide!

/-- C25: when the elements of the collection, serialised in iteration order on
the buffer as the opening of the `arr` field leaves it, append the texts
`texts`, `JsonStreamCollection` returns and has appended: the `name` field,
the `arr` field with the texts joined by the array separator of the buffer
between brackets, and then, if and only if the collection is a list, the
`opt` field with the quoted option texts of the elements, in the same order,
joined by the array separator between brackets. There are as many texts as
elements, and as many option texts as texts. -/
theorem C25_collection_fields (K : EReadWrite) (b : TBufferJSON) (colName : String)
    (islist : Bool) (items : List Item) (texts : List String) (bf : TBufferJSON)
    (h : emitItems K (b.JsonStreamCollectionOpen colName) true items texts = some bf) :
    JsonStreamCollection K b colName islist items =
      some { bf with
        fOutBuffer := b.fOutBuffer ++ fieldOpen b "name" ++ "\"" ++ colName ++ "\"," ++
          lineBreak b.fCompact ++ indent b.fCompact b.fStack ++ "\"arr\"" ++ b.fSemicolon ++ "[" ++
          String.intercalate b.fArraySepar texts ++ "]" ++
          (if islist then
             "," ++ lineBreak b.fCompact ++ indent b.fCompact bf.fStack ++ "\"opt\"" ++
               b.fSemicolon ++ "[" ++
               String.intercalate b.fArraySepar (items.map (fun it => "\"" ++ it.tag ++ "\"")) ++
               "]"
           else "") } ∧
    texts.length = items.length ∧
    (items.map (fun it => "\"" ++ it.tag ++ "\"")).length = texts.length :=
  JsonStreamCollection_eq K b colName islist items texts bf h

/-- Witness for C25: the list named `points` with two `Point`s and the option
texts `a` and `b`, at compact level 0 below a frame of level 2. -/
theorem C25_collection_fields_witness :
    (JsonStreamCollection rootEnum (frameBuffer 0 { TJSONStackObj.new with fLevel := 2 } "")
        "points" true listItems).map (fun r => r.fOutBuffer) =
      some (",\n  \"name\" : \"points\",\n  \"arr\" : [" ++ pointLines ++ ", " ++ pointLines ++
        "],\n  \"opt\" : [\"a\", \"b\"]") := by
  have h := (C25_collection_fields rootEnum
    (frameBuffer 0 { TJSONStackObj.new with fLevel := 2 } "") "points" true listItems
    [pointLines, pointLines]
    { frameBuffer 0 { TJSONStackObj.new with fLevel := 2 } "" with
      fOutBuffer := ",\n  \"name\" : \"points\",\n  \"arr\" : [" ++ pointLines ++ ", " ++
        pointLines
      fJsonrMap := [(3, 1), (2, 0)]
      fJsonrCnt := 2 }
    (by decide!)).1
  rw [h]
  decide!

/-! ### Values without identity -/

theorem buffered_refl (b : TBufferJSON) (top : TJSONStackObj) (rest : List TJSONStackObj)
    (hs : b.fStack = top :: rest) : Buffered b b := by
  refine ⟨b.fValue, top.fValues, top, rest, hs, ?_⟩
  cases b
  simp only at hs
  subst hs
  rfl

theorem buffered_trans {a b c : TBufferJSON} (h1 : Buffered a b) (h2 : Buffered b c) :
    Buffered a c := by
  obtain ⟨v1, vs1, top1, rest1, hs1, rfl⟩ := h1
  obtain ⟨v2, vs2, top2, rest2, hs2, rfl⟩ := h2
  simp only [List.cons.injEq] at hs2
  obtain ⟨ht, hr⟩ := hs2
  subst ht hr
  exact ⟨v2, vs2, top1, rest1, hs1, rfl⟩

theorem buffered_value {a b : TBufferJSON} (h : Buffered a b) (v : String) :
    Buffered a { b with fValue := v } := by
  obtain ⟨v1, vs1, top1, rest1, hs1, rfl⟩ := h
  exact ⟨v, vs1, top1, rest1, hs1, rfl⟩

theorem buffered_TJSONPushValue (b : TBufferJSON) (top : TJSONStackObj)
    (rest : List TJSONStackObj) (hs : b.fStack = top :: rest) :
    ∃ b1, b.TJSONPushValue = some b1 ∧ Buffered b b1 := by
  unfold TJSONPushValue
  split_ifs
  · refine ⟨{ (b.setTop (top.PushValue b.fValue)) with fValue := "" }, by simp only [hs], "",
      top.fValues ++ [b.fValue], top, rest, hs, ?_⟩
    simp [setTop, hs, TJSONStackObj.PushValue]
  · exact ⟨b, rfl, buffered_refl b top rest hs⟩

theorem arrayContentLoop_value (vname : List BasicValue) : ∀ (count indx : Nat)
    (b b' : TBufferJSON), arrayContentLoop vname indx count b = some b' →
      ∃ v, b' = { b with fValue := v }
  | 0, indx, b, b', h => by
    simp only [arrayContentLoop] at h
    injection h with h
    subst h
    exact ⟨b.fValue, rfl⟩
  | count + 1, indx, b, b', h => by
    simp only [arrayContentLoop] at h
    split at h
    · simp at h
    · obtain ⟨v, hv⟩ := arrayContentLoop_value vname count _ _ _ h
      refine ⟨v, ?_⟩
      rw [hv]
      split_ifs <;> rfl

theorem TJSONWriteArrayContent_value (b b' : TBufferJSON) (vname : List BasicValue) (n : Int)
    (h : b.TJSONWriteArrayContent vname n = some b') : ∃ v, b' = { b with fValue := v } := by
  unfold TJSONWriteArrayContent at h
  cases hl : arrayContentLoop vname 0 n.toNat { b with fValue := b.fValue ++ "[" } with
  | none => simp [hl] at h
  | some b1 =>
    obtain ⟨v, hv⟩ := arrayContentLoop_value vname _ _ _ _ hl
    simp only [hl, Option.map_some', Option.some.injEq] at h
    subst h
    exact ⟨v ++ "]", by rw [hv]⟩

theorem buffered_of_value {a b c : TBufferJSON} (h : Buffered a b)
    (hv : ∃ v, c = { b with fValue := v }) : Buffered a c := by
  obtain ⟨v, rfl⟩ := hv
  exact buffered_value h v

theorem buffered_WriteFastArray (K : EReadWrite) (b b' : TBufferJSON) (top : TJSONStackObj)
    (rest : List TJSONStackObj) (vname : List BasicValue) (n : Int)
    (hs : b.fStack = top :: rest) (he : top.fElem = none) (hc : b.fExpectedChain = false)
    (h : b.WriteFastArray K vname n = some b') : Buffered b b' := by
  obtain ⟨b1, hpush, hb1⟩ := buffered_TJSONPushValue b top rest hs
  obtain ⟨v1, vs1, top1, rest1, hs1, hb1eq⟩ := id hb1
  rw [hs] at hs1
  simp only [List.cons.injEq] at hs1
  obtain ⟨ht, hr⟩ := hs1
  subst ht hr
  simp only [WriteFastArray, hpush, Option.bind] at h
  split_ifs at h with hn
  · injection h with h
    subst h
    exact buffered_value hb1 _
  · have hst : b1.Stack 0 = some { top with fValues := vs1 } := by
      rw [hb1eq]
      simp [Stack]
    have hch : b1.fExpectedChain = false := by
      rw [hb1eq]
      exact hc
    simp only [hst, he, Bool.false_eq_true, if_false, hch] at h
    exact buffered_of_value hb1 (TJSONWriteArrayContent_value _ _ _ _ h)

theorem buffered_runCall (K : EReadWrite) (b b' : TBufferJSON) (top : TJSONStackObj)
    (rest : List TJSONStackObj) (c : Call)
    (hs : b.fStack = top :: rest) (he : top.fElem = none) (hc : b.fExpectedChain = false)
    (hw : c.isValueWrite = true) (h : runCall K b c = some b') : Buffered b b' := by
  obtain ⟨b1, hpush, hb1⟩ := buffered_TJSONPushValue b top rest hs
  cases c <;> simp only [Call.isValueWrite, Bool.false_eq_true] at hw
  case WriteBasic value =>
    simp only [runCall, WriteBasic, hpush, Option.map_some', Option.some.injEq] at h
    subst h
    exact buffered_value hb1 _
  case WriteCharP s =>
    simp only [runCall, WriteCharP, hpush, Option.map_some', Option.some.injEq] at h
    subst h
    exact buffered_value hb1 _
  case WriteTString s =>
    simp only [runCall, WriteTString, hpush, Option.map_some', Option.some.injEq] at h
    subst h
    exact buffered_value hb1 _
  case WriteArray vname n =>
    simp only [runCall, WriteArray, hpush, Option.bind] at h
    exact buffered_of_value hb1 (TJSONWriteArrayContent_value _ _ _ _ h)
  case WriteFastArray vname n =>
    simp only [runCall] at h
    exact buffered_WriteFastArray K b b' top rest vname n hs he hc h
  case WriteFastArrayChar cs n =>
    simp only [runCall, WriteFastArrayChar, hc, Bool.false_or] at h
    split_ifs at h
    all_goals first
      | exact buffered_WriteFastArray K b b' top rest _ n hs he hc h
      | (simp only [hpush, Option.map_some', Option.some.injEq] at h
         subst h
         exact buffered_value hb1 _)

theorem buffered_runCalls (K : EReadWrite) : ∀ (calls : List Call) (b b' : TBufferJSON)
    (top : TJSONStackObj) (rest : List TJSONStackObj),
    b.fStack = top :: rest → top.fElem = none → b.fExpectedChain = false →
    (∀ c ∈ calls, c.isValueWrite = true) → runCalls K b calls = some b' → Buffered b b'
  | [], b, b', top, rest, hs, he, hc, hw, h => by
    simp only [runCalls] at h
    injection h with h
    subst h
    exact buffered_refl b top rest hs
  | c :: cs, b, b', top, rest, hs, he, hc, hw, h => by
    simp only [runCalls] at h
    split at h
    · simp at h
    · rename_i b1 hb1
      have h1 := buffered_runCall K b b1 top rest c hs he hc (hw c (List.mem_cons_self _ _)) hb1
      obtain ⟨v1, vs1, top1, rest1, hs1, hb1eq⟩ := id h1
      rw [hs] at hs1
      simp only [List.cons.injEq] at hs1
      obtain ⟨ht, hr⟩ := hs1
      subst ht hr
      have h2 := buffered_runCalls K cs b1 b' { top with fValues := vs1 } rest
        (by rw [hb1eq]) he (by rw [hb1eq]; exact hc)
        (fun c hc' => hw c (List.mem_cons_of_mem _ hc')) h
      exact buffered_trans h1 h2

theorem objKind_array (b : TBufferJSON) (cl : TClass)
    (hk : (b.objKind (some cl)).isarray = true) :
    b.objKind (some cl) = { isarray := true, iscollect := false, iststring := false } := by
  simp only [objKind] at hk ⊢
  simp [hk]

theorem objKind_string (b : TBufferJSON) (cl : TClass)
    (hk : (b.objKind (some cl)).iststring = true) :
    b.objKind (some cl) = { isarray := false, iscollect := false, iststring := true } := by
  simp only [objKind] at hk ⊢
  cases h1 : startsWithTArray cl.fName <;> cases h2 : (cl.baseOffsetTArray == 0) <;>
    cases h3 : (cl.baseOffsetTCollection == 0) <;> simp_all

theorem JsonWriteObject_array (K : EReadWrite) (b b' : TBufferJSON) (addr : Nat) (cl : TClass)
    (streamer : List Call) (colName : String) (colIsList : Bool) (colItems : List Item)
    (hk : (b.objKind (some cl)).isarray = true) (hc : b.fExpectedChain = false)
    (hw : ∀ c ∈ streamer, c.isValueWrite = true)
    (h : JsonWriteObject K b (some addr) (some cl) (.mk streamer colName colIsList colItems) =
      some b') :
    ∃ v, b' = { b with fValue := v } := by
  have hkind := objKind_array b cl hk
  simp only [JsonWriteObject, JsonWriteObjectOpen, hkind] at h
  simp only [Option.isNone_some, Bool.false_eq_true, if_false, Bool.not_true, Bool.and_false,
    PushStack, setTop, Bool.and_self] at h
  obtain ⟨bs, hr, hclose⟩ := Option.bind_eq_some.mp h
  have hB : ∀ X, runCalls K X streamer = some bs → ∀ top rest, X.fStack = top :: rest →
      top.fElem = none → X.fExpectedChain = false → Buffered X bs :=
    fun X h4 top rest h1 h2 h3 => buffered_runCalls K streamer X bs top rest h1 h2 h3 hw h4
  obtain ⟨v, vs, top, rest, hs, hbs⟩ := hB _ hr _ _ rfl rfl hc
  simp only [List.cons.injEq] at hs
  obtain ⟨ht, hrest⟩ := hs
  subst ht hrest
  simp only [JsonWriteObjectClose, hbs, PopStack, if_true, setTop,
    Bool.not_true, Bool.false_eq_true, Bool.and_self, if_false, Option.some.injEq] at hclose
  exact ⟨v, hclose.symm⟩

theorem JsonWriteObject_string (K : EReadWrite) (b b' : TBufferJSON) (addr : Nat) (cl : TClass)
    (streamer : List Call) (colName : String) (colIsList : Bool) (colItems : List Item)
    (hk : (b.objKind (some cl)).iststring = true) (hc : b.fExpectedChain = false)
    (hw : ∀ c ∈ streamer, c.isValueWrite = true)
    (h : JsonWriteObject K b (some addr) (some cl) (.mk streamer colName colIsList colItems) =
      some b') :
    ∃ v, b' = { b.JsonStartElement with
      fOutBuffer := b.JsonStartElement.fOutBuffer ++ v, fValue := "" } := by
  have hkind := objKind_string b cl hk
  have hc1 : b.JsonStartElement.fExpectedChain = false := by
    rw [← hc]
    unfold JsonStartElement
    repeat' split
    all_goals simp
  simp only [JsonWriteObject, JsonWriteObjectOpen, hkind] at h
  simp only [Option.isNone_some, Bool.false_eq_true, if_false, if_true, Bool.not_true,
    Bool.not_false, Bool.and_false, PushStack, setTop, Bool.and_self] at h
  obtain ⟨bs, hr, hclose⟩ := Option.bind_eq_some.mp h
  have hB : ∀ X, runCalls K X streamer = some bs → ∀ top rest, X.fStack = top :: rest →
      top.fElem = none → X.fExpectedChain = false → Buffered X bs :=
    fun X h4 top rest h1 h2 h3 => buffered_runCalls K streamer X bs top rest h1 h2 h3 hw h4
  obtain ⟨v, vs, top, rest, hs, hbs⟩ := hB _ hr _ _ rfl rfl hc1
  simp only [List.cons.injEq] at hs
  obtain ⟨ht, hrest⟩ := hs
  subst ht hrest
  simp only [JsonWriteObjectClose, hbs, PopStack, if_true, setTop, AppendOutput_eq, appended,
    Bool.not_true, Bool.false_eq_true, Bool.and_self, if_false, Option.some.injEq] at hclose
  refine ⟨v, ?_⟩
  rw [← hclose]
  simp

theorem JsonWriteObject_text (K : EReadWrite) (b : TBufferJSON) (addr : Nat) (cl : TClass)
    (s colName : String) (colIsList : Bool) (colItems : List Item)
    (hk : (b.objKind (some cl)).iststring = true) :
    JsonWriteObject K b (some addr) (some cl) (.mk [.WriteTString s] colName colIsList colItems) =
      some { b.JsonStartElement with
        fOutBuffer := b.JsonStartElement.fOutBuffer ++ "\"" ++ s ++ "\"", fValue := "" } := by
  have hkind := objKind_string b cl hk
  simp only [JsonWriteObject, JsonWriteObjectOpen, hkind]
  simp only [Option.isNone_some, Bool.false_eq_true, if_false, if_true, Bool.not_true,
    Bool.not_false, Bool.and_false, PushStack, setTop, Bool.and_self, runCalls, runCall,
    WriteTString, TJSONPushValue]
  by_cases hv : b.JsonStartElement.fValue.length > 0
  · simp [hv, JsonWriteObjectClose, PopStack, setTop, AppendOutput_eq, appended,
      TJSONStackObj.PushValue, String.append_assoc]
  · have hv0 : b.JsonStartElement.fValue = "" := (length_eq_zero_iff _).mp (by omega)
    simp [hv, hv0, JsonWriteObjectClose, PopStack, setTop, AppendOutput_eq, appended,
      TJSONStackObj.PushValue, String.append_assoc]

theorem open_entered (b : TBufferJSON) (obj : Nat) (cl : TClass)
    (hk1 : (b.objKind (some cl)).isarray = false) (hk2 : (b.objKind (some cl)).iststring = false)
    (hnew : mapFind b.fJsonrMap obj = none) :
    ∃ b1, b.JsonWriteObjectOpen (some obj) (some cl) = .opened b1 ∧
      b1.fJsonrMap = (obj, b.fJsonrCnt) :: b.fJsonrMap ∧ b1.fJsonrCnt = b.fJsonrCnt + 1 := by
  simp only [JsonWriteObjectOpen, hk1, hk2]
  simp [hnew, PushStack, setTop, AppendOutput_eq, mapSet_of_absent]

/-- C26: `JsonWriteObject` on a non-null object. For an array class, when no
chain is expected and the streamer only makes value writes, a run that
returns leaves the buffer as it was but for the pending value: reference map,
counter, output and stack are unchanged, so neither header nor braces are
written. For a `TString` written on a non-empty stack, under the same
conditions, the result is the buffer after `JsonStartElement` with a text
appended to the output and the pending value cleared; that text is the quoted
string when the streamer is the one call `WriteTString`, in which case the
run returns; `JsonStartElement` leaves reference map and counter as they are.
For every other class, an address not in the reference map is in the map
after the run, with the old value of the counter as id, and the counter is
larger. -/
theorem C26_values_without_identity (K : EReadWrite) (b : TBufferJSON) (addr : Nat)
    (cl : TClass) (streamer : List Call) (colName : String) (colIsList : Bool)
    (colItems : List Item) :
    (∀ b', (b.objKind (some cl)).isarray = true → b.fExpectedChain = false →
      (∀ c ∈ streamer, c.isValueWrite = true) →
      JsonWriteObject K b (some addr) (some cl) (.mk streamer colName colIsList colItems) =
        some b' →
      ∃ v, b' = { b with fValue := v }) ∧
    (∀ b', (b.objKind (some cl)).iststring = true → b.fExpectedChain = false →
      (∀ c ∈ streamer, c.isValueWrite = true) →
      JsonWriteObject K b (some addr) (some cl) (.mk streamer colName colIsList colItems) =
        some b' →
      ∃ v, b' = { b.JsonStartElement with
        fOutBuffer := b.JsonStartElement.fOutBuffer ++ v, fValue := "" }) ∧
    (∀ s, (b.objKind (some cl)).iststring = true →
      JsonWriteObject K b (some addr) (some cl)
          (.mk [.WriteTString s] colName colIsList colItems) =
        some { b.JsonStartElement with
          fOutBuffer := b.JsonStartElement.fOutBuffer ++ "\"" ++ s ++ "\"", fValue := "" }) ∧
    (b.JsonStartElement.fJsonrMap = b.fJsonrMap ∧ b.JsonStartElement.fJsonrCnt = b.fJsonrCnt) ∧
    (∀ b', (b.objKind (some cl)).isarray = false → (b.objKind (some cl)).iststring = false →
      mapFind b.fJsonrMap addr = none →
      JsonWriteObject K b (some addr) (some cl) (.mk streamer colName colIsList colItems) =
        some b' →
      mapFind b'.fJsonrMap addr = some b.fJsonrCnt ∧ b.fJsonrCnt < b'.fJsonrCnt) := by
  refine ⟨?_, ?_, ?_, ⟨by simp, by simp⟩, ?_⟩
  · intro b' hk hc hw h
    exact JsonWriteObject_array K b b' addr cl streamer colName colIsList colItems hk hc hw h
  · intro b' hk hc hw h
    exact JsonWriteObject_string K b b' addr cl streamer colName colIsList colItems hk hc hw h
  · intro s hk
    exact JsonWriteObject_text K b addr cl s colName colIsList colItems hk
  · intro b' hk1 hk2 hnew hrun
    obtain ⟨b1, hopen, hmap, hcnt⟩ := open_entered b addr cl hk1 hk2 hnew
    have hstep := step_after_open K b b1 b' _ _ _ hopen hrun
    refine ⟨hstep.stable addr _ ?_, ?_⟩
    · rw [hmap, mapFind_cons]
      simp
    · have := hstep.1
      omega

/-- Witness for C26: a `TArrayI` with the values 1, 2, 3 and a `TString` with
the text `hello`, written at address 7 on a buffer without entries in the
reference map; a `Point` written at the same address is entered with id 0. -/
theorem C26_values_without_identity_witness :
    ((frameBuffer 3 tarrayFrame "").objKind (some arrayClass)).isarray = true ∧
    JsonWriteObject rootEnum (frameBuffer 3 tarrayFrame "") (some 7) (some arrayClass)
        arrayContent = some { frameBuffer 3 tarrayFrame "" with fValue := "[1,2,3]" } ∧
    (∃ v, ({ frameBuffer 3 tarrayFrame "" with fValue := "[1,2,3]" } : TBufferJSON) =
      { frameBuffer 3 tarrayFrame "" with fValue := v }) ∧
    ((frameBuffer 3 { TJSONStackObj.new with fElem := some stringElem } "").objKind
      (some stringClass)).iststring = true ∧
    (JsonWriteObject rootEnum (frameBuffer 3 { TJSONStackObj.new with fElem := some stringElem } "")
        (some 7) (some stringClass) stringContent).map
        (fun r => (r.fOutBuffer, r.fValue, r.fJsonrMap, r.fJsonrCnt)) =
      some (",\"fTitle\":\"hello\"", "", [], 0) ∧
    (JsonWriteObject rootEnum (frameBuffer 3 tarrayFrame "") (some 7) (some pointClass)
        pointContent).map (fun r => (r.fJsonrMap, r.fJsonrCnt)) = some ([(7, 0)], 1) := by
  have harr : JsonWriteObject rootEnum (frameBuffer 3 tarrayFrame "") (some 7) (some arrayClass)
      arrayContent = some { frameBuffer 3 tarrayFrame "" with fValue := "[1,2,3]" } := by
    decide!
  have h := C26_values_without_identity rootEnum (frameBuffer 3 tarrayFrame "") 7 arrayClass
    [.WriteBasic (.Int_t 3), .WriteFastArray [.Int_t 1, .Int_t 2, .Int_t 3] 3] "" false []
  have hs := (C26_values_without_identity rootEnum
    (frameBuffer 3 { TJSONStackObj.new with fElem := some stringElem } "") 7 stringClass
    [] "" false []).2.2.1 "hello" (by decide)
  refine ⟨by decide, harr, h.1 _ (by decide) rfl (by simp [Call.isValueWrite]) harr, by decide,
    ?_, by decide!⟩
  unfold stringContent
  rw [hs]
  decide!

/-! ### The return value of `WriteObjectAny` -/

/-- C27: `WriteObjectAny(obj, ptrClass)` writes `null` and returns 1 when `obj`
is null; returns 0 with the buffer unchanged when `obj` is not null and
`ptrClass` is null; when the actual class is unknown it serialises with
`ptrClass` and returns 2; when the actual class differs from `ptrClass` it
serialises the object at the address moved back by the base class offset with
the actual class and returns 1; when the actual class is `ptrClass` it
serialises with `ptrClass` and returns 1. In the last three cases the call
returns whenever `JsonWriteObject` does. -/
theorem C27_WriteObjectAny_result (K : EReadWrite) (b : TBufferJSON) (content : Content) :
    (∀ ptrClass clActual,
      WriteObjectAny K b none ptrClass clActual content =
        some (b.JsonStartElement.AppendOutput (some "null") none, 1)) ∧
    (∀ addr clActual, WriteObjectAny K b (some addr) none clActual content = some (b, 0)) ∧
    (∀ addr pc,
      WriteObjectAny K b (some addr) (some pc) none content =
        (JsonWriteObject K b (some addr) (some pc) content).map (fun r => (r, 2))) ∧
    (∀ addr pc ca offset, ca ≠ pc →
      WriteObjectAny K b (some addr) (some pc) (some (ca, offset)) content =
        (JsonWriteObject K b (some ((addr : Int) - offset).toNat) (some ca) content).map
          (fun r => (r, 1))) ∧
    (∀ addr pc offset,
      WriteObjectAny K b (some addr) (some pc) (some (pc, offset)) content =
        (JsonWriteObject K b (some addr) (some pc) content).map (fun r => (r, 1))) := by
  refine ⟨?_, ?_, ?_, ?_, ?_⟩
  · intro ptrClass clActual
    cases content with
    | mk streamer colName colIsList colItems =>
      simp [WriteObjectAny, WriteObjectAnyArgs, JsonWriteObject, JsonWriteObjectOpen, objKind]
  · intro addr clActual
    simp [WriteObjectAny, WriteObjectAnyArgs]
  · intro addr pc
    simp [WriteObjectAny, WriteObjectAnyArgs]
  · intro addr pc ca offset hne
    simp [WriteObjectAny, WriteObjectAnyArgs, hne]
  · intro addr pc offset
    simp [WriteObjectAny, WriteObjectAnyArgs]

/-- Witness for C27: a `Point` behind a pointer declared as `Holder` is written
with the class `Point`, and the return value is 1. -/
theorem C27_WriteObjectAny_result_witness :
    pointClass ≠ holderClass ∧
    (WriteObjectAny rootEnum ((TBufferJSON.new "%e").SetCompact 3) (some 5) (some holderClass)
        (some (pointClass, 0)) pointContent).map (fun r => (r.1.fOutBuffer, r.2)) =
      some ("\x7b\"_typename\":\"JSROOTIO.Point\"\x7d", 1) :=
  ⟨by decide,
    (congrArg (Option.map (fun r => (r.1.fOutBuffer, r.2)))
      ((C27_WriteObjectAny_result rootEnum ((TBufferJSON.new "%e").SetCompact 3)
        pointContent).2.2.2.1 5 holderClass pointClass 0 (by decide))).trans (by decide!)⟩

/-! ### String tokens -/

theorem scan_plain (cs : List Char)
    (h : ∀ c ∈ cs, c.toNat ≠ 34 ∧ c.toNat ≠ 92 ∧ 32 ≤ c.toNat) :
    cs.foldl jsonScanStep (some .plain) = some .plain := by
  induction cs with
  | nil => rfl
  | cons c cs ih =>
    have hc := h c (List.mem_cons_self _ _)
    have h32 : ¬ c.toNat < 32 := by omega
    simp only [List.foldl, jsonScanStep, hc.1, hc.2.1, h32, if_false, or_self]
    exact ih (fun d hd => h d (List.mem_cons_of_mem _ hd))

theorem isJsonString_quoted (s : String)
    (h : ∀ c ∈ s.data, c.toNat ≠ 34 ∧ c.toNat ≠ 92 ∧ 32 ≤ c.toNat) :
    isJsonString ("\"" ++ s ++ "\"") = true := by
  have hd : ("\"" ++ s ++ "\"").data = Char.ofNat 34 :: (s.data ++ [Char.ofNat 34]) := by
    simp [String.data_append]
  simp only [isJsonString, hd]
  simp [scan_plain s.data h]

/-- C28: what the string writers produce. On a buffer with an empty pending
value, `WriteTString` and `WriteCharP` leave the text between two double
quotes, unchanged, as pending value; so does the quoted branch of
`WriteFastArray` over characters, taken when no chain is expected and every
code is 27 or more, and `JsonWriteMember` returns the same for a `TString`
member. The token is a JSON string literal when the text holds no double
quote, no backslash and no control character. -/
theorem C28_string_tokens (K : EReadWrite) (D : EDataType) (fuel : Nat) (b : TBufferJSON)
    (s : String) (hvalue : b.fValue = "") :
    (b.WriteTString s).map (fun r => r.fValue) = some ("\"" ++ s ++ "\"") ∧
    (b.WriteCharP s).map (fun r => r.fValue) = some ("\"" ++ s ++ "\"") ∧
    (∀ cs : List Int, b.fExpectedChain = false → (∀ ch ∈ cs, 27 ≤ ch) →
      (b.WriteFastArrayChar K cs cs.length).map (fun r => r.fValue) =
        some ("\"" ++ String.mk (cs.map (fun ch => Char.ofNat ch.toNat)) ++ "\"")) ∧
    (∀ (mem : Memory) (m : TDataMember) (c : TClass), m.isBasic = false →
      c.isTStringClass = true → mem.tstring = s →
      (JsonWriteMember K D fuel b (some mem) (some m) (some c)).map (fun r => r.2) =
        some ("\"" ++ s ++ "\"")) ∧
    ((∀ c ∈ s.data, c.toNat ≠ 34 ∧ c.toNat ≠ 92 ∧ 32 ≤ c.toNat) →
      isJsonString ("\"" ++ s ++ "\"") = true) := by
  refine ⟨?_, ?_, ?_, ?_, isJsonString_quoted s⟩
  · simp [WriteTString, TJSONPushValue, hvalue]
  · simp [WriteCharP, TJSONPushValue, hvalue]
  · intro cs hchain hcs
    have hany : (cs.take (cs.length : Int).toNat).any (fun ch => decide (ch < 27)) = false := by
      simp only [List.any_eq_false, decide_eq_true_eq]
      intro ch hch
      have := hcs ch (List.mem_of_mem_take hch)
      omega
    cases cs with
    | nil => simp [WriteFastArrayChar, hchain, TJSONPushValue, hvalue]
    | cons ch cs =>
      have hpos : (0 : Int) < ((ch :: cs).length : Int) := by
        simp only [List.length_cons]
        omega
      simp only [WriteFastArrayChar, hchain, hany, Bool.or_self, Bool.false_eq_true, if_false,
        TJSONPushValue, hvalue]
      simp [hpos, hvalue]
  · intro mem m c hb hc hs
    simp +decide [JsonWriteMember, hb, hc, hs, PushStack, PopStack, Stack,
      String.append_assoc]

/-- Witness for C28: the text `hello`. -/
theorem C28_string_tokens_witness :
    ((memberBuffer stringElem "").WriteTString "hello").map (fun r => r.fValue) =
      some "\"hello\"" ∧
    isJsonString "\"hello\"" = true :=
  ⟨(C28_string_tokens rootEnum rootTypes 0 (memberBuffer stringElem "") "hello" rfl).1,
    (C28_string_tokens rootEnum rootTypes 0 (memberBuffer stringElem "") "hello" rfl).2.2.2.2
      (by decide)⟩

/-- Failing input for C28: `WriteTString` of the text `a"b` leaves the token
`"a"b"`, which is no JSON string literal; likewise `WriteCharP` of a text
ending in a backslash, and the quoted branch of `WriteFastArray` for the codes
97, 34, 98 and for 97, 27, 98, the control character 27 being copied as it
is. -/
theorem C28_counterexample :
    ((memberBuffer stringElem "").WriteTString "a\"b").map (fun r => r.fValue) =
      some "\"a\"b\"" ∧
    ((memberBuffer stringElem "").WriteTString "a\"b").map (fun r => isJsonString r.fValue) =
      some false ∧
    ((memberBuffer stringElem "").WriteCharP "a\\").map (fun r => isJsonString r.fValue) =
      some false ∧
    ((memberBuffer stringElem "").WriteFastArrayChar rootEnum [97, 34, 98] 3).map
        (fun r => (r.fValue, isJsonString r.fValue)) = some ("\"a\"b\"", false) ∧
    ((memberBuffer stringElem "").WriteFastArrayChar rootEnum [97, 27, 98] 3).map
        (fun r => isJsonString r.fValue) = some false := by
  decide

/-! ### Single members across the compact levels -/

theorem removeSpaces_append (a b : String) :
    removeSpaces (a ++ b) = removeSpaces a ++ removeSpaces b := by
  apply String.ext
  simp [removeSpaces, String.data_append]

theorem removeSpaces_go (s1 s2 : String) (hs : removeSpaces s1 = removeSpaces s2) :
    ∀ (l : List String) (a1 a2 : String), removeSpaces a1 = removeSpaces a2 →
      removeSpaces (String.intercalate.go a1 s1 l) = removeSpaces (String.intercalate.go a2 s2 l)
  | [], a1, a2, h => by simpa [String.intercalate.go] using h
  | x :: l, a1, a2, h => by
    simp only [String.intercalate.go]
    exact removeSpaces_go s1 s2 hs l _ _ (by simp [removeSpaces_append, h, hs])

theorem removeSpaces_intercalate (s1 s2 : String) (hs : removeSpaces s1 = removeSpaces s2)
    (l : List String) :
    removeSpaces (String.intercalate s1 l) = removeSpaces (String.intercalate s2 l) := by
  cases l with
  | nil => rfl
  | cons x l => exact removeSpaces_go s1 s2 hs l x x rfl

/-- `WriteFastArray` on a frame without element when no chain is expected. -/
theorem WriteFastArray_plain (K : EReadWrite) (b : TBufferJSON) (top : TJSONStackObj)
    (rest : List TJSONStackObj) (vname : List BasicValue) (n : Int)
    (hstack : b.fStack = top :: rest) (helem : top.fElem = none) (hvalue : b.fValue = "")
    (hchain : b.fExpectedChain = false) (hlen : vname.length = n.toNat) :
    b.WriteFastArray K vname n =
      some { b with
        fValue := if n ≤ 0 then "[]"
          else "[" ++ String.intercalate b.fArraySepar (vname.map (basicText b.fgFloatFmt)) ++
            "]" } := by
  have hpush : b.TJSONPushValue = some b := by simp [TJSONPushValue, hvalue]
  by_cases hn : n ≤ 0
  · simp [WriteFastArray, hpush, hn, hvalue]
  · have hnn : ((vname.length : Nat) : Int) = n := by
      rw [hlen]
      omega
    have hcontent := TJSONWriteArrayContent_eq b vname
    rw [hnn, hvalue] at hcontent
    simp only [WriteFastArray, hpush, Option.bind, hn, if_false, Stack, hstack,
      List.get?_cons_zero, helem, hchain, Bool.false_eq_true]
    rw [hcontent]
    simp [String.append_assoc, hstack, hchain]

theorem WriteFastArrayChar_plain (K : EReadWrite) (b : TBufferJSON) (top : TJSONStackObj)
    (rest : List TJSONStackObj) (c : List Int) (n : Int)
    (hstack : b.fStack = top :: rest) (helem : top.fElem = none) (hvalue : b.fValue = "")
    (hchain : b.fExpectedChain = false) (hlen : c.length = n.toNat) :
    b.WriteFastArrayChar K c n =
      some { b with
        fValue :=
          if (c.take n.toNat).any (fun ch => decide (ch < 27)) then
            (if n ≤ 0 then "[]"
             else "[" ++ String.intercalate b.fArraySepar
               ((c.map BasicValue.Char_t).map (basicText b.fgFloatFmt)) ++ "]")
          else "\"" ++
            (if n > 0 then String.mk ((c.take n.toNat).map (fun ch => Char.ofNat ch.toNat))
             else "") ++ "\"" } := by
  by_cases hany : (c.take n.toNat).any (fun ch => decide (ch < 27)) = true
  · simp only [WriteFastArrayChar, hany, Bool.or_true, if_true]
    exact WriteFastArray_plain K b top rest (c.map BasicValue.Char_t) n hstack helem hvalue
      hchain (by simpa using hlen)
  · have hany' : (c.take n.toNat).any (fun ch => decide (ch < 27)) = false := by
      simpa using hany
    simp only [WriteFastArrayChar, hchain, hany', Bool.or_self, Bool.false_eq_true, if_false,
      TJSONPushValue, hvalue]
    simp [hvalue, hchain]

theorem removeSpaces_separators :
    removeSpaces (if (2 : Int) < c1 then "," else ", ") =
      removeSpaces (if (2 : Int) < c2 then "," else ", ") := by
  have h : removeSpaces ", " = removeSpaces "," := by decide
  by_cases h1 : (2 : Int) < c1 <;> by_cases h2 : (2 : Int) < c2 <;> simp [h1, h2, h]

/-- The value a `WriteFastArray` overload leaves for the elements of a basic
member depends on the array separator only through its blanks. -/
theorem memberFastArray_spaces (K : EReadWrite) (D : EDataType) (b1 b2 : TBufferJSON)
    (top1 top2 : TJSONStackObj) (rest1 rest2 : List TJSONStackObj) (mem : Memory) (tid : Int)
    (shift : Nat) (n : Int)
    (hs1 : b1.fStack = top1 :: rest1) (he1 : top1.fElem = none) (hv1 : b1.fValue = "")
    (hc1 : b1.fExpectedChain = false)
    (hs2 : b2.fStack = top2 :: rest2) (he2 : top2.fElem = none) (hv2 : b2.fValue = "")
    (hc2 : b2.fExpectedChain = false)
    (hfmt : b1.fgFloatFmt = b2.fgFloatFmt)
    (hsep : removeSpaces b1.fArraySepar = removeSpaces b2.fArraySepar)
    (hcov : mem.coversCase (memberCase D tid) shift n = true) :
    ∃ v1 v2, memberFastArray K D b1 mem tid shift n (fun x => x) = some { b1 with fValue := v1 } ∧
      memberFastArray K D b2 mem tid shift n (fun x => x) = some { b2 with fValue := v2 } ∧
      removeSpaces v1 = removeSpaces v2 ∧ (v1.length = 0 ↔ v2.length = 0) := by
  have hsame1 : ({ b1 with fValue := "" } : TBufferJSON) = b1 := by
    cases b1
    simp only at hv1
    subst hv1
    rfl
  have hsame2 : ({ b2 with fValue := "" } : TBufferJSON) = b2 := by
    cases b2
    simp only at hv2
    subst hv2
    rfl
  have hbr : ∀ x : String, ("[" ++ x ++ "]").length ≠ 0 := by
    intro x
    have h1 : ("]" : String).length = 1 := rfl
    simp only [String.length_append, h1]
    omega
  have hqu : ∀ x : String, ("\"" ++ x ++ "\"").length ≠ 0 := by
    intro x
    have h1 : ("\"" : String).length = 1 := rfl
    simp only [String.length_append, h1]
    omega
  have harr : ∀ vs : List BasicValue, vs.length = n.toNat →
      ∃ v1 v2, b1.WriteFastArray K vs n = some { b1 with fValue := v1 } ∧
        b2.WriteFastArray K vs n = some { b2 with fValue := v2 } ∧
        removeSpaces v1 = removeSpaces v2 ∧ (v1.length = 0 ↔ v2.length = 0) := by
    intro vs hlen
    refine ⟨_, _, WriteFastArray_plain K b1 top1 rest1 vs n hs1 he1 hv1 hc1 hlen,
      WriteFastArray_plain K b2 top2 rest2 vs n hs2 he2 hv2 hc2 hlen, ?_, ?_⟩
    · by_cases hn : n ≤ 0
      · simp [hn]
      · simp only [hn, if_false, removeSpaces_append, hfmt]
        rw [removeSpaces_intercalate _ _ hsep]
    · by_cases hn : n ≤ 0
      · simp [hn]
      · simp only [hn, if_false]
        exact ⟨fun h => absurd h (hbr _), fun h => absurd h (hbr _)⟩
  have hchr : ∀ cs : List Int, cs.length = n.toNat →
      ∃ v1 v2, b1.WriteFastArrayChar K cs n = some { b1 with fValue := v1 } ∧
        b2.WriteFastArrayChar K cs n = some { b2 with fValue := v2 } ∧
        removeSpaces v1 = removeSpaces v2 ∧ (v1.length = 0 ↔ v2.length = 0) := by
    intro cs hlen
    refine ⟨_, _, WriteFastArrayChar_plain K b1 top1 rest1 cs n hs1 he1 hv1 hc1 hlen,
      WriteFastArrayChar_plain K b2 top2 rest2 cs n hs2 he2 hv2 hc2 hlen, ?_, ?_⟩
    · by_cases hany : (cs.take n.toNat).any (fun ch => decide (ch < 27)) = true
      · by_cases hn : n ≤ 0
        · simp [hn]
        · simp only [hany, hn, if_true, if_false, removeSpaces_append, hfmt]
          rw [removeSpaces_intercalate _ _ hsep]
      · simp [hany]
    · by_cases hany : (cs.take n.toNat).any (fun ch => decide (ch < 27)) = true
      · by_cases hn : n ≤ 0
        · simp [hany, hn]
        · simp only [hany, hn, if_true, if_false]
          exact ⟨fun h => absurd h (hbr _), fun h => absurd h (hbr _)⟩
      · simp only [hany, if_false]
        exact ⟨fun h => absurd h (hqu _), fun h => absurd h (hqu _)⟩
  have hvals : ∀ c, (memberValues mem c shift n).length = n.toNat := by
    intro c
    simp [memberValues]
  have hcodes : ((List.range n.toNat).map (fun i => mem.readInt .Char_t (shift + i))).length =
      n.toNat := by simp
  unfold memberFastArray
  rw [if_pos hcov, if_pos hcov]
  cases hmc : memberCase D tid
  case Char_t => exact hchr _ hcodes
  case CharStar => exact hchr _ hcodes
  case other => exact ⟨"", "", by simp [hsame1], by simp [hsame2], rfl, Iff.rfl⟩
  case unmatched => exact ⟨"", "", by simp [hsame1], by simp [hsame2], rfl, Iff.rfl⟩
  all_goals exact harr _ (hvals _)

/-- The value the scalar `switch` leaves is the same at every compact level. -/
theorem memberScalar_same (D : EDataType) (b : TBufferJSON) (mem : Memory) (tid : Int)
    (hv : b.fValue = "") (hcov : mem.coversCase (memberCase D tid) 0 1 = true) :
    memberScalar D b mem tid =
      some { b with
        fValue := match memberCase D tid with
          | .CharStar => "\"" ++ mem.cstring ++ "\""
          | .other => ""
          | .unmatched => ""
          | c => basicText b.fgFloatFmt (memberValue mem c 0) } := by
  have hsame : ({ b with fValue := "" } : TBufferJSON) = b := by
    cases b
    simp only at hv
    subst hv
    rfl
  unfold memberScalar
  cases hmc : memberCase D tid <;> rw [hmc] at hcov <;>
    simp [WriteCharP, TJSONPushValue, JsonWriteBasic, hv, hsame, hcov]

theorem JsonWriteMember_basic (K : EReadWrite) (D : EDataType) (fuel : Nat) (fmt : String)
    (mem : Memory) (m : TDataMember) (mcl : Option TClass) (c : Int) (hb : m.isBasic = true)
    (hflat : m.fArrayDim = 0 ∨ m.fArrayDim = 1 ∨ 0 < c) :
    JsonWriteMember K D fuel ((TBufferJSON.new fmt).SetCompact c) (some mem) (some m) mcl =
      ((if m.fArrayDim = 0 then
          memberScalar D (memberStart fmt c) mem (m.dataType.getD D.kNoType_t)
        else
          memberFastArray K D (memberStart fmt c) mem (m.dataType.getD D.kNoType_t) 0
            ((List.range (m.fArrayDim.toNat - 1)).foldl
              (fun n k => n * m.fMaxIndex (k + 1)) (m.fMaxIndex 0))
            (fun x => x)).map
        (fun b1 => (b1.PopStack, if b1.PopStack.fValue.length = 0 then "not supported"
          else b1.PopStack.fValue))) := by
  have hcond : m.fArrayDim ≠ 0 → (m.fArrayDim = 1 ∨ 0 < c) := by
    intro h0
    rcases hflat with h | h | h
    · exact absurd h h0
    · exact Or.inl h
    · exact Or.inr h
  by_cases hd : m.fArrayDim = 0
  · cases hdt : m.dataType <;>
      simp [JsonWriteMember, memberStart, hb, hd, hdt, TBufferJSON.new, SetCompact,
        PushStack, Stack, TJSONStackObj.new]
    all_goals
      generalize memberScalar D _ mem _ = r
      cases r with
      | none => rfl
      | some b1 => by_cases hl : b1.PopStack.fValue.length = 0 <;> simp [hl]
  · have h1 := hcond hd
    cases hdt : m.dataType <;>
      simp [JsonWriteMember, memberStart, hb, hd, hdt, h1, TBufferJSON.new, SetCompact,
        PushStack, Stack, TJSONStackObj.new]
    all_goals
      generalize memberFastArray K D _ mem _ _ _ _ = r
      cases r with
      | none => rfl
      | some b1 => by_cases hl : b1.PopStack.fValue.length = 0 <;> simp [hl]

theorem PopStack_fValue (b : TBufferJSON) : b.PopStack.fValue = b.fValue := by
  unfold PopStack
  split <;> rfl

theorem memberTid_getD (D : EDataType) (m : TDataMember) :
    m.dataType.getD D.kNoType_t = memberTid D m := by
  unfold memberTid
  cases m.dataType <;> rfl

/-- C29, where the code keeps it: for a basic data member that is no array or
an array of one dimension, and every pair of compact levels, and for a basic
member with an array of several dimensions and every pair of compact levels
above 0: `JsonWriteMember` returns at both levels, and the two texts are
equal after removing blanks and newlines. The pointer may be null; behind a
pointer that is not null the values of the member lie inside the storage. -/
theorem C29_basic_member_whitespace (K : EReadWrite) (D : EDataType) (fuel : Nat)
    (fmt : String) (ptr : Option Memory) (m : TDataMember) (mcl : Option TClass) (c1 c2 : Int)
    (hb : m.isBasic = true)
    (hflat : m.fArrayDim = 0 ∨ m.fArrayDim = 1 ∨ (0 < c1 ∧ 0 < c2))
    (hstored : ∀ mem, ptr = some mem → memberStored D mem m = true) :
    ∃ r1 r2,
      JsonWriteMember K D fuel ((TBufferJSON.new fmt).SetCompact c1) ptr (some m) mcl = some r1 ∧
      JsonWriteMember K D fuel ((TBufferJSON.new fmt).SetCompact c2) ptr (some m) mcl = some r2 ∧
      removeSpaces r1.2 = removeSpaces r2.2 := by
  cases ptr with
  | none =>
    have hnull : ∀ c : Int, JsonWriteMember K D fuel ((TBufferJSON.new fmt).SetCompact c) none
        (some m) mcl = some (({ memberStart fmt c with fValue := "null" }).PopStack, "null") := by
      intro c
      simp +decide [JsonWriteMember, hb, memberStart, PopStack, TBufferJSON.new, SetCompact,
        PushStack, Stack, TJSONStackObj.new]
    exact ⟨_, _, hnull c1, hnull c2, rfl⟩
  | some mem =>
    have hf1 : m.fArrayDim = 0 ∨ m.fArrayDim = 1 ∨ 0 < c1 := by
      rcases hflat with h | h | h
      · exact Or.inl h
      · exact Or.inr (Or.inl h)
      · exact Or.inr (Or.inr h.1)
    have hf2 : m.fArrayDim = 0 ∨ m.fArrayDim = 1 ∨ 0 < c2 := by
      rcases hflat with h | h | h
      · exact Or.inl h
      · exact Or.inr (Or.inl h)
      · exact Or.inr (Or.inr h.2)
    rw [JsonWriteMember_basic K D fuel fmt mem m mcl c1 hb hf1,
      JsonWriteMember_basic K D fuel fmt mem m mcl c2 hb hf2]
    have hst := hstored mem rfl
    simp only [memberStored, memberCount] at hst
    rw [← memberTid_getD] at hst
    by_cases hd : m.fArrayDim = 0
    · simp only [hd, if_true] at hst ⊢
      rw [memberScalar_same D (memberStart fmt c1) mem _ rfl hst,
        memberScalar_same D (memberStart fmt c2) mem _ rfl hst]
      refine ⟨_, _, rfl, rfl, ?_⟩
      simp [memberStart, PopStack_fValue, TBufferJSON.new, SetCompact, PushStack]
    · simp only [hd, if_false] at hst ⊢
      obtain ⟨v1, v2, e1, e2, hsp, hlen⟩ :=
        memberFastArray_spaces K D (memberStart fmt c1) (memberStart fmt c2)
          TJSONStackObj.new TJSONStackObj.new [] [] mem (m.dataType.getD D.kNoType_t) 0
          ((List.range (m.fArrayDim.toNat - 1)).foldl
            (fun n k => n * m.fMaxIndex (k + 1)) (m.fMaxIndex 0))
          (by simp [memberStart, TBufferJSON.new, SetCompact, PushStack, Stack, TJSONStackObj.new])
          rfl rfl
          (by simp [memberStart, TBufferJSON.new, SetCompact, PushStack])
          (by simp [memberStart, TBufferJSON.new, SetCompact, PushStack, Stack, TJSONStackObj.new])
          rfl rfl
          (by simp [memberStart, TBufferJSON.new, SetCompact, PushStack])
          (by simp [memberStart, TBufferJSON.new, SetCompact, PushStack])
          (by
            simp only [memberStart, TBufferJSON.new, SetCompact, PushStack]
            exact removeSpaces_separators)
          hst
      rw [e1, e2]
      refine ⟨_, _, rfl, rfl, ?_⟩
      by_cases h0 : v1.length = 0
      · have h0b := hlen.mp h0
        simp [PopStack_fValue, h0, h0b]
      · have h0b : ¬ v2.length = 0 := fun h => h0 (hlen.mpr h)
        simp [PopStack_fValue, h0, h0b, hsp]

/-- Witness for C29: the member `Int_t m[2][2]` at the compact levels 1 and 3. -/
theorem C29_basic_member_whitespace_witness :
    matrixMember.isBasic = true ∧
    (matrixMember.fArrayDim = 0 ∨ matrixMember.fArrayDim = 1 ∨ ((0 : Int) < 1 ∧ (0 : Int) < 3)) ∧
    memberStored rootTypes countingMemory matrixMember = true ∧
    ∃ r1 r2,
      JsonWriteMember rootEnum rootTypes 16 ((TBufferJSON.new "%e").SetCompact 1)
        (some countingMemory) (some matrixMember) none = some r1 ∧
      JsonWriteMember rootEnum rootTypes 16 ((TBufferJSON.new "%e").SetCompact 3)
        (some countingMemory) (some matrixMember) none = some r2 ∧
      removeSpaces r1.2 = removeSpaces r2.2 :=
  ⟨rfl, Or.inr (Or.inr ⟨by decide, by decide⟩), by decide,
    C29_basic_member_whitespace rootEnum rootTypes 16 "%e" (some countingMemory) matrixMember
      none 1 3 rfl (Or.inr (Or.inr ⟨by decide, by decide⟩))
      (fun mem hm => by
        injection hm with hm
        subst hm
        decide)⟩

/-- The failing input for C29: for the member `Int_t m[2][2]` holding 1, 2, 3,
4 the text at compact level 0 is the nested `[ [1, 2], [3, 4] ]`, the text at
level 3 is the flat `[1,2,3,4]`, and the two differ after removing blanks and
newlines. -/
theorem C29_counterexample :
    (JsonWriteMember rootEnum rootTypes 16 ((TBufferJSON.new "%e").SetCompact 0)
        (some countingMemory) (some matrixMember) none).map (fun r => r.2) =
      some "[ [1, 2], [3, 4] ]" ∧
    (JsonWriteMember rootEnum rootTypes 16 ((TBufferJSON.new "%e").SetCompact 3)
        (some countingMemory) (some matrixMember) none).map (fun r => r.2) =
      some "[1,2,3,4]" ∧
    removeSpaces "[ [1, 2], [3, 4] ]" = "[[1,2],[3,4]]" ∧
    removeSpaces "[1,2,3,4]" = "[1,2,3,4]" ∧
    removeSpaces "[ [1, 2], [3, 4] ]" ≠ removeSpaces "[1,2,3,4]" := by
  refine ⟨by decide!, by decide!, by decide, by decide, by decide⟩

/-! ### The embedded object member at compact level 3 -/

/-- C30, what the code does where the claim expects `:` throughout:
`SetCompact(3)` sets the field separator to `:`, and when a class level
begins on a member frame of object type that is not started, on a buffer set
to compact level 3, the appended text is exactly
`,"<name>" : {"_typename":"JSROOTIO.<class>"`. `WorkWithClass` writes the
separator before the opening brace as the fixed text ` : `, not as the
separator of the level, which it uses after `_typename`. -/
theorem C30_embedded_object_text (K : EReadWrite) (b : TBufferJSON) (stack : TJSONStackObj)
    (rest : List TJSONStackObj) (elem : TStreamerElement) (sinfo : Option TStreamerInfo)
    (cl : Option TClass) (c : TClass)
    (hstack : b.fStack = stack :: rest) (helem : stack.fElem = some elem)
    (hinfo : stack.fIsStreamerInfo = false) (hobj : stack.fIsObjStarted = false)
    (htype : elem.fType = K.kObject)
    (hcl : (match sinfo with | some i => some i.fClass | none => cl) = some c) :
    (b.SetCompact 3).fSemicolon = ":" ∧
    ((b.SetCompact 3).WorkWithClass K sinfo cl).fOutBuffer =
      b.fOutBuffer ++ ",\"" ++ elem.fName ++ "\" : \x7b\"_typename\":\"JSROOTIO." ++
        c.fName ++ "\"" := by
  refine ⟨by simp [SetCompact], ?_⟩
  rw [WorkWithClass_object K (b.SetCompact 3) stack rest elem sinfo cl c
    (by simpa [SetCompact] using hstack) helem hinfo hobj htype hcl]
  simp +decide [SetCompact, lineBreak, indent, String.append_assoc]

/-- Witness for C30: the member `fEmb` holding a `Point` by value. -/
theorem C30_embedded_object_text_witness :
    embElem.fType = rootEnum.kObject ∧
    (((frameBuffer 3 { TJSONStackObj.new with fElem := some embElem } "").SetCompact
        3).WorkWithClass rootEnum (some pointInfo) none).fOutBuffer =
      ",\"fEmb\" : \x7b\"_typename\":\"JSROOTIO.Point\"" :=
  ⟨rfl,
    ((C30_embedded_object_text rootEnum
      (frameBuffer 3 { TJSONStackObj.new with fElem := some embElem } "")
      { TJSONStackObj.new with fElem := some embElem } [] embElem (some pointInfo) none
      pointClass rfl rfl rfl rfl rfl rfl).2).trans (by decide)⟩

/-- The failing input for C30: for the member `fEmb` at compact level 3 the
appended text is `,"fEmb" : {"_typename":"JSROOTIO.Point"`, which holds two
blanks. -/
theorem C30_counterexample :
    ((frameBuffer 3 { TJSONStackObj.new with fElem := some embElem } "").WorkWithClass
        rootEnum (some pointInfo) none).fOutBuffer =
      ",\"fEmb\" : \x7b\"_typename\":\"JSROOTIO.Point\"" ∧
    ((frameBuffer 3 { TJSONStackObj.new with fElem := some embElem } "").WorkWithClass
        rootEnum (some pointInfo) none).fOutBuffer.data.count ' ' = 2 := by
  decide

/-! ### The process state and the float format -/

/-- C31: `ConvertToJSON(obj, cl, compact)` on a non-null object whose class is
no array class. The local buffer of a call starts with an empty reference
map, the counter 0 and an empty stack. When the call returns a text, the call
as a step of the process returns that text and leaves the process state (the
float format) as it was, and a second call with the same arguments on the
state it leaves returns the same text. The buffer the first call leaves holds
the root under the id 0, so a further `JsonWriteAny` on that buffer, with its
stack empty, would return the token `"$ref:0"`: the second call writes the
root in full because its buffer is a new one. -/
theorem C31_fresh_table_per_call (K : EReadWrite) (s : Statics) (obj : Nat) (cl : TClass)
    (compact : Int) (content : Content) (r : TBufferJSON × String)
    (harr : ¬ (startsWithTArray cl.fName = true ∧ cl.baseOffsetTArray = 0))
    (h : ConvertToJSON K s.fgFloatFmt (some obj) (some cl) compact content = some r) :
    (((TBufferJSON.new s.fgFloatFmt).SetCompact compact).fJsonrMap = [] ∧
      ((TBufferJSON.new s.fgFloatFmt).SetCompact compact).fJsonrCnt = 0 ∧
      ((TBufferJSON.new s.fgFloatFmt).SetCompact compact).fStack = []) ∧
    (s.ConvertToJSON K (some obj) (some cl) compact content).2 = some r.2 ∧
    ((s.ConvertToJSON K (some obj) (some cl) compact content).1.ConvertToJSON K (some obj)
      (some cl) compact content).2 = some r.2 ∧
    (s.ConvertToJSON K (some obj) (some cl) compact content).1 = s ∧
    mapFind r.1.fJsonrMap obj = some 0 ∧
    (r.1.fStack = [] →
      (JsonWriteAny K r.1 (some obj) (some cl) content).map (fun x => x.2) =
        some "\"$ref:0\"") := by
  have hrun : JsonWriteObject K { (TBufferJSON.new s.fgFloatFmt).SetCompact compact with
      fOutBuffer := "" } (some obj) (some cl) content = some r.1 := by
    simp only [ConvertToJSON, JsonWriteAny] at h
    cases hj : JsonWriteObject K { (TBufferJSON.new s.fgFloatFmt).SetCompact compact with
      fOutBuffer := "" } (some obj) (some cl) content with
    | none => simp [hj] at h
    | some x =>
      simp only [hj, Option.map_some', Option.some.injEq] at h
      rw [← h]
  have hk1 : ∀ b : TBufferJSON, (b.objKind (some cl)).isarray = false := by
    intro b
    simp only [objKind]
    simpa using harr
  have hk2 : ∀ b : TBufferJSON, b.fStack = [] → (b.objKind (some cl)).iststring = false := by
    intro b hb
    simp [objKind, hb]
  have hfind : mapFind r.1.fJsonrMap obj = some 0 := by
    obtain ⟨b1, hopen, hmap, hcnt⟩ := open_entered
      { (TBufferJSON.new s.fgFloatFmt).SetCompact compact with fOutBuffer := "" } obj cl
      (hk1 _) (hk2 _ rfl) rfl
    have hstep := step_after_open K _ b1 r.1 _ _ content hopen hrun
    refine hstep.stable obj 0 ?_
    rw [hmap, mapFind_cons]
    simp [TBufferJSON.new, SetCompact]
  refine ⟨⟨rfl, rfl, rfl⟩, ?_, ?_, rfl, ?_, ?_⟩
  · simp [Statics.ConvertToJSON, h]
  · simp [Statics.ConvertToJSON, h]
  · exact hfind
  · intro hstack
    cases content with
    | mk streamer colName colIsList colItems =>
      simp +decide [JsonWriteAny, JsonWriteObject, JsonWriteObjectOpen, hk1, hk2, hstack,
        JsonStartElement, hfind, AppendOutput_eq, appended]

/-- Witness for C31: the `Holder` with the shared `Point`, converted at compact
level 3 twice in a row from the initial process state; the second call
returns the full text again. -/
theorem C31_fresh_table_per_call_witness :
    ((Statics.initial.ConvertToJSON rootEnum (some 1) (some holderClass) 3
        sharedContent).1.ConvertToJSON rootEnum (some 1) (some holderClass) 3 sharedContent).2 =
      some ("\x7b\"_typename\":\"JSROOTIO.Holder\",\"fA\":\x7b\"_typename\":\"JSROOTIO.Point\"\x7d," ++
        "\"fB\":\"$ref:1\"\x7d") := by
  have h : ConvertToJSON rootEnum Statics.initial.fgFloatFmt (some 1) (some holderClass) 3
      sharedContent =
      some ((ConvertToJSON rootEnum "%e" (some 1) (some holderClass) 3 sharedContent).getD
        (TBufferJSON.new "%e", "")) := by decide!
  rw [(C31_fresh_table_per_call rootEnum Statics.initial 1 holderClass 3 sharedContent _
    (by decide) h).2.2.1]
  decide!

/-- C32: after `SetFloatFormat(fmt)` with a non-null text `GetFloatFormat()`
returns `fmt`; both `ConvertToJSON` functions leave the process state as it
is and run with `fmt` as the float format, so the setting persists across
serialisation calls; the next `SetFloatFormat` decides alone what
`GetFloatFormat()` returns; and `SetFloatFormat(null)`, at once or after
another setting, restores the text that `GetFloatFormat()` returns in the
initial state. -/
theorem C32_float_format_setting (K : EReadWrite) (D : EDataType) (fuel : Nat) (s : Statics)
    (fmt : String) :
    (s.SetFloatFormat (some fmt)).GetFloatFormat = fmt ∧
    (∀ obj cl compact content,
      ((s.SetFloatFormat (some fmt)).ConvertToJSON K obj cl compact content).1 =
        s.SetFloatFormat (some fmt) ∧
      ((s.SetFloatFormat (some fmt)).ConvertToJSON K obj cl compact content).2 =
        (ConvertToJSON K fmt obj cl compact content).map (fun r => r.2)) ∧
    (∀ ptr member compact,
      ((s.SetFloatFormat (some fmt)).ConvertToJSONMember K D fuel ptr member compact).1 =
        s.SetFloatFormat (some fmt) ∧
      ((s.SetFloatFormat (some fmt)).ConvertToJSONMember K D fuel ptr member compact).2 =
        ConvertToJSONMember K D fuel fmt ptr member compact) ∧
    (∀ next, ((s.SetFloatFormat (some fmt)).SetFloatFormat next).GetFloatFormat =
      (s.SetFloatFormat next).GetFloatFormat) ∧
    (s.SetFloatFormat none).GetFloatFormat = Statics.initial.GetFloatFormat ∧
    ((s.SetFloatFormat (some fmt)).SetFloatFormat none).GetFloatFormat =
      Statics.initial.GetFloatFormat :=
  ⟨rfl, fun _ _ _ _ => ⟨rfl, rfl⟩, fun _ _ _ => ⟨rfl, rfl⟩, fun _ => rfl, rfl, rfl⟩

/-- C33 (amended): the default floating-point format, the value of
`GetFloatFormat()` in the initial state and after `SetFloatFormat(null)`, is
`%e`: its conversion specifier is `e` (character code 101), the exponent
notation. -/
theorem C33_default_float_format (s : Statics) :
    Statics.initial.GetFloatFormat = "%e" ∧
    (s.SetFloatFormat none).GetFloatFormat = "%e" ∧
    conversionSpecifier Statics.initial.GetFloatFormat = some 101 ∧
    conversionSpecifier (s.SetFloatFormat none).GetFloatFormat = some 101 :=
  ⟨rfl, rfl, by decide, (by decide : conversionSpecifier "%e" = some 101)⟩

/-- Counterexample for C33 as stated: the conversion specifier of the default
format is not `f` (character code 102), which is the specifier of `%f`; a
`Double_t` member whose value prints as `1.500000e+00` under `%e` and as
`1.500000` under `%f` is converted to `1.500000e+00` in the initial state,
and to `1.500000` only after `SetFloatFormat("%f")`. -/
theorem C33_counterexample :
    conversionSpecifier Statics.initial.GetFloatFormat ≠ some 102 ∧
    conversionSpecifier "%f" = some 102 ∧
    (Statics.initial.ConvertToJSONMember rootEnum rootTypes 0 (some doubleMemory)
      (some doubleMember) 3).2 = some "1.500000e+00" ∧
    ((Statics.initial.SetFloatFormat (some "%f")).ConvertToJSONMember rootEnum rootTypes 0
      (some doubleMemory) (some doubleMember) 3).2 = some "1.500000" := by
  decide

/-! ### Arrays of object pointers -/

theorem slotsAfter_done (n : Int) (isPreAlloc : Bool) :
    ∀ (slots : List Slot) (j : Nat), ¬ (j : Int) < n →
      slotsAfter n isPreAlloc j slots = slots.map Slot.ptr
  | [], _, _ => rfl
  | s :: rest, j, h => by
    have h1 : ¬ ((j + 1 : Nat) : Int) < n := by
      push_cast
      omega
    simp [slotsAfter, h, slotsAfter_done n isPreAlloc rest (j + 1) h1]

theorem loopSlots_entries (K : EReadWrite) (cl : Option TClass) (n : Int) (isPreAlloc : Bool) :
    ∀ (slots : List Slot) (b : TBufferJSON) (j : Nat) (res : Int)
      (r : TBufferJSON × Int × List (Option Nat)),
      loopSlots K b cl n isPreAlloc j res slots = some r →
      r.2.2 = slotsAfter n isPreAlloc j slots
  | [], b, j, res, r, h => by
    simp only [loopSlots] at h
    split_ifs at h
    injection h with h
    subst h
    rfl
  | .mk ptr clActual created content :: rest, b, j, res, r, h => by
    simp only [loopSlots] at h
    generalize (if j > 0 then b.AppendOutput (some b.fArraySepar) none else b) = b1 at h
    by_cases hj : (j : Int) < n
    · simp only [hj, if_true] at h
      cases isPreAlloc with
      | false =>
        simp only [Bool.not_false, if_true] at h
        split at h
        · obtain ⟨x, hx, hr⟩ := Option.map_eq_some'.mp h
          have ih := loopSlots_entries K cl n false rest _ _ _ x hx
          subst hr
          simp [slotsAfter, Slot.ptr, ih]
        · split at h
          · simp at h
          · obtain ⟨x, hx, hr⟩ := Option.map_eq_some'.mp h
            have ih := loopSlots_entries K cl n false rest _ _ _ x hx
            subst hr
            simp [slotsAfter, Slot.ptr, ih]
      | true =>
        simp only [Bool.not_true, Bool.false_eq_true, if_false] at h
        split at h
        · simp at h
        · rename_i p hp
          split at h
          · simp at h
          · obtain ⟨x, hx, hr⟩ := Option.map_eq_some'.mp h
            have ih := loopSlots_entries K cl n true rest _ _ _ x hx
            subst hr
            cases ptr with
            | some a =>
              simp only [Option.some.injEq] at hp
              subst hp
              simp [slotsAfter, Slot.ptr, Slot.created, ih, hj]
            | none =>
              cases cl with
              | none => simp at hp
              | some c =>
                simp only [Option.some.injEq] at hp
                subst hp
                simp [slotsAfter, Slot.ptr, Slot.created, ih, hj]
    · simp only [hj, if_false] at h
      injection h with h
      subst h
      have := slotsAfter_done n isPreAlloc (Slot.mk ptr clActual created content :: rest) j hj
      simp only [this]
      rfl

theorem runCall_WriteFastArrayPtr (K : EReadWrite) (b : TBufferJSON) (start : List Slot)
    (cl : Option TClass) (n : Int) (isPreAlloc : Bool) (streamer : Option (List Call)) :
    runCall K b (.WriteFastArrayPtr start cl n isPreAlloc streamer) =
      (WriteFastArrayPtr K b start cl n isPreAlloc streamer).map (fun r => r.1) := by
  cases streamer with
  | some calls => simp [runCall, WriteFastArrayPtr, Option.map_map, Function.comp_def]
  | none => simp [runCall, WriteFastArrayPtr, Option.map_map, Function.comp_def]

theorem slotsAfter_length (n : Int) (isPreAlloc : Bool) :
    ∀ (slots : List Slot) (j : Nat), (slotsAfter n isPreAlloc j slots).length = slots.length
  | [], _ => rfl
  | s :: rest, j => by simp [slotsAfter, slotsAfter_length n isPreAlloc rest (j + 1)]

theorem slotsAfter_plain (n : Int) :
    ∀ (slots : List Slot) (j : Nat), slotsAfter n false j slots = slots.map Slot.ptr
  | [], _ => rfl
  | s :: rest, j => by simp [slotsAfter, slotsAfter_plain n rest (j + 1)]

theorem slotsAfter_get (n : Int) (isPreAlloc : Bool) :
    ∀ (slots : List Slot) (j0 j : Nat) (s : Slot), slots.get? j = some s →
      (slotsAfter n isPreAlloc j0 slots).get? j =
        some (if isPreAlloc && decide (((j0 + j : Nat) : Int) < n) then
          (match s.ptr with | some a => some a | none => s.created)
         else s.ptr)
  | [], _, j, s, h => by simp at h
  | t :: rest, j0, 0, s, h => by
    simp only [List.get?_cons_zero, Option.some.injEq] at h
    subst h
    simp [slotsAfter]
  | t :: rest, j0, j + 1, s, h => by
    simp only [List.get?_cons_succ] at h
    have ih := slotsAfter_get n isPreAlloc rest (j0 + 1) j s h
    simp only [slotsAfter, List.get?_cons_succ, ih]
    have e : j0 + 1 + j = j0 + (j + 1) := by omega
    rw [e]

/-- C34 (amended): `WriteFastArray(void **start, cl, n, isPreAlloc, streamer)`
without a streamer, when it returns. The entries of `start` are left as
`slotsAfter` gives them, and the array keeps its length. With `isPreAlloc`
false every entry is unchanged, null entries included. With `isPreAlloc` true
every non-null entry and every entry from position `n` on is unchanged, and a
null entry among the first `n` is replaced by the pointer that `cl->New()`
returns, the address of the new object. -/
theorem C34_pointer_array_entries (K : EReadWrite) (b : TBufferJSON) (start : List Slot)
    (cl : Option TClass) (n : Int) (isPreAlloc : Bool)
    (r : TBufferJSON × Int × List (Option Nat))
    (h : WriteFastArrayPtr K b start cl n isPreAlloc none = some r) :
    r.2.2 = slotsAfter n isPreAlloc 0 start ∧
    r.2.2.length = start.length ∧
    (isPreAlloc = false → r.2.2 = start.map Slot.ptr) ∧
    (∀ (j : Nat) (s : Slot), start.get? j = some s →
      (s.ptr.isSome = true ∨ ¬ (j : Int) < n → r.2.2.get? j = some s.ptr) ∧
      (isPreAlloc = true → s.ptr = none → (j : Int) < n →
        r.2.2.get? j = some s.created)) := by
  have hr : r.2.2 = slotsAfter n isPreAlloc 0 start := by
    simp only [WriteFastArrayPtr] at h
    obtain ⟨x, hx, hxr⟩ := Option.map_eq_some'.mp h
    subst hxr
    exact loopSlots_entries K cl n isPreAlloc start _ 0 0 x hx
  refine ⟨hr, by rw [hr, slotsAfter_length], ?_, ?_⟩
  · intro hp
    rw [hr, hp, slotsAfter_plain]
  · intro j s hs
    have hg := slotsAfter_get n isPreAlloc start 0 j s hs
    rw [← hr] at hg
    simp only [Nat.zero_add] at hg
    refine ⟨?_, ?_⟩
    · intro hcase
      rw [hg]
      rcases hcase with hsome | hn
      · cases hp : s.ptr with
        | none => simp [hp] at hsome
        | some a => by_cases hc : (isPreAlloc && decide ((j : Int) < n)) = true <;> simp [hc]
      · simp [hn]
    · intro hp hnull hn
      rw [hg]
      simp [hp, hn, hnull]

/-- Witness for C34: the array of a null pointer and a pointer to the `Point`
at address 2, written with `n = 2`: without pre-allocation the entries stay
as they are, with pre-allocation the null entry becomes the address 9 of the
new object. -/
theorem C34_pointer_array_entries_witness :
    (WriteFastArrayPtr rootEnum (TBufferJSON.new "%e") slotArray (some pointClass) 2 false
      none).map (fun r => r.2.2) = some [none, some 2] ∧
    (WriteFastArrayPtr rootEnum (TBufferJSON.new "%e") slotArray (some pointClass) 2 true
      none).map (fun r => r.2.2) = some [some 9, some 2] := by
  have h1 : WriteFastArrayPtr rootEnum (TBufferJSON.new "%e") slotArray (some pointClass) 2
      false none =
      some ((WriteFastArrayPtr rootEnum (TBufferJSON.new "%e") slotArray (some pointClass) 2
        false none).getD (TBufferJSON.new "%e", 0, [])) := by decide!
  have h2 : WriteFastArrayPtr rootEnum (TBufferJSON.new "%e") slotArray (some pointClass) 2
      true none =
      some ((WriteFastArrayPtr rootEnum (TBufferJSON.new "%e") slotArray (some pointClass) 2
        true none).getD (TBufferJSON.new "%e", 0, [])) := by decide!
  refine ⟨?_, ?_⟩
  · rw [h1]
    simp only [Option.map_some']
    rw [(C34_pointer_array_entries rootEnum _ slotArray (some pointClass) 2 false _ h1).1]
    rfl
  · rw [h2]
    simp only [Option.map_some']
    rw [(C34_pointer_array_entries rootEnum _ slotArray (some pointClass) 2 true _ h2).1]
    rfl

/-- Counterexample for C34 as stated: the array holds a null pointer and the
address 2; after `WriteFastArray` with `isPreAlloc` true it holds the
addresses 9 and 2, and a new `Point` has been written in place of `null`. -/
theorem C34_counterexample :
    slotArray.map Slot.ptr = [none, some 2] ∧
    (WriteFastArrayPtr rootEnum (TBufferJSON.new "%e") slotArray (some pointClass) 2 true
      none).map (fun r => (r.1.fOutBuffer, r.2.2)) =
      some ("[\x7b\n  \"_typename\" : \"JSROOTIO.Point\"\n\x7d, \x7b\n  \"_typename\" : \"JSROOTIO.Point\"\n\x7d]", [some 9, some 2]) := by
  decide!

/-! ### Stack balance -/

theorem balanced_refl (b : TBufferJSON) : Balanced b b := ⟨rfl, rfl⟩

theorem balanced_trans {a b c : TBufferJSON} (h1 : Balanced a b) (h2 : Balanced b c) :
    Balanced a c :=
  ⟨h2.1.trans h1.1, h2.2.trans h1.2⟩

theorem balanced_of_eq {b b' : TBufferJSON} (h : b'.fStack = b.fStack) : Balanced b b' :=
  ⟨by rw [h], by rw [h]⟩

theorem balanced_AppendOutput (b : TBufferJSON) (l0 l1 : Option String) :
    Balanced b (b.AppendOutput l0 l1) := balanced_of_eq (by simp)

theorem balanced_setTop (b : TBufferJSON) (s top : TJSONStackObj) (rest : List TJSONStackObj)
    (h : b.fStack = top :: rest) : Balanced b (b.setTop s) := by
  simp [Balanced, setTop, h]

theorem balanced_JsonStartElement (b : TBufferJSON) : Balanced b b.JsonStartElement := by
  unfold JsonStartElement
  split
  · exact balanced_refl b
  · rename_i stack rest hs
    split_ifs
    · split
      · simp [Balanced, hs]
      · simp [Balanced, hs]
    · simp [Balanced, hs]
    · exact balanced_refl b

theorem balanced_PerformPostProcessing (K : EReadWrite) (b b' : TBufferJSON)
    (elem : Option TStreamerElement) (h : b.PerformPostProcessing K elem = some b') :
    Balanced b b' := by
  cases hs : b.fStack with
  | nil => simp [PerformPostProcessing, hs] at h
  | cons stack rest =>
    obtain ⟨b1, top, h1, h2⟩ := PerformPostProcessing_frames K b elem stack rest hs
    rw [h1] at h
    injection h with h
    subst h
    simp [Balanced, h2, hs]

theorem balanced_TJSONPushValue (b b' : TBufferJSON) (h : b.TJSONPushValue = some b') :
    Balanced b b' := by
  unfold TJSONPushValue at h
  split_ifs at h
  · split at h
    · simp at h
    · rename_i stack rest hs
      injection h with h; subst h
      simp [Balanced, setTop, hs]
  · injection h with h; subst h; exact balanced_refl b

theorem balanced_JsonWriteBasic (b : TBufferJSON) (v : BasicValue) :
    Balanced b (b.JsonWriteBasic v) :=
  balanced_of_eq rfl

theorem balanced_of_map {b b' : TBufferJSON} {r : Option TBufferJSON}
    {f : TBufferJSON → TBufferJSON}
    (hr : ∀ x, r = some x → Balanced b x) (hf : ∀ x, Balanced x (f x)) (h : r.map f = some b') :
    Balanced b b' := by
  cases r with
  | none => simp at h
  | some x =>
    simp at h
    subst h
    exact balanced_trans (hr x rfl) (hf x)

theorem balanced_of_bind {b b' : TBufferJSON} {r : Option TBufferJSON}
    {f : TBufferJSON → Option TBufferJSON}
    (hr : ∀ x, r = some x → Balanced b x) (hf : ∀ x y, f x = some y → Balanced x y)
    (h : r.bind f = some b') : Balanced b b' := by
  cases r with
  | none => simp at h
  | some x =>
    simp at h
    exact balanced_trans (hr x rfl) (hf x b' h)

theorem balanced_WriteCharP (b b' : TBufferJSON) (c : String) (h : b.WriteCharP c = some b') :
    Balanced b b' := by
  refine balanced_of_map ?_ ?_ h
  · exact fun x hx => balanced_TJSONPushValue b x hx
  · exact fun _ => balanced_of_eq rfl

theorem balanced_arrayContentLoop (vname : List BasicValue) : ∀ (count indx : Nat)
    (b b' : TBufferJSON), arrayContentLoop vname indx count b = some b' → Balanced b b' := by
  intro count
  induction count with
  | zero =>
    intro indx b b' h
    simp [arrayContentLoop] at h
    subst h
    exact balanced_refl b
  | succ n ih =>
    intro indx b b' h
    simp only [arrayContentLoop] at h
    split at h
    · simp at h
    · refine balanced_trans ?_ (ih _ _ _ h)
      split_ifs <;> exact balanced_of_eq rfl

theorem balanced_TJSONWriteArrayContent (b b' : TBufferJSON) (vname : List BasicValue)
    (arrsize : Int) (h : b.TJSONWriteArrayContent vname arrsize = some b') : Balanced b b' := by
  unfold TJSONWriteArrayContent at h
  refine balanced_trans (balanced_of_eq rfl : Balanced b { b with fValue := b.fValue ++ "[" }) ?_
  refine balanced_of_map ?_ ?_ h
  · exact fun x hx => balanced_arrayContentLoop vname _ _ _ x hx
  · exact fun _ => balanced_of_eq rfl

theorem balanced_chainLoop (K : EReadWrite) (vname : List BasicValue) (n : Int) :
    ∀ (elems : List TStreamerElement) (index : Int) (b b' : TBufferJSON),
      chainLoop K vname n elems index b = some b' → Balanced b b' := by
  intro elems
  induction elems with
  | nil =>
    intro index b b' h
    simp only [chainLoop] at h
    split_ifs at h
    injection h with h
    subst h
    exact balanced_refl b
  | cons elem rest ih =>
    intro index b b' h
    simp only [chainLoop] at h
    split_ifs at h
    · split at h
      · simp at h
      · refine balanced_of_bind ?_ ?_ h
        · exact fun x hx => balanced_trans (balanced_JsonWriteBasic b _)
            (balanced_PerformPostProcessing K _ x _ hx)
        · exact fun x y hxy => ih _ x y hxy
    · refine balanced_of_bind ?_ ?_ h
      · intro x hx
        refine balanced_of_bind ?_ ?_ hx
        · exact fun y hy => balanced_TJSONWriteArrayContent b y _ _ hy
        · exact fun y z hyz => balanced_PerformPostProcessing K y z _ hyz
      · exact fun x y hxy => ih _ x y hxy
    · injection h with h
      subst h
      exact balanced_refl b

theorem balanced_WriteFastArray (K : EReadWrite) (b b' : TBufferJSON) (vname : List BasicValue)
    (n : Int) (h : b.WriteFastArray K vname n = some b') : Balanced b b' := by
  unfold WriteFastArray at h
  refine balanced_of_bind (fun x hx => balanced_TJSONPushValue b x hx) ?_ h
  intro x y hxy
  simp only [] at hxy
  split_ifs at hxy
  · injection hxy with hxy; subst hxy; exact balanced_of_eq rfl
  · split at hxy
    · simp at hxy
    · split_ifs at hxy
      all_goals (repeat' (split at hxy))
      all_goals first
        | (simp at hxy; done)
        | exact balanced_TJSONWriteArrayContent _ _ _ _ hxy
        | (refine balanced_trans ?_ (balanced_TJSONWriteArrayContent _ _ _ _ hxy)
           exact balanced_of_eq rfl)
        | (refine balanced_trans ?_ (balanced_chainLoop K vname n _ _ _ _ hxy)
           exact balanced_of_eq rfl)

theorem balanced_WriteFastArrayChar (K : EReadWrite) (b b' : TBufferJSON) (c : List Int)
    (n : Int) (h : b.WriteFastArrayChar K c n = some b') : Balanced b b' := by
  unfold WriteFastArrayChar at h
  simp only [] at h
  split_ifs at h
  · exact balanced_WriteFastArray K b b' _ n h
  all_goals
    refine balanced_of_map ?_ ?_ h
    · exact fun x hx => balanced_TJSONPushValue b x hx
    · exact fun _ => balanced_of_eq rfl

theorem balanced_memberScalar (D : EDataType) (b b' : TBufferJSON) (mem : Memory) (tid : Int)
    (h : memberScalar D b mem tid = some b') : Balanced b b' := by
  unfold memberScalar at h
  split at h
  · exact balanced_WriteCharP b b' _ h
  all_goals first
    | (injection h with h
       subst h
       exact balanced_of_eq rfl)
    | (split at h
       · injection h with h
         subst h
         exact balanced_of_eq rfl
       · simp at h)

theorem balanced_memberFastArray (K : EReadWrite) (D : EDataType) (b b' : TBufferJSON)
    (mem : Memory) (tid : Int) (shift : Nat) (n : Int) (onOther : TBufferJSON → TBufferJSON)
    (hother : ∀ x, Balanced x (onOther x))
    (h : memberFastArray K D b mem tid shift n onOther = some b') : Balanced b b' := by
  unfold memberFastArray at h
  by_cases hcov : mem.coversCase (memberCase D tid) shift n = true
  · rw [if_pos hcov] at h
    split at h
    · exact balanced_WriteFastArrayChar K b b' _ n h
    · exact balanced_WriteFastArrayChar K b b' _ n h
    · injection h with h
      subst h
      exact hother b
    · injection h with h
      subst h
      exact balanced_refl b
    · exact balanced_WriteFastArray K b b' _ n h
  · rw [if_neg hcov] at h
    simp at h

theorem balanced_odometerStep (K : EReadWrite) (D : EDataType) (mem : Memory)
    (member : TDataMember) (tid : Int) (s s' : Odometer)
    (h : odometerStep K D mem member tid s = some s') : Balanced s.b s'.b := by
  unfold odometerStep at h
  split at h
  · simp at h
  · simp only [] at h
    split_ifs at h
    · split at h
      · simp at h
      · injection h with h; subst h; exact balanced_of_eq rfl
    · injection h with h; subst h; exact balanced_of_eq rfl
    all_goals first
      | (injection h with h; subst h; exact balanced_of_eq rfl)
      | (split at h
         · simp at h
         · rename_i b3 h3
           split at h
           · simp at h
           · rename_i b4 h4
             split at h
             · simp at h
             · injection h with h
               subst h
               have e3 := balanced_WriteFastArray K _ _ _ _ h3
               have e4 := balanced_memberFastArray K D _ _ mem tid _ _
                 (fun x => { x with fValue := "null" }) (fun x => balanced_of_eq rfl) h4
               exact balanced_trans (balanced_trans (balanced_of_eq rfl) e3)
                 (balanced_trans e4 (balanced_of_eq rfl)))

theorem balanced_odometerLoop (K : EReadWrite) (D : EDataType) (mem : Memory)
    (member : TDataMember) (tid : Int) : ∀ (fuel : Nat) (s : Odometer) (b' : TBufferJSON),
    odometerLoop K D mem member tid fuel s = some b' → Balanced s.b b' := by
  intro fuel
  induction fuel with
  | zero =>
    intro s b' h
    unfold odometerLoop at h
    split_ifs at h
    injection h with h; subst h; exact balanced_refl _
  | succ n ih =>
    intro s b' h
    unfold odometerLoop at h
    split_ifs at h
    · simp only [] at h
      split at h
      · simp at h
      · rename_i s1 hs1
        exact balanced_trans (balanced_odometerStep K D mem member tid s s1 hs1) (ih s1 b' h)
    · injection h with h; subst h; exact balanced_refl _

theorem open_frames (b : TBufferJSON) (obj : Option Nat) (cl : Option TClass) :
    (∀ r, b.JsonWriteObjectOpen obj cl = .done r → Balanced b r) ∧
    (∀ b1, b.JsonWriteObjectOpen obj cl = .opened b1 →
      ∃ top b0, Balanced b b0 ∧ b1.fStack = top :: b0.fStack) := by
  unfold JsonWriteObjectOpen
  simp only []
  have hq : Balanced b (if (!(b.objKind cl).isarray) = true then b.JsonStartElement else b) := by
    split_ifs
    · exact balanced_JsonStartElement b
    · exact balanced_refl b
  generalize (if (!(b.objKind cl).isarray) = true then b.JsonStartElement else b) = b1 at hq
  split
  · split
    · rename_i r0 hpushed
      have h3 : Balanced b1 r0 := by
        split_ifs at hpushed
        · split at hpushed
          · injection hpushed with hpushed
            subst hpushed
            exact balanced_AppendOutput _ _ _
          · cases hpushed
      refine ⟨?_, ?_⟩
      · intro r hr
        injection hr with hr
        subst hr
        exact balanced_trans hq h3
      · intro r hr
        cases hr
    · rename_i b3 hpushed
      have h3 : ∃ top, b3.fStack = top :: b1.fStack := by
        split_ifs at hpushed
        · split at hpushed
          · cases hpushed
          · injection hpushed with hpushed
            subst hpushed
            simp [PushStack]
        · injection hpushed with hpushed
          subst hpushed
          simp [PushStack]
      obtain ⟨top, htop⟩ := h3
      refine ⟨?_, ?_⟩
      · intro r hr
        split at hr <;> cases hr
      · intro r hr
        split at hr
        · injection hr with hr
          subst hr
          exact ⟨top, b1, hq, htop⟩
        · injection hr with hr
          subst hr
          simp only [setTop, htop, List.tail_cons]
          exact ⟨_, b1, hq, rfl⟩
  · refine ⟨?_, ?_⟩
    · intro r hr
      injection hr with hr
      subst hr
      exact balanced_trans hq (balanced_AppendOutput _ _ _)
    · intro r hr
      cases hr

theorem close_frames (b : TBufferJSON) (k : ObjKind) (top : TJSONStackObj)
    (rest : List TJSONStackObj) (hs : b.fStack = top :: rest) :
    ∃ r, b.JsonWriteObjectClose k = some r ∧ r.fStack = rest := by
  unfold JsonWriteObjectClose
  rw [hs]
  refine ⟨_, rfl, ?_⟩
  simp only []
  split_ifs <;> simp [PopStack, setTop, hs]

theorem stack_of_balanced {b b' : TBufferJSON} {top : TJSONStackObj} {rest : List TJSONStackObj}
    (h : Balanced b b') (hs : b.fStack = top :: rest) : ∃ top', b'.fStack = top' :: rest := by
  obtain ⟨hl, ht⟩ := h
  rw [hs] at hl ht
  cases hb : b'.fStack with
  | nil => simp [hb] at hl
  | cons t r =>
    rw [hb] at ht
    simp only [List.tail_cons] at ht
    exact ⟨t, by rw [ht]⟩

theorem JsonWriteObject_streamed (K : EReadWrite) (b : TBufferJSON) (obj : Option Nat)
    (cl : Option TClass) (content : Content) (b1 : TBufferJSON)
    (hopen : b.JsonWriteObjectOpen obj cl = .opened b1) :
    JsonWriteObject K b obj cl content =
      (streamedBy K b cl b1 content).bind (fun b2 => b2.JsonWriteObjectClose (b.objKind cl)) := by
  cases content with
  | mk streamer colName colIsList colItems =>
    simp only [JsonWriteObject, hopen, streamedBy, JsonStreamCollection]

theorem JsonWriteMember_body (K : EReadWrite) (D : EDataType) (fuel : Nat) (b : TBufferJSON)
    (ptr : Option Memory) (m : TDataMember) (memberClass : Option TClass) :
    JsonWriteMember K D fuel b ptr (some m) memberClass =
      (JsonWriteMemberBody K D fuel { b.PushStack 0 with fValue := "" } ptr m memberClass).map
        (fun b1 => (b1.PopStack,
          if b1.PopStack.fValue.length = 0 then "not supported" else b1.PopStack.fValue)) := by
  simp only [JsonWriteMember, JsonWriteMemberBody]
  split <;> rename_i hw
  · simp only [hw, Option.map_none']
  · simp only [hw, Option.map_some']
    split_ifs <;> rfl

theorem balanced_JsonWriteMemberBody (K : EReadWrite) (D : EDataType) (fuel : Nat)
    (b : TBufferJSON) (ptr : Option Memory) (m : TDataMember) (memberClass : Option TClass)
    (b1 : TBufferJSON)
    (hstreamer : ∀ mem b1, ptr = some mem →
      runCalls K { b.PushStack 0 with fValue := "" } mem.arrayStreamer = some b1 →
      Balanced { b.PushStack 0 with fValue := "" } b1)
    (hw : JsonWriteMemberBody K D fuel { b.PushStack 0 with fValue := "" } ptr m memberClass =
      some b1) :
    Balanced { b.PushStack 0 with fValue := "" } b1 := by
  revert hstreamer
  simp only [JsonWriteMemberBody] at hw
  intro hstreamer
  split at hw
  · split at hw
    · injection hw with hw
      subst hw
      exact balanced_of_eq rfl
    · split at hw
      · exact balanced_memberScalar D _ _ _ _ hw
      · split at hw
        · exact balanced_memberFastArray K D _ _ _ _ _ _ _ (fun x => balanced_refl x) hw
        · split at hw
          · simp at hw
          · refine balanced_of_map ?_ ?_ hw
            · exact fun x hx => balanced_odometerLoop K D _ m _ fuel _ x hx
            · exact fun _ => balanced_of_eq rfl
  · split at hw
    · simp at hw
    · split at hw
      · injection hw with hw
        subst hw
        exact balanced_of_eq rfl
      · split at hw
        · split at hw
          · injection hw with hw
            subst hw
            exact balanced_of_eq rfl
          · rename_i mem
            split at hw
            · split at hw
              · simp at hw
              · rename_i b2 h2
                have hr2 := hstreamer mem b2 rfl h2
                split at hw
                · simp at hw
                · split at hw
                  · injection hw with hw
                    subst hw
                    exact balanced_trans hr2 (balanced_of_eq rfl)
                  · injection hw with hw
                    subst hw
                    exact hr2
            · injection hw with hw
              subst hw
              exact balanced_of_eq rfl
        · injection hw with hw
          subst hw
          exact balanced_refl _

/-- C35: stack balance. `JsonWriteObject` on the null path (null object or null
class) and on the back-reference path returns from its first part, with the
stack at the same depth and with the same frames below the top (`Balanced`).
On the array, string and full-object paths it pushes one frame; when what it
runs on that frame, the class streamer or the collection streaming, returns
with the stack balanced, `JsonWriteObject` returns with the stack balanced
against the stack at the call. `JsonWriteMember` for a non-null member is
`PushStack(0)`, then its body run on the buffer with the pushed frame, then
`PopStack()`: the push puts one frame on top of the stack of the call; the
body, when it returns, leaves that one frame on top and the frames of the
call below it; the result is the pop of the buffer the body leaves, and its
stack is the stack of the call. For a null member the function returns the
buffer as it is, nothing pushed. The streamer of a `TArray` member is taken
to be balanced. -/
theorem C35_stack_balance (K : EReadWrite) (D : EDataType) (fuel : Nat) (b : TBufferJSON)
    (obj : Option Nat) (cl : Option TClass) (content : Content) (ptr : Option Memory)
    (member : Option TDataMember) (memberClass : Option TClass) :
    ((obj = none ∨ cl = none) → ∃ r, b.JsonWriteObjectOpen obj cl = .done r) ∧
    (∀ r, b.JsonWriteObjectOpen obj cl = .done r →
      JsonWriteObject K b obj cl content = some r ∧ Balanced b r) ∧
    (∀ b1 b2, b.JsonWriteObjectOpen obj cl = .opened b1 →
      streamedBy K b cl b1 content = some b2 → Balanced b1 b2 →
      b1.fStack.length = b.fStack.length + 1 ∧
      ∃ r, JsonWriteObject K b obj cl content = some r ∧ Balanced b r) ∧
    (∀ r, JsonWriteMember K D fuel b ptr member memberClass = some r →
      (∀ mem b1, ptr = some mem →
        runCalls K { b.PushStack 0 with fValue := "" } mem.arrayStreamer = some b1 →
        Balanced { b.PushStack 0 with fValue := "" } b1) →
      r.1.fStack = b.fStack ∧
      (member = none → r.1 = b) ∧
      (∀ m, member = some m → ∃ b1 : TBufferJSON,
        JsonWriteMemberBody K D fuel { b.PushStack 0 with fValue := "" } ptr m memberClass =
          some b1 ∧
        Balanced { b.PushStack 0 with fValue := "" } b1 ∧
        b1.fStack.length = b.fStack.length + 1 ∧ b1.fStack.tail = b.fStack ∧
        r.1 = b1.PopStack)) ∧
    (∀ m, JsonWriteMember K D fuel b ptr (some m) memberClass =
      (JsonWriteMemberBody K D fuel { b.PushStack 0 with fValue := "" } ptr m memberClass).map
        (fun b1 => (b1.PopStack,
          if b1.PopStack.fValue.length = 0 then "not supported" else b1.PopStack.fValue))) ∧
    ((b.PushStack 0).fStack.length = b.fStack.length + 1 ∧
      (b.PushStack 0).fStack.tail = b.fStack) := by
  have ho := open_frames b obj cl
  refine ⟨?_, ?_, ?_, ?_, fun m => JsonWriteMember_body K D fuel b ptr m memberClass,
    by simp [PushStack], by simp [PushStack]⟩
  · intro hnull
    rcases hnull with hnull | hnull
    · subst hnull
      cases cl <;> exact ⟨_, rfl⟩
    · subst hnull
      cases obj <;> exact ⟨_, rfl⟩
  · intro r hr
    refine ⟨?_, ho.1 r hr⟩
    cases content with
    | mk streamer colName colIsList colItems => simp only [JsonWriteObject, hr]
  · intro b1 b2 hopen hrun hbal
    obtain ⟨top, b0, hb0, hstack⟩ := ho.2 b1 hopen
    obtain ⟨top2, htop2⟩ := stack_of_balanced hbal hstack
    obtain ⟨r, hclose, hr⟩ := close_frames b2 (b.objKind cl) top2 b0.fStack htop2
    refine ⟨by rw [hstack, List.length_cons, hb0.1], r, ?_, ?_⟩
    · rw [JsonWriteObject_streamed K b obj cl content b1 hopen, hrun]
      exact hclose
    · exact balanced_trans hb0 (balanced_of_eq hr)
  · intro r h hstreamer
    cases member with
    | none =>
      simp only [JsonWriteMember, Option.some.injEq] at h
      subst h
      exact ⟨rfl, fun _ => rfl, fun m hm => by simp at hm⟩
    | some m0 =>
      rw [JsonWriteMember_body] at h
      obtain ⟨b1, hb1, hr⟩ := Option.map_eq_some'.mp h
      have hbal := balanced_JsonWriteMemberBody K D fuel b ptr m0 memberClass b1 hstreamer hb1
      have hb0 : ({ b.PushStack 0 with fValue := "" } : TBufferJSON).fStack =
          { TJSONStackObj.new with
            fLevel := (match b.Stack 0 with | some c => c.fLevel | none => 0) + 0 } ::
            b.fStack := rfl
      obtain ⟨top, htop⟩ := stack_of_balanced hbal hb0
      refine ⟨?_, fun hm => by simp at hm, fun m hm => ?_⟩
      · rw [← hr]
        simp [PopStack, htop]
      · injection hm with hm
        subst hm
        exact ⟨b1, hb1, hbal, by simp [htop], by simp [htop], by rw [← hr]⟩

/-- Witness for C35: a `Point` written as the value of the open member `fX`
above a class-level frame, and the member `Int_t x` converted on the same
buffer; both leave the two frames in place. -/
theorem C35_stack_balance_witness :
    (∃ r, JsonWriteObject rootEnum (levelBuffer 0) (some 1) (some pointClass) pointContent =
        some r ∧ Balanced (levelBuffer 0) r) ∧
    (JsonWriteMember rootEnum rootTypes 0 (levelBuffer 0) (some countingMemory)
      (some intMember) none).map (fun r => r.1.fStack) = some (levelBuffer 0).fStack := by
  have h := C35_stack_balance rootEnum rootTypes 0 (levelBuffer 0) (some 1)
    (some pointClass) pointContent (some countingMemory) (some intMember) none
  have hopen : (levelBuffer 0).JsonWriteObjectOpen (some 1) (some pointClass) =
      .opened ((levelBuffer 0).JsonWriteObjectOpen (some 1) (some pointClass)).buffer := by
    rfl
  have hrun : streamedBy rootEnum (levelBuffer 0) (some pointClass)
      ((levelBuffer 0).JsonWriteObjectOpen (some 1) (some pointClass)).buffer pointContent =
      some ((streamedBy rootEnum (levelBuffer 0) (some pointClass)
        ((levelBuffer 0).JsonWriteObjectOpen (some 1) (some pointClass)).buffer
        pointContent).getD (levelBuffer 0)) := by
    decide!
  have hbal : Balanced ((levelBuffer 0).JsonWriteObjectOpen (some 1) (some pointClass)).buffer
      ((streamedBy rootEnum (levelBuffer 0) (some pointClass)
        ((levelBuffer 0).JsonWriteObjectOpen (some 1) (some pointClass)).buffer
        pointContent).getD (levelBuffer 0)) := ⟨by decide!, by decide!⟩
  have hmem : JsonWriteMember rootEnum rootTypes 0 (levelBuffer 0) (some countingMemory)
      (some intMember) none =
      some ((JsonWriteMember rootEnum rootTypes 0 (levelBuffer 0) (some countingMemory)
        (some intMember) none).getD (levelBuffer 0, "")) := by
    decide!
  refine ⟨(h.2.2.1 _ _ hopen hrun hbal).2, ?_⟩
  have hs := (h.2.2.2.1 _ hmem (fun mem b1 hm hr => by
    injection hm with hm
    subst hm
    simp only [countingMemory, runCalls, Option.some.injEq] at hr
    subst hr
    exact balanced_refl _)).1
  rw [hmem]
  simp only [Option.map_some', hs]

/-! ### Chained array writes -/

theorem TJSONWriteArrayContent_take (b : TBufferJSON) (l : List BasicValue) (k : Nat)
    (hk : k ≤ l.length) :
    b.TJSONWriteArrayContent l k =
      some { b with
        fValue := b.fValue ++ "[" ++
          String.intercalate b.fArraySepar ((l.take k).map (basicText b.fgFloatFmt)) ++ "]" } := by
  cases k with
  | zero => simp [TJSONWriteArrayContent, arrayContentLoop, String.intercalate]
  | succ k =>
    cases l with
    | nil => simp at hk
    | cons v vs =>
      simp only [TJSONWriteArrayContent, Int.toNat_ofNat, arrayContentLoop,
        List.get?_cons_zero, Nat.lt_irrefl, if_false]
      rw [arrayContentLoop_eq (v :: vs) k 1 _ (by omega) (by simp at hk ⊢; omega)]
      simp [JsonWriteBasic, String.intercalate, intercalate_go_append, String.append_assoc]

theorem valueText_bracket (s : String) : valueText ("[" ++ s ++ "]") = "[" ++ s ++ "]" := by
  unfold valueText
  have h : ¬ ("[" ++ s ++ "]" = "") := by
    intro h
    have := congrArg String.length h
    simp only [String.length_append] at this
    have h1 : ("]" : String).length = 1 := rfl
    have h0 : ("" : String).length = 0 := rfl
    omega
  simp only [h, if_false]

theorem valueText_bracket_right (s : String) :
    valueText ("[" ++ (s ++ "]")) = "[" ++ (s ++ "]") := by
  rw [← String.append_assoc]
  exact valueText_bracket s

theorem chainField_congr (K : EReadWrite) (b b' : TBufferJSON)
    (h1 : b'.fCompact = b.fCompact) (h2 : b'.fSemicolon = b.fSemicolon)
    (h3 : b'.fArraySepar = b.fArraySepar) (h4 : b'.fgFloatFmt = b.fgFloatFmt)
    (h5 : b'.fStack.head?.map (fun s => s.fLevel) = b.fStack.head?.map (fun s => s.fLevel)) :
    chainField K b' = chainField K b := by
  funext p
  have hind : indent b'.fCompact b'.fStack = indent b.fCompact b.fStack := by
    rw [h1]
    unfold indent
    cases hb : b.fStack.head? <;> cases hb' : b'.fStack.head? <;> simp [hb, hb'] at h5 ⊢
    rw [h5]
  rw [h1] at hind
  simp only [chainField, fieldOpen, h1, h2, h3, h4, hind]

theorem plainElem_flags (K : EReadWrite) (e : TStreamerElement) (h : plainElem K e = true) :
    (e.fType == K.kTString) = false ∧
    (decide (e.fType > K.kOffsetP) && decide (e.fType < K.kOffsetP + 20)) = false ∧
    (e.fType == K.kTObject || e.fTypeName == "TObject") = false ∧
    startsWithTArray e.fTypeName = false := by
  unfold plainElem at h
  simp only [Bool.and_eq_true, Bool.not_eq_true'] at h
  exact ⟨h.1.1.1, h.1.1.2, h.1.2, h.2⟩

/-- Finalisation of a plain element on a member frame without buffered
values: the field with the pending value is written and the frame is marked. -/
theorem PerformPostProcessing_plain (K : EReadWrite) (b : TBufferJSON) (top : TJSONStackObj)
    (tl : List TJSONStackObj) (e : TStreamerElement)
    (hs : b.fStack = top :: tl) (hv : top.fValues = []) (hb : top.fIsBaseClass = false)
    (ho : top.fIsObjStarted = false) (hp : plainElem K e = true) :
    b.PerformPostProcessing K (some e) =
      some { b with
        fOutBuffer := b.fOutBuffer ++ fieldOpen b e.fName ++ valueText b.fValue
        fStack := { top with fIsPostProcessed := true } :: tl
        fValue := "" } := by
  obtain ⟨f1, f2, f3, f4⟩ := plainElem_flags K e hp
  have h := PerformPostProcessing_run K b top tl (some e) e false false false false hs rfl
    (Or.inl rfl) ho f1 f2 (by simpa [hb] using f3) (by simpa [hb] using f4)
  rw [h]
  cases b with
  | mk fmt out val map cnt stk chain compact semi sep =>
    cases top with
    | mk i el num si eo bc pp os ia vals lev =>
      simp only at hv hb
      subst hv hb
      simp [finalText, chainText, String.append_assoc]

theorem chainLoop_mk (K : EReadWrite) (vname : List BasicValue) (n : Int) (fmt : String)
    (map : List (Nat × Nat)) (cnt : Nat) (tl : List TJSONStackObj) (chain : Bool)
    (compact : Int) (semi sep : String) :
    ∀ (elems : List TStreamerElement) (index : Int) (out : String) (top : TJSONStackObj),
      top.fValues = [] → top.fIsBaseClass = false → top.fIsObjStarted = false → 0 ≤ index →
      chainReady K vname n elems index = true →
      chainLoop K vname n elems index
          (TBufferJSON.mk fmt out "" map cnt (top :: tl) chain compact semi sep) =
        some (TBufferJSON.mk fmt
          (out ++ String.join ((chainSlices K vname n elems index).map
            (chainField K (TBufferJSON.mk fmt out "" map cnt (top :: tl) chain compact semi sep))))
          "" map cnt
          ({ top with fIsPostProcessed := top.fIsPostProcessed || decide (index < n) } :: tl)
          chain compact semi sep)
  | [], index, out, top, hv, hb, ho, hi, hr => by
    have hn : ¬ index < n := by simpa [chainReady] using hr
    simp [chainLoop, hn, chainSlices, String.join]
  | e :: es, index, out, top, hv, hb, ho, hi, hr => by
    have hi' : ¬ index < 0 := by omega
    by_cases hn : index < n
    · simp only [chainReady, hn, if_true, Bool.and_eq_true] at hr
      obtain ⟨hplain, hrest⟩ := hr
      by_cases ht : e.fType < K.kOffsetL
      · simp only [ht, if_true, Bool.and_eq_true, decide_eq_true_eq] at hrest
        obtain ⟨hlt, hready⟩ := hrest
        have hget : vname.get? index.toNat = some (vname.get ⟨index.toNat, hlt⟩) :=
          List.get?_eq_get hlt
        have hstep := PerformPostProcessing_plain K
          (TBufferJSON.mk fmt out ("" ++ basicText fmt (vname.get ⟨index.toNat, hlt⟩)) map cnt
            (top :: tl) chain compact semi sep) top tl e rfl hv hb ho hplain
        have ih := chainLoop_mk K vname n fmt map cnt tl chain compact semi sep es (index + 1)
          (out ++ fieldOpen (TBufferJSON.mk fmt out
              ("" ++ basicText fmt (vname.get ⟨index.toNat, hlt⟩)) map cnt
              (top :: tl) chain compact semi sep) e.fName ++
            valueText ("" ++ basicText fmt (vname.get ⟨index.toNat, hlt⟩)))
          { top with fIsPostProcessed := true } hv hb ho (by omega) hready
        have hc := chainField_congr K
          (TBufferJSON.mk fmt out "" map cnt (top :: tl) chain compact semi sep)
          (TBufferJSON.mk fmt (out ++ fieldOpen (TBufferJSON.mk fmt out
              ("" ++ basicText fmt (vname.get ⟨index.toNat, hlt⟩)) map cnt
              (top :: tl) chain compact semi sep) e.fName ++
            valueText ("" ++ basicText fmt (vname.get ⟨index.toNat, hlt⟩))) "" map cnt
            ({ top with fIsPostProcessed := true } :: tl) chain compact semi sep)
          rfl rfl rfl rfl rfl
        have hdrop : (vname.drop index.toNat).take 1 = [vname.get ⟨index.toNat, hlt⟩] := by
          rw [List.drop_eq_getElem_cons hlt]
          rfl
        have key : chainLoop K vname n (e :: es) index
            (TBufferJSON.mk fmt out "" map cnt (top :: tl) chain compact semi sep) =
            (PerformPostProcessing K
              (TBufferJSON.mk fmt out ("" ++ basicText fmt (vname.get ⟨index.toNat, hlt⟩)) map
                cnt (top :: tl) chain compact semi sep) (some e)).bind
              (fun b1 => chainLoop K vname n es (index + 1) b1) := by
          simp only [chainLoop, hi', hn, ht, if_true, if_false, hget]
          rfl
        rw [key, hstep]
        refine ih.trans ?_
        rw [hc]
        simp only [chainSlices, hn, ht, if_true, List.map_cons, join_cons, hdrop]
        simp [chainField, fieldOpen, ht, String.join, String.append_assoc]
      · simp only [ht, if_false, Bool.and_eq_true, decide_eq_true_eq] at hrest
        obtain ⟨⟨hlen0, hfit⟩, hready⟩ := hrest
        have hk : e.fArrayLength.toNat ≤ (vname.drop index.toNat).length := by
          simp only [List.length_drop]
          omega
        have hcontent := TJSONWriteArrayContent_take
          (TBufferJSON.mk fmt out "" map cnt (top :: tl) chain compact semi sep)
          (vname.drop index.toNat) e.fArrayLength.toNat hk
        have hcast : ((e.fArrayLength.toNat : Nat) : Int) = e.fArrayLength := by omega
        rw [hcast] at hcontent
        have hstep := PerformPostProcessing_plain K
          (TBufferJSON.mk fmt out ("" ++ "[" ++ String.intercalate sep
              (((vname.drop index.toNat).take e.fArrayLength.toNat).map (basicText fmt)) ++ "]")
            map cnt (top :: tl) chain compact semi sep) top tl e rfl hv hb ho hplain
        have ih := chainLoop_mk K vname n fmt map cnt tl chain compact semi sep es
          (index + e.fArrayLength)
          (out ++ fieldOpen (TBufferJSON.mk fmt out ("" ++ "[" ++ String.intercalate sep
              (((vname.drop index.toNat).take e.fArrayLength.toNat).map (basicText fmt)) ++ "]")
              map cnt (top :: tl) chain compact semi sep) e.fName ++
            valueText ("" ++ "[" ++ String.intercalate sep
              (((vname.drop index.toNat).take e.fArrayLength.toNat).map (basicText fmt)) ++ "]"))
          { top with fIsPostProcessed := true } hv hb ho (by omega) hready
        have hc := chainField_congr K
          (TBufferJSON.mk fmt out "" map cnt (top :: tl) chain compact semi sep)
          (TBufferJSON.mk fmt (out ++ fieldOpen (TBufferJSON.mk fmt out
              ("" ++ "[" ++ String.intercalate sep
              (((vname.drop index.toNat).take e.fArrayLength.toNat).map (basicText fmt)) ++ "]")
              map cnt (top :: tl) chain compact semi sep) e.fName ++
            valueText ("" ++ "[" ++ String.intercalate sep
              (((vname.drop index.toNat).take e.fArrayLength.toNat).map (basicText fmt)) ++ "]"))
            "" map cnt ({ top with fIsPostProcessed := true } :: tl) chain compact semi sep)
          rfl rfl rfl rfl rfl
        have key : chainLoop K vname n (e :: es) index
            (TBufferJSON.mk fmt out "" map cnt (top :: tl) chain compact semi sep) =
            ((TJSONWriteArrayContent
                (TBufferJSON.mk fmt out "" map cnt (top :: tl) chain compact semi sep)
                (vname.drop index.toNat) e.fArrayLength).bind
              (fun b1 => b1.PerformPostProcessing K (some e))).bind
              (fun b2 => chainLoop K vname n es (index + e.fArrayLength) b2) := by
          simp only [chainLoop, hi', hn, ht, if_true, if_false]
        rw [key, hcontent]
        refine (congrArg (fun x => Option.bind x
          (fun b2 => chainLoop K vname n es (index + e.fArrayLength) b2)) hstep).trans ?_
        refine ih.trans ?_
        rw [hc]
        simp only [chainSlices, hn, ht, if_true, if_false, List.map_cons, join_cons]
        simp [chainField, fieldOpen, ht, valueText_bracket_right, String.append_assoc]
    · have hr' : chainSlices K vname n (e :: es) index = [] := by simp [chainSlices, hn]
      simp [chainLoop, hi', hn, hr', String.join]

theorem chainSlices_elems (K : EReadWrite) (vname : List BasicValue) (n : Int) :
    ∀ (elems : List TStreamerElement) (index : Int),
      (chainSlices K vname n elems index).map (fun p => p.1) =
        elems.take (chainSlices K vname n elems index).length
  | [], _ => rfl
  | e :: es, index => by
    by_cases hn : index < n
    · by_cases ht : e.fType < K.kOffsetL
      · simp [chainSlices, hn, ht, chainSlices_elems K vname n es (index + 1)]
      · simp [chainSlices, hn, ht, chainSlices_elems K vname n es (index + e.fArrayLength)]
    · simp [chainSlices, hn]

theorem chainSlices_widths (K : EReadWrite) (vname : List BasicValue) (n : Int) :
    ∀ (elems : List TStreamerElement) (index : Int), 0 ≤ index →
      chainReady K vname n elems index = true →
      ∀ p ∈ chainSlices K vname n elems index,
        p.2.length = if p.1.fType < K.kOffsetL then 1 else p.1.fArrayLength.toNat
  | [], _, _, _ => by simp [chainSlices]
  | e :: es, index, hi, hr => by
    by_cases hn : index < n
    · simp only [chainReady, hn, if_true, Bool.and_eq_true] at hr
      obtain ⟨_, hrest⟩ := hr
      by_cases ht : e.fType < K.kOffsetL
      · simp only [ht, if_true, Bool.and_eq_true, decide_eq_true_eq] at hrest
        intro p hp
        simp only [chainSlices, hn, ht, if_true, List.mem_cons] at hp
        rcases hp with hp | hp
        · subst hp
          simp only [ht, if_true, List.length_take, List.length_drop]
          omega
        · exact chainSlices_widths K vname n es (index + 1) (by omega) hrest.2 p hp
      · simp only [ht, if_false, Bool.and_eq_true, decide_eq_true_eq] at hrest
        intro p hp
        simp only [chainSlices, hn, ht, if_true, if_false, List.mem_cons] at hp
        rcases hp with hp | hp
        · subst hp
          simp only [ht, if_false, List.length_take, List.length_drop]
          omega
        · exact chainSlices_widths K vname n es (index + e.fArrayLength) (by omega) hrest.2 p hp
    · simp [chainSlices, hn]

theorem chainSlices_join (K : EReadWrite) (vname : List BasicValue) (n : Int)
    (hlen : vname.length = n.toNat) :
    ∀ (elems : List TStreamerElement) (index : Int), 0 ≤ index →
      chainReady K vname n elems index = true →
      ((chainSlices K vname n elems index).map (fun p => p.2)).flatten = vname.drop index.toNat
  | [], index, hi, hr => by
    have hn : ¬ index < n := by simpa [chainReady] using hr
    have hd : vname.length ≤ index.toNat := by omega
    simp [chainSlices, List.drop_eq_nil_of_le hd]
  | e :: es, index, hi, hr => by
    by_cases hn : index < n
    · simp only [chainReady, hn, if_true, Bool.and_eq_true] at hr
      obtain ⟨_, hrest⟩ := hr
      by_cases ht : e.fType < K.kOffsetL
      · simp only [ht, if_true, Bool.and_eq_true, decide_eq_true_eq] at hrest
        have ih := chainSlices_join K vname n hlen es (index + 1) (by omega) hrest.2
        have e1 : (index + 1).toNat = index.toNat + 1 := by omega
        simp only [chainSlices, hn, ht, if_true, List.map_cons, List.flatten_cons, ih, e1]
        rw [← List.drop_drop]
        exact List.take_append_drop 1 _
      · simp only [ht, if_false, Bool.and_eq_true, decide_eq_true_eq] at hrest
        have ih := chainSlices_join K vname n hlen es (index + e.fArrayLength) (by omega)
          hrest.2
        have e1 : (index + e.fArrayLength).toNat = index.toNat + e.fArrayLength.toNat := by
          omega
        simp only [chainSlices, hn, ht, if_true, if_false, List.map_cons, List.flatten_cons, ih, e1]
        rw [← List.drop_drop]
        exact List.take_append_drop _ _
    · have hd : vname.length ≤ index.toNat := by omega
      simp [chainSlices, hn, List.drop_eq_nil_of_le hd]

/-- C36: chained `WriteFastArray`. The top frame is a member frame without
buffered values, neither a base class nor started as an object, above a
class-level frame with streamer info; there is no pending value and a chain
is expected. When the elements from the current element number on are plain
and the `n > 0` values fit them (`chainReady`), `WriteFastArray` returns: the
chain flag is reset to false, the pending value stays empty, and one
finalised field per element is appended to the output in the order of the
elements (`chainField` over `chainSlices`), an element of type below
`kOffsetL` with the next single value, any other element with the next
`GetArrayLength()` values as a bracketed array; the loop ends when the values
are used up. The slices, one after the other, are exactly the `n` values, and
belong to the consecutive elements. The frame is marked as post-processed, so
the `PerformPostProcessing` that closes the member returns the buffer
unchanged. -/
theorem C36_chained_fast_array (K : EReadWrite) (b : TBufferJSON) (top below : TJSONStackObj)
    (rest : List TJSONStackObj) (info : TStreamerInfo) (vname : List BasicValue) (n : Int)
    (hstack : b.fStack = top :: below :: rest) (hinfo : below.fInfo = some info)
    (hnum : 0 ≤ top.fElemNumber) (hchain : b.fExpectedChain = true) (hvalue : b.fValue = "")
    (hn : 0 < n) (hlen : vname.length = n.toNat)
    (hv : top.fValues = []) (hb : top.fIsBaseClass = false) (ho : top.fIsObjStarted = false)
    (hready : chainReady K vname n (info.fElements.drop top.fElemNumber.toNat) 0 = true) :
    b.WriteFastArray K vname n =
      some { b with
        fExpectedChain := false
        fOutBuffer := b.fOutBuffer ++ String.join
          ((chainSlices K vname n (info.fElements.drop top.fElemNumber.toNat) 0).map
            (chainField K b))
        fStack := { top with fIsPostProcessed := true } :: below :: rest } ∧
    PerformPostProcessing K
      { b with
        fExpectedChain := false
        fOutBuffer := b.fOutBuffer ++ String.join
          ((chainSlices K vname n (info.fElements.drop top.fElemNumber.toNat) 0).map
            (chainField K b))
        fStack := { top with fIsPostProcessed := true } :: below :: rest } none =
      some { b with
        fExpectedChain := false
        fOutBuffer := b.fOutBuffer ++ String.join
          ((chainSlices K vname n (info.fElements.drop top.fElemNumber.toNat) 0).map
            (chainField K b))
        fStack := { top with fIsPostProcessed := true } :: below :: rest } ∧
    ((chainSlices K vname n (info.fElements.drop top.fElemNumber.toNat) 0).map
      (fun p => p.2)).flatten = vname ∧
    (chainSlices K vname n (info.fElements.drop top.fElemNumber.toNat) 0).map (fun p => p.1) =
      (info.fElements.drop top.fElemNumber.toNat).take
        (chainSlices K vname n (info.fElements.drop top.fElemNumber.toNat) 0).length ∧
    (∀ p ∈ chainSlices K vname n (info.fElements.drop top.fElemNumber.toNat) 0,
      p.2.length = if p.1.fType < K.kOffsetL then 1 else p.1.fArrayLength.toNat) := by
  refine ⟨?_, ?_, ?_, chainSlices_elems K vname n _ 0, chainSlices_widths K vname n _ 0
    (by omega) hready⟩
  · have hn' : ¬ n ≤ 0 := by omega
    have hnum' : ¬ top.fElemNumber < 0 := by omega
    cases b with
    | mk fmt out val map cnt stk chain compact semi sep =>
      simp only at hchain hstack hvalue
      subst hchain hstack hvalue
      have hloop := chainLoop_mk K vname n fmt map cnt (below :: rest) false compact semi sep
        (info.fElements.drop top.fElemNumber.toNat) 0 out top hv hb ho (by omega) hready
      have hc := chainField_congr K
        (TBufferJSON.mk fmt out "" map cnt (top :: below :: rest) true compact semi sep)
        (TBufferJSON.mk fmt out "" map cnt (top :: below :: rest) false compact semi sep)
        rfl rfl rfl rfl rfl
      rw [hc] at hloop
      cases he : top.fElem <;>
        simp [WriteFastArray, TJSONPushValue, Stack, hn', hnum', hinfo, he, hloop, hn]
  · exact PerformPostProcessing_skip K _ { top with fIsPostProcessed := true } (below :: rest)
      rfl (Or.inl rfl)
  · have h := chainSlices_join K vname n hlen _ 0 (by omega) hready
    simpa using h

/-- Witness for C36: the six values 1 to 6 written on the frame of `fX`, the
first of the consecutive members `fX` and `data[5]`. -/
theorem C36_chained_fast_array_witness :
    (chainedBuffer.WriteFastArray rootEnum sixValues 6).map
        (fun r => (r.fOutBuffer, r.fValue, r.fExpectedChain)) =
      some (",\n\"fX\" : 1,\n\"data\" : [2, 3, 4, 5, 6]", "", false) := by
  have h := (C36_chained_fast_array rootEnum chainedBuffer _ _ _ chainedInfo sixValues 6 rfl rfl
    (by decide) rfl rfl (by decide) rfl rfl rfl rfl (by decide)).1
  rw [h]
  decide

/-! ### Arrays of several dimensions -/

/-- `WriteFastArray` of `n > 0` values when no chain is expected and the
element of the top frame does not start one. -/
theorem WriteFastArray_direct (K : EReadWrite) (b : TBufferJSON) (top : TJSONStackObj)
    (rest : List TJSONStackObj) (vname : List BasicValue) (n : Int)
    (hstack : b.fStack = top :: rest) (hstart : startsChain K top n = false)
    (hvalue : b.fValue = "") (hchain : b.fExpectedChain = false) (hlen : vname.length = n.toNat)
    (hn : 0 < n) :
    b.WriteFastArray K vname n =
      some { b with
        fValue := "[" ++ String.intercalate b.fArraySepar (vname.map (basicText b.fgFloatFmt)) ++
          "]" } := by
  have hpush : b.TJSONPushValue = some b := by simp [TJSONPushValue, hvalue]
  have hnn : ((vname.length : Nat) : Int) = n := by
    rw [hlen]
    omega
  have hcontent := TJSONWriteArrayContent_eq b vname
  rw [hnn, hvalue] at hcontent
  have hn' : ¬ n ≤ 0 := by omega
  cases he : top.fElem with
  | none =>
    simp only [WriteFastArray, hpush, Option.bind, hn', if_false, Stack, hstack,
      List.get?_cons_zero, he, hchain, Bool.false_eq_true]
    rw [hcontent]
    simp [String.append_assoc, hstack, hchain]
  | some e =>
    simp only [startsChain, he] at hstart
    simp only [WriteFastArray, hpush, Option.bind, hn', if_false, Stack, hstack,
      List.get?_cons_zero, he, hstart, hchain, Bool.false_eq_true]
    rw [hcontent]
    simp [String.append_assoc, hstack, hchain]

theorem memberRun_output (sep fmt : String) (tl : List TJSONStackObj) (buf : TBufferJSON)
    (out : String) (h : MemberRun sep fmt tl buf) :
    MemberRun sep fmt tl { buf with fOutBuffer := out } := h

/-- The loop over a multi-dimensional array reads past a storage that holds the
array only: for the member `Char_t m[2][2]` in a storage of 4 bytes the first
`WriteFastArray` of the loop, which reads two values of type `Int_t`, has no
result, whatever the fuel. -/
theorem odometer_reads_as_Int (fuel : Nat) :
    memberStored rootTypes { letterMemory with extent := storage 4 } charMatrix = true ∧
    JsonWriteMember rootEnum rootTypes fuel (TBufferJSON.new "%e")
      (some { letterMemory with extent := storage 4 }) (some charMatrix) none = none := by
  refine ⟨by decide, ?_⟩
  cases fuel with
  | zero => decide
  | succ n => simp +decide [JsonWriteMember, charMatrix, odometerLoop, odometerStep, PushStack,
      TBufferJSON.new, Memory.covers, storage, letterMemory]

theorem any_below_of_mem (c : List Int) (ch : Int) (hmem : ch ∈ c) (hlt : ch < 27) :
    c.any (fun x => decide (x < 27)) = true := by
  simp only [List.any_eq_true, decide_eq_true_eq]
  exact ⟨ch, hmem, hlt⟩

theorem any_below_false (c : List Int) (hall : ∀ ch ∈ c, 27 ≤ ch) :
    c.any (fun x => decide (x < 27)) = false := by
  cases h : c.any (fun x => decide (x < 27)) with
  | false => rfl
  | true =>
    simp only [List.any_eq_true, decide_eq_true_eq] at h
    obtain ⟨x, hx, hlt⟩ := h
    have := hall x hx
    omega

/-- C38 (amended): `WriteFastArray` over `n` characters on a buffer without
pending value. When no chain is expected and every code is 27 or more, the
value is the quoted string of exactly these characters, `""` for `n <= 0`.
When no chain is expected, the element of the top frame starts none, and a
code is below 27, the value is the bracketed array of the decimal codes. When
a chain is expected the call is that of the generic `WriteFastArray` on the
codes: for `n <= 0` the value is `[]`, and for `n > 0` the chain loop runs
over the streamer elements from the current element number on, which writes
one field per element to the output and no bracketed array of all codes. -/
theorem C38_character_array_text (K : EReadWrite) (b : TBufferJSON) (top : TJSONStackObj)
    (rest : List TJSONStackObj) (c : List Int) (n : Int)
    (hstack : b.fStack = top :: rest) (hvalue : b.fValue = "") (hlen : c.length = n.toNat) :
    (b.fExpectedChain = false → (∀ ch ∈ c, 27 ≤ ch) →
      b.WriteFastArrayChar K c n = some { b with fValue := "\"" ++ charsOf c ++ "\"" }) ∧
    (b.fExpectedChain = false → n ≤ 0 →
      b.WriteFastArrayChar K c n = some { b with fValue := "\"\"" }) ∧
    (b.fExpectedChain = false → startsChain K top n = false → (∃ ch ∈ c, ch < 27) →
      b.WriteFastArrayChar K c n =
        some { b with
          fValue := "[" ++ String.intercalate b.fArraySepar (codesOf c) ++ "]" }) ∧
    (b.fExpectedChain = true →
      b.WriteFastArrayChar K c n = b.WriteFastArray K (c.map BasicValue.Char_t) n) ∧
    (b.fExpectedChain = true → n ≤ 0 →
      b.WriteFastArrayChar K c n = some { b with fValue := "[]" }) ∧
    (b.fExpectedChain = true → 0 < n → ∀ (below : TJSONStackObj) (info : TStreamerInfo),
      rest.head? = some below → below.fInfo = some info → 0 ≤ top.fElemNumber →
      b.WriteFastArrayChar K c n =
        chainLoop K (c.map BasicValue.Char_t) n (info.fElements.drop top.fElemNumber.toNat) 0
          { b with fExpectedChain := false }) := by
  have hpush : b.TJSONPushValue = some b := by simp [TJSONPushValue, hvalue]
  have htake : c.take n.toNat = c := by
    rw [← hlen]
    exact List.take_length c
  refine ⟨?_, ?_, ?_, ?_, ?_, ?_⟩
  · intro hchain hall
    have hany := any_below_false c hall
    by_cases hn : n > 0
    · simp [WriteFastArrayChar, hchain, htake, hany, hpush, hvalue, hn, charsOf]
    · have hc : c = [] := by
        apply List.eq_nil_of_length_eq_zero
        rw [hlen]
        omega
      subst hc
      simp [WriteFastArrayChar, hchain, hpush, hvalue, hn, charsOf]
  · intro hchain hn
    have hc : c = [] := by
      apply List.eq_nil_of_length_eq_zero
      rw [hlen]
      omega
    subst hc
    have hn' : ¬ n > 0 := by omega
    simp [WriteFastArrayChar, hchain, hpush, hvalue, hn']
  · intro hchain hstart hex
    obtain ⟨ch, hmem, hlt⟩ := hex
    have hany := any_below_of_mem c ch hmem hlt
    have hn : 0 < n := by
      cases c with
      | nil => simp at hmem
      | cons x xs =>
        simp only [List.length_cons] at hlen
        omega
    simp only [WriteFastArrayChar, htake, hany, Bool.or_true, if_true]
    rw [WriteFastArray_direct K b top rest (c.map BasicValue.Char_t) n hstack hstart hvalue
      hchain (by simpa using hlen) hn]
    simp [codesOf, List.map_map, Function.comp_def, basicText]
  · intro hchain
    simp [WriteFastArrayChar, hchain]
  · intro hchain hn
    simp [WriteFastArrayChar, hchain, WriteFastArray, hpush, hn, hvalue]
  · intro hchain hn below info hbelow hinfo hnum
    have hn' : ¬ n ≤ 0 := by omega
    have hnum' : ¬ top.fElemNumber < 0 := by omega
    cases rest with
    | nil => simp at hbelow
    | cons r rs =>
      simp only [List.head?_cons, Option.some.injEq] at hbelow
      subst hbelow
      cases b with
      | mk fmt out val map cnt stk chain compact semi sep =>
        simp only at hchain hstack hvalue
        subst hchain hstack hvalue
        cases he : top.fElem <;>
          simp [WriteFastArrayChar, WriteFastArray, TJSONPushValue, Stack, hn', hnum', hinfo, he]

/-- Witness for C38: the characters `ab` give a quoted string, the codes 97 and
10 a bracketed array, and no character with an expected chain gives `[]`. -/
theorem C38_character_array_text_witness :
    (charBuffer false).WriteFastArrayChar rootEnum [97, 98] 2 =
      some { charBuffer false with fValue := "\"ab\"" } ∧
    (charBuffer false).WriteFastArrayChar rootEnum [97, 10] 2 =
      some { charBuffer false with fValue := "[97, 10]" } ∧
    (charBuffer true).WriteFastArrayChar rootEnum [] 0 =
      some { charBuffer true with fValue := "[]" } := by
  have h := C38_character_array_text rootEnum (charBuffer false) _ _ [97, 98] 2 rfl rfl rfl
  have h2 := C38_character_array_text rootEnum (charBuffer false) _ _ [97, 10] 2 rfl rfl rfl
  have h3 := C38_character_array_text rootEnum (charBuffer true) _ _ [] 0 rfl rfl rfl
  refine ⟨?_, ?_, ?_⟩
  · rw [h.1 rfl (by decide)]
    decide
  · rw [h2.2.2.1 rfl rfl (by decide)]
    decide
  · rw [h3.2.2.2.2.1 rfl (by decide)]

/-- Counterexample for C38 as stated: with a chain expected, the characters `ab`
written on the frame of `fC1`, the first of the consecutive members `fC1`
and `fC2`, give the two fields `"fC1" : 97` and `"fC2" : 98` in the output and
an empty pending value, not a bracketed array. -/
theorem C38_counterexample :
    (charBuffer true).fExpectedChain = true ∧
    ((charBuffer true).WriteFastArrayChar rootEnum [97, 98] 2).map
        (fun r => (r.fOutBuffer, r.fValue)) =
      some (",\n\"fC1\" : 97,\n\"fC2\" : 98", "") := by
  decide!

/-! ### The text returned for a member -/

theorem JsonWriteMember_text (K : EReadWrite) (D : EDataType) (fuel : Nat) (b : TBufferJSON)
    (ptr : Option Memory) (m : TDataMember) (memberClass : Option TClass)
    (r : TBufferJSON × String)
    (h : JsonWriteMember K D fuel b ptr (some m) memberClass = some r) :
    r.2 = if r.1.fValue.length = 0 then "not supported" else r.1.fValue := by
  simp only [JsonWriteMember] at h
  split at h
  · exact absurd h (by simp)
  · split at h
    · simp only [Option.some.injEq] at h
      subst h
      simp_all
    · simp only [Option.some.injEq] at h
      subst h
      simp_all

theorem length_ne_zero (s : String) (h : ¬ s.length = 0) : s ≠ "" := by
  intro hs
  subst hs
  exact h rfl

/-- C39, where the code keeps it: `JsonWriteMember`, when it returns, never
returns the empty text; for a null member it returns `null`; for a non-null
member it returns `not supported` when the value text left in the buffer is
empty, and that value text otherwise. A basic member that is no array, with a
type id of the group `kOther_t`, `kNoType_t`, `kVoid_t` and a non-null
pointer, and a member that is not basic, with a class that is not null and
is neither `TString` nor derived from `TArray`, both return `not supported`.
Where it does not: for a member that is not basic and a null class the call
has no result, and `ConvertToJSON(ptr, member, compact)` makes that call for
every member that is an STL container or whose class is unknown. -/
theorem C39_member_text_never_empty (K : EReadWrite) (D : EDataType) (fuel : Nat)
    (b : TBufferJSON) (ptr : Option Memory) (member : Option TDataMember)
    (memberClass : Option TClass) :
    (∀ r, JsonWriteMember K D fuel b ptr member memberClass = some r →
      r.2 ≠ "" ∧
      (member = none → r.2 = "null") ∧
      (member.isSome = true →
        r.2 = if r.1.fValue.length = 0 then "not supported" else r.1.fValue)) ∧
    (∀ (m : TDataMember) (mem : Memory), m.isBasic = true → m.fArrayDim = 0 →
      memberCase D (memberTid D m) = .other →
      JsonWriteMember K D fuel b (some mem) (some m) memberClass =
        some ({ b with fValue := "" }, "not supported")) ∧
    (∀ (m : TDataMember) (c : TClass), m.isBasic = false → c.isTStringClass = false →
      c.baseOffsetTArray ≠ 0 →
      JsonWriteMember K D fuel b ptr (some m) (some c) =
        some ({ b with fValue := "" }, "not supported")) ∧
    (∀ (m : TDataMember), m.isBasic = false →
      JsonWriteMember K D fuel b ptr (some m) none = none) ∧
    (∀ (m : TDataMember) (mem : Memory) (fmt : String) (compact : Int), m.isBasic = false →
      (m.isSTLContainer = true ∨ m.typeClass = none) →
      ConvertToJSONMember K D fuel fmt (some mem) (some m) compact = none) := by
  refine ⟨?_, ?_, ?_, ?_, ?_⟩
  · intro r h
    cases member with
    | none =>
      simp only [JsonWriteMember, Option.some.injEq] at h
      subst h
      exact ⟨(by decide : ("null" : String) ≠ ""), fun _ => rfl, fun hm => by simp at hm⟩
    | some m =>
      have ht := JsonWriteMember_text K D fuel b ptr m memberClass r h
      refine ⟨?_, fun hm => by simp at hm, fun _ => ht⟩
      rw [ht]
      by_cases hl : r.1.fValue.length = 0
      · simp only [hl, if_true]
        decide
      · simp only [hl, if_false]
        exact length_ne_zero _ hl
  · intro m mem hbasic hdim hcase
    cases hd : m.dataType <;> simp only [memberTid, hd] at hcase <;>
      simp [JsonWriteMember, hbasic, hdim, memberScalar, hd, hcase, PushStack, PopStack]
  · intro m c hbasic hstr harr
    simp [JsonWriteMember, hbasic, hstr, harr, PushStack, PopStack]
  · intro m hbasic
    simp [JsonWriteMember, hbasic]
  · intro m mem fmt compact hbasic hcl
    rcases hcl with hcl | hcl <;>
      simp [ConvertToJSONMember, JsonWriteMember, hbasic, hcl]

/-- Witness for C39: a basic member without data type and a member of class
`Point` give `not supported`; the member `Int_t x` gives its value. -/
theorem C39_member_text_never_empty_witness :
    JsonWriteMember rootEnum rootTypes 0 (TBufferJSON.new "%e") (some countingMemory)
        (some untypedMember) none = some (TBufferJSON.new "%e", "not supported") ∧
    JsonWriteMember rootEnum rootTypes 0 (TBufferJSON.new "%e") (some countingMemory)
        (some pointMember) (some pointClass) = some (TBufferJSON.new "%e", "not supported") ∧
    (JsonWriteMember rootEnum rootTypes 0 (TBufferJSON.new "%e") (some countingMemory)
        (some intMember) none).map (fun r => r.2) = some "1" := by
  have h := C39_member_text_never_empty rootEnum rootTypes 0 (TBufferJSON.new "%e")
    (some countingMemory) (some untypedMember) none
  have h2 := C39_member_text_never_empty rootEnum rootTypes 0 (TBufferJSON.new "%e")
    (some countingMemory) (some pointMember) (some pointClass)
  refine ⟨?_, ?_, ?_⟩
  · rw [h.2.1 untypedMember countingMemory rfl rfl (by decide)]
    rfl
  · rw [h2.2.2.1 pointMember pointClass rfl rfl (by decide)]
    rfl
  · decide

/-- The failing input for C39: a member of type `std::vector<int>`, which is an
STL container and not basic. `ConvertToJSON(ptr, member, compact)` takes a
null class for it and calls `JsonWriteMember` with that class, which has no
result: the source evaluates `memberClass->GetBaseClassOffset(...)` on the
null pointer. -/
theorem C39_counterexample :
    vectorMember.isBasic = false ∧ vectorMember.isSTLContainer = true ∧
    ConvertToJSONMember rootEnum rootTypes 16 "%e" (some countingMemory) (some vectorMember) 0 =
      none ∧
    JsonWriteMember rootEnum rootTypes 16 ((TBufferJSON.new "%e").SetCompact 0)
      (some countingMemory) (some vectorMember) none = none := by
  refine ⟨rfl, rfl, by decide, by decide⟩

/-! ### The indent levels along a run -/

theorem levelsOk_tail (st : List TJSONStackObj) (h : LevelsOk st) : LevelsOk st.tail := by
  cases st with
  | nil => exact h
  | cons s rest => exact h.2

theorem levelsOk_replace (s top : TJSONStackObj) (rest : List TJSONStackObj)
    (hl : s.fLevel = top.fLevel) (h : LevelsOk (top :: rest)) : LevelsOk (s :: rest) := by
  simp only [LevelsOk] at h ⊢
  rw [hl]
  exact h

theorem PushStack_fStack (b : TBufferJSON) (n : Int) :
    (b.PushStack n).fStack =
      { TJSONStackObj.new with fLevel := topLevel b.fStack + n } :: b.fStack := by
  cases hs : b.fStack <;> simp [PushStack, Stack, hs, topLevel]

theorem levels_refl (b : TBufferJSON) : Levels b b := fun h => h

theorem levels_trans {a b c : TBufferJSON} (h1 : Levels a b) (h2 : Levels b c) : Levels a c :=
  fun h => h2 (h1 h)

theorem levels_of_eq {b b' : TBufferJSON} (h : b'.fStack = b.fStack) : Levels b b' := by
  intro hl
  rw [h]
  exact hl

theorem levels_AppendOutput (b : TBufferJSON) (l0 l1 : Option String) :
    Levels b (b.AppendOutput l0 l1) := levels_of_eq (by simp)

theorem levels_PushStack (b : TBufferJSON) (n : Int) (hn : n = 0 ∨ n = 2) :
    Levels b (b.PushStack n) := by
  intro hl
  rw [PushStack_fStack]
  refine ⟨?_, hl⟩
  rcases hn with hn | hn <;> subst hn <;> simp

theorem levels_PopStack (b : TBufferJSON) : Levels b b.PopStack := by
  intro hl
  unfold PopStack
  split
  · exact hl
  · rename_i top rest hs
    rw [hs] at hl
    exact hl.2

theorem levels_setTop (b : TBufferJSON) (s top : TJSONStackObj) (rest : List TJSONStackObj)
    (hs : b.fStack = top :: rest) (hl : s.fLevel = top.fLevel) : Levels b (b.setTop s) := by
  intro h
  rw [hs] at h
  simp only [setTop, hs, List.tail_cons]
  exact levelsOk_replace s top rest hl h

theorem levels_JsonStartElement (b : TBufferJSON) : Levels b b.JsonStartElement := by
  unfold JsonStartElement
  split
  · exact levels_refl b
  · rename_i stack rest hs
    have hset : Levels b
        { b with fStack := { stack with fIsPostProcessed := true, fIsObjStarted := true } :: rest } := by
      intro h
      rw [hs] at h
      exact levelsOk_replace _ stack rest rfl h
    split_ifs
    · split
      · refine levels_trans hset (levels_of_eq ?_)
        simp
      · exact hset
    · exact hset
    · exact levels_refl b

theorem PerformPostProcessing_level (K : EReadWrite) (b : TBufferJSON)
    (elemArg : Option TStreamerElement) (stack : TJSONStackObj) (rest : List TJSONStackObj)
    (hs : b.fStack = stack :: rest) :
    ∃ b1 top, b.PerformPostProcessing K elemArg = some b1 ∧ b1.fStack = top :: rest ∧
      top.fLevel = stack.fLevel := by
  by_cases hrun : elemArg.isSome = true ∨ stack.fIsPostProcessed = false
  · rcases heff : (elemArg.orElse fun _ => stack.fElem) with _ | elem
    · have hn : elemArg = none := by
        cases elemArg with
        | none => rfl
        | some e => simp at heff
      subst hn
      have he : stack.fElem = none := by simpa using heff
      exact ⟨b, stack, PerformPostProcessing_skip K b stack rest hs (Or.inr he), hs, rfl⟩
    · cases hobj : stack.fIsObjStarted with
      | true =>
        exact ⟨_, _, PerformPostProcessing_started K b stack rest elemArg elem hs heff hrun hobj,
          rfl, rfl⟩
      | false =>
        exact ⟨_, _, PerformPostProcessing_run K b stack rest elemArg elem _ _ _ _ hs heff hrun
          hobj rfl rfl rfl rfl, rfl, rfl⟩
  · have hn : elemArg = none := by
      cases elemArg with
      | none => rfl
      | some e => exact absurd (Or.inl rfl) hrun
    have hp : stack.fIsPostProcessed = true := by
      cases hp : stack.fIsPostProcessed with
      | true => rfl
      | false => exact absurd (Or.inr hp) hrun
    subst hn
    exact ⟨b, stack, PerformPostProcessing_skip K b stack rest hs (Or.inl hp), hs, rfl⟩

theorem levels_PerformPostProcessing (K : EReadWrite) (b b' : TBufferJSON)
    (elem : Option TStreamerElement) (h : b.PerformPostProcessing K elem = some b') :
    Levels b b' := by
  cases hs : b.fStack with
  | nil => simp [PerformPostProcessing, hs] at h
  | cons stack rest =>
    obtain ⟨b1, top, h1, h2, h3⟩ := PerformPostProcessing_level K b elem stack rest hs
    rw [h1] at h
    injection h with h
    subst h
    intro hl
    rw [hs] at hl
    rw [h2]
    exact levelsOk_replace top stack rest h3 hl

theorem levels_topFrame (b : TBufferJSON) (f : TJSONStackObj → TJSONStackObj)
    (hf : ∀ s, (f s).fLevel = s.fLevel) :
    Levels b (match b.fStack with
      | [] => b
      | stack :: _ => b.setTop (f stack)) := by
  split
  · exact levels_refl b
  · rename_i stack rest hs
    exact levels_setTop b _ stack rest hs (hf stack)

theorem levels_WorkWithClass (K : EReadWrite) (b : TBufferJSON) (sinfo : Option TStreamerInfo)
    (cl : Option TClass) : Levels b (b.WorkWithClass K sinfo cl) := by
  unfold WorkWithClass
  simp only []
  split
  · exact levels_of_eq rfl
  · have hfin : ∀ x : TBufferJSON, Levels x (match x.fStack with
        | [] => x
        | stack :: _ => x.setTop { stack with fInfo := sinfo, fIsStreamerInfo := true }) :=
      fun x => levels_topFrame x (fun s => { s with fInfo := sinfo, fIsStreamerInfo := true })
        (fun _ => rfl)
    refine levels_trans ?_ (hfin _)
    split
    · rename_i stack elem hemb
      split at hemb
      · simp at hemb
      · rename_i top rest hs
        have hset : Levels b
            { ({ b with fExpectedChain := false } : TBufferJSON).setTop
                { stack with fIsObjStarted := true } with fJsonrCnt := b.fJsonrCnt + 1 } := by
          intro hl
          rw [hs] at hl
          simp only [setTop, hs, List.tail_cons]
          refine levelsOk_replace _ top rest ?_ hl
          split at hemb
          · split_ifs at hemb
            injection hemb with hemb
            injection hemb with h1 h2
            rw [← h1]
          · simp at hemb
        intro hl
        have h1 := hset hl
        simp only [AppendOutput_fStack]
        refine levels_PushStack _ 2 (Or.inr rfl) ?_
        simp only [AppendOutput_fStack]
        exact h1
    · exact levels_trans (levels_of_eq rfl : Levels b { b with fExpectedChain := false })
        (levels_PushStack _ 0 (Or.inl rfl))

theorem levels_map_PopStack {b b' : TBufferJSON} {r : Option TBufferJSON}
    (hr : ∀ x, r = some x → Levels b x) (h : r.map PopStack = some b') : Levels b b' := by
  cases r with
  | none => simp at h
  | some x =>
    simp at h
    subst h
    exact levels_trans (hr x rfl) (levels_PopStack x)

theorem levels_DecrementLevel (K : EReadWrite) (b b' : TBufferJSON) (info : Option TStreamerInfo)
    (h : b.DecrementLevel K info = some b') : Levels b b' := by
  unfold DecrementLevel at h
  simp only [] at h
  split at h
  · simp at h
  · split at h
    · simp at h
    · rename_i b1 hb1
      have hq : Levels b b1 := by
        split_ifs at hb1
        · refine levels_trans (levels_of_eq rfl : Levels b { b with fExpectedChain := false })
            (levels_map_PopStack ?_ hb1)
          exact fun x hx => levels_PerformPostProcessing K _ x none hx
        · injection hb1 with hb1
          subst hb1
          exact levels_of_eq rfl
      split at h
      · simp at h
      · injection h with h
        subst h
        exact levels_trans hq (levels_PopStack b1)

theorem levels_WorkWithElement (K : EReadWrite) (b b' : TBufferJSON)
    (elem : Option TStreamerElement) (comp_type : Int)
    (h : b.WorkWithElement K elem comp_type = some b') : Levels b b' := by
  unfold WorkWithElement at h
  simp only [] at h
  split at h
  · injection h with h; subst h; exact levels_of_eq rfl
  · split at h
    · simp at h
    · rename_i b1 hb1
      have hq : Levels b b1 := by
        split_ifs at hb1
        · refine levels_trans (levels_of_eq rfl : Levels b { b with fExpectedChain := false })
            (levels_map_PopStack ?_ hb1)
          exact fun x hx => levels_PerformPostProcessing K _ x none hx
        · injection hb1 with hb1
          subst hb1
          exact levels_of_eq rfl
      refine levels_trans hq ?_
      split at h
      · injection h with h; subst h; exact levels_of_eq rfl
      · split_ifs at h
        · injection h with h; subst h; exact levels_of_eq rfl
        · split at h
          · simp at h
          · split at h
            · injection h with h; subst h; exact levels_of_eq rfl
            · rename_i e
              have hpush : Levels b1
                  (({ ({ b1 with fValue := "" } : TBufferJSON) with
                    fExpectedChain := (decide (e.fType > 0) && decide (e.fType < 20)) &&
                      (comp_type - e.fType == K.kOffsetL) } : TBufferJSON).PushStack 0) :=
                levels_trans (levels_of_eq rfl) (levels_PushStack _ 0 (Or.inl rfl))
              split at h
              · injection h with h; subst h; exact hpush
              · rename_i top rest hs
                injection h with h; subst h
                exact levels_trans hpush (levels_setTop _ _ top rest hs rfl)

theorem levels_TJSONPushValue (b b' : TBufferJSON) (h : b.TJSONPushValue = some b') :
    Levels b b' := by
  unfold TJSONPushValue at h
  split_ifs at h
  · split at h
    · simp at h
    · rename_i stack rest hs
      injection h with h; subst h
      intro hl
      rw [hs] at hl
      simp only [setTop, hs, List.tail_cons]
      exact levelsOk_replace _ stack rest rfl hl
  · injection h with h; subst h; exact levels_refl b

theorem levels_JsonWriteBasic (b : TBufferJSON) (v : BasicValue) : Levels b (b.JsonWriteBasic v) :=
  levels_of_eq rfl

theorem levels_of_map {b b' : TBufferJSON} {r : Option TBufferJSON} {f : TBufferJSON → TBufferJSON}
    (hr : ∀ x, r = some x → Levels b x) (hf : ∀ x, Levels x (f x)) (h : r.map f = some b') :
    Levels b b' := by
  cases r with
  | none => simp at h
  | some x =>
    simp at h
    subst h
    exact levels_trans (hr x rfl) (hf x)

theorem levels_of_bind {b b' : TBufferJSON} {r : Option TBufferJSON}
    {f : TBufferJSON → Option TBufferJSON}
    (hr : ∀ x, r = some x → Levels b x) (hf : ∀ x y, f x = some y → Levels x y)
    (h : r.bind f = some b') : Levels b b' := by
  cases r with
  | none => simp at h
  | some x =>
    simp at h
    exact levels_trans (hr x rfl) (hf x b' h)

theorem levels_WriteBasic (b b' : TBufferJSON) (v : BasicValue) (h : b.WriteBasic v = some b') :
    Levels b b' := by
  refine levels_of_map ?_ ?_ h
  · exact fun x hx => levels_TJSONPushValue b x hx
  · exact fun x => levels_JsonWriteBasic x v

theorem levels_WriteCharP (b b' : TBufferJSON) (c : String) (h : b.WriteCharP c = some b') :
    Levels b b' := by
  refine levels_of_map ?_ ?_ h
  · exact fun x hx => levels_TJSONPushValue b x hx
  · exact fun _ => levels_of_eq rfl

theorem levels_WriteTString (b b' : TBufferJSON) (s : String) (h : b.WriteTString s = some b') :
    Levels b b' := by
  refine levels_of_map ?_ ?_ h
  · exact fun x hx => levels_TJSONPushValue b x hx
  · exact fun _ => levels_of_eq rfl

theorem levels_arrayContentLoop (vname : List BasicValue) : ∀ (count indx : Nat)
    (b b' : TBufferJSON), arrayContentLoop vname indx count b = some b' → Levels b b' := by
  intro count
  induction count with
  | zero =>
    intro indx b b' h
    simp [arrayContentLoop] at h
    subst h
    exact levels_refl b
  | succ n ih =>
    intro indx b b' h
    simp only [arrayContentLoop] at h
    split at h
    · simp at h
    · refine levels_trans ?_ (ih _ _ _ h)
      split_ifs <;> exact levels_of_eq rfl

theorem levels_TJSONWriteArrayContent (b b' : TBufferJSON) (vname : List BasicValue)
    (arrsize : Int) (h : b.TJSONWriteArrayContent vname arrsize = some b') : Levels b b' := by
  unfold TJSONWriteArrayContent at h
  refine levels_trans (levels_of_eq rfl : Levels b { b with fValue := b.fValue ++ "[" }) ?_
  refine levels_of_map ?_ ?_ h
  · exact fun x hx => levels_arrayContentLoop vname _ _ _ x hx
  · exact fun _ => levels_of_eq rfl

theorem levels_WriteArray (b b' : TBufferJSON) (vname : List BasicValue) (n : Int)
    (h : b.WriteArray vname n = some b') : Levels b b' := by
  refine levels_of_bind ?_ ?_ h
  · exact fun x hx => levels_TJSONPushValue b x hx
  · exact fun x y hxy => levels_TJSONWriteArrayContent x y vname n hxy

theorem levels_chainLoop (K : EReadWrite) (vname : List BasicValue) (n : Int) :
    ∀ (elems : List TStreamerElement) (index : Int) (b b' : TBufferJSON),
      chainLoop K vname n elems index b = some b' → Levels b b' := by
  intro elems
  induction elems with
  | nil =>
    intro index b b' h
    simp only [chainLoop] at h
    split_ifs at h
    injection h with h
    subst h
    exact levels_refl b
  | cons elem rest ih =>
    intro index b b' h
    simp only [chainLoop] at h
    split_ifs at h
    · split at h
      · simp at h
      · refine levels_of_bind ?_ ?_ h
        · exact fun x hx => levels_trans (levels_JsonWriteBasic b _)
            (levels_PerformPostProcessing K _ x _ hx)
        · exact fun x y hxy => ih _ x y hxy
    · refine levels_of_bind ?_ ?_ h
      · intro x hx
        refine levels_of_bind ?_ ?_ hx
        · exact fun y hy => levels_TJSONWriteArrayContent b y _ _ hy
        · exact fun y z hyz => levels_PerformPostProcessing K y z _ hyz
      · exact fun x y hxy => ih _ x y hxy
    · injection h with h
      subst h
      exact levels_refl b

theorem levels_WriteFastArray (K : EReadWrite) (b b' : TBufferJSON) (vname : List BasicValue)
    (n : Int) (h : b.WriteFastArray K vname n = some b') : Levels b b' := by
  unfold WriteFastArray at h
  refine levels_of_bind (fun x hx => levels_TJSONPushValue b x hx) ?_ h
  intro x y hxy
  simp only [] at hxy
  split_ifs at hxy
  · injection hxy with hxy; subst hxy; exact levels_of_eq rfl
  · split at hxy
    · simp at hxy
    · split_ifs at hxy
      all_goals (repeat' (split at hxy))
      all_goals first
        | (simp at hxy; done)
        | exact levels_TJSONWriteArrayContent _ _ _ _ hxy
        | (refine levels_trans ?_ (levels_TJSONWriteArrayContent _ _ _ _ hxy)
           exact levels_of_eq rfl)
        | (refine levels_trans ?_ (levels_chainLoop K vname n _ _ _ _ hxy)
           exact levels_of_eq rfl)

theorem levels_WriteFastArrayChar (K : EReadWrite) (b b' : TBufferJSON) (c : List Int)
    (n : Int) (h : b.WriteFastArrayChar K c n = some b') : Levels b b' := by
  unfold WriteFastArrayChar at h
  simp only [] at h
  split_ifs at h
  · exact levels_WriteFastArray K b b' _ n h
  all_goals
    refine levels_of_map ?_ ?_ h
    · exact fun x hx => levels_TJSONPushValue b x hx
    · exact fun _ => levels_of_eq rfl
theorem levels_JsonWriteObjectClose (b b' : TBufferJSON) (k : ObjKind)
    (h : b.JsonWriteObjectClose k = some b') : Levels b b' := by
  cases hs : b.fStack with
  | nil => simp [JsonWriteObjectClose, hs] at h
  | cons stack rest =>
    obtain ⟨r, hr, hrs⟩ := close_frames b k stack rest hs
    rw [hr] at h
    injection h with h
    subst h
    intro hl
    rw [hs] at hl
    rw [hrs]
    exact hl.2

theorem levels_JsonStreamCollectionOpen (b : TBufferJSON) (colName : String) :
    Levels b (b.JsonStreamCollectionOpen colName) :=
  levels_of_eq (by simp [JsonStreamCollectionOpen])

theorem levels_JsonStreamCollectionClose (b : TBufferJSON) (islist : Bool) (sopt : String) :
    Levels b (b.JsonStreamCollectionClose islist sopt) := by
  unfold JsonStreamCollectionClose
  simp only []
  split_ifs <;> exact levels_of_eq (by simp)

theorem levels_JsonWriteObjectOpen (b : TBufferJSON) (obj : Option Nat) (cl : Option TClass) :
    ∀ r, (b.JsonWriteObjectOpen obj cl = .done r ∨ b.JsonWriteObjectOpen obj cl = .opened r) →
      Levels b r := by
  intro r hr
  unfold JsonWriteObjectOpen at hr
  simp only [] at hr
  have hq : Levels b (if (!(b.objKind cl).isarray) = true then b.JsonStartElement else b) := by
    split_ifs
    · exact levels_JsonStartElement b
    · exact levels_refl b
  generalize (if (!(b.objKind cl).isarray) = true then b.JsonStartElement else b) = b1 at hr hq
  refine levels_trans (hq) ?_
  split at hr
  · split at hr
    · rename_i r0 hpushed
      have h3 : Levels b1 r0 := by
        split_ifs at hpushed
        · split at hpushed
          · injection hpushed with hpushed
            subst hpushed
            exact levels_AppendOutput _ _ _
          · cases hpushed
      rcases hr with hr | hr
      · injection hr with hr; subst hr; exact h3
      · cases hr
    · rename_i b3 hpushed
      have h3 : Levels b1 b3 := by
        split_ifs at hpushed
        · split at hpushed
          · cases hpushed
          · rename_i hnone
            injection hpushed with hpushed
            subst hpushed
            intro hl
            simp only [AppendOutput_fStack]
            exact levels_PushStack _ 2 (Or.inr rfl) hl
        · injection hpushed with hpushed
          subst hpushed
          exact levels_PushStack _ 0 (Or.inl rfl)
      refine levels_trans h3 ?_
      split at hr
      · rcases hr with hr | hr
        · cases hr
        · injection hr with hr; subst hr; exact levels_refl _
      · rename_i stack rest hs
        rcases hr with hr | hr
        · cases hr
        · injection hr with hr; subst hr; exact levels_setTop _ _ stack rest hs rfl
  · rcases hr with hr | hr
    · injection hr with hr; subst hr; exact levels_AppendOutput _ _ _
    · cases hr

theorem levels_of_fst {α β : Type} (g : α → TBufferJSON) (g' : β → TBufferJSON)
    {b : TBufferJSON} {r : Option α} {f : α → β} {y : β}
    (hr : ∀ x, r = some x → Levels b (g x)) (hf : ∀ x, g' (f x) = g x)
    (h : r.map f = some y) : Levels b (g' y) := by
  cases r with
  | none => simp at h
  | some x =>
    simp at h
    subst h
    rw [hf]
    exact hr x rfl

mutual
theorem levels_JsonWriteObject (K : EReadWrite) : ∀ (content : Content) (b : TBufferJSON)
    (obj : Option Nat) (cl : Option TClass) (b' : TBufferJSON),
    JsonWriteObject K b obj cl content = some b' → Levels b b'
  | .mk streamer colName colIsList colItems, b, obj, cl, b', h => by
    simp only [JsonWriteObject] at h
    split at h
    · rename_i r hopen
      injection h with h
      subst h
      exact levels_JsonWriteObjectOpen b obj cl _ (Or.inl hopen)
    · rename_i b1 hopen
      refine levels_trans (levels_JsonWriteObjectOpen b obj cl _ (Or.inr hopen)) ?_
      refine levels_of_bind ?_ ?_ h
      · intro x hx
        split_ifs at hx
        · cases hs : streamItems K (b1.JsonStreamCollectionOpen colName) colIsList "[" true colItems with
          | none => simp [hs] at hx
          | some r =>
            simp [hs] at hx
            subst hx
            exact levels_trans (levels_JsonStreamCollectionOpen _ _)
              (levels_trans (levels_streamItems K colItems _ _ _ _ _ hs)
                (levels_JsonStreamCollectionClose _ _ _))
        · exact levels_runCalls K streamer _ _ hx
      · exact fun x y hxy => levels_JsonWriteObjectClose x y _ hxy
theorem levels_streamItems (K : EReadWrite) : ∀ (items : List Item) (b : TBufferJSON)
    (islist : Bool) (sopt : String) (first : Bool) (r : TBufferJSON × String),
    streamItems K b islist sopt first items = some r → Levels b r.1
  | [], b, islist, sopt, first, r, h => by
    simp only [streamItems] at h
    injection h with h
    subst h
    exact levels_refl b
  | .mk option obj isA content :: rest, b, islist, sopt, first, r, h => by
    simp only [streamItems] at h
    have hsep : Levels b (if (!first) = true then b.AppendOutput (some b.fArraySepar) none else b) := by
      split_ifs
      · exact levels_AppendOutput _ _ _
      · exact levels_refl b
    generalize (if (!first) = true then b.AppendOutput (some b.fArraySepar) none else b) = b1
      at h hsep
    split at h
    · simp at h
    · rename_i b2 hb2
      exact levels_trans (levels_trans hsep (levels_JsonWriteObject K content _ _ _ _ hb2))
        (levels_streamItems K rest _ _ _ _ _ h)
theorem levels_loopObjs (K : EReadWrite) : ∀ (items : List Item) (b : TBufferJSON)
    (cl : Option TClass) (n : Int) (j : Nat) (b' : TBufferJSON),
    loopObjs K b cl n j items = some b' → Levels b b'
  | [], b, cl, n, j, b', h => by
    simp only [loopObjs] at h
    split_ifs at h
    injection h with h
    subst h
    exact levels_refl b
  | .mk option obj isA content :: rest, b, cl, n, j, b', h => by
    simp only [loopObjs] at h
    have hsep : Levels b (if j > 0 then b.AppendOutput (some b.fArraySepar) none else b) := by
      split_ifs
      · exact levels_AppendOutput _ _ _
      · exact levels_refl b
    generalize (if j > 0 then b.AppendOutput (some b.fArraySepar) none else b) = b1 at h hsep
    split_ifs at h
    · split at h
      · simp at h
      · rename_i b2 hb2
        exact levels_trans (levels_trans hsep (levels_JsonWriteObject K content _ _ _ _ hb2))
          (levels_loopObjs K rest _ _ _ _ _ h)
    · injection h with h
      subst h
      exact levels_refl b
theorem levels_loopSlots (K : EReadWrite) : ∀ (slots : List Slot) (b : TBufferJSON)
    (cl : Option TClass) (n : Int) (isPreAlloc : Bool) (j : Nat) (res : Int)
    (r : TBufferJSON × Int × List (Option Nat)),
    loopSlots K b cl n isPreAlloc j res slots = some r → Levels b r.1
  | [], b, cl, n, isPreAlloc, j, res, r, h => by
    simp only [loopSlots] at h
    split_ifs at h
    injection h with h
    subst h
    exact levels_refl b
  | .mk ptr clActual created content :: rest, b, cl, n, isPreAlloc, j, res, r, h => by
    simp only [loopSlots] at h
    have hsep : Levels b (if j > 0 then b.AppendOutput (some b.fArraySepar) none else b) := by
      split_ifs
      · exact levels_AppendOutput _ _ _
      · exact levels_refl b
    generalize (if j > 0 then b.AppendOutput (some b.fArraySepar) none else b) = b1 at h hsep
    split_ifs at h
    · split at h
      · refine levels_of_fst Prod.fst Prod.fst ?_ ?_ h
        swap
        · exact fun _ => rfl
        exact fun x hx => levels_trans hsep (levels_loopSlots K rest _ _ _ _ _ _ _ hx)
      · split at h
        · simp at h
        · rename_i b2 hb2
          refine levels_of_fst Prod.fst Prod.fst ?_ ?_ h
          swap
          · exact fun _ => rfl
          exact fun x hx => levels_trans hsep (levels_trans
            (levels_JsonWriteObject K content _ _ _ _ hb2) (levels_loopSlots K rest _ _ _ _ _ _ _ hx))
    · split at h
      · simp at h
      · split at h
        · simp at h
        · rename_i b2 hb2
          refine levels_of_fst Prod.fst Prod.fst ?_ ?_ h
          swap
          · exact fun _ => rfl
          exact fun x hx => levels_trans hsep (levels_trans
            (levels_JsonWriteObject K content _ _ _ _ hb2) (levels_loopSlots K rest _ _ _ _ _ _ _ hx))
    · injection h with h
      subst h
      exact levels_refl b
theorem levels_runCall (K : EReadWrite) : ∀ (c : Call) (b b' : TBufferJSON),
    runCall K b c = some b' → Levels b b'
  | .IncrementLevel info, b, b', h => by
    simp only [runCall] at h
    injection h with h
    subst h
    exact levels_WorkWithClass K b info none
  | .DecrementLevel info, b, b', h => by
    simp only [runCall] at h
    exact levels_DecrementLevel K b b' info h
  | .SetStreamerElementNumber elem comp_type, b, b', h => by
    simp only [runCall] at h
    exact levels_WorkWithElement K b b' elem comp_type h
  | .ClassBegin cl, b, b', h => by
    simp only [runCall] at h
    injection h with h
    subst h
    exact levels_WorkWithClass K b none cl
  | .ClassEnd, b, b', h => by
    simp only [runCall] at h
    exact levels_DecrementLevel K b b' none h
  | .WriteBasic value, b, b', h => by
    simp only [runCall] at h
    exact levels_WriteBasic b b' value h
  | .WriteCharP c, b, b', h => by
    simp only [runCall] at h
    exact levels_WriteCharP b b' c h
  | .WriteTString s, b, b', h => by
    simp only [runCall] at h
    exact levels_WriteTString b b' s h
  | .WriteArray vname n, b, b', h => by
    simp only [runCall] at h
    exact levels_WriteArray b b' vname n h
  | .WriteFastArray vname n, b, b', h => by
    simp only [runCall] at h
    exact levels_WriteFastArray K b b' vname n h
  | .WriteFastArrayChar c n, b, b', h => by
    simp only [runCall] at h
    exact levels_WriteFastArrayChar K b b' c n h
  | .PerformPostProcessing elem, b, b', h => by
    simp only [runCall] at h
    exact levels_PerformPostProcessing K b b' elem h
  | .JsonWriteObject obj cl content, b, b', h => by
    simp only [runCall] at h
    exact levels_JsonWriteObject K content b obj cl b' h
  | .WriteObjectAny obj ptrClass clActual content, b, b', h => by
    simp only [runCall] at h
    split at h
    · injection h with h
      subst h
      exact levels_refl b
    · exact levels_JsonWriteObject K content b _ _ b' h
  | .WriteFastArrayObj start cl n (some calls), b, b', h => by
    simp only [runCall] at h
    exact levels_trans (levels_JsonStartElement b) (levels_runCalls K calls _ _ h)
  | .WriteFastArrayObj start cl n none, b, b', h => by
    simp only [runCall] at h
    split at h
    · simp at h
    · generalize (if n = 0 then (1 : Int) else n) = n1 at h
      have hopen : Levels b (if n1 > 1 then b.JsonStartElement.AppendOutput (some "[") none
          else b) := by
        split_ifs
        · exact levels_trans (levels_JsonStartElement b)
            (levels_AppendOutput _ _ _)
        · exact levels_refl b
      generalize (if n1 > 1 then b.JsonStartElement.AppendOutput (some "[") none else b) = b1
        at h hopen
      refine levels_of_bind ?_ ?_ (Option.map_eq_bind ▸ h)
      · exact fun x hx => levels_trans hopen (levels_loopObjs K start _ _ _ _ _ hx)
      · intro x y hxy
        injection hxy with hxy
        subst hxy
        split_ifs
        · exact levels_AppendOutput _ _ _
        · exact levels_refl _
  | .WriteFastArrayPtr start cl n isPreAlloc (some calls), b, b', h => by
    simp only [runCall] at h
    exact levels_trans (levels_JsonStartElement b) (levels_runCalls K calls _ _ h)
  | .WriteFastArrayPtr start cl n isPreAlloc none, b, b', h => by
    simp only [runCall] at h
    have hopen : Levels b (if n > 1 then b.JsonStartElement.AppendOutput (some "[") none
        else b) := by
      split_ifs
      · exact levels_trans (levels_JsonStartElement b)
          (levels_AppendOutput _ _ _)
      · exact levels_refl b
    generalize (if n > 1 then b.JsonStartElement.AppendOutput (some "[") none else b) = b1
      at h hopen
    cases hl : loopSlots K b1 cl n isPreAlloc 0 0 start with
    | none => simp [hl] at h
    | some r =>
      rw [hl] at h
      simp only [Option.map_some'] at h
      injection h with h
      subst h
      refine levels_trans hopen (levels_trans (levels_loopSlots K start _ _ _ _ _ _ _ hl) ?_)
      split_ifs
      · exact levels_AppendOutput _ _ _
      · exact levels_refl _
theorem levels_runCalls (K : EReadWrite) : ∀ (calls : List Call) (b b' : TBufferJSON),
    runCalls K b calls = some b' → Levels b b'
  | [], b, b', h => by
    simp only [runCalls] at h
    injection h with h
    subst h
    exact levels_refl b
  | c :: cs, b, b', h => by
    simp only [runCalls] at h
    split at h
    · simp at h
    · rename_i b1 hb1
      exact levels_trans (levels_runCall K c b b1 hb1) (levels_runCalls K cs b1 b' h)
end

theorem levels_streamedBy (K : EReadWrite) (b : TBufferJSON) (cl : Option TClass)
    (b1 b2 : TBufferJSON) (content : Content)
    (h : streamedBy K b cl b1 content = some b2) : Levels b1 b2 := by
  cases content with
  | mk streamer colName colIsList colItems =>
    simp only [streamedBy] at h
    split_ifs at h
    · simp only [JsonStreamCollection] at h
      cases hs : streamItems K (b1.JsonStreamCollectionOpen colName) colIsList "[" true
          colItems with
      | none => simp [hs] at h
      | some r =>
        simp [hs] at h
        subst h
        exact levels_trans (levels_JsonStreamCollectionOpen _ _)
          (levels_trans (levels_streamItems K colItems _ _ _ _ _ hs)
            (levels_JsonStreamCollectionClose _ _ _))
    · exact levels_runCalls K streamer _ _ h

end TBufferJSON

end TBufferJSONModel
